import Mathlib

/-! go-palletone: mediator schedule, jury processor, mempool and validator

A shallow embedding of the parts of go-palletone that the verified properties
talk about.  Machine integers are natural numbers or integers with the
wrap-around written out; a Go run-time panic (index out of range, nil
dereference, failed type assertion, integer division by zero) is the result
`none` of a function returning `Option`.
-/

namespace PalletOne

/-! ## Machine arithmetic -/

/-- Value of a `uint64` expression: reduction modulo `2^64`. -/
def wrapU64 (x : Nat) : Nat := x % 2 ^ 64

/-- Value of an `int64` expression: two's-complement wrap-around. -/
def wrapI64 (x : Int) : Int := (x + 2 ^ 63) % 2 ^ 64 - 2 ^ 63

/-- Conversion `uint64(x)` of an `int64` value: the two's-complement bit pattern. -/
def u64OfI64 (x : Int) : Nat := (x % 2 ^ 64).toNat

/-- Conversion `uint32(x)` of an `int64` value. -/
def u32OfI64 (x : Int) : Nat := (x % 2 ^ 32).toNat

/-! ## Addresses and chain properties (dag/modules, dag/common) -/

/-- The type `common.Address` is a fixed-length byte array; it is embedded as the
number its bytes spell.  The zero value `common.Address{}` is `0`. -/
abbrev Address := Nat

/-- The zero value `common.Address{}`. -/
def zeroAddress : Address := 0

/-- What `db.GetNewestUnit` returns about the head unit: its chain index and
its timestamp (an `int64` count of seconds). -/
structure NewestUnit where
  Index : Nat
  Timestamp : Int
  deriving DecidableEq, Repr

/-- The fields of `modules.GlobalProperty` that scheduling reads:
the active mediators (as `GetActiveMediators` lists them) and
`ChainParameters.MediatorInterval`. -/
structure GlobalProperty where
  ActiveMediators : List Address
  MediatorInterval : Nat
  deriving DecidableEq, Repr

/-- The fields of `modules.DynamicGlobalProperty` used here. -/
structure DynamicGlobalProperty where
  LastIrreversibleUnitNum : Nat
  CurrentASlot : Nat
  NextMaintenanceTime : Int
  deriving DecidableEq, Repr

/-- The type `modules.MediatorSchedule`. -/
structure MediatorSchedule where
  CurrentShuffledMediators : List Address
  deriving DecidableEq, Repr

/-! ## UpdateMediatorSchedule (dag/common/prop_repository.go) -/

/-- The multiplier of the xorshift generator. -/
def shuffleMultiplier : Nat := 2685821657736338717

/-- The pseudo-random number `k` of round `i`, in `uint64` arithmetic:
`k := nowHi + uint64(i)*2685821657736338717; k ^= k >> 12; k ^= k << 25;
k ^= k >> 27; k *= 2685821657736338717`. -/
def shuffleKey (nowHi i : Nat) : Nat :=
  let k0 := wrapU64 (nowHi + wrapU64 (i * shuffleMultiplier))
  let k1 := k0 ^^^ (k0 >>> 12)
  let k2 := k1 ^^^ wrapU64 (k1 <<< 25)
  let k3 := k2 ^^^ (k2 >>> 27)
  wrapU64 (k3 * shuffleMultiplier)

/-- The swap `s[i], s[j] = s[j], s[i]` on a slice; an index out of range panics. -/
def swapAt (s : List Address) (i j : Nat) : Option (List Address) :=
  match s[i]?, s[j]? with
  | some a, some b => some ((s.set i b).set j a)
  | _, _ => none

/-- The loop `for i, add := range meds { dst[i] = add }`, from position `i` on. -/
def copyMediators : List Address → Nat → List Address → Option (List Address)
  | dst, _, [] => some dst
  | dst, i, add :: rest =>
    if i < dst.length then copyMediators (dst.set i add) (i + 1) rest else none

/-- The loop `for i := uint64(0); i < aSize; i++` of step 4, with `todo` rounds
left to run and `i = aSize - todo`. -/
def shuffleLoop (aSize nowHi : Nat) : Nat → Nat → List Address → Option (List Address)
  | 0, _, s => some s
  | todo + 1, i, s =>
    let k := shuffleKey nowHi i
    let jmax := aSize - i
    if jmax = 0 then none
    else
      let j := i + k % jmax
      match swapAt s i j with
      | none => none
      | some s1 => shuffleLoop aSize nowHi todo (i + 1) s1

/-- The method `PropRepository.UpdateMediatorSchedule`: `newest` is the result of
`db.GetNewestUnit` (`none` when it reports an error).  The result is the
returned boolean and the schedule `ms` as the call leaves it. -/
def UpdateMediatorSchedule (newest : Option NewestUnit) (ms : MediatorSchedule)
    (gp : GlobalProperty) : Option (Bool × MediatorSchedule) :=
  match newest with
  | none => some (false, ms)
  | some head =>
    let aSize := gp.ActiveMediators.length
    if aSize = 0 then some (false, ms)
    else if head.Index % aSize ≠ 0 then some (false, ms)
    else
      match copyMediators (List.replicate aSize zeroAddress) 0 gp.ActiveMediators with
      | none => none
      | some s0 =>
        let nowHi := u64OfI64 (wrapI64 (head.Timestamp * 2 ^ 32))
        match shuffleLoop aSize nowHi aSize 0 s0 with
        | none => none
        | some s => some (true, { ms with CurrentShuffledMediators := s })

/-- The pseudo-random number of round `i` as the specification words it:
`k = seed + i·2685821657736338717; k ^= k>>12; k ^= k<<25; k ^= k>>27;
k *= 2685821657736338717`, every step reduced modulo `2^64`, the shifts
written as division and multiplication by powers of two. -/
def specShuffleKey (seed i : Nat) : Nat :=
  let k := (seed + i * 2685821657736338717) % 2 ^ 64
  let k := k ^^^ (k / 2 ^ 12)
  let k := k ^^^ (k * 2 ^ 25 % 2 ^ 64)
  let k := k ^^^ (k / 2 ^ 27)
  k * 2685821657736338717 % 2 ^ 64

/-- The exchange `swap(shuffled[i], shuffled[j])` of the specification. -/
def specSwap (shuffled : List Address) (i j : Nat) : List Address :=
  (shuffled.set i (shuffled.getD j zeroAddress)).set j (shuffled.getD i zeroAddress)

/-- The shuffle as the specification words it: Fisher-Yates over a copy of the
active list, `for i in 0..n: j = i + k mod (n−i); swap(shuffled[i], shuffled[j])`,
seeded with `head_timestamp << 32` as a 64-bit unsigned number. -/
def specShuffle (active : List Address) (headTimestamp : Int) : List Address :=
  let n := active.length
  let seed := (headTimestamp * 2 ^ 32 % 2 ^ 64).toNat
  (List.range n).foldl
    (fun shuffled i => specSwap shuffled i (i + specShuffleKey seed i % (n - i))) active

/-! ## Slot arithmetic (dag/common/prop_repository.go) -/

/-- A `time.Time` is embedded as its count of nanoseconds since the Unix epoch,
an unbounded integer (the range limits of the library type are not part of
the embedding; the `int64` arithmetic done by the repository code is). -/
abbrev Time := Int

/-- The constructor `time.Unix(sec, 0)`. -/
def timeUnix (sec : Int) : Time := sec * 1000000000

/-- The method `Time.Unix`: whole seconds since the epoch, rounded down. -/
def unixOf (t : Time) : Int := t / 1000000000

/-- The method `PropRepository.GetSlotTime`; `head` is the newest unit.  The
quotient `ts / int64(interval)` panics for interval 0 and rounds towards
zero; `time.Second * time.Duration(slotNum) * time.Duration(interval)` is an
`int64` product of nanoseconds. -/
def GetSlotTime (gp : GlobalProperty) (head : NewestUnit) (slotNum : Nat) : Option Time :=
  if slotNum = 0 then some (timeUnix 0)
  else
    let interval := gp.MediatorInterval
    if head.Index = 0 then
      some (timeUnix (wrapI64 (head.Timestamp + wrapI64 ((slotNum : Int) * (interval : Int)))))
    else if interval = 0 then none
    else
      let unitAbsSlot := head.Timestamp.tdiv (interval : Int)
      let unitSlotTime := timeUnix (wrapI64 (unitAbsSlot * (interval : Int)))
      some (unitSlotTime + wrapI64 (1000000000 * (slotNum : Int) * (interval : Int)))

/-- The method `PropRepository.GetSlotAtTime`. -/
def GetSlotAtTime (gp : GlobalProperty) (head : NewestUnit) (when : Time) : Option Nat :=
  match GetSlotTime gp head 1 with
  | none => none
  | some firstSlotTime =>
    if when < firstSlotTime then some 0
    else
      let diffSecs := wrapI64 (unixOf when - unixOf firstSlotTime)
      let interval : Int := (gp.MediatorInterval : Int)
      if interval = 0 then some 0
      else some ((u32OfI64 (diffSecs.tdiv interval) + 1) % 2 ^ 32)

/-- The method `PropRepository.GetScheduledMediator`, on the stored schedule
and dynamic properties; `slotNum` is a `uint32`. -/
def GetScheduledMediator (ms : MediatorSchedule) (dgp : DynamicGlobalProperty)
    (slotNum : Nat) : Address :=
  let currentASlot := wrapU64 (dgp.CurrentASlot + slotNum)
  let csmLen := ms.CurrentShuffledMediators.length
  if h : csmLen = 0 then zeroAddress
  else
    let index := wrapU64 (currentASlot + 2 ^ 64 - 1) % csmLen
    ms.CurrentShuffledMediators.get ⟨index, Nat.mod_lt _ (Nat.pos_of_ne_zero h)⟩

/-- The slot time in whole seconds as the specification words it, over exact
integers: `slot_time(0) = epoch 0`; for unit index 0 it is
`genesis_time + n·interval`; otherwise `(H / interval)·interval + n·interval`. -/
def specSlotTime (gp : GlobalProperty) (head : NewestUnit) (n : Nat) : Int :=
  if n = 0 then 0
  else if head.Index = 0 then head.Timestamp + (n : Int) * (gp.MediatorInterval : Int)
  else head.Timestamp.tdiv (gp.MediatorInterval : Int) * (gp.MediatorInterval : Int)
    + (n : Int) * (gp.MediatorInterval : Int)

/-- No `int64` overflow in the computation of `GetSlotTime(n)`: the head timestamp
is an `int64`, the nanosecond product `10^9 · n · interval` and the sum
`timestamp + n · interval` stay below `2^63`. -/
def NoSlotOverflow (gp : GlobalProperty) (head : NewestUnit) (n : Nat) : Prop :=
  -(2 : Int) ^ 63 ≤ head.Timestamp ∧
  1000000000 * (n : Int) * (gp.MediatorInterval : Int) < 2 ^ 63 ∧
  head.Timestamp + (n : Int) * (gp.MediatorInterval : Int) < 2 ^ 63

instance (gp : GlobalProperty) (head : NewestUnit) (n : Nat) :
    Decidable (NoSlotOverflow gp head n) := by
  unfold NoSlotOverflow; exact inferInstance

/-! ## Chain maintenance (dag/update_maint.go) -/

/-- The fields of `core.Mediator` that chain maintenance reads and writes.
`LastConfirmedUnitNum` is a `uint32`; the width of the counter `TotalMissed` is
declared outside the embedded files and it is embedded as an unbounded counter. -/
structure Mediator where
  Address : Address
  TotalMissed : Nat
  LastConfirmedUnitNum : Nat
  deriving DecidableEq, Repr

/-- The state behind the `Dag` methods used by chain maintenance: the stored
global and dynamic properties, the mediator schedule, the mediator records
(`GetMediator`, `none` for an address without a record) and the value of
`GetCurThreshold()`. -/
structure DagState where
  gp : GlobalProperty
  dgp : DynamicGlobalProperty
  ms : MediatorSchedule
  mediators : Address → Option Mediator
  curThreshold : Int

/-- Modelled from the spec: `Dag.GetActiveMediatorCount` is `|active|`, the
number of active mediators of the global property. -/
def DagState.GetActiveMediatorCount (dag : DagState) : Nat :=
  dag.gp.ActiveMediators.length

/-- The loop of step 1 of `updateLastIrreversibleUnit`: the last confirmed unit
number of every active mediator, in order; a missing record is a nil dereference. -/
def collectLastConfirmed (dag : DagState) : List Address → Option (List Nat)
  | [] => some []
  | add :: rest =>
    match dag.mediators add with
    | none => none
    | some med =>
      match collectLastConfirmed dag rest with
      | none => none
      | some nums => some (med.LastConfirmedUnitNum :: nums)

/-- The method `Dag.updateLastIrreversibleUnit`; `sort.Ints` is an ascending sort. -/
def updateLastIrreversibleUnit (dag : DagState) : Option DagState :=
  let aSize : Int := (dag.GetActiveMediatorCount : Int)
  match collectLastConfirmed dag dag.gp.ActiveMediators with
  | none => none
  | some nums =>
    let lastConfirmedUnitNums := nums.insertionSort (· ≤ ·)
    let offset := aSize - dag.curThreshold
    if offset < 0 then none
    else
      match lastConfirmedUnitNums[offset.toNat]? with
      | none => none
      | some newLastIrreversibleUnitNum =>
        if newLastIrreversibleUnitNum > dag.dgp.LastIrreversibleUnitNum then
          some { dag with dgp := { dag.dgp with
            LastIrreversibleUnitNum := newLastIrreversibleUnitNum } }
        else some dag

/-- The last confirmed unit number recorded for an address (0 without a record). -/
def DagState.lastConfirmed (dag : DagState) (a : Address) : Nat :=
  match dag.mediators a with
  | some m => m.LastConfirmedUnitNum
  | none => 0

/-- The number of active mediators that have confirmed unit number `v` or a
later one. -/
def DagState.confirmedBy (dag : DagState) (v : Nat) : Nat :=
  dag.gp.ActiveMediators.countP (fun a => decide (v ≤ dag.lastConfirmed a))

/-- Modelled from the spec: `Dag.GetMediator` reads the persisted record of a
mediator (`none` when there is none, a nil pointer). -/
def DagState.GetMediator (dag : DagState) (add : Address) : Option Mediator :=
  dag.mediators add

/-- Modelled from the spec: `Dag.SaveMediator` persists a mediator record under
the address of the mediator. -/
def DagState.SaveMediator (dag : DagState) (med : Mediator) : DagState :=
  { dag with mediators := fun a => if a = med.Address then some med else dag.mediators a }

/-- The loop `for i = 0; i < missedUnits; i++` of `updateMediatorMissedUnits`,
with `todo` rounds left to run; `i + 1` is a `uint32` sum.  Reading
`med.TotalMissed` of a missing record is a nil dereference. -/
def missedUnitsLoop : Nat → Nat → DagState → Option DagState
  | 0, _, dag => some dag
  | todo + 1, i, dag =>
    let mediatorMissed := GetScheduledMediator dag.ms dag.dgp ((i + 1) % 2 ^ 32)
    match dag.GetMediator mediatorMissed with
    | none => none
    | some med =>
      missedUnitsLoop todo (i + 1)
        (dag.SaveMediator { med with TotalMissed := med.TotalMissed + 1 })

/-- The method `Dag.updateMediatorMissedUnits` for a unit with the given
timestamp; `head` is the newest unit that `dag.GetSlotAtTime` reads.  The
result is the returned count and the state as the call leaves it. -/
def updateMediatorMissedUnits (dag : DagState) (head : NewestUnit) (unitTimestamp : Int) :
    Option (Nat × DagState) :=
  match GetSlotAtTime dag.gp head (timeUnix unitTimestamp) with
  | none => none
  | some slot =>
    if slot = 0 then some (0, dag)
    else
      let missedUnits := slot - 1
      let aSize := dag.GetActiveMediatorCount
      if missedUnits < aSize % 2 ^ 32 then
        match missedUnitsLoop missedUnits 0 dag with
        | none => none
        | some dag1 => some (missedUnits, dag1)
      else some (missedUnits, dag)

/-- The number of slots `i` in `[from + 1, from + todo]` whose scheduled mediator
is `a`. -/
def missedCount (dag : DagState) (a : Address) (start todo : Nat) : Nat :=
  (List.range' start todo).countP
    (fun i => decide (GetScheduledMediator dag.ms dag.dgp (i + 1) = a))

/-- The method `Dag.performChainMaintenance` for the unit `nextUnit` with the
given timestamp and number.  `maintenanceInterval` is
`gp.ChainParameters.MaintenanceInterval` and `headUnitTime` the value of
`dag.HeadUnitTime()`, both from outside the embedded files.  The divisions are
`int64` divisions, rounding towards zero and panicking for a zero interval.
The result says whether a `ChainMaintainEvent` has been sent and gives the
state as the call leaves it. -/
def performChainMaintenance (dag : DagState) (maintenanceInterval : Nat) (headUnitTime : Int)
    (unitTimestamp : Int) (unitNumber : Nat) : Option (Bool × DagState) :=
  if dag.dgp.NextMaintenanceTime > unitTimestamp then some (false, dag)
  else
    let nextMaintenanceTime := dag.dgp.NextMaintenanceTime
    let interval : Int := (maintenanceInterval : Int)
    if interval = 0 then none
    else
      let next : Int :=
        if unitNumber = 1 then
          wrapI64 (wrapI64 (unitTimestamp.tdiv interval + 1) * interval)
        else
          let y := (wrapI64 (headUnitTime - nextMaintenanceTime)).tdiv interval
          wrapI64 (nextMaintenanceTime + wrapI64 (wrapI64 (y + 1) * interval))
      some (true, { dag with dgp := { dag.dgp with NextMaintenanceTime := next } })

/-- A chain state whose next maintenance time is 100, used for examples. -/
def maintenanceDag : DagState :=
  { gp := ⟨[], 5⟩, dgp := ⟨0, 0, 100⟩, ms := ⟨[]⟩
    mediators := fun _ => none, curThreshold := 1 }

/-! ## Transactions and messages (dag/modules) -/

/-- The type `common.Hash` is a 32-byte array, embedded as the number its bytes
spell; the zero value `common.Hash{}` is `0`. -/
abbrev Hash := Nat

/-- A Go byte slice `[]byte`: `none` is the nil slice, `some l` a non-nil slice
with the bytes `l`. -/
abbrev Bytes := Option (List Nat)

/-- The bytes of a slice; a nil slice has none. -/
def Bytes.toList (b : Bytes) : List Nat := b.getD []

/-- The library function `bytes.Compare` on the contents of two slices:
lexicographic (memcmp) order, with result -1, 0 or +1. -/
def compareBytes : List Nat → List Nat → Int
  | [], [] => 0
  | [], _ :: _ => -1
  | _ :: _, [] => 1
  | a :: as, b :: bs =>
    if a < b then -1 else if b < a then 1 else compareBytes as bs

/-- The library function `bytes.Compare`; a nil slice compares as an empty one. -/
def bytesCompare (a b : Bytes) : Int := compareBytes a.toList b.toList

/-- The library function `bytes.Equal`; a nil slice equals an empty one. -/
def bytesEqual (a b : Bytes) : Bool := decide (a.toList = b.toList)

/-- The message tags `modules.MessageType`: the closed set of the
specification, and `APP_UNKNOWN` for any other value of the underlying byte. -/
inductive MessageType
  | APP_PAYMENT
  | APP_CONTRACT_TPL
  | APP_CONTRACT_DEPLOY
  | APP_CONTRACT_INVOKE
  | APP_CONTRACT_STOP
  | APP_SIGNATURE
  | APP_CONFIG
  | APP_DATA
  | APP_VOTE
  | OP_MEDIATOR_CREATE
  | APP_CONTRACT_TPL_REQUEST
  | APP_CONTRACT_DEPLOY_REQUEST
  | APP_CONTRACT_INVOKE_REQUEST
  | APP_CONTRACT_STOP_REQUEST
  | APP_UNKNOWN (code : Nat)
  deriving DecidableEq, Repr

open MessageType

/-- The type `modules.OutPoint`. -/
structure OutPoint where
  TxHash : Hash
  MessageIndex : Nat
  OutIndex : Nat
  deriving DecidableEq, Repr

/-- The type `modules.Input`. -/
structure Input where
  PreviousOutPoint : OutPoint
  SignatureScript : Bytes
  Extra : Bytes
  deriving DecidableEq, Repr

/-- The type `modules.Output`. -/
structure Output where
  Value : Nat
  PkScript : Bytes
  Asset : Nat
  deriving DecidableEq, Repr

/-- The type `modules.SignatureSet`: one `{pubkey, signature}` entry. -/
structure SignatureSet where
  PubKey : Bytes
  Signature : Bytes
  deriving DecidableEq, Repr

/-- The dynamic type and value of a message payload (`interface{}`): one
constructor for each payload type of dag/modules, and `OtherPayload` for a
value of any other type. The fields that no embedded function reads are kept
together as `content`. -/
inductive Payload
  | PaymentPayload (Inputs : List Input) (Outputs : List Output)
  | ContractTplPayload (content : List Nat)
  | ContractDeployPayload (ContractId : Bytes) (content : List Nat)
  | ContractInvokePayload (ContractId : Bytes) (content : List Nat)
  | ContractStopPayload (content : List Nat)
  | ContractInstallRequestPayload (TplName Path Version : String)
  | ContractDeployRequestPayload (TplId : Bytes) (TxId : String) (Timeout : Int)
  | ContractInvokeRequestPayload (ContractId : Bytes) (content : List Nat)
  | ContractStopRequestPayload (content : List Nat)
  | SignaturePayload (Signatures : List SignatureSet)
  | ConfigPayload (content : List Nat)
  | DataPayload (MainData : Bytes)
  | VoteInfo (content : List Nat)
  | MediatorCreateOperation (content : List Nat)
  | OtherPayload (content : List Nat)
  deriving DecidableEq, Repr

/-- The type `modules.Message`. -/
structure Message where
  App : MessageType
  Payload : Payload
  deriving DecidableEq, Repr

/-- The type `modules.Transaction`: the cached hash and the messages. -/
structure Transaction where
  TxHash : Hash
  TxMessages : List Message
  deriving DecidableEq, Repr

/-! ## The jury processor (consensus/jury) -/

/-- The constant `CONTRACT_SIG_NUM`. -/
def CONTRACT_SIG_NUM : Nat := 3

/-- The inner loop of `localIsMinSigure`: `for _, sig := range sigs`. -/
def localIsMinSigureLoop (localSig : Bytes) : List SignatureSet → Bool
  | [] => true
  | sig :: rest =>
    if sig.Signature = none then false
    else if bytesCompare localSig sig.Signature ≥ 1 then false
    else localIsMinSigureLoop localSig rest

/-- The outer loop of `localIsMinSigure`: `for _, msg := range tx.TxMessages`.
The type assertion on the payload and the index `sigs[0]` can panic. -/
def localIsMinSigureMsgs : List Message → Option Bool
  | [] => some false
  | msg :: rest =>
    if msg.App = APP_SIGNATURE then
      match msg.Payload with
      | .SignaturePayload sigs =>
        match sigs with
        | [] => none
        | s0 :: _ =>
          let localSig := s0.Signature
          if sigs.length < CONTRACT_SIG_NUM then some false
          else some (localIsMinSigureLoop localSig sigs)
      | _ => none
    else localIsMinSigureMsgs rest

/-- The function `localIsMinSigure`; a nil transaction is `none`. -/
def localIsMinSigure (tx : Option Transaction) : Option Bool :=
  match tx with
  | none => some false
  | some t =>
    if t.TxMessages.length < 3 then some false
    else localIsMinSigureMsgs t.TxMessages

/-- The loop of `getTxSigNum`: the first signature message decides. -/
def getTxSigNumMsgs : List Message → Option Nat
  | [] => some 0
  | msg :: rest =>
    if msg.App = APP_SIGNATURE then
      match msg.Payload with
      | .SignaturePayload sigs => some sigs.length
      | _ => none
    else getTxSigNumMsgs rest

/-- The function `getTxSigNum`; a nil transaction has no signatures. -/
def getTxSigNum (tx : Option Transaction) : Option Nat :=
  match tx with
  | none => some 0
  | some t => getTxSigNumMsgs t.TxMessages

/-- The methods of `modules.Transaction` whose code is outside the embedded files,
taken as parameters: `RequestHash`, `GetRequestTx`, the RLP hash behind `Hash`
and the encoded size behind `Size`. -/
structure TxEnv where
  RequestHash : Transaction → Hash
  GetRequestTx : Transaction → Transaction
  RlpHash : Transaction → Hash
  Size : Transaction → Nat

/-- The type `modules.ElectionInf`, kept abstract. -/
abbrev ElectionInf := Nat

/-- The per-request record `contractTx` of the processor: the fields that the
embedded functions of the two jury files read or write.  `executable` is false
unless it is set, as the zero value of the source. -/
structure contractTx where
  reqTx : Option Transaction
  rstTx : Option Transaction
  sigTx : Option Transaction
  rcvTx : List Transaction
  eleInf : List ElectionInf
  reqRcvEd : Bool
  tm : Int
  valid : Bool
  executable : Bool := false
  deriving DecidableEq, Repr

/-- The per-request election record `electionVrf`. -/
structure electionVrf where
  rcvEle : List ElectionInf
  sigs : List SignatureSet
  invalid : Bool
  tm : Int
  deriving DecidableEq, Repr

/-- The maps `mtx` and `mel` of the `Processor`, both keyed by request id. -/
structure Processor where
  mtx : Hash → Option contractTx
  mel : Hash → Option electionVrf

/-- The map assignment `p.mtx[reqId] = ctx`. -/
def Processor.setMtx (p : Processor) (reqId : Hash) (ctx : contractTx) : Processor :=
  { p with mtx := fun k => if k = reqId then some ctx else p.mtx k }

/-- The method `Processor.contractCommitEvent`, run under the processor lock at
time `now`: the returned `broadcast`, the returned error and the processor as
the call leaves it. -/
def contractCommitEvent (env : TxEnv) (now : Int) (p : Processor) (tx : Transaction) :
    Bool × Option String × Processor :=
  let reqId := env.RequestHash tx
  match p.mtx reqId with
  | none =>
    let ctx : contractTx :=
      { reqTx := some (env.GetRequestTx tx), rstTx := none, sigTx := none, rcvTx := [],
        eleInf := [], reqRcvEd := false, tm := now, valid := true }
    (true, none, p.setMtx reqId { ctx with valid := true, rstTx := some tx })
  | some ctx =>
    if ctx.rstTx ≠ none then (false, none, p)
    else (true, none, p.setMtx reqId { ctx with valid := true, rstTx := some tx })

/-- A sequence of COMMIT events, each with its arrival time, processed one after
the other: the list of returned `(broadcast, err)` and the final processor. -/
def contractCommitEvents (env : TxEnv) (p : Processor) :
    List (Int × Transaction) → List (Bool × Option String) × Processor
  | [] => ([], p)
  | (now, tx) :: rest =>
    let r := contractCommitEvent env now p tx
    let rs := contractCommitEvents env r.2.2 rest
    ((r.1, r.2.1) :: rs.1, rs.2)

/-- The first loop of `checkAndAddTxData`, over the messages of `local` and
`recv` side by side (they have equal length): a SIGNATURE message of `recv`
becomes `recvSigMsg`, every other message must be deeply equal to the local
one.  The result is `none` for the error "tx msg is not equal", else the last
`recvSigMsg` seen (`acc` on entry). -/
def findRecvSigMsg : List Message → List Message → Option Message → Option (Option Message)
  | l :: ls, r :: rs, acc =>
    if r.App = APP_SIGNATURE then findRecvSigMsg ls rs (some r)
    else if l ≠ r then none
    else findRecvSigMsg ls rs acc
  | _, _, acc => some acc

/-- The loop `for _, sig := range sigs` of `checkAndAddTxData`: is the first
signature of `recvSigMsg` already among `sigs`?  Reading
`recvSigMsg.Payload.(*SignaturePayload).Signatures[0]` panics when the payload
is of another type or the list is empty. -/
def sigAlreadyReceived (recvSigMsg : Message) : List SignatureSet → Option Bool
  | [] => some false
  | sig :: rest =>
    match recvSigMsg.Payload with
    | .SignaturePayload (r0 :: _) =>
      if bytesEqual sig.PubKey r0.PubKey && bytesEqual sig.Signature r0.Signature then some true
      else sigAlreadyReceived recvSigMsg rest
    | _ => none

/-- The second loop of `checkAndAddTxData`, over the messages of `local`: at the
first SIGNATURE message either the signature is known (`false`, messages
unchanged) or it is appended (`true`).  The outer `none` is a panic, the inner
`none` means that no SIGNATURE message was found. -/
def addRecvSig (recvSigMsg : Message) : List Message → Option (Option (Bool × List Message))
  | [] => some none
  | msg :: rest =>
    if msg.App = APP_SIGNATURE then
      match msg.Payload with
      | .SignaturePayload sigs =>
        match sigAlreadyReceived recvSigMsg sigs with
        | none => none
        | some true => some (some (false, msg :: rest))
        | some false =>
          match recvSigMsg.Payload with
          | .SignaturePayload rsigs =>
            let sigs1 := match rsigs with
              | [] => sigs
              | r0 :: _ => sigs ++ [r0]
            some (some (true, { msg with Payload := .SignaturePayload sigs1 } :: rest))
          | _ => none
      | _ => none
    else
      match addRecvSig recvSigMsg rest with
      | none => none
      | some none => some none
      | some (some (b, msgs)) => some (some (b, msg :: msgs))

/-- The function `checkAndAddTxData`: the returned boolean, the returned error
(`none` for nil) and the transaction `local` as the call leaves it; the result
`none` is a panic. -/
def checkAndAddTxData (localTx recv : Option Transaction) :
    Option (Bool × Option String × Option Transaction) :=
  match localTx, recv with
  | some l, some r =>
    if l.TxMessages.length ≠ r.TxMessages.length then
      some (false, some "checkAndAddTxData tx msg is invalid", localTx)
    else
      match findRecvSigMsg l.TxMessages r.TxMessages none with
      | none => some (false, some "checkAndAddTxData tx msg is not equal", localTx)
      | some none => some (false, some "checkAndAddTxData not find recv sig msg", localTx)
      | some (some recvSigMsg) =>
        match addRecvSig recvSigMsg l.TxMessages with
        | none => none
        | some none => some (false, some "checkAndAddTxData fail", localTx)
        | some (some (b, msgs)) => some (b, none, some { l with TxMessages := msgs })
  | _, _ => some (false, some "checkAndAddTxData param is nil", localTx)

/-- Two message lists agree outside signatures: same length, and wherever the
received message is not a SIGNATURE message the local one is equal to it. -/
def NonSigEqual (ls rs : List Message) : Prop :=
  List.Forall₂ (fun l r => r.App ≠ APP_SIGNATURE → l = r) ls rs

/-- The same signature entry for `checkAndAddTxData`: equal public-key bytes
and equal signature bytes. -/
def sameSig (r0 sig : SignatureSet) : Bool :=
  bytesEqual sig.PubKey r0.PubKey && bytesEqual sig.Signature r0.Signature

/-- A concrete instance of the transaction methods, used for examples: the
request hash is the cached hash. -/
def exampleEnv : TxEnv :=
  { RequestHash := fun t => t.TxHash, GetRequestTx := fun t => t,
    RlpHash := fun t => t.TxMessages.length + 1, Size := fun t => t.TxMessages.length }

/-- An empty processor. -/
def emptyProcessor : Processor := { mtx := fun _ => none, mel := fun _ => none }

/-- The update of the record `p.mel[reqId]`. -/
def Processor.setMel (p : Processor) (reqId : Hash) (e : electionVrf) : Processor :=
  { p with mel := fun k => if k = reqId then some e else p.mel k }

/-- The method `Processor.contractExecEvent`, run at time `now`:
`isSystemContract` is `Transaction.IsSystemContract` (its code is outside the
embedded files).  The result is the returned `broadcast`, the returned error,
the contract run started by `go p.runContractReq(reqId, ele)` (`none` when no
run is started) and the processor as the call leaves it. -/
def contractExecEvent (env : TxEnv) (isSystemContract : Transaction → Bool) (now : Int)
    (p : Processor) (tx : Transaction) (ele : List ElectionInf) :
    Bool × Option String × Option (Hash × List ElectionInf) × Processor :=
  let reqId := env.RequestHash tx
  let proceed (ctx : contractTx) : Bool × Option String × Option (Hash × List ElectionInf) × Processor :=
    let p1 := p.setMtx reqId
      { ctx with reqTx := some (env.GetRequestTx tx), eleInf := ele, reqRcvEd := true }
    let p2 : Processor :=
      match p1.mel reqId with
      | some e => p1.setMel reqId { e with invalid := true }
      | none => p1
    (true, none, if isSystemContract tx then none else some (reqId, ele), p2)
  match p.mtx reqId with
  | none =>
    let ctx : contractTx :=
      { reqTx := none, rstTx := none, sigTx := none, rcvTx := [],
        eleInf := [], reqRcvEd := false, tm := now, valid := true }
    proceed ctx
  | some ctx =>
    if ctx.reqRcvEd then (false, none, none, p)
    else proceed ctx

/-- A sequence of EXEC events, each with its arrival time and election list,
processed one after the other: the list of returned
`(broadcast, err, contract run started)` and the final processor. -/
def contractExecEvents (env : TxEnv) (isSystemContract : Transaction → Bool) (p : Processor) :
    List (Int × Transaction × List ElectionInf) →
      List (Bool × Option String × Option (Hash × List ElectionInf)) × Processor
  | [] => ([], p)
  | (now, tx, ele) :: rest =>
    let r := contractExecEvent env isSystemContract now p tx ele
    let rs := contractExecEvents env isSystemContract r.2.2.2 rest
    ((r.1, r.2.1, r.2.2.1) :: rs.1, rs.2)

/-! ## The transaction validator (validator/validate_tx.go) -/

/-- The validation codes returned by the validator; `OTHER` stands for the
codes that only the helper validations return. -/
inductive ValidationCode
  | VALID
  | INVALID_MSG
  | DUPLICATE_TXID
  | INVALID_FEE
  | UNKNOWN_TX_TYPE
  | NOT_COMPARE_SIZE
  | BAD_CREATOR_SIGNATURE
  | INVALID_PAYMMENTLOAD
  | INVALID_CONTRACT
  | OTHER (code : Nat)
  deriving DecidableEq, Repr

open ValidationCode

/-- The type `modules.AmountAsset`; the asset is identified by its string form. -/
structure AmountAsset where
  Amount : Nat
  Asset : String
  deriving DecidableEq, Repr

/-- The constant `TX_MAXSIZE`. -/
def TX_MAXSIZE : Nat := 256 * 1024

/-- The queries and helper validations of `Validate` whose code is outside the
embedded file, taken as parameters.  `utxoquery` and `statequery` are `none`
when unset; `GetTxFee` is `none` when it reports an error; `GetMinFee` is
`none` when it hands back a nil amount. -/
structure Validate where
  checkTxIsExist : Transaction → Bool
  utxoquery : Option (Transaction → Option AmountAsset)
  statequery : Option (Option AmountAsset)
  Size : Transaction → Nat
  validateTxSignature : Transaction → Bool
  validatePaymentPayload : Transaction → Nat → List Input → List Output → Bool → ValidationCode
  validateContractTplPayload : List Nat → ValidationCode
  validateContractState : Bytes → List Nat → ValidationCode
  validateContractdeploy : Bytes → ValidationCode
  validateContractSignature : List SignatureSet → Transaction → ValidationCode
  validateDataPayload : Bytes → ValidationCode

/-- The method `Validate.validateTxFee`; reading `minFee.Amount` of a nil
minimum fee panics. -/
def validateTxFee (v : Validate) (tx : Transaction) : Option Bool :=
  match v.utxoquery with
  | none => some true
  | some getTxFee =>
    match getTxFee tx with
    | none => some false
    | some fee =>
      let minFee : Option AmountAsset :=
        match v.statequery with
        | none => some ⟨0, "PTN"⟩
        | some r => r
      match minFee with
      | none => none
      | some mf =>
        if mf.Amount > 0 then
          if fee.Asset ≠ mf.Asset ∨ fee.Amount < mf.Amount then some false else some true
        else some true

/-- The function `validateMessageType`: does the payload's dynamic type belong
to the app tag? -/
def validateMessageType (app : MessageType) (payload : Payload) : Bool :=
  match payload with
  | .PaymentPayload _ _ => decide (app = APP_PAYMENT)
  | .ContractTplPayload _ => decide (app = APP_CONTRACT_TPL)
  | .ContractDeployPayload _ _ => decide (app = APP_CONTRACT_DEPLOY)
  | .ContractInvokeRequestPayload _ _ => decide (app = APP_CONTRACT_INVOKE_REQUEST)
  | .ContractInvokePayload _ _ => decide (app = APP_CONTRACT_INVOKE)
  | .SignaturePayload _ => decide (app = APP_SIGNATURE)
  | .ConfigPayload _ => decide (app = APP_CONFIG)
  | .DataPayload _ => decide (app = APP_DATA)
  | .VoteInfo _ => decide (app = APP_VOTE)
  | .MediatorCreateOperation _ => decide (app = OP_MEDIATOR_CREATE)
  | .ContractDeployRequestPayload _ _ _ => decide (app = APP_CONTRACT_DEPLOY_REQUEST)
  | .ContractInstallRequestPayload _ _ _ => decide (app = APP_CONTRACT_TPL_REQUEST)
  | _ => false

/-- The `switch msg.App` of `validateTx` for one message: `none` is a panic
(a failed type assertion leaves a nil payload that is then read), `some (some c)`
returns `c` from `validateTx`, `some none` goes on to the next message. -/
def validatePayload (v : Validate) (tx : Transaction) (isCoinbase : Bool) (msgIdx : Nat)
    (msg : Message) : Option (Option ValidationCode) :=
  match msg.App with
  | APP_PAYMENT =>
    match msg.Payload with
    | .PaymentPayload ins outs =>
      let validateCode := v.validatePaymentPayload tx msgIdx ins outs isCoinbase
      if validateCode ≠ VALID then some (some validateCode) else some none
    | _ => some (some INVALID_PAYMMENTLOAD)
  | APP_CONTRACT_TPL =>
    match msg.Payload with
    | .ContractTplPayload c =>
      let validateCode := v.validateContractTplPayload c
      if validateCode ≠ VALID then some (some validateCode) else some none
    | _ => none
  | APP_CONTRACT_DEPLOY =>
    match msg.Payload with
    | .ContractDeployPayload cid c =>
      let validateCode := v.validateContractState cid c
      if validateCode ≠ VALID then some (some validateCode) else some none
    | _ => none
  | APP_CONTRACT_INVOKE =>
    match msg.Payload with
    | .ContractInvokePayload cid c =>
      let validateCode := v.validateContractState cid c
      if validateCode ≠ VALID then some (some validateCode) else some none
    | _ => none
  | APP_CONTRACT_TPL_REQUEST =>
    match msg.Payload with
    | .ContractInstallRequestPayload tplName path version =>
      if tplName = "" ∨ path = "" ∨ version = "" then some (some INVALID_CONTRACT)
      else some (some VALID)
    | _ => none
  | APP_CONTRACT_DEPLOY_REQUEST =>
    match msg.Payload with
    | .ContractDeployRequestPayload tplId txId timeout =>
      if tplId.toList.length = 0 ∨ txId = "" ∨ timeout < 0 then some (some INVALID_CONTRACT)
      else some (some (v.validateContractdeploy tplId))
    | _ => none
  | APP_CONTRACT_INVOKE_REQUEST =>
    match msg.Payload with
    | .ContractInvokeRequestPayload cid _ =>
      if cid.toList.length = 0 then some (some INVALID_CONTRACT)
      else some (some VALID)
    | _ => none
  | APP_SIGNATURE =>
    match msg.Payload with
    | .SignaturePayload sigs =>
      let validateCode := v.validateContractSignature sigs tx
      if validateCode ≠ VALID then some (some validateCode) else some none
    | _ => none
  | APP_CONFIG => some none
  | APP_DATA =>
    match msg.Payload with
    | .DataPayload d =>
      let validateCode := v.validateDataPayload d
      if validateCode ≠ VALID then some (some validateCode) else some none
    | _ => none
  | APP_VOTE => some none
  | OP_MEDIATOR_CREATE => some none
  | _ => some (some UNKNOWN_TX_TYPE)

/-- The loop `for msgIdx, msg := range tx.TxMessages` of `validateTx`. -/
def validateTxLoop (v : Validate) (tx : Transaction) (isCoinbase : Bool) :
    Nat → List Message → Option ValidationCode
  | _, [] => some VALID
  | msgIdx, msg :: rest =>
    if validateMessageType msg.App msg.Payload = false then some UNKNOWN_TX_TYPE
    else if v.Size tx > TX_MAXSIZE then some NOT_COMPARE_SIZE
    else if v.validateTxSignature tx = false then some BAD_CREATOR_SIGNATURE
    else
      match validatePayload v tx isCoinbase msgIdx msg with
      | none => none
      | some (some code) => some code
      | some none => validateTxLoop v tx isCoinbase (msgIdx + 1) rest

/-- The method `Validate.validateTx`. -/
def validateTx (v : Validate) (tx : Transaction) (isCoinbase : Bool) : Option ValidationCode :=
  match tx.TxMessages with
  | [] => some INVALID_MSG
  | m0 :: _ =>
    if m0.App ≠ APP_PAYMENT then some INVALID_MSG
    else if v.checkTxIsExist tx then some DUPLICATE_TXID
    else
      match validateTxFee v tx with
      | none => none
      | some false => some INVALID_FEE
      | some true => validateTxLoop v tx isCoinbase 0 tx.TxMessages

/-- A validator whose queries and helper validations accept everything. -/
def acceptingValidate : Validate :=
  { checkTxIsExist := fun _ => false
    utxoquery := none
    statequery := none
    Size := fun _ => 100
    validateTxSignature := fun _ => true
    validatePaymentPayload := fun _ _ _ _ _ => VALID
    validateContractTplPayload := fun _ => VALID
    validateContractState := fun _ _ => VALID
    validateContractdeploy := fun _ => VALID
    validateContractSignature := fun _ _ => VALID
    validateDataPayload := fun _ => VALID }

/-- The payload type that belongs to an app tag, as the closed message set of
the specification pairs them: the tag of a payload of that type, `none` for a
payload of any other type. -/
def specPayloadTag (payload : Payload) : Option MessageType :=
  match payload with
  | .PaymentPayload _ _ => some APP_PAYMENT
  | .ContractTplPayload _ => some APP_CONTRACT_TPL
  | .ContractDeployPayload _ _ => some APP_CONTRACT_DEPLOY
  | .ContractInvokePayload _ _ => some APP_CONTRACT_INVOKE
  | .ContractStopPayload _ => some APP_CONTRACT_STOP
  | .ContractInstallRequestPayload _ _ _ => some APP_CONTRACT_TPL_REQUEST
  | .ContractDeployRequestPayload _ _ _ => some APP_CONTRACT_DEPLOY_REQUEST
  | .ContractInvokeRequestPayload _ _ => some APP_CONTRACT_INVOKE_REQUEST
  | .ContractStopRequestPayload _ => some APP_CONTRACT_STOP_REQUEST
  | .SignaturePayload _ => some APP_SIGNATURE
  | .ConfigPayload _ => some APP_CONFIG
  | .DataPayload _ => some APP_DATA
  | .VoteInfo _ => some APP_VOTE
  | .MediatorCreateOperation _ => some OP_MEDIATOR_CREATE
  | .OtherPayload _ => none

/-! ## The transaction pool (dag/txspool/txpool.go) -/

/-- A Go map as an association list with at most one entry for a key. -/
abbrev GoMap (κ ν : Type) := List (κ × ν)

/-- The map read `m[k]`. -/
def GoMap.get {κ ν : Type} [DecidableEq κ] (m : GoMap κ ν) (k : κ) : Option ν :=
  match m with
  | [] => none
  | (k1, v) :: rest => if k1 = k then some v else GoMap.get rest k

/-- The builtin `delete(m, k)`. -/
def GoMap.delete {κ ν : Type} [DecidableEq κ] (m : GoMap κ ν) (k : κ) : GoMap κ ν :=
  m.filter (fun e => decide (e.1 ≠ k))

/-- The map assignment `m[k] = v`. -/
def GoMap.set {κ ν : Type} [DecidableEq κ] (m : GoMap κ ν) (k : κ) (v : ν) : GoMap κ ν :=
  (k, v) :: GoMap.delete m k

/-- The type `modules.TxPoolTransaction`; the `float64` priority is embedded by
its order as a natural number. -/
structure TxPoolTransaction where
  Tx : Transaction
  Priority_lvl : Nat
  Nonce : Nat
  Pending : Bool
  Confirmed : Bool
  deriving DecidableEq, Repr

/-- The fields of `TxPoolConfig` that admission reads. -/
structure TxPoolConfig where
  NoLocals : Bool
  FeeLimit : Nat
  GlobalSlots : Nat
  GlobalQueue : Nat
  deriving DecidableEq, Repr

/-- The errors returned by the pool. -/
inductive TxPoolError
  | knownTransaction
  | alreadySpent
  | alreadyHave
  | ErrOversizedData
  | ErrTxFeeTooLow
  | ErrUnderpriced
  | ErrReplaceUnderpriced
  deriving DecidableEq, Repr

/-- The state of a `TxPool`: `journal` is `none` when no journal is configured
(a nil pointer) and otherwise lists the journalled transactions; `txFeed`
collects the `TxPreEvent`s sent. -/
structure TxPool where
  config : TxPoolConfig
  txfee : Nat
  locals : List Address
  journal : Option (List TxPoolTransaction)
  beats : GoMap Address Int
  queue : GoMap Hash TxPoolTransaction
  pending : GoMap Hash TxPoolTransaction
  all : GoMap Hash TxPoolTransaction
  outpoints : GoMap OutPoint TxPoolTransaction
  txFeed : List Transaction
  deriving DecidableEq, Repr

/-- What the pool uses from outside the embedded file, taken as parameters: the
RLP hash and encoded size of a transaction, `modules.MsgstoAddress`, the fee
`Transaction.Fee()` (the constant `TXFEE`), `PaymentPayload.ExtractFrInterface`
on a payload of another dynamic type (`none` for an error), and the priced
list's `Underpriced` and `Discard`. -/
structure PoolEnv where
  RlpHash : Transaction → Hash
  Size : Transaction → Nat
  MsgstoAddress : List Message → Address
  Fee : Nat
  ExtractFrInterface : Payload → Option (List Input)
  Underpriced : TxPool → TxPoolTransaction → Bool
  Discard : TxPool → Int → List TxPoolTransaction

/-- The method `Transaction.Hash`: the cached hash when set, else the RLP hash. -/
def PoolEnv.Hash (env : PoolEnv) (tx : Transaction) : Hash :=
  if tx.TxHash ≠ 0 then tx.TxHash else env.RlpHash tx

/-- The inputs that the pool reads off a message: those of a payment payload
under the tag APP_PAYMENT (`msg.Payload.(modules.PaymentPayload)`). -/
def paymentInputs (msg : Message) : List Input :=
  if msg.App = APP_PAYMENT then
    match msg.Payload with
    | .PaymentPayload ins _ => ins
    | _ => []
  else []

/-- The outputs that the pool reads off a message, as `paymentInputs`. -/
def paymentOutputs (msg : Message) : List Output :=
  if msg.App = APP_PAYMENT then
    match msg.Payload with
    | .PaymentPayload _ outs => outs
    | _ => []
  else []

/-- The method `TxPool.checkPoolDoubleSpend`: the error, if any. -/
def checkPoolDoubleSpend (env : PoolEnv) (pool : TxPool) (tx : TxPoolTransaction) :
    Option TxPoolError :=
  let inputsOf (msg : Message) : List Input :=
    if msg.App = APP_PAYMENT then
      match msg.Payload with
      | .PaymentPayload ins _ => ins
      | other =>
        match env.ExtractFrInterface other with
        | none => []
        | some ins => ins
    else []
  if (tx.Tx.TxMessages.flatMap inputsOf).any
      (fun input => (pool.outpoints.get input.PreviousOutPoint).isSome)
  then some .alreadySpent else none

/-- The method `TxPool.validateTx`: the error, if any. -/
def TxPool.validateTx (env : PoolEnv) (pool : TxPool) (tx : TxPoolTransaction)
    (isLocal : Bool) : Option TxPoolError :=
  let hash := env.Hash tx.Tx
  if (pool.all.get hash).isSome then some .alreadyHave
  else if env.Size tx.Tx > 32 * 1024 then some .ErrOversizedData
  else
    let sender := env.MsgstoAddress tx.Tx.TxMessages
    let isLocal1 := isLocal || decide (sender ∈ pool.locals)
    if !isLocal1 && decide (pool.txfee > env.Fee) then some .ErrTxFeeTooLow
    else none

/-- The method `TxPool.journalTx`.  The log call in the early-return branch
reads `pool.journal.path`, which panics when the journal is nil. -/
def TxPool.journalTx (env : PoolEnv) (pool : TxPool) (tx : TxPoolTransaction) :
    Option TxPool :=
  let sender := env.MsgstoAddress tx.Tx.TxMessages
  match pool.journal with
  | none => none
  | some entries =>
    if ¬ (sender ∈ pool.locals) then some pool
    else some { pool with journal := some (entries ++ [tx]) }

/-- The method `TxPool.enqueueTx`: the returned boolean and error, and the pool. -/
def TxPool.enqueueTx (pool : TxPool) (hash : Hash) (tx : TxPoolTransaction) :
    (Bool × Option TxPoolError) × TxPool :=
  match pool.queue.get hash with
  | some old =>
    if old.Priority_lvl > tx.Priority_lvl then ((false, some .ErrReplaceUnderpriced), pool)
    else ((true, none), { pool with all := (pool.all.delete hash).set hash tx })
  | none => ((true, none), { pool with all := pool.all.set hash tx })

/-- The outpoints `{hash, i, j}` of the outputs of the payment messages of a
transaction, in the order in which `removeTransaction` visits them. -/
def outputOutPoints (hash : Hash) : Nat → List Message → List OutPoint
  | _, [] => []
  | i, msg :: rest =>
    (List.range (paymentOutputs msg).length).map
        (fun j => ({ TxHash := hash, MessageIndex := i % 2 ^ 32, OutIndex := j } : OutPoint))
      ++ outputOutPoints hash (i + 1) rest

/-- The method `TxPool.removeTransaction`.  The recursion over the redeemers of
the outputs need not end; `fuel` bounds its depth and `none` is the result when
the fuel runs out. -/
def TxPool.removeTransaction (env : PoolEnv) :
    Nat → TxPool → Transaction → Bool → Option TxPool
  | 0, _, _, _ => none
  | fuel + 1, pool, tx, removeRedeemers =>
    let hash := env.Hash tx
    let afterRedeemers : Option TxPool :=
      if removeRedeemers then
        (outputOutPoints hash 0 tx.TxMessages).foldl
          (fun acc preout =>
            match acc with
            | none => none
            | some pl =>
              match pl.outpoints.get preout with
              | some pooltxRedeemer => TxPool.removeTransaction env fuel pl pooltxRedeemer.Tx true
              | none => some pl)
          (some pool)
      else some pool
    match afterRedeemers with
    | none => none
    | some pool1 =>
      let pool2 : TxPool :=
        match pool1.pending.get hash with
        | some pendingTx =>
          { pool1 with
            pending := pool1.pending.delete hash
            beats := pool1.beats.delete (env.MsgstoAddress pendingTx.Tx.TxMessages) }
        | none => pool1
      match pool2.all.get hash with
      | some pooltx =>
        some { pool2 with
          outpoints := (pooltx.Tx.TxMessages.flatMap paymentInputs).foldl
            (fun m input => m.delete input.PreviousOutPoint) pool2.outpoints
          all := pool2.all.delete hash }
      | none => some pool2

/-- The method `TxPool.add`: the returned boolean and error, and the pool as the
call leaves it; `none` is a panic (or the fuel of `removeTransaction` running
out).  `Transaction.Hash` caches the hash in the transaction. -/
def TxPool.add (env : PoolEnv) (fuel : Nat) (pool : TxPool) (tx0 : TxPoolTransaction)
    (isLocal : Bool) : Option ((Bool × Option TxPoolError) × TxPool) :=
  let hash := env.Hash tx0.Tx
  let tx : TxPoolTransaction := { tx0 with Tx := { tx0.Tx with TxHash := hash } }
  if (pool.all.get hash).isSome then some ((false, some .knownTransaction), pool)
  else
    match checkPoolDoubleSpend env pool tx with
    | some err => some ((false, some err), pool)
    | none =>
      match TxPool.validateTx env pool tx isLocal with
      | some err => some ((false, some err), pool)
      | none =>
        let limit := wrapU64 (pool.config.GlobalSlots + pool.config.GlobalQueue)
        let afterDiscard : Option (Option TxPool) :=
          if pool.all.length ≥ limit then
            if env.Underpriced pool tx then some none
            else
              let drop := env.Discard pool
                (wrapI64 ((pool.all.length : Int) - wrapI64 (wrapU64 (limit + 2 ^ 64 - 1) : Int)))
              match drop.foldl
                  (fun acc d =>
                    match acc with
                    | none => none
                    | some pl => TxPool.removeTransaction env fuel pl d.Tx true)
                  (some pool) with
              | none => none
              | some pl => some (some pl)
          else some (some pool)
        match afterDiscard with
        | none => none
        | some none => some ((false, some .ErrUnderpriced), pool)
        | some (some pool1) =>
          let sender := env.MsgstoAddress tx.Tx.TxMessages
          match pool1.pending.get hash with
          | some old =>
            some ((true, none), { pool1 with all := pool1.all.delete (env.Hash old.Tx) })
          | none =>
            let pool2 := { pool1 with all := pool1.all.set hash tx }
            match TxPool.journalTx env pool2 tx with
            | none => none
            | some pool3 =>
              let pool4 := { pool3 with txFeed := pool3.txFeed ++ [tx.Tx] }
              match TxPool.enqueueTx pool4 hash tx with
              | ((_, some err), pool5) => some ((false, some err), pool5)
              | ((replace, none), pool5) =>
                let pool6 := if isLocal then { pool5 with locals := sender :: pool5.locals }
                  else pool5
                match TxPool.journalTx env pool6 tx with
                | none => none
                | some pool7 => some ((replace, none), pool7)

/-- Every entry of the outpoints index of `p1` is an entry of that of `p`. -/
def OutpointsWithin (p1 p : TxPool) : Prop :=
  ∀ o t, p1.outpoints.get o = some t → p.outpoints.get o = some t

/-- An instance of the outside functions of the pool, used for examples. -/
def examplePoolEnv : PoolEnv :=
  { RlpHash := fun t => t.TxMessages.length + 1
    Size := fun t => t.TxMessages.length
    MsgstoAddress := fun _ => 9
    Fee := 5000000
    ExtractFrInterface := fun _ => none
    Underpriced := fun _ _ => false
    Discard := fun _ _ => [] }

/-- An empty pool with the default limits and a journal configured. -/
def examplePool : TxPool :=
  { config := { NoLocals := false, FeeLimit := 1, GlobalSlots := 4096, GlobalQueue := 1024 }
    txfee := 1, locals := [], journal := some [], beats := [], queue := [], pending := []
    all := [], outpoints := [], txFeed := [] }

/-- A payment transaction spending the outpoint `(77, 0, 0)`. -/
def exampleSpend : TxPoolTransaction :=
  { Tx := ⟨5, [⟨APP_PAYMENT, .PaymentPayload [⟨⟨77, 0, 0⟩, none, none⟩] [⟨10, none, 0⟩]⟩]⟩
    Priority_lvl := 1, Nonce := 1, Pending := false, Confirmed := false }

/-- The inputs that `checkPoolDoubleSpend` reads off a message: under the tag
APP_PAYMENT those of the payment payload, and for a payload of another dynamic
type those that `ExtractFrInterface` extracts (none when it fails). -/
def spendInputs (env : PoolEnv) (msg : Message) : List Input :=
  if msg.App = APP_PAYMENT then
    match msg.Payload with
    | .PaymentPayload ins _ => ins
    | other =>
      match env.ExtractFrInterface other with
      | none => []
      | some ins => ins
  else []

/-- The keys of a Go map. -/
def GoMap.keys {κ ν : Type} (m : GoMap κ ν) : List κ := m.map Prod.fst

/-- A pool whose outpoints index holds the outpoint `(77, 0, 0)`. -/
def exampleIndexedPool : TxPool :=
  { examplePool with outpoints := [(⟨77, 0, 0⟩, exampleSpend)] }

/-- A pool that holds the transaction `exampleSpend` under its hash. -/
def exampleKnownPool : TxPool :=
  { examplePool with all := [(5, exampleSpend)] }

/-- The map assignment `m[k] = v` through a pointer that the map already holds
under `k`: the entry keeps its place and shows the new contents. -/
def GoMap.update {κ ν : Type} [DecidableEq κ] (m : GoMap κ ν) (k : κ) (v : ν) : GoMap κ ν :=
  m.map (fun e => if e.1 = k then (e.1, v) else e)

/-- The method `TxPool.promoteTx`, run at time `now`.  The entries of the pool
are pointers in the source; with the pool, the result gives the transaction
object as the call leaves it (marked `Pending` unless the call discards it).
The branch `if old.Tx != nil` reads the object made by
`new(modules.TxPoolTransaction)`, whose `Tx` is nil: the `old` assigned inside
the block before it is another variable, so that branch never runs.  The
counter behind `priority_priced.Removed()` is not part of the embedded state. -/
def TxPool.promoteTx (env : PoolEnv) (now : Int) (pool : TxPool) (hash : Hash)
    (tx : TxPoolTransaction) : TxPool × TxPoolTransaction :=
  let discard : Bool :=
    match pool.pending.get hash with
    | some old => old.Pending || old.Confirmed
    | none => false
  if discard then ({ pool with all := pool.all.delete hash }, tx)
  else
    let tx1 : TxPoolTransaction := { tx with Pending := true }
    let pool1 : TxPool :=
      if (pool.all.get hash).isNone then
        { pool with all := pool.all.set hash tx1, pending := pool.pending.set hash tx1 }
      else { pool with pending := pool.pending.set hash tx1 }
    ({ pool1 with
        beats := pool1.beats.set (env.MsgstoAddress tx.Tx.TxMessages) now
        txFeed := pool1.txFeed ++ [tx.Tx] }, tx1)

/-- The method `TxByPriority.Less` on two entries of the list. -/
def TxByPriority.Less (a b : TxPoolTransaction) : Bool :=
  decide (a.Priority_lvl > b.Priority_lvl)

/-- The inner loop of the library's insertion sort,
`for j := i; j > a && data.Less(j, j-1); j-- do data.Swap(j, j-1)`, on the
sorted prefix given with its last element first: the new element `x` moves
left past every element that it is less than. -/
def sortInsert {α : Type} (less : α → α → Bool) (x : α) : List α → List α
  | [] => [x]
  | y :: r => if less x y then y :: sortInsert less x r else x :: y :: r

/-- The library call `sort.Sort(data)` with the `Less` of the data.  The Go
library is outside the repository; the embedding is the insertion sort that the
library runs on a slice of fewer than 12 elements (on longer slices its other
passes order the data by `Less` as well, but may place entries that `Less`
does not separate differently). -/
def sortSort {α : Type} (less : α → α → Bool) (l : List α) : List α :=
  (l.foldl (fun r x => sortInsert less x r) []).reverse

/-- The loop `for _, tx := range pool.all` of `GetSortedTxs` over the keys that
`all` has when the loop starts, in the order of the iteration: `list` and
`total` are the variables of the source.  An entry deleted before the loop
reaches it is not produced; entries created during the loop are not visited.
`tx.Tx.Hash()` caches the hash in the transaction, and the object that
`promoteTx` marks is the one `all` points to under the key visited, so that
entry shows the mark. -/
def getSortedLoop (env : PoolEnv) (now : Int) (unitTxSize : Nat) :
    List Hash → TxPool → List TxPoolTransaction → Nat → TxPool × List TxPoolTransaction × Nat
  | [], pool, list, total => (pool, list, total)
  | k :: rest, pool, list, total =>
    match pool.all.get k with
    | none => getSortedLoop env now unitTxSize rest pool list total
    | some tx0 =>
      let total1 := total + env.Size tx0.Tx
      if total1 ≤ unitTxSize then
        let hash := env.Hash tx0.Tx
        let tx : TxPoolTransaction := { tx0 with Tx := { tx0.Tx with TxHash := hash } }
        let r := TxPool.promoteTx env now pool hash tx
        let pool1 : TxPool := { r.1 with all := r.1.all.update k r.2 }
        getSortedLoop env now unitTxSize rest pool1 (list ++ [r.2]) total1
      else (pool, list, total1 - env.Size tx0.Tx)

/-- The method `TxPool.GetSortedTxs`, run at time `now`: the returned list and
total size, and the pool as the call leaves it.  `unitTxSize` is
`dagconfig.DefaultConfig.UnitTxSize`; sizes are whole numbers of bytes. -/
def TxPool.GetSortedTxs (env : PoolEnv) (now : Int) (unitTxSize : Nat) (pool : TxPool) :
    (List TxPoolTransaction × Nat) × TxPool :=
  let r := getSortedLoop env now unitTxSize pool.all.keys pool [] 0
  ((sortSort TxByPriority.Less r.2.1, r.2.2), r.1)

/-- A pooled transaction with hash `h` and priority `prio`. -/
def examplePooled (h : Hash) (prio : Nat) : TxPoolTransaction :=
  { Tx := ⟨h, [⟨APP_PAYMENT, .PaymentPayload [] []⟩]⟩
    Priority_lvl := prio, Nonce := 1, Pending := false, Confirmed := false }

/-- A pool holding three transactions of equal size with priorities 10, 50
and 30. -/
def exampleThreePool : TxPool :=
  { examplePool with
    all := [(1, examplePooled 1 10), (2, examplePooled 2 50), (3, examplePooled 3 30)] }

/-- One pass `for ... range offenders` of `promoteExecutables`: the pending
entry of each offender is looked up, the hash of its transaction is deleted
from `all` and the `uint64` counter `pending` is decremented.  `tx.Tx.Hash()`
caches the hash in the pending object; a missing entry is a nil dereference. -/
def dropOffenders (env : PoolEnv) : List Hash → TxPool → Nat → Option (TxPool × Nat)
  | [], pool, pending => some (pool, pending)
  | o :: rest, pool, pending =>
    match pool.pending.get o with
    | none => none
    | some tx =>
      let hash := env.Hash tx.Tx
      let tx1 : TxPoolTransaction := { tx with Tx := { tx.Tx with TxHash := hash } }
      dropOffenders env rest
        { pool with pending := pool.pending.update o tx1, all := pool.all.delete hash }
        (wrapU64 (pending + 2 ^ 64 - 1))

/-- The loop `for pending > pool.config.GlobalSlots` around one pass over
`offenders`; `fuel` bounds the number of passes and `none` is the result when
it runs out (or on a fault). -/
def dropUntil (env : PoolEnv) (globalSlots : Nat) (offenders : List Hash) :
    Nat → TxPool → Nat → Option (TxPool × Nat)
  | 0, _, _ => none
  | fuel + 1, pool, pending =>
    if pending > globalSlots then
      match dropOffenders env offenders pool pending with
      | none => none
      | some (pool1, pending1) => dropUntil env globalSlots offenders fuel pool1 pending1
    else some (pool, pending)

/-- The loop `for pending > GlobalSlots && !spammers.Empty()` of
`promoteExecutables`: `spammers` lists the hashes still in the queue in the
order in which they are popped; the inner pass runs over
`offenders[0 .. len-2]`. -/
def promoteLoop (env : PoolEnv) (globalSlots fuel : Nat) :
    List Hash → List Hash → TxPool → Nat → Option (List Hash × TxPool × Nat)
  | [], offenders, pool, pending => some (offenders, pool, pending)
  | o :: spammers, offenders, pool, pending =>
    if pending > globalSlots then
      let offenders1 := offenders ++ [o]
      if offenders1.length > 1 then
        match dropUntil env globalSlots offenders1.dropLast fuel pool pending with
        | none => none
        | some (pool1, pending1) => promoteLoop env globalSlots fuel spammers offenders1 pool1 pending1
      else promoteLoop env globalSlots fuel spammers offenders1 pool pending
    else some (offenders, pool, pending)

/-- The method `TxPool.promoteExecutables` (its argument `accounts` is not
read).  `popOrder` gives the order in which the priority queue of the library
`prque` pops the hashes pushed, all with priority 1, in the iteration order of
`pending`; `fuel` bounds the passes of each `for pending > GlobalSlots`. -/
def TxPool.promoteExecutables (env : PoolEnv) (popOrder : List Hash → List Hash) (fuel : Nat)
    (pool : TxPool) : Option TxPool :=
  let pending := pool.pending.length
  let globalSlots := pool.config.GlobalSlots
  if pending > globalSlots then
    match promoteLoop env globalSlots fuel (popOrder pool.pending.keys) [] pool pending with
    | none => none
    | some (offenders, pool1, pending1) =>
      if pending1 > globalSlots ∧ offenders.length > 0 then
        (dropUntil env globalSlots offenders fuel pool1 pending1).map (fun r => r.1)
      else some pool1
  else some pool

/-- The method `TxPool.demoteUnexecutables`: it acts only on a pending entry
that is a nil pointer (and then dereferences it).  The entries of `pending`
are objects in this embedding, so the call leaves the pool as it is. -/
def TxPool.demoteUnexecutables (pool : TxPool) : TxPool := pool

/-- The method `TxPool.GetNonce`. -/
def TxPool.GetNonce (pool : TxPool) (hash : Hash) : Nat :=
  match pool.all.get hash with
  | some tx => tx.Nonce
  | none => 0

/-- The method `TxPoolTransaction.GetPriorityLvl`: a priority above 0 is
returned as it is; otherwise the priority is computed from fee, size and age
(`computePriority`, floating point on the clock, taken as a parameter) and
stored.  The result is the priority and the object as the call leaves it. -/
def GetPriorityLvl (computePriority : Transaction → Nat) (tx : TxPoolTransaction) :
    Nat × TxPoolTransaction :=
  if tx.Priority_lvl > 0 then (tx.Priority_lvl, tx)
  else (computePriority tx.Tx, { tx with Priority_lvl := computePriority tx.Tx })

/-- The function `TxtoTxpoolTx`; the nonce is read under the cached hash field
`tx.TxHash`. -/
def TxtoTxpoolTx (computePriority : Transaction → Nat) (pool : TxPool) (tx : Transaction) :
    TxPoolTransaction :=
  let t0 : TxPoolTransaction :=
    { Tx := tx, Priority_lvl := 0, Nonce := wrapU64 (pool.GetNonce tx.TxHash + 1),
      Pending := false, Confirmed := false }
  (GetPriorityLvl computePriority t0).2

/-- The fields of `modules.Header` that the pool reads, the parent hashes and
the number `Index.Index`, and the state root `Root`, which tells apart two
headers of the same height and parents. -/
structure Header where
  ParentUnits : List Hash
  Index : Nat
  Root : Hash
  deriving DecidableEq, Repr

/-- The fields of `modules.Unit` that the pool reads: the header and the
transaction list `Txs`. -/
structure Unit where
  UnitHeader : Header
  Txs : List Transaction
  deriving DecidableEq, Repr

/-- The method `Unit.Transactions`: `ts := make([]*Transaction, 0); return ts`. -/
def Unit.Transactions (_u : Unit) : List Transaction := []

/-- The method `Unit.ParentHash`. -/
def Unit.ParentHash (u : Unit) : List Hash := u.UnitHeader.ParentUnits

/-- What `reset` uses from outside the embedded files, taken as parameters: the
unit store `pool.unit.GetUnit` (`none` for nil), the RLP hashes of a header and
of a unit, `modules.HeaderEqual` (its second argument may be nil),
`Unit.NumberU64` and `pool.unit.CurrentUnit()`. -/
structure ChainEnv where
  GetUnit : Hash → Option Unit
  HeaderHash : Header → Hash
  UnitHash : Unit → Hash
  HeaderEqual : Header → Option Header → Bool
  NumberU64 : Unit → Nat
  CurrentUnit : Option Unit

/-- The function `modules.TxDifference`; `tx.Hash()` caches the hash in each
transaction it is called on, and the list kept shows the transactions so. -/
def TxDifference (env : PoolEnv) (a b : List Transaction) : List Transaction :=
  let remove := b.map env.Hash
  (a.filter (fun tx => decide (env.Hash tx ∉ remove))).map
    (fun tx => { tx with TxHash := env.Hash tx })

/-- The loop of `addTxsLocked` over the batch: the errors and the senders
marked dirty so far, and the pool.  A nil entry of the batch faults in `add`. -/
def addTxsLoop (env : PoolEnv) (fuel : Nat) (isLocal : Bool) :
    List (Option TxPoolTransaction) → List (Option TxPoolError) → List Address → TxPool →
      Option (List (Option TxPoolError) × List Address × TxPool)
  | [], errs, dirty, pool => some (errs, dirty, pool)
  | none :: _, _, _, _ => none
  | some tx :: rest, errs, dirty, pool =>
    match TxPool.add env fuel pool tx isLocal with
    | none => none
    | some ((replace, err), pool1) =>
      let dirty1 :=
        if err = none ∧ replace = false then
          let sender := env.MsgstoAddress tx.Tx.TxMessages
          if sender ∈ dirty then dirty else dirty ++ [sender]
        else dirty
      addTxsLoop env fuel isLocal rest (errs ++ [err]) dirty1 pool1

/-- The method `TxPool.addTxsLocked`: the errors, one for each entry of the
batch, and the pool. -/
def TxPool.addTxsLocked (env : PoolEnv) (popOrder : List Hash → List Hash) (fuel : Nat)
    (pool : TxPool) (txs : List (Option TxPoolTransaction)) (isLocal : Bool) :
    Option (List (Option TxPoolError) × TxPool) :=
  match addTxsLoop env fuel isLocal txs [] [] pool with
  | none => none
  | some (errs, dirty, pool1) =>
    if dirty.length > 0 then
      (TxPool.promoteExecutables env popOrder fuel pool1).map (fun p => (errs, p))
    else some (errs, pool1)

/-- The first loop of `reset`, `for rem.NumberU64() > add.NumberU64()`.  The
outer `none` is a fault (`rem.ParentHash()[0]` on a unit without parents) or
the fuel running out; the inner `none` is the `return` taken when the parent
is not in the store. -/
def resetWalkOld (chain : ChainEnv) :
    Nat → Unit → Unit → List Transaction → Option (Option (Unit × List Transaction))
  | 0, _, _, _ => none
  | fuel + 1, rem, add, discarded =>
    if chain.NumberU64 rem > chain.NumberU64 add then
      let discarded1 := discarded ++ rem.Transactions
      match rem.ParentHash with
      | [] => none
      | parent :: _ =>
        match chain.GetUnit parent with
        | none => some none
        | some rem1 => resetWalkOld chain fuel rem1 add discarded1
    else some (some (rem, discarded))

/-- The second loop of `reset`, `for add.NumberU64() > rem.NumberU64()`. -/
def resetWalkNew (chain : ChainEnv) :
    Nat → Unit → Unit → List Transaction → Option (Option (Unit × List Transaction))
  | 0, _, _, _ => none
  | fuel + 1, rem, add, included =>
    if chain.NumberU64 add > chain.NumberU64 rem then
      let included1 := included ++ add.Transactions
      match add.ParentHash with
      | [] => none
      | parent :: _ =>
        match chain.GetUnit parent with
        | none => some none
        | some add1 => resetWalkNew chain fuel rem add1 included1
    else some (some (add, included))

/-- The third loop of `reset`, `for rem.Hash() != add.Hash()`, which steps both
branches back to the common ancestor. -/
def resetWalkBoth (chain : ChainEnv) :
    Nat → Unit → Unit → List Transaction → List Transaction →
      Option (Option (List Transaction × List Transaction))
  | 0, _, _, _, _ => none
  | fuel + 1, rem, add, discarded, included =>
    if chain.UnitHash rem ≠ chain.UnitHash add then
      let discarded1 := discarded ++ rem.Transactions
      match rem.ParentHash with
      | [] => none
      | parentR :: _ =>
        match chain.GetUnit parentR with
        | none => some none
        | some rem1 =>
          let included1 := included ++ add.Transactions
          match add.ParentHash with
          | [] => none
          | parentA :: _ =>
            match chain.GetUnit parentA with
            | none => some none
            | some add1 => resetWalkBoth chain fuel rem1 add1 discarded1 included1
    else some (some (discarded, included))

/-- The reorg block of `reset`: the transactions to reinject.  The outer `none`
is a fault (a nil header or unit dereferenced, a unit without parents) or the
fuel running out; the inner `none` is the `return` on an unrooted unit.  The
depth is the distance of the two header numbers. -/
def resetReinject (env : PoolEnv) (chain : ChainEnv) (fuel : Nat)
    (oldHead newHead : Option Header) : Option (Option (List Transaction)) :=
  match oldHead with
  | none => some (some [])
  | some oldH =>
    if chain.HeaderEqual oldH newHead then
      match newHead with
      | none => none
      | some newH =>
        let depth := Int.natAbs ((oldH.Index : Int) - (newH.Index : Int))
        if depth > 64 then some (some [])
        else
          match chain.GetUnit (chain.HeaderHash oldH), chain.GetUnit (chain.HeaderHash newH) with
          | some rem, some add =>
            match resetWalkOld chain fuel rem add [] with
            | none => none
            | some none => some none
            | some (some (rem1, discarded)) =>
              match resetWalkNew chain fuel rem1 add [] with
              | none => none
              | some none => some none
              | some (some (add1, included)) =>
                match resetWalkBoth chain fuel rem1 add1 discarded included with
                | none => none
                | some none => some none
                | some (some (d, i)) => some (some (TxDifference env d i))
          | _, _ => none
    else some (some [])

/-- The method `TxPool.reset`; `none` is a fault or the fuel running out.  With
a nil `newHead` the header of `CurrentUnit()` is read (and not used). -/
def TxPool.reset (env : PoolEnv) (chain : ChainEnv) (popOrder : List Hash → List Hash)
    (computePriority : Transaction → Nat) (fuel : Nat) (pool : TxPool)
    (oldHead newHead : Option Header) : Option TxPool :=
  match resetReinject env chain fuel oldHead newHead with
  | none => none
  | some none => some pool
  | some (some reinject) =>
    if newHead = none ∧ chain.CurrentUnit = none then none
    else
      let pooltxs := reinject.map (fun tx => some (TxtoTxpoolTx computePriority pool tx))
      match TxPool.addTxsLocked env popOrder fuel pool pooltxs false with
      | none => none
      | some (_, pool1) =>
        TxPool.promoteExecutables env popOrder fuel pool1.demoteUnexecutables

/-- Every key of `all` of `p1` is a key of `all` of `p`. -/
def AllWithin (p1 p : TxPool) : Prop := ∀ h, h ∈ p1.all.keys → h ∈ p.all.keys

/-- Every hash in `pending` is also in `all`. -/
def PendingWithinAll (pool : TxPool) : Prop := ∀ h ∈ pool.pending.keys, h ∈ pool.all.keys

instance (pool : TxPool) : Decidable (PendingWithinAll pool) := by
  unfold PendingWithinAll; exact inferInstance

/-- The transaction T1 of the reorg example, contained in the old head only. -/
def exampleT1 : Transaction := ⟨11, [⟨APP_PAYMENT, .PaymentPayload [] []⟩]⟩

/-- The units of the reorg example: the common parent (root 100, number 1), the
old head H1 (root 101, number 2) with the transaction T1, and the new head H2
(root 102, number 2) without transactions. -/
def exampleUnits : List Unit :=
  [⟨⟨[], 1, 100⟩, []⟩, ⟨⟨[100], 2, 101⟩, [exampleT1]⟩, ⟨⟨[100], 2, 102⟩, []⟩]

/-- The unit store of the reorg example, keyed by the root; `HeaderEqual` is
taken as a parameter of the example. -/
def exampleChain (headerEqual : Header → Option Header → Bool) : ChainEnv :=
  { GetUnit := fun h => exampleUnits.find? (fun u => decide (u.UnitHeader.Root = h))
    HeaderHash := fun h => h.Root
    UnitHash := fun u => u.UnitHeader.Root
    HeaderEqual := headerEqual
    NumberU64 := fun u => u.UnitHeader.Index
    CurrentUnit := exampleUnits.find? (fun u => decide (u.UnitHeader.Root = 102)) }

/-- The pool of the reorg example: it holds the transaction T2 (hash 12). -/
def exampleReorgPool : TxPool :=
  { examplePool with all := [(12, examplePooled 12 7)] }

/-- A pool with room for one pending transaction (`GlobalSlots` 1) that holds
three transactions, all of them pending. -/
def exampleCrowdedPool : TxPool :=
  { examplePool with
    config := { NoLocals := false, FeeLimit := 1, GlobalSlots := 1, GlobalQueue := 1024 }
    all := [(1, examplePooled 1 10), (2, examplePooled 2 50), (3, examplePooled 3 30)]
    pending := [(1, examplePooled 1 10), (2, examplePooled 2 50), (3, examplePooled 3 30)] }

/-! ## The jury processor: local nodes, sweeps and signature events (consensus/jury/service.go) -/

/-- The constant `TJury`. -/
def TJury : Int := 2

/-- The constant `TMediator`. -/
def TMediator : Int := 4

/-- What the processor uses from outside the embedded files, taken as
parameters: the keys of the account map `p.local` (fixed when the processor is
built) in the order of its iteration, `ptn.IsLocalActiveMediator`,
`dag.IsActiveJury`, the test
`common.NewAddress(contractId, common.ContractHash).IsSystemContractAddress()`
on a contract id, the numeric value of a message tag (the constants are
declared outside the embedded files) and `cm.ValidateTxSig` behind
`checkTxValid`. -/
structure JuryEnv where
  localAccounts : List Address
  IsLocalActiveMediator : Address → Bool
  IsActiveJury : Address → Bool
  IsSystemContractAddress : Bytes → Bool
  AppCode : MessageType → Nat
  checkTxValid : Transaction → Bool

/-- The method `Processor.isLocalActiveJury`. -/
def isLocalActiveJury (jenv : JuryEnv) (add : Address) : Bool :=
  if add ∈ jenv.localAccounts then jenv.IsActiveJury add else false

/-- The loop of `isSystemContract` over the messages; the type assertion on the
payload of an invoke request can fault (`none`). -/
def isSystemContractMsgs (jenv : JuryEnv) : List Message → Option Bool
  | [] => some true
  | msg :: rest =>
    if msg.App = APP_CONTRACT_INVOKE_REQUEST then
      match msg.Payload with
      | .ContractInvokeRequestPayload contractId _ => some (jenv.IsSystemContractAddress contractId)
      | _ => none
    else if jenv.AppCode msg.App ≥ jenv.AppCode APP_CONTRACT_TPL_REQUEST then some false
    else isSystemContractMsgs jenv rest

/-- The function `isSystemContract` on a transaction that is not nil. -/
def isSystemContract (jenv : JuryEnv) (tx : Transaction) : Option Bool :=
  isSystemContractMsgs jenv tx.TxMessages

/-- The method `Processor.nodeContractExecutable`; `accounts` lists the keys of
the map passed, `tx` is `none` for nil; the result `none` is a fault. -/
def nodeContractExecutable (jenv : JuryEnv) (accounts : List Address) (tx : Option Transaction) :
    Option Bool :=
  match tx with
  | none => some false
  | some t =>
    match isSystemContract jenv t with
    | none => none
    | some true => some (accounts.any jenv.IsLocalActiveMediator)
    | some false => some (accounts.any (isLocalActiveJury jenv))

/-- An instance of the outside functions of the processor, used for examples:
the local accounts 1 and 2, of which 1 is an active mediator and 2 an active
jury; contract ids starting with the byte 0 are system contracts; the request
tags have the values 100 to 103. -/
def exampleJuryEnv : JuryEnv :=
  { localAccounts := [1, 2]
    IsLocalActiveMediator := fun a => decide (a = 1)
    IsActiveJury := fun a => decide (a = 2)
    IsSystemContractAddress := fun b => decide (b.toList.head? = some 0)
    AppCode := fun t =>
      match t with
      | .APP_PAYMENT => 0
      | .APP_CONTRACT_TPL => 1
      | .APP_CONTRACT_DEPLOY => 2
      | .APP_CONTRACT_INVOKE => 3
      | .APP_CONTRACT_STOP => 4
      | .APP_SIGNATURE => 5
      | .APP_CONFIG => 6
      | .APP_DATA => 7
      | .APP_VOTE => 8
      | .OP_MEDIATOR_CREATE => 9
      | .APP_CONTRACT_TPL_REQUEST => 100
      | .APP_CONTRACT_DEPLOY_REQUEST => 101
      | .APP_CONTRACT_INVOKE_REQUEST => 102
      | .APP_CONTRACT_STOP_REQUEST => 103
      | .APP_UNKNOWN code => code
    checkTxValid := fun _ => true }

/-- A request transaction that invokes the user contract with id `[7]`. -/
def exampleUserInvoke : Transaction :=
  ⟨21, [⟨APP_PAYMENT, .PaymentPayload [] []⟩,
    ⟨APP_CONTRACT_INVOKE_REQUEST, .ContractInvokeRequestPayload (some [7]) []⟩]⟩

/-- The library call `time.Since(t)` at the clock reading `now`: the elapsed
nanoseconds as a `time.Duration`, which the library holds within the `int64`
range. -/
def timeSince (now t : Time) : Int :=
  max (-(2 : Int) ^ 63) (min ((2 : Int) ^ 63 - 1) (now - t))

/-- One sweep of `Processor.ContractTxDeleteLoop` (the body run every 20
seconds under the lock): `now k` is the clock reading when the record under
the key `k` is examined. -/
def ContractTxDeleteSweep (now : Hash → Time) (p : Processor) : Processor :=
  { p with
    mtx := fun k =>
      match p.mtx k with
      | none => none
      | some v =>
        if timeSince (now k) v.tm > 1000000000 * 100 then
          if v.valid = false then none else some v
        else some v }

/-- A processor with two records made at time 0: under the key 7 one that is
not valid, under the key 8 one that is valid. -/
def exampleSweepProcessor : Processor :=
  (emptyProcessor.setMtx 7
      { reqTx := none, rstTx := none, sigTx := none, rcvTx := [], eleInf := [],
        reqRcvEd := false, tm := 0, valid := false }).setMtx 8
    { reqTx := none, rstTx := none, sigTx := none, rcvTx := [], eleInf := [],
      reqRcvEd := false, tm := 0, valid := true }

/-- The type `nodeInfo`: the address of a local account and its node type. -/
structure nodeInfo where
  addr : Address
  ntype : Int
  deriving DecidableEq, Repr

/-- The method `Processor.getLocalNodesInfo`: the returned nodes (none for nil)
and the returned error. -/
def getLocalNodesInfo (jenv : JuryEnv) : List nodeInfo × Option String :=
  if jenv.localAccounts.length < 1 then ([], some "getLocalNodeInfo, no local account")
  else
    (jenv.localAccounts.map (fun addr =>
        { addr := addr
          ntype :=
            if jenv.IsLocalActiveMediator addr then TMediator
            else if isLocalActiveJury jenv addr then TJury
            else 0 }),
      none)

/-- The part of `ProcessContractSigEvent` after the check of the local nodes,
for the record `ctx` tracked under `reqId`: the mediator, jury and default
handling of the first node. -/
def sigEventHandle (p : Processor) (reqId : Hash) (ctx : contractTx) (tx : Transaction)
    (nodes : List nodeInfo) :
    Option (Option String × Option Hash × Option (Option Transaction) × Processor) :=
  let failure : Option String := some "ProcessContractSigEvent err with tx id"
  match nodes with
  | [] => none
  | node :: _ =>
    if node.ntype = TMediator then
      match getTxSigNum (some tx) with
      | none => none
      | some n =>
        if n ≥ CONTRACT_SIG_NUM then
          some (failure, none, none, p.setMtx reqId { ctx with rstTx := some tx })
        else some (failure, none, none, p)
    else if node.ntype = TJury then
      match checkAndAddTxData ctx.sigTx (some tx) with
      | none => none
      | some (ok, err, sigTx1) =>
        let p1 := p.setMtx reqId { ctx with sigTx := sigTx1 }
        if err = none ∧ ok = true then
          match getTxSigNum sigTx1 with
          | none => none
          | some n =>
            if n ≥ CONTRACT_SIG_NUM then
              match localIsMinSigure sigTx1 with
              | none => none
              | some true => some (failure, none, some sigTx1, p1)
              | some false => some (failure, none, none, p1)
            else some (failure, none, none, p1)
        else some (failure, none, none, p1)
    else some (none, none, none, p)

/-- The method `Processor.ProcessContractSigEvent`, run at time `now`; `event`
is `none` for a nil event and `some none` for an event whose `Tx` is nil.  The
result is the returned error, the request whose contract run is started by
`go p.runContractReq(ctx)`, the transaction broadcast by
`go p.ptn.ContractSigBroadcast` and the processor as the call leaves it; the
result `none` is a fault. -/
def ProcessContractSigEvent (env : TxEnv) (jenv : JuryEnv) (now : Int) (p : Processor)
    (event : Option (Option Transaction)) :
    Option (Option String × Option Hash × Option (Option Transaction) × Processor) :=
  match event with
  | none => some (some "ProcessContractSigEvent param is nil", none, none, p)
  | some none => none
  | some (some tx) =>
    if tx.TxMessages.length < 1 then
      some (some "ProcessContractSigEvent param is nil", none, none, p)
    else if jenv.checkTxValid tx = false then
      some (some "ProcessContractSigEvent event Tx is invalid", none, none, p)
    else
      let reqId := env.RequestHash tx
      match p.mtx reqId with
      | none =>
        match nodeContractExecutable jenv jenv.localAccounts (some tx) with
        | none => none
        | some exec =>
          let ctx : contractTx :=
            { reqTx := some tx, rstTx := none, sigTx := none, rcvTx := [tx], eleInf := [],
              reqRcvEd := false, tm := now, valid := true, executable := exec }
          some (none, if exec then some reqId else none, none, p.setMtx reqId ctx)
      | some ctx =>
        let r := getLocalNodesInfo jenv
        if r.2 = none ∨ r.1.length < 1 then
          some (some "ProcessContractSigEvent getLocalNodesInfo fail", none, none, p)
        else sigEventHandle p reqId ctx tx r.1

/-- A signature event transaction for the request 21: a payment, an invoke
result and three signatures. -/
def exampleSigTx : Transaction :=
  ⟨21, [⟨APP_PAYMENT, .PaymentPayload [] []⟩,
    ⟨APP_CONTRACT_INVOKE, .ContractInvokePayload (some [7]) []⟩,
    ⟨APP_SIGNATURE, .SignaturePayload
      [⟨some [1], some [4]⟩, ⟨some [2], some [5]⟩, ⟨some [3], some [6]⟩]⟩]⟩

/-- A processor that tracks the request 21, with no result yet. -/
def exampleTrackingProcessor : Processor :=
  emptyProcessor.setMtx 21
    { reqTx := some exampleUserInvoke, rstTx := none, sigTx := none, rcvTx := [], eleInf := [],
      reqRcvEd := true, tm := 0, valid := true }

/-! ## The jury processor: contract runs (consensus/jury/service.go, contractEvent.go) -/

/-- What the contract runs and the signature events use from outside the
embedded files, taken as parameters.  `ContractProcess trs msg` is the result of
`ContractProcess` on the request that `runContractCmd` builds from the message
`msg` of the transaction `trs` (for an invoke request with the arguments that
`handleMsg0` completes): `none` for an error, else the result with its dynamic
type, an invoke result being given as the invoke payload that
`NewContractInvokePayload` makes of it.  `marshalInvokeInfo` is `json.Marshal`
on the invoke information (`none` for the empty one): address, asset, amount
and fees.  `contractAddr` is the result of `common.StringToAddress` on the
fixed contract address.  The other fields are the functions of the same name;
for those that return an error `none` is the error, and those that write to
their first argument return it as they leave it. -/
structure ContractEnv where
  ContractProcess : Transaction → Message → Option Payload
  GetAddrByOutPoint : OutPoint → Option Address
  GetAddressFromScript : Bytes → Option Address
  contractAddr : Option Address
  GetTxFee : Transaction → Option Nat
  marshalInvokeInfo : Option (Address × Nat × Nat × Nat) → Option Bytes
  resultToContractPayments : Payload → Option (List Payload)
  resultToCoinbase : Payload → Option (List Payload)
  GenContractTransction : Option Transaction → Option (List Message) → Option Transaction
  GenContractSigTransction : Address → Transaction → Option Transaction
  checkTxReceived : List Transaction → Transaction → Bool
  checkAndAddTxSigMsgData : Option Transaction → Transaction →
    Bool × Option String × Option Transaction
  localIsMinSignature : Option Transaction → Bool
  processContractPayout : Option Transaction → List ElectionInf → Option Transaction
  contractSigNum : Int

/-- The function `msgsCompare`; a nil slice is `none`.  The last message of each
list with the tag `msgType` is taken, and the two are compared deeply. -/
def msgsCompare (msgsA msgsB : Option (List Message)) (msgType : MessageType) : Bool :=
  match msgsA, msgsB with
  | some a, some b =>
    let msg1 := (a.filter (fun v => decide (v.App = msgType))).getLast?
    let msg2 := (b.filter (fun v => decide (v.App = msgType))).getLast?
    match msg1, msg2 with
    | some m1, some m2 => decide (m1 = m2)
    | _, _ => false
  | _, _ => false

/-- The closure `getSigPay` of `checkAndAddSigSet`: the signatures of the first
SIGNATURE message; the outer `none` is a faulting type assertion, the inner
`none` the result nil. -/
def getSigPay : List Message → Option (Option (List SignatureSet))
  | [] => some none
  | v :: rest =>
    if v.App = APP_SIGNATURE then
      match v.Payload with
      | .SignaturePayload sigs => some (some sigs)
      | _ => none
    else getSigPay rest

/-- The write `localSigPay.Signatures = append(...)` of `checkAndAddSigSet`:
the signature list of the first SIGNATURE message is replaced. -/
def setSigPay (sigs : List SignatureSet) : List Message → List Message
  | [] => []
  | v :: rest =>
    if v.App = APP_SIGNATURE then { v with Payload := .SignaturePayload sigs } :: rest
    else v :: setSigPay sigs rest

/-- The function `checkAndAddSigSet`: the returned error and the transaction
`local` as the call leaves it; the result `none` is a fault.  The tag `app` is
that of the first message of `local` whose numeric tag lies between those of
APP_CONTRACT_TPL and APP_SIGNATURE. -/
def checkAndAddSigSet (jenv : JuryEnv) (localTx recv : Option Transaction) :
    Option (Option String × Option Transaction) :=
  match localTx, recv with
  | some l, some r =>
    let found := l.TxMessages.find? (fun msg =>
      decide (jenv.AppCode msg.App ≥ jenv.AppCode APP_CONTRACT_TPL) &&
        decide (jenv.AppCode msg.App ≤ jenv.AppCode APP_SIGNATURE))
    match found with
    | none => some (some "checkAndAddSigSet not find contract app type", localTx)
    | some fmsg =>
      if jenv.AppCode fmsg.App ≤ 0 then
        some (some "checkAndAddSigSet not find contract app type", localTx)
      else if msgsCompare (some l.TxMessages) (some r.TxMessages) fmsg.App then
        match getSigPay l.TxMessages with
        | none => none
        | some localSigPay =>
          match getSigPay r.TxMessages with
          | none => none
          | some recvSigPay =>
            match localSigPay, recvSigPay with
            | some ls, some rs =>
              match rs with
              | [] => none
              | r0 :: _ =>
                some (none, some { l with TxMessages := setSigPay (ls ++ [r0]) l.TxMessages })
            | _, _ => some (some "checkAndAddSigSet add sig fail", localTx)
      else some (some "checkAndAddSigSet add sig fail", localTx)
  | _, _ => some (some "checkAndAddSigSet param is nil", localTx)

/-- The loop over the outputs in `handleMsg0`: the amount sent to the contract
address, a `uint64` sum; `none` is an error returned. -/
def handleMsg0Outputs (cenv : ContractEnv) : List Output → Nat → Option Nat
  | [], amount => some amount
  | output :: rest, amount =>
    match cenv.GetAddressFromScript output.PkScript with
    | none => none
    | some addr =>
      match cenv.contractAddr with
      | none => none
      | some contractAddr =>
        if addr = contractAddr then handleMsg0Outputs cenv rest (wrapU64 (amount + output.Value))
        else handleMsg0Outputs cenv rest amount

/-- The function `handleMsg0`, as far as the first argument that it puts before
the request arguments: the outer `none` is a fault (the type assertion on the
payload of message 0, `Inputs[0]` or `outputs[0]` out of range), the inner
`none` an error returned. -/
def handleMsg0 (cenv : ContractEnv) (tx : Transaction) : Option (Option Bytes) :=
  match tx.TxMessages with
  | [] => some (cenv.marshalInvokeInfo none)
  | msg0 :: _ =>
    match msg0.Payload with
    | .PaymentPayload inputs outputs =>
      match inputs with
      | [] => none
      | input0 :: _ =>
        match cenv.GetAddrByOutPoint input0.PreviousOutPoint with
        | none => some none
        | some invokeAddr =>
          match outputs with
          | [] => none
          | output0 :: _ =>
            match handleMsg0Outputs cenv outputs 0 with
            | none => some none
            | some amount =>
              match cenv.GetTxFee tx with
              | none => some none
              | some invokeFees =>
                some (cenv.marshalInvokeInfo (some (invokeAddr, output0.Asset, amount, invokeFees)))
    | _ => none

/-- The loop of `runContractCmd` over the messages of `trs`: the returned tag
(`none` for the literal 0), message list (`none` for nil) and error.  The
result `none` is a fault: a type assertion on a request payload or on the
result of `ContractProcess` that fails, or a fault of `handleMsg0`. -/
def runContractCmdMsgs (cenv : ContractEnv) (trs : Transaction) :
    List Message → Option (Option MessageType × Option (List Message) × Option String)
  | [] => some (none, none, some "runContractCmd err")
  | msg :: rest =>
    match msg.App with
    | APP_CONTRACT_TPL_REQUEST =>
      match msg.Payload with
      | .ContractInstallRequestPayload _ _ _ =>
        match cenv.ContractProcess trs msg with
        | none => some (some msg.App, none, some "runContractCmd APP_CONTRACT_TPL_REQUEST err")
        | some (.ContractTplPayload content) =>
          some (some APP_CONTRACT_TPL,
            some [⟨APP_CONTRACT_TPL, .ContractTplPayload content⟩], none)
        | some _ => none
      | _ => none
    | APP_CONTRACT_DEPLOY_REQUEST =>
      match msg.Payload with
      | .ContractDeployRequestPayload _ _ _ =>
        match cenv.ContractProcess trs msg with
        | none => some (some msg.App, none, some "runContractCmd APP_CONTRACT_DEPLOY_REQUEST err")
        | some (.ContractDeployPayload _ _) => some (some APP_CONTRACT_DEPLOY, none, none)
        | some _ => none
      | _ => none
    | APP_CONTRACT_INVOKE_REQUEST =>
      match msg.Payload with
      | .ContractInvokeRequestPayload _ _ =>
        match handleMsg0 cenv trs with
        | none => none
        | some none => some (some APP_CONTRACT_INVOKE, none, some "handleMsg0 err")
        | some (some _) =>
          match cenv.ContractProcess trs msg with
          | none => some (some msg.App, none, some "runContractCmd APP_CONTRACT_INVOKE err")
          | some (.ContractInvokePayload contractId content) =>
            let msgs0 : List Message :=
              [⟨APP_CONTRACT_INVOKE, .ContractInvokePayload contractId content⟩]
            match cenv.resultToContractPayments (.ContractInvokePayload contractId content) with
            | none => some (some APP_CONTRACT_INVOKE, none, some "resultToContractPayments err")
            | some payments =>
              let msgs1 := msgs0 ++ payments.map (fun pay => (⟨APP_PAYMENT, pay⟩ : Message))
              match cenv.resultToCoinbase (.ContractInvokePayload contractId content) with
              | none => some (some APP_CONTRACT_INVOKE, none, some "resultToCoinbase err")
              | some cs =>
                some (some APP_CONTRACT_INVOKE,
                  some (msgs1 ++ cs.map (fun pay => (⟨APP_PAYMENT, pay⟩ : Message))), none)
          | some _ => none
      | _ => none
    | APP_CONTRACT_STOP_REQUEST =>
      match msg.Payload with
      | .ContractStopRequestPayload _ =>
        match cenv.ContractProcess trs msg with
        | none => some (some msg.App, none, some "runContractCmd APP_CONTRACT_STOP_REQUEST err")
        | some _ => some (some APP_CONTRACT_STOP, some [], none)
      | _ => none
    | _ => runContractCmdMsgs cenv trs rest

/-- The function `runContractCmd`; `trs` is `none` for nil. -/
def runContractCmd (cenv : ContractEnv) (trs : Option Transaction) :
    Option (Option MessageType × Option (List Message) × Option String) :=
  match trs with
  | none => some (none, none, some "runContractCmd transaction or msg is nil")
  | some t =>
    if t.TxMessages.length ≤ 0 then
      some (none, none, some "runContractCmd transaction or msg is nil")
    else runContractCmdMsgs cenv t t.TxMessages

/-- The loop `for _, rtx := range req.rcvTx` of `runContractReq`: each received
transaction is offered to `checkAndAddSigSet`, whose error is only logged. -/
def addReceivedSigs (jenv : JuryEnv) : List Transaction → Option Transaction →
    Option (Option Transaction)
  | [], sigTx => some sigTx
  | rtx :: rest, sigTx =>
    match checkAndAddSigSet jenv sigTx (some rtx) with
    | none => none
    | some (_, sigTx1) => addReceivedSigs jenv rest sigTx1

/-- The method `Processor.runContractReq` on the record that `p.mtx` holds under
`reqId` (a missing record stands for the nil argument): the returned error, the
transaction broadcast by `go p.ptn.ContractSigBroadcast` and the processor as
the call leaves it; the result `none` is a fault (the log of a failed run reads
`req.reqTx.RequestHash()`).  The address is the first key of `p.local` in the
order of its iteration. -/
def runContractReq (jenv : JuryEnv) (cenv : ContractEnv) (p : Processor) (reqId : Hash) :
    Option (Option String × Option Transaction × Processor) :=
  match p.mtx reqId with
  | none => some (some "runContractReq param is nil", none, p)
  | some req =>
    match runContractCmd cenv req.reqTx with
    | none => none
    | some (_, _, some err) => if req.reqTx = none then none else some (some err, none, p)
    | some (_, msgs, none) =>
      match cenv.GenContractTransction req.reqTx msgs with
      | none => some (some "GenContractTransction err", none, p)
      | some tx =>
        match isSystemContract jenv tx with
        | none => none
        | some true => some (none, none, p.setMtx reqId { req with rstTx := some tx })
        | some false =>
          let addr := jenv.localAccounts.headD zeroAddress
          match cenv.GenContractSigTransction addr tx with
          | none => some (some "", none, p)
          | some sigTx =>
            if req.rcvTx.length > 0 then
              match addReceivedSigs jenv req.rcvTx (some sigTx) with
              | none => none
              | some sigTx1 =>
                some (none, sigTx1, p.setMtx reqId { req with sigTx := sigTx1, rcvTx := [] })
            else some (none, some sigTx, p.setMtx reqId { req with sigTx := some sigTx })

/-- The method `Processor.contractSigEvent`, run under the processor lock at
time `now`: the returned `broadcast`, the returned error, the transaction
broadcast as a COMMIT event (`none` when there is no broadcast) and the
processor as the call leaves it; the result `none` is a fault of
`getTxSigNum`. -/
def contractSigEvent (env : TxEnv) (cenv : ContractEnv) (now : Int) (p : Processor)
    (tx : Transaction) (ele : List ElectionInf) :
    Option (Bool × Option String × Option (Option Transaction) × Processor) :=
  let reqId := env.RequestHash tx
  match p.mtx reqId with
  | none =>
    let ctx : contractTx :=
      { reqTx := some (env.GetRequestTx tx), rstTx := none, sigTx := none, rcvTx := [tx],
        eleInf := ele, reqRcvEd := false, tm := now, valid := true }
    some (true, none, none, p.setMtx reqId ctx)
  | some ctx0 =>
    if cenv.checkTxReceived ctx0.rcvTx tx then some (false, none, none, p)
    else
      let r := cenv.checkAndAddTxSigMsgData ctx0.sigTx tx
      let ctx1 : contractTx := { ctx0 with rcvTx := ctx0.rcvTx ++ [tx], sigTx := r.2.2 }
      if r.2.1 = none ∧ r.1 = true then
        match getTxSigNum ctx1.sigTx with
        | none => none
        | some n =>
          if (n : Int) ≥ cenv.contractSigNum ∧ cenv.localIsMinSignature ctx1.sigTx = true then
            let sigTx2 := cenv.processContractPayout ctx1.sigTx ele
            some (true, none, some sigTx2, p.setMtx reqId { ctx1 with sigTx := sigTx2 })
          else some (true, none, none, p.setMtx reqId ctx1)
      else if r.2.1 ≠ none then some (true, r.2.1, none, p.setMtx reqId ctx1)
      else some (true, none, none, p.setMtx reqId ctx1)

/-- The loop of `Processor.AddContractLoop` over the records of `p.mtx`; `keys`
lists the keys in the order of the iteration.  The result is the list of the
transactions handed to `txpool.AddLocal` and the processor. -/
def addContractLoopKeys (jenv : JuryEnv) (cenv : ContractEnv) (addr : Address) :
    List Hash → List Transaction → Processor → List Transaction × Processor
  | [], submitted, p => (submitted, p)
  | k :: rest, submitted, p =>
    match p.mtx k with
    | none => addContractLoopKeys jenv cenv addr rest submitted p
    | some ctx =>
      match ctx.rstTx with
      | none => addContractLoopKeys jenv cenv addr rest submitted p
      | some rstTx =>
        if ctx.valid = false then addContractLoopKeys jenv cenv addr rest submitted p
        else
          let p1 := p.setMtx k { ctx with valid := false }
          if jenv.checkTxValid rstTx = false then
            addContractLoopKeys jenv cenv addr rest submitted p1
          else
            match cenv.GenContractSigTransction addr rstTx with
            | none => addContractLoopKeys jenv cenv addr rest submitted p1
            | some tx => addContractLoopKeys jenv cenv addr rest (submitted ++ [tx]) p1

/-- The method `Processor.AddContractLoop` (it returns nil). -/
def AddContractLoop (jenv : JuryEnv) (cenv : ContractEnv) (addr : Address) (keys : List Hash)
    (p : Processor) : List Transaction × Processor :=
  addContractLoopKeys jenv cenv addr keys [] p

/-- The method `Processor.CheckContractTxValid`: the returned boolean and the
processor as the call leaves it; `tx` is `none` for nil and the result `none`
is a fault (of `isSystemContract`, of `runContractCmd`, or the write
`p.mtx[reqId].valid = false` without a record). -/
def CheckContractTxValid (env : TxEnv) (jenv : JuryEnv) (cenv : ContractEnv) (p : Processor)
    (tx : Option Transaction) : Option (Bool × Processor) :=
  match tx with
  | none => some (false, p)
  | some t =>
    let reqId := env.RequestHash t
    if jenv.checkTxValid t = false then some (false, p)
    else
      match nodeContractExecutable jenv jenv.localAccounts (some t) with
      | none => none
      | some false => some (false, p)
      | some true =>
        let rerun (record : Option contractTx) : Option (Bool × Processor) :=
          match runContractCmd cenv (some t) with
          | none => none
          | some (_, _, some _) => some (false, p)
          | some (_, msgs, none) =>
            match record with
            | none => none
            | some ctx =>
              some (msgsCompare msgs (some t.TxMessages) APP_CONTRACT_INVOKE,
                p.setMtx reqId { ctx with valid := false })
        match p.mtx reqId with
        | none => rerun none
        | some ctx =>
          if ctx.valid = false ∨ ctx.executable = false then some (false, p)
          else
            match ctx.rstTx with
            | some rstTx =>
              some (msgsCompare (some rstTx.TxMessages) (some t.TxMessages) APP_CONTRACT_INVOKE, p)
            | none => rerun (some ctx)

/-- An instance of the outside functions of the contract runs, used for
examples: a run answers a request with the result of its type, the generated
transaction is the request followed by the result messages, signing appends a
SIGNATURE message, and a received transaction is known when it is in `rcvTx`. -/
def exampleContractEnv : ContractEnv :=
  { ContractProcess := fun _ msg =>
      match msg.Payload with
      | .ContractInvokeRequestPayload cid c => some (.ContractInvokePayload cid c)
      | .ContractInstallRequestPayload _ _ _ => some (.ContractTplPayload [])
      | .ContractDeployRequestPayload tpl _ _ => some (.ContractDeployPayload tpl [])
      | _ => some (.OtherPayload [])
    GetAddrByOutPoint := fun _ => some 1
    GetAddressFromScript := fun _ => some 2
    contractAddr := some 3
    GetTxFee := fun _ => some 1
    marshalInvokeInfo := fun _ => some (some [])
    resultToContractPayments := fun _ => some []
    resultToCoinbase := fun _ => some []
    GenContractTransction := fun req msgs =>
      req.map (fun t => { t with TxMessages := t.TxMessages ++ msgs.getD [] })
    GenContractSigTransction := fun _ tx =>
      some { tx with TxMessages := tx.TxMessages ++
        [⟨APP_SIGNATURE, .SignaturePayload [⟨some [1], some [9]⟩]⟩] }
    checkTxReceived := fun rcv tx => decide (tx ∈ rcv)
    checkAndAddTxSigMsgData := fun l _ => (false, none, l)
    localIsMinSignature := fun _ => false
    processContractPayout := fun l _ => l
    contractSigNum := 3 }

/-- A request transaction that invokes the system contract with id `[0]`; its
payment message has one input and one output. -/
def exampleSysInvoke : Transaction :=
  ⟨21, [⟨APP_PAYMENT, .PaymentPayload [⟨⟨77, 0, 0⟩, none, none⟩] [⟨10, none, 0⟩]⟩,
    ⟨APP_CONTRACT_INVOKE_REQUEST, .ContractInvokeRequestPayload (some [0]) []⟩]⟩

/-- A record with `rstTx` set (to the transaction `exampleSigTx`); the request
has not been received by an EXEC event. -/
def exampleResultRecord : contractTx :=
  { reqTx := some exampleSysInvoke, rstTx := some exampleSigTx, sigTx := none, rcvTx := [],
    eleInf := [], reqRcvEd := false, tm := 0, valid := true, executable := true }

/-- A processor that holds the record `exampleResultRecord` for the request 21. -/
def exampleResultProcessor : Processor := emptyProcessor.setMtx 21 exampleResultRecord

/-- The pool reached from the empty pool by three calls of `add`, for the
transactions with hashes 1, 2, 3 and priorities 10, 50, 30; `none` if a call
faults. -/
def exampleThreeAdds : Option TxPool :=
  ((TxPool.add examplePoolEnv 1 examplePool (examplePooled 1 10) false).bind
    (fun r1 => TxPool.add examplePoolEnv 1 r1.2 (examplePooled 2 50) false)).bind
    (fun r2 =>
      (TxPool.add examplePoolEnv 1 r2.2 (examplePooled 3 30) false).map (fun r3 => r3.2))

/-- An empty pool with the default limits and no journal: the pool that
`NewTxPool` builds when the `Journal` path is empty. -/
def exampleNoJournalPool : TxPool := { examplePool with journal := none }

/-- A transaction as a call of `tx.Hash()` leaves it: the hash is cached in
`TxHash`. -/
def cacheHash (env : PoolEnv) (tx : Transaction) : Transaction :=
  { tx with TxHash := env.Hash tx }

/-- The batch that `TxPool.AddRemotes` hands to `addTxs`:
`make([]*modules.TxPoolTransaction, len(txs))` is a slice of `len(txs)` nil
entries, and the loop appends one converted transaction for each element of
`txs` behind them. -/
def addRemotesBatch (computePriority : Transaction → Nat) (pool : TxPool)
    (txs : List Transaction) : List (Option TxPoolTransaction) :=
  List.replicate txs.length none
    ++ txs.map (fun tx => some (TxtoTxpoolTx computePriority pool tx))

/-- The method `TxPool.AddRemotes`: the errors returned and the pool; `none` is
a fault or the fuel running out. -/
def TxPool.AddRemotes (env : PoolEnv) (popOrder : List Hash → List Hash)
    (computePriority : Transaction → Nat) (fuel : Nat) (pool : TxPool)
    (txs : List Transaction) : Option (List (Option TxPoolError) × TxPool) :=
  TxPool.addTxsLocked env popOrder fuel pool (addRemotesBatch computePriority pool txs) false

/-- A request transaction that installs a template. -/
def exampleInstallReq : Transaction :=
  ⟨31, [⟨APP_CONTRACT_TPL_REQUEST, .ContractInstallRequestPayload "tpl" "path" "1"⟩]⟩

/-- A request transaction that deploys the template `[7]`. -/
def exampleDeployReq : Transaction :=
  ⟨32, [⟨APP_CONTRACT_DEPLOY_REQUEST, .ContractDeployRequestPayload (some [7]) "tx" 0⟩]⟩

/-- A request transaction that stops a contract. -/
def exampleStopReq : Transaction :=
  ⟨33, [⟨APP_CONTRACT_STOP_REQUEST, .ContractStopRequestPayload []⟩]⟩

/-! ## Signatures (common/crypto, spec 4.A) -/

/-- The parameters of a curve `y² = x³ + a·x + b` over the field of `p`
elements, with a base point `G` of order `N`. -/
structure CurveParams where
  p : Nat
  a : Nat
  b : Nat
  G : Nat × Nat
  N : Nat
  deriving DecidableEq, Repr

/-- The parameters of the curve secp256k1 (SEC 2), which the spec fixes for
signatures. -/
def secp256k1 : CurveParams :=
  { p := 0xFFFFFFFFFFFFFFFFFFFFFFFFFFFFFFFFFFFFFFFFFFFFFFFFFFFFFFFEFFFFFC2F
    a := 0
    b := 7
    G := (0x79BE667EF9DCBBAC55A06295CE870B07029BFCDB2DCE28D959F2815B16F81798,
      0x483ADA7726A3C4655DA4FBFC0E1108A8FD17B448A68554199C47D08FFB10D4B8)
    N := 0xFFFFFFFFFFFFFFFFFFFFFFFFFFFFFFFEBAAEDCE6AF48A03BBFD25E8CD0364141 }

/-- Repeated squaring, four binary digits of the exponent at a time:
`acc * b ^ e` modulo `m`; the fuel bounds the number of digits of `e`. -/
def powModAux (m : Nat) : Nat → Nat → Nat → Nat → Nat
  | 0, _, _, acc => acc
  | fuel + 1, b, e, acc =>
    if e = 0 then acc
    else powModAux m fuel (b ^ 16 % m) (e / 16) (acc * b ^ (e % 16) % m)

/-- The power `b ^ e` modulo `m`. -/
def powMod (m b e : Nat) : Nat := powModAux m e (b % m) e (1 % m)

/-- The inverse of `x` modulo the prime `m`, as the power `x ^ (m - 2)`. -/
def invMod (m x : Nat) : Nat := powMod m x (m - 2)

/-- A point of the curve in affine coordinates; `none` is the point at
infinity. -/
abbrev CurvePoint := Option (Nat × Nat)

/-- Whether `(x, y)` is a pair of field elements that satisfies the curve
equation. -/
def onCurve (c : CurveParams) (x y : Nat) : Bool :=
  decide (x < c.p) && decide (y < c.p) &&
    decide (y * y % c.p = (x * x * x + c.a * x + c.b) % c.p)

/-- The negative of a point. -/
def ptNeg (c : CurveParams) : CurvePoint → CurvePoint
  | none => none
  | some (x, y) => some (x, (c.p - y) % c.p)

/-- The sum of two points, by the chord and tangent formulas. -/
def ptAdd (c : CurveParams) (P Q : CurvePoint) : CurvePoint :=
  match P, Q with
  | none, _ => Q
  | some _, none => P
  | some (x1, y1), some (x2, y2) =>
    if x1 = x2 then
      if (y1 + y2) % c.p = 0 then none
      else
        let l := (3 * x1 * x1 + c.a) % c.p * invMod c.p (2 * y1 % c.p) % c.p
        let x3 := (l * l + (c.p - x1) + (c.p - x2)) % c.p
        some (x3, (l * (x1 + (c.p - x3)) + (c.p - y1)) % c.p)
    else
      let l := (y1 + (c.p - y2)) % c.p * invMod c.p ((x1 + (c.p - x2)) % c.p) % c.p
      let x3 := (l * l + (c.p - x1) + (c.p - x2)) % c.p
      some (x3, (l * (x1 + (c.p - x3)) + (c.p - y1)) % c.p)

/-- Double-and-add: `acc + k·P`; the fuel bounds the number of binary digits
of `k`. -/
def ptMulAux (c : CurveParams) : Nat → Nat → CurvePoint → CurvePoint → CurvePoint
  | 0, _, _, acc => acc
  | fuel + 1, k, P, acc =>
    if k = 0 then acc
    else ptMulAux c fuel (k / 2) (ptAdd c P P) (if k % 2 = 1 then ptAdd c acc P else acc)

/-- The multiple `k·P` of a point. -/
def ptMul (c : CurveParams) (k : Nat) (P : CurvePoint) : CurvePoint :=
  ptMulAux c k k P none

/-- The number that a byte string spells, big-endian. -/
def beDecode (bs : List Nat) : Nat := bs.foldl (fun acc b => acc * 256 + b) 0

/-- The `len` low-order bytes of `x`, big-endian. -/
def beEncode : Nat → Nat → List Nat
  | 0, _ => []
  | len + 1, x => beEncode len (x / 256) ++ [x % 256]

/-- The square root of `v` modulo a prime `p` with `p % 4 = 3`, when `v` is a
square. -/
def sqrtMod (p v : Nat) : Nat := powMod p v ((p + 1) / 4)

/-- The uncompressed form of a public key: `0x04 ‖ x(32) ‖ y(32)`. -/
def serializeUncompressed (P : Nat × Nat) : List Nat :=
  4 :: (beEncode 32 P.1 ++ beEncode 32 P.2)

/-- The compressed form of a public key: `0x02` or `0x03`, by the parity of
`y`, then `x(32)`. -/
def serializeCompressed (P : Nat × Nat) : List Nat :=
  (2 + P.2 % 2) :: beEncode 32 P.1

/-- The point that a public key spells, in either form; `none` if the bytes
have another length or prefix or do not give a point of the curve. -/
def parsePubKey (c : CurveParams) (pub : List Nat) : Option (Nat × Nat) :=
  match pub with
  | [] => none
  | tag :: rest =>
    if tag = 4 ∧ rest.length = 64 then
      let x := beDecode (rest.take 32)
      let y := beDecode (rest.drop 32)
      if onCurve c x y then some (x, y) else none
    else if (tag = 2 ∨ tag = 3) ∧ rest.length = 32 then
      let x := beDecode rest
      let y0 := sqrtMod c.p ((x * x * x + c.a * x + c.b) % c.p)
      let y := if y0 % 2 = tag % 2 then y0 else (c.p - y0) % c.p
      if onCurve c x y then some (x, y) else none
    else none

/-- The signature equation of ECDSA for the numbers `r`, `s`, the public point
`Q` and the hash value `z`: `r` and `s` lie in `[1, N - 1]` and the point
`(z/s)·G + (r/s)·Q` is finite with an x-coordinate congruent to `r`. -/
def ecdsaEquation (c : CurveParams) (Q : Nat × Nat) (r s z : Nat) : Bool :=
  if 0 < r ∧ r < c.N ∧ 0 < s ∧ s < c.N then
    let w := invMod c.N s
    match ptAdd c (ptMul c (z * w % c.N) (some c.G)) (ptMul c (r * w % c.N) (some Q)) with
    | none => false
    | some (x, _) => decide (x % c.N = r)
  else false

/-- The numbers `r`, `s` and the recovery id of the ECDSA signature of the hash
value `z` under the key `d` with the nonce `k`, with `s` brought into the lower
half of the order; `none` when the nonce is refused (`r = 0` or `s = 0`). -/
def ecdsaSign (c : CurveParams) (d z k : Nat) : Option (Nat × Nat × Nat) :=
  match ptMul c k (some c.G) with
  | none => none
  | some (x, y) =>
    let r := x % c.N
    let s := invMod c.N k * ((z + r * d) % c.N) % c.N
    if r = 0 ∨ s = 0 then none
    else
      let v := y % 2 + (if x < c.N then 0 else 2)
      if s > c.N / 2 then some (r, c.N - s, (v + 1) % 2 + v / 2 * 2)
      else some (r, s, v)

/-- Modelled from the spec: the method `MyCryptoLib.PrivateKeyToPubKey`
(common/crypto), of which only the tests are at hand: the public key of the
private key `priv`, a 32-byte number `d` in `[1, N - 1]`, is the point `d·G`,
here in its uncompressed form (the spec accepts either form in `verify`). -/
def PrivateKeyToPubKey (c : CurveParams) (priv : Bytes) : Option (List Nat) :=
  match priv with
  | none => none
  | some bs =>
    if bs.length = 32 ∧ 0 < beDecode bs ∧ beDecode bs < c.N then
      (ptMul c (beDecode bs) (some c.G)).map serializeUncompressed
    else none

/-- Modelled from the spec: the function `compress_pubkey(65B) → 33B`
(common/crypto `compressPubkey`, of which only the tests are at hand). -/
def CompressPubkey (c : CurveParams) (pub : List Nat) : Option (List Nat) :=
  if pub.length = 65 then (parsePubKey c pub).map serializeCompressed else none

/-- Modelled from the spec: the function `decompress_pubkey(33B) → 65B`
(common/crypto `DecompressPubkey`, of which only the tests are at hand). -/
def DecompressPubkey (c : CurveParams) (pub : List Nat) : Option (List Nat) :=
  if pub.length = 33 then (parsePubKey c pub).map serializeUncompressed else none

/-- Modelled from the spec: the method `MyCryptoLib.Sign` (common/crypto), of
which only the tests are at hand: `sign(privkey, msg_hash) → 65-byte sig`, the
signature being `r(32)‖s(32)‖recovery(1)` on the curve secp256k1 with `s` in
the lower half of the curve order.  The nonce `k` that the signing library
draws is a parameter; `none` is an error: a key that is not a 32-byte number in
`[1, N - 1]`, a hash that is not 32 bytes long, or a nonce that is not in
`[1, N - 1]` or is refused. -/
def Sign (c : CurveParams) (k : Nat) (priv msg : Bytes) : Option (List Nat) :=
  match priv, msg with
  | some bs, some h =>
    if bs.length = 32 ∧ 0 < beDecode bs ∧ beDecode bs < c.N ∧ h.length = 32 ∧
        0 < k ∧ k < c.N then
      (ecdsaSign c (beDecode bs) (beDecode h) k).map
        (fun rsv => beEncode 32 rsv.1 ++ beEncode 32 rsv.2.1 ++ [rsv.2.2])
    else none
  | _, _ => none

/-- Modelled from the spec: the method `MyCryptoLib.Verify` (common/crypto), of
which only the tests are at hand: `verify(pubkey, sig, msg_hash) → bool`.  A nil
public key, a nil signature, a message that is not 32 bytes long (empty,
truncated), a signature that is neither `r(32)‖s(32)‖recovery(1)` nor that
stripped of the recovery byte (truncated, trailing bytes) and a public key that
is neither the compressed (33 bytes, prefix 0x02/0x03) nor the uncompressed
(65 bytes, prefix 0x04) form of a point of the curve give `false`; any
`s > N/2` gives `false`; otherwise the result is that of the signature
equation. -/
def Verify (c : CurveParams) (pub sig msg : Bytes) : Bool :=
  match pub, sig, msg with
  | some pk, some sg, some h =>
    if h.length = 32 ∧ (sg.length = 64 ∨ sg.length = 65) then
      match parsePubKey c pk with
      | none => false
      | some Q =>
        let r := beDecode (sg.take 32)
        let s := beDecode ((sg.drop 32).take 32)
        if s > c.N / 2 then false
        else ecdsaEquation c Q r s (beDecode h)
    else false
  | _, _, _ => false

/-- The signature with `s` replaced by `N - s` (and the recovery byte, if
present, kept): the other signature that the signature equation admits. -/
def malleate (c : CurveParams) (sig : List Nat) : List Nat :=
  sig.take 32 ++ beEncode 32 (c.N - beDecode ((sig.drop 32).take 32)) ++ sig.drop 64

/-- The conditions on the parameters under which the points of the curve form
a group in which `G` generates a subgroup of prime order `N`, and under which
field elements and scalars are 32-byte numbers: `p` is a prime with
`p % 4 = 3`, the curve is nonsingular, `G` is a point of the curve, `N` is an
odd prime and `N·G` is the point at infinity. -/
structure CurveParams.Valid (c : CurveParams) : Prop where
  prime_p : c.p.Prime
  p_mod : c.p % 4 = 3
  a_lt : c.a < c.p
  b_lt : c.b < c.p
  disc : (4 * c.a ^ 3 + 27 * c.b ^ 2) % c.p ≠ 0
  prime_N : c.N.Prime
  N_odd : c.N % 2 = 1
  G_on : onCurve c c.G.1 c.G.2 = true
  G_order : ptMul c c.N (some c.G) = none
  p_bits : c.p < 2 ^ 256
  N_bits : c.N < 2 ^ 256

/-- The curve over the field `ZMod p`, as a Weierstrass curve of Mathlib. -/
def curveW (c : CurveParams) : WeierstrassCurve (ZMod c.p) :=
  ⟨0, 0, 0, (c.a : ZMod c.p), (c.b : ZMod c.p)⟩

/-- The relation between a point in coordinates and the point of the
Weierstrass curve over `ZMod p` that it stands for. -/
def Represents (c : CurveParams) (P : CurvePoint) (Q : (curveW c).toAffine.Point) : Prop :=
  match P, Q with
  | none, .zero => True
  | some (x, y), @WeierstrassCurve.Affine.Point.some _ _ _ x1 y1 _ =>
    x < c.p ∧ y < c.p ∧ (x : ZMod c.p) = x1 ∧ (y : ZMod c.p) = y1
  | _, _ => False

/-- A curve of the same shape as secp256k1, `y² = x³ + 7`, over the field of
43 elements; its 31 points form a group of prime order generated by
`(2, 12)`. -/
def exampleCurve : CurveParams := { p := 43, a := 0, b := 7, G := (2, 12), N := 31 }


/-- The message hash `testmsg` of the tests (signature_test.go). -/
def testmsg : List Nat :=
  [0xce, 0x06, 0x77, 0xbb, 0x30, 0xba, 0xa8, 0xcf, 0x06, 0x7c, 0x88, 0xdb, 0x98, 0x11, 0xf4,
    0x33, 0x3d, 0x13, 0x1b, 0xf8, 0xbc, 0xf1, 0x2f, 0xe7, 0x06, 0x5d, 0x21, 0x1d, 0xce, 0x97,
    0x10, 0x08]

/-- The signature `testsig` of the tests, 65 bytes with the recovery id. -/
def testsig : List Nat :=
  [0x90, 0xf2, 0x7b, 0x8b, 0x48, 0x8d, 0xb0, 0x0b, 0x00, 0x60, 0x67, 0x96, 0xd2, 0x98, 0x7f,
    0x6a, 0x5f, 0x59, 0xae, 0x62, 0xea, 0x05, 0xef, 0xfe, 0x84, 0xfe, 0xf5, 0xb8, 0xb0, 0xe5,
    0x49, 0x98, 0x4a, 0x69, 0x11, 0x39, 0xad, 0x57, 0xa3, 0xf0, 0xb9, 0x06, 0x63, 0x76, 0x73,
    0xaa, 0x2f, 0x63, 0xd1, 0xf5, 0x5c, 0xb1, 0xa6, 0x91, 0x99, 0xd4, 0x00, 0x9e, 0xea, 0x23,
    0xce, 0xad, 0xdc, 0x93, 0x01]

/-- The uncompressed public key `testpubkey` of the tests. -/
def testpubkey : List Nat :=
  [0x04, 0xe3, 0x2d, 0xf4, 0x28, 0x65, 0xe9, 0x71, 0x35, 0xac, 0xfb, 0x65, 0xf3, 0xba, 0xe7,
    0x1b, 0xdc, 0x86, 0xf4, 0xd4, 0x91, 0x50, 0xad, 0x6a, 0x44, 0x0b, 0x6f, 0x15, 0x87, 0x81,
    0x09, 0x88, 0x0a, 0x0a, 0x2b, 0x26, 0x67, 0xf7, 0xe7, 0x25, 0xce, 0xea, 0x70, 0xc6, 0x73,
    0x09, 0x3b, 0xf6, 0x76, 0x63, 0xe0, 0x31, 0x26, 0x23, 0xc8, 0xe0, 0x91, 0xb1, 0x3c, 0xf2,
    0xc0, 0xf1, 0x1e, 0xf6, 0x52]

/-- The compressed public key `testpubkeyc` of the tests. -/
def testpubkeyc : List Nat :=
  [0x02, 0xe3, 0x2d, 0xf4, 0x28, 0x65, 0xe9, 0x71, 0x35, 0xac, 0xfb, 0x65, 0xf3, 0xba, 0xe7,
    0x1b, 0xdc, 0x86, 0xf4, 0xd4, 0x91, 0x50, 0xad, 0x6a, 0x44, 0x0b, 0x6f, 0x15, 0x87, 0x81,
    0x09, 0x88, 0x0a]

/-- The signature `sig` of `TestVerifySignatureMalleable`. -/
def malleableSig : List Nat :=
  [0x63, 0x8a, 0x54, 0x21, 0x5d, 0x80, 0xa6, 0x71, 0x3c, 0x8d, 0x52, 0x3a, 0x6a, 0xdc, 0x4e,
    0x6e, 0x73, 0x65, 0x2d, 0x85, 0x91, 0x03, 0xa3, 0x6b, 0x70, 0x08, 0x51, 0xcb, 0x0e, 0x61,
    0xb6, 0x6b, 0x8e, 0xbf, 0xc1, 0xa6, 0x10, 0xc5, 0x7d, 0x73, 0x2e, 0xc6, 0xe0, 0xa8, 0xf0,
    0x6a, 0x9a, 0x7a, 0x28, 0xdf, 0x50, 0x51, 0xec, 0xe5, 0x14, 0x70, 0x2f, 0xf9, 0xcd, 0xff,
    0x0b, 0x11, 0xf4, 0x54]

/-- The public key `key` of `TestVerifySignatureMalleable`. -/
def malleableKey : List Nat :=
  [0x03, 0xca, 0x63, 0x4c, 0xae, 0x0d, 0x49, 0xac, 0xb4, 0x01, 0xd8, 0xa4, 0xc6, 0xb6, 0xfe,
    0x8c, 0x55, 0xb7, 0x0d, 0x11, 0x5b, 0xf4, 0x00, 0x76, 0x9c, 0xc1, 0x40, 0x0f, 0x32, 0x58,
    0xcd, 0x31, 0x38]

/-- The message hash `msg` of `TestVerifySignatureMalleable`. -/
def malleableMsg : List Nat :=
  [0xd3, 0x01, 0xce, 0x46, 0x2d, 0x3e, 0x63, 0x95, 0x18, 0xf4, 0x82, 0xc7, 0xf0, 0x38, 0x21,
    0xfe, 0xc1, 0xe6, 0x02, 0x01, 0x86, 0x30, 0xce, 0x62, 0x1e, 0x1e, 0x78, 0x51, 0xc1, 0x23,
    0x43, 0xa6]

/-- The private key `prvKey` of `TestSignVerify`. -/
def signVerifyPrvKey : List Nat :=
  [0xf4, 0xb4, 0x30, 0xcd, 0x10, 0x07, 0xbf, 0x33, 0x09, 0xa0, 0x0f, 0xdd, 0xa8, 0x1c, 0x58,
    0x13, 0x1a, 0x1e, 0x0a, 0x41, 0xf6, 0xa7, 0x2e, 0xab, 0x32, 0x91, 0xe5, 0x61, 0x34, 0x2a,
    0xe1, 0xb3]

/-- The message hash `hash` of `TestSignVerify`, the Keccak-256 hash of the text "a". -/
def signVerifyHash : List Nat :=
  [0x3a, 0xc2, 0x25, 0x16, 0x8d, 0xf5, 0x42, 0x12, 0xa2, 0x5c, 0x1c, 0x01, 0xfd, 0x35, 0xbe,
    0xbf, 0xea, 0x40, 0x8f, 0xda, 0xc2, 0xe3, 0x1d, 0xdd, 0x6f, 0x80, 0xa4, 0xbb, 0xf9, 0xa5,
    0xf1, 0xcb]

/-- The signed result transaction of the request 21 as a juror holds it: a
payment, the invoke result and the SIGNATURE message with the juror's own
signature at index 0, followed by the signatures collected from the peers. -/
def jurorSigTx (own : SignatureSet) (others : List SignatureSet) : Transaction :=
  ⟨21, [⟨APP_PAYMENT, .PaymentPayload [] []⟩,
    ⟨APP_CONTRACT_INVOKE, .ContractInvokePayload (some [7]) []⟩,
    ⟨APP_SIGNATURE, .SignaturePayload (own :: others)⟩]⟩

/-- The outside functions of a juror node: the one local account 2 is an active
jury and no mediator. -/
def exampleJurorEnv : JuryEnv := { exampleJuryEnv with localAccounts := [2] }

/-- The processor of a juror that tracks the request 21, has signed the result
(`sigTx` with the signature `own`) and has collected the signature `peer`. -/
def jurorProcessor (own peer : SignatureSet) : Processor :=
  emptyProcessor.setMtx 21
    { reqTx := some exampleUserInvoke, rstTx := none, sigTx := some (jurorSigTx own [peer]),
      rcvTx := [], eleInf := [], reqRcvEd := true, tm := 0, valid := true }

/-- The signatures of the three jurors of the example: the second is the
lexicographically smallest. -/
def exampleJurorSigs : List SignatureSet :=
  [⟨some [1], some [7]⟩, ⟨some [2], some [5]⟩, ⟨some [3], some [6]⟩]

/-- What a juror with the signature `own`, having collected `peer1`, does with
the signature event of `peer2`: the error returned and the transaction
broadcast by `ProcessContractSigEvent`. -/
def jurorSigEvent (own peer1 peer2 : SignatureSet) :
    Option (Option String × Option (Option Transaction)) :=
  (ProcessContractSigEvent exampleEnv exampleJurorEnv 5 (jurorProcessor own peer1)
    (some (some (jurorSigTx peer2 [])))).map (fun r => (r.1, r.2.2.1))

/-- What the code of `ProcessContractSigEvent` below the test of the local nodes
does for the same juror and event: the transaction broadcast. -/
def jurorSigHandle (own peer1 peer2 : SignatureSet) : Option (Option (Option Transaction)) :=
  (sigEventHandle (jurorProcessor own peer1) 21
    { reqTx := some exampleUserInvoke, rstTx := none, sigTx := some (jurorSigTx own [peer1]),
      rcvTx := [], eleInf := [], reqRcvEd := true, tm := 0, valid := true }
    (jurorSigTx peer2 []) (getLocalNodesInfo exampleJurorEnv).1).map (fun r => r.2.2.1)

/-! # Theorems -/

/-! ## The shuffle is a permutation -/

theorem swapAt_isSome_of_lt (s : List Address) {i j : Nat} (hi : i < s.length)
    (hj : j < s.length) : ∃ s1, swapAt s i j = some s1 := by
  unfold swapAt
  rw [List.getElem?_eq_getElem hi, List.getElem?_eq_getElem hj]
  exact ⟨_, rfl⟩

theorem swapAt_perm {s s1 : List Address} {i j : Nat} (h : swapAt s i j = some s1) :
    s1.Perm s := by
  unfold swapAt at h
  split at h
  · rename_i a b ha hb
    obtain ⟨hi, rfl⟩ := List.getElem?_eq_some.1 ha
    obtain ⟨hj, rfl⟩ := List.getElem?_eq_some.1 hb
    cases h
    rw [List.perm_iff_count]
    intro x
    have hj1 : j < (s.set i s[j]).length := by simpa using hj
    rw [List.count_set _ _ _ _ hj1, List.count_set _ _ _ _ hi]
    have hget : (s.set i s[j])[j] = s[j] := by
      by_cases hij : i = j
      · subst hij; simp
      · simp [List.getElem_set_ne hij]
    rw [hget]
    have h1 : (if s[i] == x then 1 else 0) ≤ s.count x := by
      split
      · rename_i hx
        have : s[i] = x := by simpa using hx
        subst this
        exact List.count_pos_iff.2 (List.getElem_mem hi)
      · exact Nat.zero_le _
    omega
  · simp at h

theorem swapAt_length {s s1 : List Address} {i j : Nat} (h : swapAt s i j = some s1) :
    s1.length = s.length :=
  (swapAt_perm h).length_eq

theorem copyMediators_append (pre rest : List Address) (z : Address) :
    copyMediators (pre ++ List.replicate rest.length z) pre.length rest = some (pre ++ rest) := by
  induction rest generalizing pre with
  | nil => simp [copyMediators]
  | cons a rest ih =>
    have hlt : pre.length < (pre ++ List.replicate (a :: rest).length z).length := by
      simp
    have hset : (pre ++ List.replicate (a :: rest).length z).set pre.length a
        = (pre ++ [a]) ++ List.replicate rest.length z := by
      simp [List.replicate_succ]
    rw [copyMediators, if_pos hlt, hset]
    have := ih (pre ++ [a])
    simpa using this

theorem copyMediators_replicate (meds : List Address) :
    copyMediators (List.replicate meds.length zeroAddress) 0 meds = some meds := by
  simpa using copyMediators_append [] meds zeroAddress

theorem shuffleLoop_perm (aSize nowHi : Nat) :
    ∀ (todo i : Nat) (s : List Address), i + todo = aSize → s.length = aSize →
      ∃ s1, shuffleLoop aSize nowHi todo i s = some s1 ∧ s1.Perm s := by
  intro todo
  induction todo with
  | zero => intro i s _ _; exact ⟨s, rfl, List.Perm.refl _⟩
  | succ todo ih =>
    intro i s hi hs
    have hjmax : aSize - i ≠ 0 := by omega
    have hmod : shuffleKey nowHi i % (aSize - i) < aSize - i :=
      Nat.mod_lt _ (Nat.pos_of_ne_zero hjmax)
    obtain ⟨s1, hs1⟩ := swapAt_isSome_of_lt s (i := i)
      (j := i + shuffleKey nowHi i % (aSize - i)) (by omega) (by omega)
    obtain ⟨s2, hs2, hp⟩ := ih (i + 1) s1 (by omega) (by rw [swapAt_length hs1, hs])
    refine ⟨s2, ?_, hp.trans (swapAt_perm hs1)⟩
    simp only [shuffleLoop, if_neg hjmax, hs1]
    exact hs2

/-- C1: `UpdateMediatorSchedule` never panics, and whenever it returns true the
new `CurrentShuffledMediators` is a permutation of the active mediators (same
multiset, hence same length); every swap index `j = i + k mod (n-i)` of the
shuffle lies in `[i, n)`. When it returns false the schedule is untouched. -/
theorem UpdateMediatorSchedule_permutation (newest : Option NewestUnit)
    (ms : MediatorSchedule) (gp : GlobalProperty) :
    (∃ b ms1, UpdateMediatorSchedule newest ms gp = some (b, ms1) ∧
      (b = true → ms1.CurrentShuffledMediators.Perm gp.ActiveMediators ∧
        ms1.CurrentShuffledMediators.length = gp.ActiveMediators.length) ∧
      (b = false → ms1 = ms)) ∧
    (∀ nowHi i, i < gp.ActiveMediators.length →
      i ≤ i + shuffleKey nowHi i % (gp.ActiveMediators.length - i) ∧
      i + shuffleKey nowHi i % (gp.ActiveMediators.length - i) < gp.ActiveMediators.length) := by
  constructor
  · unfold UpdateMediatorSchedule
    cases newest with
    | none => exact ⟨false, ms, rfl, by simp, by simp⟩
    | some head =>
      by_cases h0 : gp.ActiveMediators.length = 0
      · exact ⟨false, ms, by simp [h0], by simp, by simp⟩
      · by_cases h1 : head.Index % gp.ActiveMediators.length ≠ 0
        · exact ⟨false, ms, by simp [h0, h1], by simp, by simp⟩
        · obtain ⟨s, hs, hp⟩ := shuffleLoop_perm gp.ActiveMediators.length
            (u64OfI64 (wrapI64 (head.Timestamp * 2 ^ 32))) gp.ActiveMediators.length 0
            gp.ActiveMediators (by simp) rfl
          refine ⟨true, { ms with CurrentShuffledMediators := s }, ?_, ?_, by simp⟩
          · simp only [h0, h1, if_false, copyMediators_replicate, hs]
          · intro _
            exact ⟨hp, hp.length_eq⟩
  · intro nowHi i hi
    have : shuffleKey nowHi i % (gp.ActiveMediators.length - i)
        < gp.ActiveMediators.length - i := Nat.mod_lt _ (by omega)
    omega

theorem UpdateMediatorSchedule_permutation_witness :
    ∃ b ms1, UpdateMediatorSchedule (some ⟨5, 1000⟩) ⟨[]⟩ ⟨[11, 12, 13, 14, 15], 5⟩
        = some (b, ms1) ∧
      (b = true → ms1.CurrentShuffledMediators.Perm [11, 12, 13, 14, 15] ∧
        ms1.CurrentShuffledMediators.length = [11, 12, 13, 14, 15].length) ∧
      (b = false → ms1 = ⟨[]⟩) :=
  (UpdateMediatorSchedule_permutation (some ⟨5, 1000⟩) ⟨[]⟩ ⟨[11, 12, 13, 14, 15], 5⟩).1

/-! ## The scheduled mediator -/

theorem GetScheduledMediator_eq (ms : MediatorSchedule) (dgp : DynamicGlobalProperty)
    (slotNum : Nat) (h : ms.CurrentShuffledMediators ≠ []) :
    some (GetScheduledMediator ms dgp slotNum) =
      ms.CurrentShuffledMediators[wrapU64 (wrapU64 (dgp.CurrentASlot + slotNum) + 2 ^ 64 - 1)
        % ms.CurrentShuffledMediators.length]? := by
  have hlen : ms.CurrentShuffledMediators.length ≠ 0 := by
    simpa [List.length_eq_zero] using h
  have hlt : wrapU64 (wrapU64 (dgp.CurrentASlot + slotNum) + 2 ^ 64 - 1)
      % ms.CurrentShuffledMediators.length < ms.CurrentShuffledMediators.length :=
    Nat.mod_lt _ (Nat.pos_of_ne_zero hlen)
  unfold GetScheduledMediator
  simp only [hlen, dif_neg, not_false_eq_true]
  rw [List.getElem?_eq_getElem hlt]
  rfl

/-- C5, the claim as stated, is false: with `CurrentASlot = 2^64 - 1`, `slotNum = 2`
and three shuffled mediators the `uint64` sum wraps to 1 and the code returns
`shuffled[0]`, while `(CurrentASlot + slotNum - 1) mod 3 = 1`. -/
theorem GetScheduledMediator_stated_counterexample :
    ¬ (∀ (ms : MediatorSchedule) (dgp : DynamicGlobalProperty) (slotNum : Nat),
        dgp.CurrentASlot < 2 ^ 64 → slotNum < 2 ^ 32 →
        ms.CurrentShuffledMediators ≠ [] → 1 ≤ dgp.CurrentASlot + slotNum →
        some (GetScheduledMediator ms dgp slotNum) =
          ms.CurrentShuffledMediators[(dgp.CurrentASlot + slotNum - 1)
            % ms.CurrentShuffledMediators.length]?) := by
  intro hall
  have h := hall ⟨[10, 20, 30]⟩ ⟨0, 2 ^ 64 - 1, 0⟩ 2 (by decide) (by decide) (by decide)
    (by decide)
  revert h
  decide

/-- C5 (amended): for a non-empty shuffled list of length n and
`1 ≤ CurrentASlot + slotNum ≤ 2^64` (the `uint64` sum does not wrap past zero),
`GetScheduledMediator(slotNum)` is `shuffled[(CurrentASlot + slotNum - 1) mod n]`;
for an empty shuffled list it is the zero address. -/
theorem GetScheduledMediator_spec (ms : MediatorSchedule) (dgp : DynamicGlobalProperty)
    (slotNum : Nat) :
    (ms.CurrentShuffledMediators = [] → GetScheduledMediator ms dgp slotNum = zeroAddress) ∧
    (ms.CurrentShuffledMediators ≠ [] → 1 ≤ dgp.CurrentASlot + slotNum →
      dgp.CurrentASlot + slotNum ≤ 2 ^ 64 →
      some (GetScheduledMediator ms dgp slotNum) =
        ms.CurrentShuffledMediators[(dgp.CurrentASlot + slotNum - 1)
          % ms.CurrentShuffledMediators.length]?) := by
  constructor
  · intro h
    simp [GetScheduledMediator, h]
  · intro h h1 h2
    rw [GetScheduledMediator_eq ms dgp slotNum h]
    have : wrapU64 (wrapU64 (dgp.CurrentASlot + slotNum) + 2 ^ 64 - 1)
        = dgp.CurrentASlot + slotNum - 1 := by
      unfold wrapU64
      by_cases hc : dgp.CurrentASlot + slotNum = 2 ^ 64
      · rw [hc]; norm_num
      · have hlt : dgp.CurrentASlot + slotNum < 2 ^ 64 := by omega
        rw [Nat.mod_eq_of_lt hlt]
        have : dgp.CurrentASlot + slotNum + 2 ^ 64 - 1
            = (dgp.CurrentASlot + slotNum - 1) + 2 ^ 64 := by omega
        rw [this, Nat.add_mod_right, Nat.mod_eq_of_lt (by omega)]
    rw [this]

theorem GetScheduledMediator_spec_witness :
    some (GetScheduledMediator ⟨[10, 20, 30]⟩ ⟨0, 7, 0⟩ 2) =
      ([10, 20, 30] : List Address)[(7 + 2 - 1) % 3]? :=
  (GetScheduledMediator_spec ⟨[10, 20, 30]⟩ ⟨0, 7, 0⟩ 2).2 (by decide) (by decide) (by decide)

/-! ## Slot arithmetic -/

theorem wrapI64_of_range {x : Int} (h1 : -(2 : Int) ^ 63 ≤ x) (h2 : x < 2 ^ 63) :
    wrapI64 x = x := by
  unfold wrapI64
  norm_num at h1 h2 ⊢
  omega

theorem tdiv_mul_range (a : Int) {b : Int} (hb : 0 < b) :
    (0 ≤ a → 0 ≤ a.tdiv b * b ∧ a.tdiv b * b ≤ a) ∧
    (a < 0 → a ≤ a.tdiv b * b ∧ a.tdiv b * b ≤ 0) := by
  constructor
  · intro ha
    rw [Int.tdiv_eq_ediv ha hb.le]
    have h1 := Int.ediv_mul_le a hb.ne'
    have h2 : 0 ≤ a / b := Int.ediv_nonneg ha hb.le
    exact ⟨Int.mul_nonneg h2 hb.le, h1⟩
  · intro ha
    have hneg : a.tdiv b = -((-a) / b) := by
      have h := Int.neg_tdiv (-a) b
      rw [Int.neg_neg] at h
      rw [h, Int.tdiv_eq_ediv (by omega) hb.le]
    rw [hneg]
    have h1 := Int.ediv_mul_le (-a) hb.ne'
    have h2 : 0 ≤ (-a) / b := Int.ediv_nonneg (by omega) hb.le
    have h3 := Int.mul_nonneg h2 hb.le
    constructor
    · have : -(-a / b) * b = -((-a / b) * b) := by ring
      rw [this]; omega
    · have : -(-a / b) * b = -((-a / b) * b) := by ring
      rw [this]; omega

theorem GetSlotTime_exact (gp : GlobalProperty) (head : NewestUnit) (n : Nat)
    (hi : 0 < gp.MediatorInterval) (hn : 1 ≤ n) (hov : NoSlotOverflow gp head n) :
    GetSlotTime gp head n = some (timeUnix (specSlotTime gp head n)) := by
  obtain ⟨h1, h2, h3⟩ := hov
  have hn0 : n ≠ 0 := by omega
  have hi0 : gp.MediatorInterval ≠ 0 := by omega
  have hipos : (0 : Int) < (gp.MediatorInterval : Int) := by exact_mod_cast hi
  have hnpos : (0 : Int) < (n : Int) := by exact_mod_cast hn
  have hprod : (0 : Int) ≤ (n : Int) * (gp.MediatorInterval : Int) :=
    Int.mul_nonneg hnpos.le hipos.le
  have hprod2 : (n : Int) * (gp.MediatorInterval : Int) < 2 ^ 63 := by
    nlinarith
  unfold GetSlotTime specSlotTime
  simp only [hn0, if_false]
  by_cases hg : head.Index = 0
  · simp only [hg, if_true]
    rw [wrapI64_of_range (by norm_num; omega) hprod2,
      wrapI64_of_range (by omega) h3]
  · simp only [hg, hi0, if_false]
    have hts : head.Timestamp < 2 ^ 63 := by omega
    have hr := tdiv_mul_range head.Timestamp hipos
    have hw1 : wrapI64 (head.Timestamp.tdiv (gp.MediatorInterval : Int)
        * (gp.MediatorInterval : Int))
        = head.Timestamp.tdiv (gp.MediatorInterval : Int) * (gp.MediatorInterval : Int) := by
      apply wrapI64_of_range
      · by_cases h0 : 0 ≤ head.Timestamp
        · have := (hr.1 h0).1; norm_num; omega
        · have := (hr.2 (by omega)).1; omega
      · by_cases h0 : 0 ≤ head.Timestamp
        · have := (hr.1 h0).2; omega
        · have := (hr.2 (by omega)).2; norm_num; omega
    have hw2 : wrapI64 (1000000000 * (n : Int) * (gp.MediatorInterval : Int))
        = 1000000000 * (n : Int) * (gp.MediatorInterval : Int) := by
      apply wrapI64_of_range _ h2
      have : (0 : Int) ≤ 1000000000 * (n : Int) * (gp.MediatorInterval : Int) := by
        nlinarith
      norm_num; omega
    rw [hw1, hw2]
    unfold timeUnix
    exact congrArg some (by ring)

theorem specSlotTime_shift (gp : GlobalProperty) (head : NewestUnit) (n : Nat) (hn : 1 ≤ n) :
    specSlotTime gp head n
      = specSlotTime gp head 1 + ((n : Int) - 1) * (gp.MediatorInterval : Int) := by
  have hn0 : n ≠ 0 := by omega
  unfold specSlotTime
  by_cases hg : head.Index = 0
  · simp only [hn0, hg, if_true, if_false, one_ne_zero]; push_cast; ring
  · simp only [hn0, hg, if_false, one_ne_zero]; push_cast; ring

theorem slot_le_iff (F w i n : Int) (hi : 0 < i) :
    (F + (n - 1) * i) * 1000000000 ≤ w ↔ n ≤ (w / 1000000000 - F) / i + 1 := by
  have h1 : (F + (n - 1) * i) * 1000000000 ≤ w ↔ F + (n - 1) * i ≤ w / 1000000000 :=
    (Int.le_ediv_iff_mul_le (by norm_num)).symm
  have h2 : (n - 1) * i ≤ w / 1000000000 - F ↔ n - 1 ≤ (w / 1000000000 - F) / i :=
    (Int.le_ediv_iff_mul_le hi).symm
  rw [h1]
  constructor
  · intro h
    have := h2.1 (by omega)
    omega
  · intro h
    have := h2.2 (by omega)
    omega

/-- C6, the claim as stated, is false: with interval 5, a head unit of index 1
and timestamp 0, and `when` = 3100000000 s, `GetSlotAtTime` is 620000000 (it fits
in 32 bits), but slot 4294967295 has `GetSlotTime` ≤ `when` as well, because the
`int64` nanosecond product `10^9 · 4294967295 · 5` wraps around. -/
theorem GetSlotAtTime_greatest_counterexample :
    ¬ (∀ (gp : GlobalProperty) (head : NewestUnit) (when : Time) (r : Nat),
        0 < gp.MediatorInterval → GetSlotAtTime gp head when = some r →
        ∀ (N : Nat) (tN : Time), N < 2 ^ 32 → GetSlotTime gp head N = some tN →
          tN ≤ when → N ≤ r) := by
  intro hall
  have h := hall ⟨[], 5⟩ ⟨1, 0⟩ (timeUnix 3100000000) 620000000 (by decide) (by decide)
    4294967295 3028092401290448384 (by decide) (by decide) (by decide)
  revert h
  decide

theorem unixOf_timeUnix (x : Int) : unixOf (timeUnix x) = x := by
  unfold unixOf timeUnix
  exact Int.mul_ediv_cancel x (by norm_num)

/-- C6 (amended): for a mediator interval > 0, a head unit and a time `when`
(first slot computed without `int64` overflow, result fitting in 32 bits),
`GetSlotAtTime(when)` is 0 if `when < GetSlotTime(1)`, else
`(when - GetSlotTime(1)) / interval + 1`; and among the slot numbers N ≥ 1 whose
`GetSlotTime` computation does not overflow `int64`, `GetSlotTime(N) ≤ when`
holds exactly for `N ≤ GetSlotAtTime(when)`: it is the greatest such N, and 0
when there is none. -/
theorem GetSlotAtTime_spec (gp : GlobalProperty) (head : NewestUnit) (when : Int)
    (hi : 0 < gp.MediatorInterval) (hov : NoSlotOverflow gp head 1)
    (hdiff : unixOf when - specSlotTime gp head 1 < 2 ^ 63)
    (hfit : (unixOf when - specSlotTime gp head 1) / (gp.MediatorInterval : Int) + 1 < 2 ^ 32) :
    ∃ (first : Int) (r : Nat), GetSlotTime gp head 1 = some first ∧ GetSlotAtTime gp head when = some r ∧
      (r : Int) = (if when < first then 0
        else (unixOf when - unixOf first) / (gp.MediatorInterval : Int) + 1) ∧
      (∀ (N : Nat) (tN : Int), 1 ≤ N → NoSlotOverflow gp head N →
        GetSlotTime gp head N = some tN → (tN ≤ when ↔ N ≤ r)) := by
  have hfirst := GetSlotTime_exact gp head 1 hi (le_refl 1) hov
  have hipos : (0 : Int) < (gp.MediatorInterval : Int) := by exact_mod_cast hi
  have hi0 : (gp.MediatorInterval : Int) ≠ 0 := hipos.ne'
  generalize hF : specSlotTime gp head 1 = F at hfirst hdiff hfit
  have hslot : ∀ (N : Nat) (tN : Int), 1 ≤ N → NoSlotOverflow gp head N →
      GetSlotTime gp head N = some tN →
      tN = (F + ((N : Int) - 1) * (gp.MediatorInterval : Int)) * 1000000000 := by
    intro N tN hN hovN hget
    rw [GetSlotTime_exact gp head N hi hN hovN, specSlotTime_shift gp head N hN, hF] at hget
    exact (Option.some.inj hget).symm
  by_cases hlt : when < F * 1000000000
  · refine ⟨F * 1000000000, 0, hfirst, ?_, by simp [hlt], ?_⟩
    · have hlt2 : when < timeUnix F := hlt
      simp [GetSlotAtTime, hfirst, hlt2]
    · intro N tN hN hovN hget
      rw [hslot N tN hN hovN hget]
      have hN1 : (1 : Int) ≤ (N : Int) := by exact_mod_cast hN
      have hmul : (0 : Int) ≤ ((N : Int) - 1) * (gp.MediatorInterval : Int) :=
        Int.mul_nonneg (by omega) hipos.le
      constructor
      · intro h
        omega
      · intro h
        omega
  · have hge : F * 1000000000 ≤ when := by omega
    have hlt2 : ¬ when < timeUnix F := hlt
    have hF2 : F ≤ when / 1000000000 := (Int.le_ediv_iff_mul_le (by norm_num)).2 hge
    have hd0 : 0 ≤ unixOf when - F := by unfold unixOf; omega
    have hq0 : 0 ≤ (unixOf when - F) / (gp.MediatorInterval : Int) :=
      Int.ediv_nonneg hd0 hipos.le
    have hw : wrapI64 (unixOf when - F) = unixOf when - F :=
      wrapI64_of_range (by norm_num; omega) hdiff
    have hval : GetSlotAtTime gp head when
        = some (((unixOf when - F) / (gp.MediatorInterval : Int)).toNat + 1) := by
      simp only [GetSlotAtTime, hfirst, hlt2, if_false, unixOf_timeUnix, hw, hi0]
      rw [Int.tdiv_eq_ediv hd0 hipos.le]
      congr 1
      unfold u32OfI64
      have h1 : (unixOf when - F) / (gp.MediatorInterval : Int) % 2 ^ 32
          = (unixOf when - F) / (gp.MediatorInterval : Int) :=
        Int.emod_eq_of_lt hq0 (by omega)
      rw [h1]
      apply Nat.mod_eq_of_lt
      have : (((unixOf when - F) / (gp.MediatorInterval : Int)).toNat : Int)
          = (unixOf when - F) / (gp.MediatorInterval : Int) := Int.toNat_of_nonneg hq0
      norm_num at hfit ⊢
      omega
    have hcast : (((unixOf when - F) / (gp.MediatorInterval : Int)).toNat : Int)
        = (unixOf when - F) / (gp.MediatorInterval : Int) := Int.toNat_of_nonneg hq0
    refine ⟨F * 1000000000, _, hfirst, hval, ?_, ?_⟩
    · have hu : unixOf (F * 1000000000) = F := unixOf_timeUnix F
      simp only [hlt, if_false, hu]
      push_cast
      rw [hcast]
    · intro N tN hN hovN hget
      rw [hslot N tN hN hovN hget, slot_le_iff F when _ N hipos]
      unfold unixOf at hcast
      constructor
      · intro h
        have : ((N : Int)) ≤ ((((when / 1000000000 - F) / (gp.MediatorInterval : Int)).toNat
            + 1 : Nat) : Int) := by
          push_cast; rw [hcast]; exact h
        exact_mod_cast this
      · intro h
        have : ((N : Int)) ≤ ((((when / 1000000000 - F) / (gp.MediatorInterval : Int)).toNat
            + 1 : Nat) : Int) := by exact_mod_cast h
        push_cast at this
        rw [hcast] at this
        exact this

theorem GetSlotAtTime_spec_witness :
    ∃ (first : Int) (r : Nat), GetSlotTime ⟨[], 5⟩ ⟨1, 12⟩ 1 = some first ∧
      GetSlotAtTime ⟨[], 5⟩ ⟨1, 12⟩ 100000000000 = some r ∧
      (r : Int) = (if (100000000000 : Int) < first then 0
        else (unixOf 100000000000 - unixOf first) / ((5 : Nat) : Int) + 1) ∧
      (∀ (N : Nat) (tN : Int), 1 ≤ N → NoSlotOverflow ⟨[], 5⟩ ⟨1, 12⟩ N →
        GetSlotTime ⟨[], 5⟩ ⟨1, 12⟩ N = some tN → (tN ≤ 100000000000 ↔ N ≤ r)) :=
  GetSlotAtTime_spec ⟨[], 5⟩ ⟨1, 12⟩ 100000000000 (by decide) (by decide) (by decide)
    (by decide)

/-! ## The last irreversible unit -/

theorem collectLastConfirmed_length (dag : DagState) :
    ∀ (adds : List Address) (nums : List Nat),
      collectLastConfirmed dag adds = some nums → nums.length = adds.length := by
  intro adds
  induction adds with
  | nil => intro nums h; simp [collectLastConfirmed] at h; simp [← h]
  | cons a rest ih =>
    intro nums h
    unfold collectLastConfirmed at h
    split at h
    · simp at h
    · split at h
      · simp at h
      · rename_i nums1 hn
        simp only [Option.some.injEq] at h
        rw [← h, List.length_cons, List.length_cons, ih nums1 hn]

theorem collectLastConfirmed_isSome (dag : DagState) :
    ∀ (adds : List Address), (∀ a ∈ adds, ∃ m, dag.mediators a = some m) →
      ∃ nums, collectLastConfirmed dag adds = some nums := by
  intro adds
  induction adds with
  | nil => intro _; exact ⟨[], rfl⟩
  | cons a rest ih =>
    intro h
    obtain ⟨m, hm⟩ := h a (List.mem_cons_self _ _)
    obtain ⟨nums, hn⟩ := ih (fun b hb => h b (List.mem_cons_of_mem _ hb))
    exact ⟨m.LastConfirmedUnitNum :: nums, by simp [collectLastConfirmed, hm, hn]⟩

/-- C4: `updateLastIrreversibleUnit` never decreases
`DGP.LastIrreversibleUnitNum`: whenever the call completes, the stored value is
greater than or equal to the value before, and nothing else of the state
changes; and the call does complete whenever every active mediator has a
record and `1 ≤ threshold ≤ |active|`. -/
theorem updateLastIrreversibleUnit_monotone (dag : DagState) :
    (∀ dag1, updateLastIrreversibleUnit dag = some dag1 →
      dag.dgp.LastIrreversibleUnitNum ≤ dag1.dgp.LastIrreversibleUnitNum ∧
      dag1.gp = dag.gp ∧ dag1.ms = dag.ms ∧ dag1.mediators = dag.mediators ∧
      dag1.dgp.CurrentASlot = dag.dgp.CurrentASlot ∧
      dag1.dgp.NextMaintenanceTime = dag.dgp.NextMaintenanceTime) ∧
    ((∀ a ∈ dag.gp.ActiveMediators, ∃ m, dag.mediators a = some m) →
      1 ≤ dag.curThreshold → dag.curThreshold ≤ (dag.gp.ActiveMediators.length : Int) →
      ∃ dag1, updateLastIrreversibleUnit dag = some dag1) := by
  constructor
  · intro dag1 h
    unfold updateLastIrreversibleUnit at h
    split at h
    · simp at h
    · simp only at h
      split at h
      · simp at h
      · split at h
        · simp at h
        · split at h
          · rename_i hgt
            simp only [Option.some.injEq] at h
            subst h
            exact ⟨Nat.le_of_lt hgt, rfl, rfl, rfl, rfl, rfl⟩
          · simp only [Option.some.injEq] at h
            subst h
            exact ⟨le_refl _, rfl, rfl, rfl, rfl, rfl⟩
  · intro hrec h1 h2
    obtain ⟨nums, hn⟩ := collectLastConfirmed_isSome dag _ hrec
    have hlen := collectLastConfirmed_length dag _ _ hn
    have hoff : ¬ ((dag.GetActiveMediatorCount : Int) - dag.curThreshold < 0) := by
      unfold DagState.GetActiveMediatorCount; omega
    have hlt : ((dag.GetActiveMediatorCount : Int) - dag.curThreshold).toNat
        < (nums.insertionSort (· ≤ ·)).length := by
      rw [List.length_insertionSort, hlen]
      unfold DagState.GetActiveMediatorCount; omega
    unfold updateLastIrreversibleUnit
    simp only [hn, hoff, if_false, List.getElem?_eq_getElem hlt]
    split
    · exact ⟨_, rfl⟩
    · exact ⟨_, rfl⟩

/-- A chain state with three active mediators and threshold 3. -/
theorem updateLastIrreversibleUnit_monotone_witness :
    ∃ dag1, updateLastIrreversibleUnit
        { gp := ⟨[1, 2, 3], 5⟩, dgp := ⟨4, 0, 0⟩, ms := ⟨[1, 2, 3]⟩,
          mediators := fun a => some ⟨a, 0, 6 + a⟩, curThreshold := 3 } = some dag1 ∧
      4 ≤ dag1.dgp.LastIrreversibleUnitNum :=
  have h := updateLastIrreversibleUnit_monotone
    { gp := ⟨[1, 2, 3], 5⟩, dgp := ⟨4, 0, 0⟩, ms := ⟨[1, 2, 3]⟩,
      mediators := fun a => some ⟨a, 0, 6 + a⟩, curThreshold := 3 }
  (h.2 (fun a _ => ⟨_, rfl⟩) (by decide) (by decide)).elim
    (fun dag1 h1 => ⟨dag1, h1, (h.1 dag1 h1).1⟩)

/-! ## The byte order behind the leader rule -/

theorem compareBytes_range (a b : List Nat) :
    compareBytes a b = -1 ∨ compareBytes a b = 0 ∨ compareBytes a b = 1 := by
  induction a generalizing b with
  | nil => cases b <;> simp [compareBytes]
  | cons x xs ih =>
    cases b with
    | nil => simp [compareBytes]
    | cons y ys =>
      simp only [compareBytes]
      split
      · simp
      · split
        · simp
        · exact ih ys

theorem compareBytes_self (a : List Nat) : compareBytes a a = 0 := by
  induction a with
  | nil => rfl
  | cons x xs ih => simp [compareBytes, ih]

theorem compareBytes_eq_zero {a b : List Nat} (h : compareBytes a b = 0) : a = b := by
  induction a generalizing b with
  | nil => cases b <;> simp [compareBytes] at h ⊢
  | cons x xs ih =>
    cases b with
    | nil => simp [compareBytes] at h
    | cons y ys =>
      simp only [compareBytes] at h
      split at h
      · simp at h
      · split at h
        · simp at h
        · have hxy : x = y := by omega
          rw [hxy, ih h]

theorem compareBytes_swap (a b : List Nat) : compareBytes b a = -compareBytes a b := by
  induction a generalizing b with
  | nil => cases b <;> simp [compareBytes]
  | cons x xs ih =>
    cases b with
    | nil => simp [compareBytes]
    | cons y ys =>
      simp only [compareBytes]
      by_cases h1 : x < y
      · have h2 : ¬ y < x := by omega
        simp [h1, h2]
      · by_cases h2 : y < x
        · simp [h1, h2]
        · simp [h1, h2, ih ys]

theorem compareBytes_trans {a b c : List Nat} (h1 : compareBytes a b ≤ 0)
    (h2 : compareBytes b c ≤ 0) : compareBytes a c ≤ 0 := by
  induction a generalizing b c with
  | nil => cases c <;> simp [compareBytes]
  | cons x xs ih =>
    cases b with
    | nil => simp [compareBytes] at h1
    | cons y ys =>
      cases c with
      | nil => simp [compareBytes] at h2
      | cons z zs =>
        simp only [compareBytes] at h1 h2 ⊢
        by_cases hxy : x < y
        · by_cases hyz : y < z
          · have : x < z := by omega
            simp [this]
          · by_cases hzy : z < y
            · simp [hyz, hzy] at h2
            · have : x < z := by omega
              simp [this]
        · by_cases hyx : y < x
          · simp [hxy, hyx] at h1
          · simp only [hxy, hyx, if_false] at h1
            by_cases hyz : y < z
            · have : x < z := by omega
              simp [this]
            · by_cases hzy : z < y
              · simp [hyz, hzy] at h2
              · simp only [hyz, hzy, if_false] at h2
                have e1 : ¬ x < z := by omega
                have e2 : ¬ z < x := by omega
                simp only [e1, e2, if_false]
                exact ih h1 h2

theorem bytesCompare_total (a b : Bytes) : bytesCompare a b ≤ 0 ∨ bytesCompare b a ≤ 0 := by
  unfold bytesCompare
  rw [compareBytes_swap a.toList b.toList]
  rcases compareBytes_range a.toList b.toList with h | h | h <;> rw [h] <;> simp

theorem bytesCompare_antisymm {a b : Bytes} (h1 : bytesCompare a b ≤ 0)
    (h2 : bytesCompare b a ≤ 0) : a.toList = b.toList := by
  unfold bytesCompare at h1 h2
  rw [compareBytes_swap a.toList b.toList] at h2
  exact compareBytes_eq_zero (by omega)

theorem exists_min_signature (sigs : List SignatureSet) (hne : sigs ≠ []) :
    ∃ s ∈ sigs, ∀ t ∈ sigs, bytesCompare s.Signature t.Signature ≤ 0 := by
  induction sigs with
  | nil => exact absurd rfl hne
  | cons a rest ih =>
    by_cases hr : rest = []
    · subst hr
      refine ⟨a, by simp, ?_⟩
      intro t ht
      simp only [List.mem_singleton] at ht
      subst ht
      unfold bytesCompare
      rw [compareBytes_self]
    · obtain ⟨m, hm, hmin⟩ := ih hr
      by_cases ham : bytesCompare a.Signature m.Signature ≤ 0
      · refine ⟨a, by simp, ?_⟩
        intro t ht
        rcases List.mem_cons.1 ht with h | h
        · subst h; unfold bytesCompare; rw [compareBytes_self]
        · exact compareBytes_trans ham (hmin t h)
      · have hma : bytesCompare m.Signature a.Signature ≤ 0 := by
          rcases bytesCompare_total a.Signature m.Signature with h | h
          · exact absurd h ham
          · exact h
        refine ⟨m, List.mem_cons_of_mem _ hm, ?_⟩
        intro t ht
        rcases List.mem_cons.1 ht with h | h
        · subst h; exact hma
        · exact hmin t h

/-! ## localIsMinSigure -/

theorem localIsMinSigureLoop_eq_true (localSig : Bytes) (sigs : List SignatureSet) :
    localIsMinSigureLoop localSig sigs = true ↔
      ∀ s ∈ sigs, s.Signature ≠ none ∧ bytesCompare localSig s.Signature ≤ 0 := by
  induction sigs with
  | nil => simp [localIsMinSigureLoop]
  | cons a rest ih =>
    simp only [localIsMinSigureLoop, List.mem_cons, forall_eq_or_imp]
    by_cases h1 : a.Signature = none
    · simp [h1]
    · by_cases h2 : bytesCompare localSig a.Signature ≥ 1
      · have : ¬ bytesCompare localSig a.Signature ≤ 0 := by omega
        simp [h1, h2, this]
      · have : bytesCompare localSig a.Signature ≤ 0 := by omega
        simp [h1, h2, this, ih]

theorem localIsMinSigureMsgs_skip (pre : List Message) (rest : List Message)
    (hpre : ∀ m ∈ pre, m.App ≠ APP_SIGNATURE) :
    localIsMinSigureMsgs (pre ++ rest) = localIsMinSigureMsgs rest := by
  induction pre with
  | nil => rfl
  | cons m pre ih =>
    have hm : m.App ≠ APP_SIGNATURE := hpre m (List.mem_cons_self _ _)
    simp only [List.cons_append, localIsMinSigureMsgs, hm, if_false]
    exact ih (fun x hx => hpre x (List.mem_cons_of_mem _ hx))

theorem localIsMinSigure_eval (h : Hash) (pre post : List Message) (s0 : SignatureSet)
    (rest : List SignatureSet) (hpre : ∀ m ∈ pre, m.App ≠ APP_SIGNATURE)
    (hmsgs : 3 ≤ pre.length + 1 + post.length) :
    localIsMinSigure (some ⟨h, pre ++ ⟨APP_SIGNATURE, .SignaturePayload (s0 :: rest)⟩ :: post⟩)
      = some (decide (CONTRACT_SIG_NUM ≤ (s0 :: rest).length)
          && localIsMinSigureLoop s0.Signature (s0 :: rest)) := by
  have hlen : ¬ (pre ++ ⟨APP_SIGNATURE, .SignaturePayload (s0 :: rest)⟩ :: post).length < 3 := by
    simp only [List.length_append, List.length_cons]; omega
  simp only [localIsMinSigure, hlen, if_false]
  rw [localIsMinSigureMsgs_skip pre _ hpre]
  simp only [localIsMinSigureMsgs, if_true]
  simp only [List.length_cons]
  by_cases hn : rest.length + 1 < CONTRACT_SIG_NUM
  · have : ¬ CONTRACT_SIG_NUM ≤ rest.length + 1 := by omega
    simp [hn, this]
  · have : CONTRACT_SIG_NUM ≤ rest.length + 1 := by omega
    simp [hn, this]

/-- C9, the claim as stated, is false: with the signature list
`[05, 05, 06]` (three entries, none nil, the first two with equal signature
bytes under different public keys) `localIsMinSigure` returns true, although the
local signature is not strictly less than the first peer signature. -/
theorem localIsMinSigure_strict_counterexample :
    ¬ (∀ (h : Hash) (pre post : List Message) (sigs : List SignatureSet),
        (∀ m ∈ pre, m.App ≠ APP_SIGNATURE) → 3 ≤ pre.length + 1 + post.length →
        ∃ b, localIsMinSigure
            (some ⟨h, pre ++ ⟨APP_SIGNATURE, .SignaturePayload sigs⟩ :: post⟩) = some b ∧
          (b = true ↔ (CONTRACT_SIG_NUM ≤ sigs.length ∧ (∀ s ∈ sigs, s.Signature ≠ none) ∧
            ∀ s0 rest, sigs = s0 :: rest →
              ∀ s ∈ rest, bytesCompare s0.Signature s.Signature < 0))) := by
  intro hall
  obtain ⟨b, hb, hiff⟩ := hall 1
    [⟨APP_PAYMENT, .PaymentPayload [] []⟩,
     ⟨APP_CONTRACT_INVOKE_REQUEST, .ContractInvokeRequestPayload (some [9]) []⟩] []
    [⟨some [1], some [5]⟩, ⟨some [2], some [5]⟩, ⟨some [3], some [6]⟩]
    (by decide) (by decide)
  have hcode : localIsMinSigure (some ⟨1,
      [⟨APP_PAYMENT, .PaymentPayload [] []⟩,
       ⟨APP_CONTRACT_INVOKE_REQUEST, .ContractInvokeRequestPayload (some [9]) []⟩,
       ⟨APP_SIGNATURE, .SignaturePayload
         [⟨some [1], some [5]⟩, ⟨some [2], some [5]⟩, ⟨some [3], some [6]⟩]⟩]⟩)
      = some true := by decide
  have hbt : b = true := by
    have h2 := hb.symm.trans hcode
    exact Option.some.inj h2
  have hlt := (hiff.1 hbt).2.2 ⟨some [1], some [5]⟩
    [⟨some [2], some [5]⟩, ⟨some [3], some [6]⟩] rfl ⟨some [2], some [5]⟩ (by decide)
  revert hlt
  decide

/-- C9 (amended): for every transaction with at least 3 messages whose first
SIGNATURE message carries a non-empty signature list `sigs`, `localIsMinSigure`
returns (without faulting) true iff `len(sigs) ≥ CONTRACT_SIG_NUM`, no
signature is nil, and no peer signature `sigs[i]`, i ≥ 1, is strictly smaller
than the local signature `sigs[0]` in byte-wise lexicographic order (equal
bytes are accepted); in every other case it returns false. -/
theorem localIsMinSigure_spec (h : Hash) (pre post : List Message) (s0 : SignatureSet)
    (rest : List SignatureSet) (hpre : ∀ m ∈ pre, m.App ≠ APP_SIGNATURE)
    (hmsgs : 3 ≤ pre.length + 1 + post.length) :
    ∃ b, localIsMinSigure
        (some ⟨h, pre ++ ⟨APP_SIGNATURE, .SignaturePayload (s0 :: rest)⟩ :: post⟩) = some b ∧
      (b = true ↔ (CONTRACT_SIG_NUM ≤ (s0 :: rest).length ∧
        (∀ s ∈ s0 :: rest, s.Signature ≠ none) ∧
        ∀ s ∈ rest, bytesCompare s0.Signature s.Signature ≤ 0)) := by
  refine ⟨_, localIsMinSigure_eval h pre post s0 rest hpre hmsgs, ?_⟩
  rw [Bool.and_eq_true, decide_eq_true_eq, localIsMinSigureLoop_eq_true]
  have hself : bytesCompare s0.Signature s0.Signature ≤ 0 := by
    unfold bytesCompare; rw [compareBytes_self]
  constructor
  · rintro ⟨h1, h2⟩
    exact ⟨h1, fun s hs => (h2 s hs).1, fun s hs => (h2 s (List.mem_cons_of_mem _ hs)).2⟩
  · rintro ⟨h1, h2, h3⟩
    refine ⟨h1, fun s hs => ⟨h2 s hs, ?_⟩⟩
    rcases List.mem_cons.1 hs with e | e
    · subst e; exact hself
    · exact h3 s e

theorem localIsMinSigure_spec_witness :
    ∃ b, localIsMinSigure
        (some ⟨1, [⟨APP_PAYMENT, .PaymentPayload [] []⟩,
          ⟨APP_CONTRACT_INVOKE, .ContractInvokePayload (some [9]) []⟩] ++
          ⟨APP_SIGNATURE, .SignaturePayload
            (⟨some [1], some [4]⟩ :: [⟨some [2], some [5]⟩, ⟨some [3], some [6]⟩])⟩ :: []⟩)
          = some b ∧
      (b = true ↔ (CONTRACT_SIG_NUM ≤
          ((⟨some [1], some [4]⟩ : SignatureSet) ::
            [⟨some [2], some [5]⟩, ⟨some [3], some [6]⟩]).length ∧
        (∀ s ∈ (⟨some [1], some [4]⟩ : SignatureSet) ::
            [⟨some [2], some [5]⟩, ⟨some [3], some [6]⟩], s.Signature ≠ none) ∧
        ∀ s ∈ ([⟨some [2], some [5]⟩, ⟨some [3], some [6]⟩] : List SignatureSet),
          bytesCompare (some [4]) s.Signature ≤ 0)) :=
  localIsMinSigure_spec 1 [⟨APP_PAYMENT, .PaymentPayload [] []⟩,
      ⟨APP_CONTRACT_INVOKE, .ContractInvokePayload (some [9]) []⟩] []
    ⟨some [1], some [4]⟩ [⟨some [2], some [5]⟩, ⟨some [3], some [6]⟩] (by decide) (by decide)

/-- An empty signature list makes `localIsMinSigure` fault: `sigs[0]` is read
before the length of `sigs` is checked. -/
theorem localIsMinSigure_empty_sigs_faults :
    localIsMinSigure (some ⟨1, [⟨APP_PAYMENT, .PaymentPayload [] []⟩,
      ⟨APP_CONTRACT_INVOKE, .ContractInvokePayload (some [9]) []⟩,
      ⟨APP_SIGNATURE, .SignaturePayload []⟩]⟩) = none := by
  decide

/-- The leader that `localIsMinSigure` picks is unique: for every list of at
least `CONTRACT_SIG_NUM` pairwise-distinct, non-nil signatures collected over a
sig_tx (at least 3 messages, the signatures in its first SIGNATURE message),
there is one entry `s`, the lexicographically smallest, such that
`localIsMinSigure` is true on the view of a juror (the collected list in any
order with the juror's own entry at index 0) exactly when the juror's own
entry is `s`.  Whether a juror broadcasts is decided by the caller,
`ProcessContractSigEvent`. -/
theorem localIsMinSigure_unique_leader (h : Hash) (pre post : List Message)
    (sigs : List SignatureSet) (hpre : ∀ m ∈ pre, m.App ≠ APP_SIGNATURE)
    (hmsgs : 3 ≤ pre.length + 1 + post.length) (hnum : CONTRACT_SIG_NUM ≤ sigs.length)
    (hnil : ∀ s ∈ sigs, s.Signature ≠ none)
    (hdist : (sigs.map (fun s => s.Signature.toList)).Nodup) :
    ∃ s ∈ sigs, (∀ t ∈ sigs, bytesCompare s.Signature t.Signature ≤ 0) ∧
      ∀ (own : SignatureSet) (others : List SignatureSet), (own :: others).Perm sigs →
        localIsMinSigure
          (some ⟨h, pre ++ ⟨APP_SIGNATURE, .SignaturePayload (own :: others)⟩ :: post⟩)
            = some (decide (own = s)) := by
  have hne : sigs ≠ [] := by
    intro e; rw [e] at hnum; simp [CONTRACT_SIG_NUM] at hnum
  obtain ⟨s, hs, hmin⟩ := exists_min_signature sigs hne
  refine ⟨s, hs, hmin, ?_⟩
  intro own others hperm
  rw [localIsMinSigure_eval h pre post own others hpre hmsgs]
  have hlen : CONTRACT_SIG_NUM ≤ (own :: others).length := by
    rw [hperm.length_eq]; exact hnum
  have hown : own ∈ sigs := hperm.subset (List.mem_cons_self _ _)
  have hloop : localIsMinSigureLoop own.Signature (own :: others) = decide (own = s) := by
    rw [Bool.eq_iff_iff, localIsMinSigureLoop_eq_true, decide_eq_true_eq]
    constructor
    · intro hall
      have h1 : bytesCompare own.Signature s.Signature ≤ 0 :=
        (hall s (hperm.symm.subset hs)).2
      have h2 : bytesCompare s.Signature own.Signature ≤ 0 := hmin own hown
      exact List.inj_on_of_nodup_map hdist hown hs (bytesCompare_antisymm h1 h2)
    · intro e t ht
      have htm : t ∈ sigs := hperm.subset ht
      exact ⟨hnil t htm, e ▸ hmin t htm⟩
  rw [hloop, decide_eq_true hlen, Bool.true_and]

theorem localIsMinSigure_unique_leader_witness :
    ∃ s ∈ ([⟨some [1], some [7]⟩, ⟨some [2], some [5]⟩, ⟨some [3], some [6]⟩] :
        List SignatureSet),
      (∀ t ∈ ([⟨some [1], some [7]⟩, ⟨some [2], some [5]⟩, ⟨some [3], some [6]⟩] :
        List SignatureSet), bytesCompare s.Signature t.Signature ≤ 0) ∧
      ∀ (own : SignatureSet) (others : List SignatureSet),
        (own :: others).Perm [⟨some [1], some [7]⟩, ⟨some [2], some [5]⟩, ⟨some [3], some [6]⟩] →
        localIsMinSigure
          (some ⟨1, [⟨APP_PAYMENT, .PaymentPayload [] []⟩,
            ⟨APP_CONTRACT_INVOKE, .ContractInvokePayload (some [9]) []⟩] ++
            ⟨APP_SIGNATURE, .SignaturePayload (own :: others)⟩ :: []⟩)
            = some (decide (own = s)) :=
  localIsMinSigure_unique_leader 1 [⟨APP_PAYMENT, .PaymentPayload [] []⟩,
      ⟨APP_CONTRACT_INVOKE, .ContractInvokePayload (some [9]) []⟩] []
    [⟨some [1], some [7]⟩, ⟨some [2], some [5]⟩, ⟨some [3], some [6]⟩]
    (by decide) (by decide) (by decide) (by decide) (by decide)

/-! ## contractCommitEvent -/

theorem setMtx_self (p : Processor) (k : Hash) (ctx : contractTx) :
    (p.setMtx k ctx).mtx k = some ctx := by
  simp [Processor.setMtx]

theorem setMtx_other (p : Processor) (k j : Hash) (ctx : contractTx) (h : j ≠ k) :
    (p.setMtx k ctx).mtx j = p.mtx j := by
  simp [Processor.setMtx, h]

theorem contractCommitEvent_new (env : TxEnv) (now : Int) (p : Processor) (tx : Transaction)
    (hm : p.mtx (env.RequestHash tx) = none) :
    contractCommitEvent env now p tx = (true, none, p.setMtx (env.RequestHash tx)
      { reqTx := some (env.GetRequestTx tx), rstTx := some tx, sigTx := none, rcvTx := [],
        eleInf := [], reqRcvEd := false, tm := now, valid := true }) := by
  unfold contractCommitEvent
  simp only [hm]

theorem contractCommitEvent_unset (env : TxEnv) (now : Int) (p : Processor) (tx : Transaction)
    (ctx : contractTx) (hm : p.mtx (env.RequestHash tx) = some ctx) (hr : ctx.rstTx = none) :
    contractCommitEvent env now p tx = (true, none, p.setMtx (env.RequestHash tx)
      { ctx with valid := true, rstTx := some tx }) := by
  unfold contractCommitEvent
  simp only [hm, hr, ne_eq, not_true_eq_false, if_false]

theorem contractCommitEvent_sets (env : TxEnv) (now : Int) (p : Processor) (tx : Transaction) :
    ∃ ctx, (contractCommitEvent env now p tx).2.2.mtx (env.RequestHash tx) = some ctx ∧
      ctx.rstTx ≠ none := by
  cases hm : p.mtx (env.RequestHash tx) with
  | none =>
    rw [contractCommitEvent_new env now p tx hm]
    exact ⟨_, setMtx_self _ _ _, by simp⟩
  | some ctx =>
    by_cases hr : ctx.rstTx = none
    · rw [contractCommitEvent_unset env now p tx ctx hm hr]
      exact ⟨_, setMtx_self _ _ _, by simp⟩
    · have : contractCommitEvent env now p tx = (false, none, p) := by
        unfold contractCommitEvent
        simp [hm, hr]
      rw [this]
      exact ⟨ctx, hm, hr⟩

theorem contractCommitEvent_ignored (env : TxEnv) (now : Int) (p : Processor)
    (tx : Transaction) (ctx : contractTx) (hm : p.mtx (env.RequestHash tx) = some ctx)
    (hr : ctx.rstTx ≠ none) : contractCommitEvent env now p tx = (false, none, p) := by
  unfold contractCommitEvent
  simp [hm, hr]

theorem contractCommitEvents_ignored (env : TxEnv) (p : Processor) (reqId : Hash)
    (ctx : contractTx) (hm : p.mtx reqId = some ctx) (hr : ctx.rstTx ≠ none) :
    ∀ (evs : List (Int × Transaction)), (∀ e ∈ evs, env.RequestHash e.2 = reqId) →
      contractCommitEvents env p evs = (evs.map (fun _ => (false, none)), p) := by
  intro evs
  induction evs with
  | nil => intro _; rfl
  | cons e rest ih =>
    intro hall
    obtain ⟨now, tx⟩ := e
    have he : env.RequestHash tx = reqId := hall (now, tx) (List.mem_cons_self _ _)
    have h1 := contractCommitEvent_ignored env now p tx ctx (he ▸ hm) hr
    have h2 := ih (fun x hx => hall x (List.mem_cons_of_mem _ hx))
    simp only [contractCommitEvents, h1, h2, List.map_cons]

/-- C2: `contractCommitEvent` sets `rstTx` at most once.  For every processor
state and COMMIT event `tx`: if the request has no result yet (no record, or a
record with `rstTx` nil), the event stores `tx` as `rstTx`, marks the record
valid, returns `broadcast = true` and touches no other request; if a result is
already stored, it returns `(false, nil)` and changes nothing.  After the
event, every sequence of later COMMIT events for the same request id returns
`(false, nil)` each time and leaves the processor unchanged. -/
theorem contractCommitEvent_at_most_once (env : TxEnv) (p : Processor) (now : Int)
    (tx : Transaction) (later : List (Int × Transaction)) :
    ((∀ ctx, p.mtx (env.RequestHash tx) = some ctx → ctx.rstTx = none) →
      (contractCommitEvent env now p tx).1 = true ∧
      (contractCommitEvent env now p tx).2.1 = none ∧
      (∃ ctx, (contractCommitEvent env now p tx).2.2.mtx (env.RequestHash tx) = some ctx ∧
        ctx.rstTx = some tx ∧ ctx.valid = true) ∧
      (∀ k, k ≠ env.RequestHash tx →
        (contractCommitEvent env now p tx).2.2.mtx k = p.mtx k)) ∧
    ((∃ ctx, p.mtx (env.RequestHash tx) = some ctx ∧ ctx.rstTx ≠ none) →
      contractCommitEvent env now p tx = (false, none, p)) ∧
    ((∀ e ∈ later, env.RequestHash e.2 = env.RequestHash tx) →
      contractCommitEvents env (contractCommitEvent env now p tx).2.2 later
        = (later.map (fun _ => (false, none)), (contractCommitEvent env now p tx).2.2)) := by
  refine ⟨?_, ?_, ?_⟩
  · intro hunset
    cases hm : p.mtx (env.RequestHash tx) with
    | none =>
      rw [contractCommitEvent_new env now p tx hm]
      refine ⟨rfl, rfl, ⟨_, setMtx_self _ _ _, rfl, rfl⟩, ?_⟩
      intro k hk
      exact setMtx_other _ _ _ _ hk
    | some ctx =>
      rw [contractCommitEvent_unset env now p tx ctx hm (hunset ctx hm)]
      refine ⟨rfl, rfl, ⟨_, setMtx_self _ _ _, rfl, rfl⟩, ?_⟩
      intro k hk
      exact setMtx_other _ _ _ _ hk
  · rintro ⟨ctx, hm, hr⟩
    exact contractCommitEvent_ignored env now p tx ctx hm hr
  · intro hall
    obtain ⟨ctx, hm, hr⟩ := contractCommitEvent_sets env now p tx
    exact contractCommitEvents_ignored env _ _ ctx hm hr later hall

theorem contractCommitEvent_at_most_once_witness :
    (contractCommitEvent exampleEnv 0 emptyProcessor ⟨7, []⟩).1 = true ∧
    contractCommitEvents exampleEnv (contractCommitEvent exampleEnv 0 emptyProcessor ⟨7, []⟩).2.2
        [(1, ⟨7, []⟩), (2, ⟨7, [⟨APP_DATA, .DataPayload none⟩]⟩)]
      = ([(false, none), (false, none)],
          (contractCommitEvent exampleEnv 0 emptyProcessor ⟨7, []⟩).2.2) :=
  have h := contractCommitEvent_at_most_once exampleEnv emptyProcessor 0 ⟨7, []⟩
    [(1, ⟨7, []⟩), (2, ⟨7, [⟨APP_DATA, .DataPayload none⟩]⟩)]
  ⟨(h.1 (fun _ hc => by cases hc)).1, h.2.2 (by decide)⟩

/-! ## checkAndAddTxData -/

theorem findRecvSigMsg_eq (ls rs : List Message) (h : NonSigEqual ls rs) :
    ∀ acc, findRecvSigMsg ls rs acc
      = some (rs.foldl (fun a r => if r.App = APP_SIGNATURE then some r else a) acc) := by
  unfold NonSigEqual at h
  induction h with
  | nil => intro acc; rfl
  | @cons l r ls rs hlr _ ih =>
    intro acc
    by_cases hs : r.App = APP_SIGNATURE
    · simp only [findRecvSigMsg, hs, if_true, List.foldl_cons]
      exact ih _
    · have hne : ¬ l ≠ r := by simp [hlr hs]
      simp only [findRecvSigMsg, hs, hne, if_false, List.foldl_cons]
      exact ih _

theorem foldl_lastSig_noSig (post : List Message) (hpost : ∀ m ∈ post, m.App ≠ APP_SIGNATURE) :
    ∀ acc, post.foldl (fun a r => if r.App = APP_SIGNATURE then some r else a) acc = acc := by
  induction post with
  | nil => intro acc; rfl
  | cons m post ih =>
    intro acc
    have hm : m.App ≠ APP_SIGNATURE := hpost m (List.mem_cons_self _ _)
    simp only [List.foldl_cons, hm, if_false]
    exact ih (fun x hx => hpost x (List.mem_cons_of_mem _ hx)) acc

theorem foldl_lastSig (pre post : List Message) (m : Message) (hm : m.App = APP_SIGNATURE)
    (hpost : ∀ x ∈ post, x.App ≠ APP_SIGNATURE) (acc : Option Message) :
    (pre ++ m :: post).foldl (fun a r => if r.App = APP_SIGNATURE then some r else a) acc
      = some m := by
  rw [List.foldl_append, List.foldl_cons]
  simp only [hm, if_true]
  exact foldl_lastSig_noSig post hpost _

theorem sigAlreadyReceived_eq (app : MessageType) (r0 : SignatureSet) (rs sigs : List SignatureSet) :
    sigAlreadyReceived ⟨app, .SignaturePayload (r0 :: rs)⟩ sigs = some (sigs.any (sameSig r0)) := by
  induction sigs with
  | nil => rfl
  | cons sig rest ih =>
    simp only [sigAlreadyReceived, List.any_cons]
    by_cases h : sameSig r0 sig = true
    · have h2 := h
      unfold sameSig at h2
      simp [h, h2]
    · have h2 := h
      unfold sameSig at h2
      simp only [h2, if_false]
      rw [ih]
      simp [h]

theorem addRecvSig_skip (recvSigMsg : Message) (pre rest : List Message)
    (hpre : ∀ m ∈ pre, m.App ≠ APP_SIGNATURE) (b : Bool) (msgs : List Message)
    (h : addRecvSig recvSigMsg rest = some (some (b, msgs))) :
    addRecvSig recvSigMsg (pre ++ rest) = some (some (b, pre ++ msgs)) := by
  induction pre with
  | nil => exact h
  | cons m pre ih =>
    have hm : m.App ≠ APP_SIGNATURE := hpre m (List.mem_cons_self _ _)
    have hrec : addRecvSig recvSigMsg (pre.append rest) = some (some (b, pre ++ msgs)) :=
      ih (fun x hx => hpre x (List.mem_cons_of_mem _ hx))
    simp only [List.cons_append, addRecvSig, hm, if_false, hrec]

theorem addRecvSig_at (app : MessageType) (r0 : SignatureSet) (rs sigs : List SignatureSet)
    (post : List Message) :
    addRecvSig ⟨app, .SignaturePayload (r0 :: rs)⟩ (⟨APP_SIGNATURE, .SignaturePayload sigs⟩ :: post)
      = some (some (if sigs.any (sameSig r0) then
          (false, ⟨APP_SIGNATURE, .SignaturePayload sigs⟩ :: post)
        else (true, ⟨APP_SIGNATURE, .SignaturePayload (sigs ++ [r0])⟩ :: post))) := by
  simp only [addRecvSig, if_true, sigAlreadyReceived_eq]
  cases hk : sigs.any (sameSig r0) <;> simp

theorem NonSigEqual_replace (pre post rs : List Message) (m m1 : Message)
    (hm : m.App = APP_SIGNATURE) (h : NonSigEqual (pre ++ m :: post) rs) :
    NonSigEqual (pre ++ m1 :: post) rs := by
  unfold NonSigEqual at h ⊢
  induction pre generalizing rs with
  | nil =>
    cases h with
    | @cons _ r _ rs1 hlr htl =>
      refine List.Forall₂.cons ?_ htl
      intro hr
      have := hlr hr
      rw [← this] at hr
      exact absurd hm hr
  | cons x pre ih =>
    cases h with
    | cons hlr htl => exact List.Forall₂.cons hlr (ih _ htl)

theorem checkAndAddTxData_eval (hl hr : Hash) (lpre lpost rpre rpost : List Message)
    (sigs rs : List SignatureSet) (r0 : SignatureSet)
    (hlpre : ∀ m ∈ lpre, m.App ≠ APP_SIGNATURE) (hrpost : ∀ m ∈ rpost, m.App ≠ APP_SIGNATURE)
    (heq : NonSigEqual (lpre ++ ⟨APP_SIGNATURE, .SignaturePayload sigs⟩ :: lpost)
      (rpre ++ ⟨APP_SIGNATURE, .SignaturePayload (r0 :: rs)⟩ :: rpost)) :
    checkAndAddTxData
        (some ⟨hl, lpre ++ ⟨APP_SIGNATURE, .SignaturePayload sigs⟩ :: lpost⟩)
        (some ⟨hr, rpre ++ ⟨APP_SIGNATURE, .SignaturePayload (r0 :: rs)⟩ :: rpost⟩)
      = some (if sigs.any (sameSig r0) then
          (false, none, some ⟨hl, lpre ++ ⟨APP_SIGNATURE, .SignaturePayload sigs⟩ :: lpost⟩)
        else (true, none,
          some ⟨hl, lpre ++ ⟨APP_SIGNATURE, .SignaturePayload (sigs ++ [r0])⟩ :: lpost⟩)) := by
  have hlen : ¬ (lpre ++ ⟨APP_SIGNATURE, .SignaturePayload sigs⟩ :: lpost).length
      ≠ (rpre ++ ⟨APP_SIGNATURE, .SignaturePayload (r0 :: rs)⟩ :: rpost).length := by
    have := List.Forall₂.length_eq heq
    simp only [ne_eq, not_not]
    exact this
  have hfind := findRecvSigMsg_eq _ _ heq none
  rw [foldl_lastSig rpre rpost _ rfl hrpost] at hfind
  have hadd := addRecvSig_at APP_SIGNATURE r0 rs sigs lpost
  unfold checkAndAddTxData
  simp only [hlen, if_false, hfind]
  cases hk : sigs.any (sameSig r0)
  · rw [hk] at hadd
    simp only [Bool.false_eq_true, if_false] at hadd ⊢
    rw [addRecvSig_skip _ lpre _ hlpre _ _ hadd]
  · rw [hk] at hadd
    simp only [if_true] at hadd ⊢
    rw [addRecvSig_skip _ lpre _ hlpre _ _ hadd]

theorem any_sameSig_iff (r0 : SignatureSet) (sigs : List SignatureSet) :
    sigs.any (sameSig r0) = true ↔
      ∃ sig ∈ sigs, sig.PubKey.toList = r0.PubKey.toList ∧
        sig.Signature.toList = r0.Signature.toList := by
  simp [List.any_eq_true, sameSig, bytesEqual]

/-- C10: `checkAndAddTxData(local, recv)` for transactions whose non-signature
messages are equal, `local` holding the signature list `sigs` in its first
SIGNATURE message and `recv` carrying the signature `r0` first in its SIGNATURE
message.  If an entry with the same public-key bytes and the same signature
bytes as `r0` is already in `sigs`, the result is `(false, nil)` and `local` is
unchanged; otherwise the result is `(true, nil)` and `local` has exactly `r0`
appended to `sigs`, and applying the same `recv` again returns `(false, nil)`
and changes nothing: the signature is added once, not twice. -/
theorem checkAndAddTxData_spec (hl hr : Hash) (lpre lpost rpre rpost : List Message)
    (sigs rs : List SignatureSet) (r0 : SignatureSet)
    (hlpre : ∀ m ∈ lpre, m.App ≠ APP_SIGNATURE) (hrpost : ∀ m ∈ rpost, m.App ≠ APP_SIGNATURE)
    (heq : NonSigEqual (lpre ++ ⟨APP_SIGNATURE, .SignaturePayload sigs⟩ :: lpost)
      (rpre ++ ⟨APP_SIGNATURE, .SignaturePayload (r0 :: rs)⟩ :: rpost)) :
    ((∃ sig ∈ sigs, sig.PubKey.toList = r0.PubKey.toList ∧
        sig.Signature.toList = r0.Signature.toList) →
      checkAndAddTxData
          (some ⟨hl, lpre ++ ⟨APP_SIGNATURE, .SignaturePayload sigs⟩ :: lpost⟩)
          (some ⟨hr, rpre ++ ⟨APP_SIGNATURE, .SignaturePayload (r0 :: rs)⟩ :: rpost⟩)
        = some (false, none,
            some ⟨hl, lpre ++ ⟨APP_SIGNATURE, .SignaturePayload sigs⟩ :: lpost⟩)) ∧
    ((¬ ∃ sig ∈ sigs, sig.PubKey.toList = r0.PubKey.toList ∧
        sig.Signature.toList = r0.Signature.toList) →
      checkAndAddTxData
          (some ⟨hl, lpre ++ ⟨APP_SIGNATURE, .SignaturePayload sigs⟩ :: lpost⟩)
          (some ⟨hr, rpre ++ ⟨APP_SIGNATURE, .SignaturePayload (r0 :: rs)⟩ :: rpost⟩)
        = some (true, none,
            some ⟨hl, lpre ++ ⟨APP_SIGNATURE, .SignaturePayload (sigs ++ [r0])⟩ :: lpost⟩) ∧
      checkAndAddTxData
          (some ⟨hl, lpre ++ ⟨APP_SIGNATURE, .SignaturePayload (sigs ++ [r0])⟩ :: lpost⟩)
          (some ⟨hr, rpre ++ ⟨APP_SIGNATURE, .SignaturePayload (r0 :: rs)⟩ :: rpost⟩)
        = some (false, none,
            some ⟨hl, lpre ++ ⟨APP_SIGNATURE, .SignaturePayload (sigs ++ [r0])⟩ :: lpost⟩)) := by
  have h1 := checkAndAddTxData_eval hl hr lpre lpost rpre rpost sigs rs r0 hlpre hrpost heq
  have heq2 := NonSigEqual_replace lpre lpost _ ⟨APP_SIGNATURE, .SignaturePayload sigs⟩
    ⟨APP_SIGNATURE, .SignaturePayload (sigs ++ [r0])⟩ rfl heq
  have h2 := checkAndAddTxData_eval hl hr lpre lpost rpre rpost (sigs ++ [r0]) rs r0 hlpre
    hrpost heq2
  have hself : (sigs ++ [r0]).any (sameSig r0) = true := by
    simp [List.any_append, sameSig, bytesEqual]
  constructor
  · intro hk
    rw [h1, (any_sameSig_iff r0 sigs).2 hk]
    rfl
  · intro hk
    have hf : sigs.any (sameSig r0) = false := by
      cases hb : sigs.any (sameSig r0)
      · rfl
      · exact absurd ((any_sameSig_iff r0 sigs).1 hb) hk
    constructor
    · rw [h1, hf]; rfl
    · rw [h2, hself]; rfl

theorem checkAndAddTxData_spec_witness :
    checkAndAddTxData
        (some ⟨1, [⟨APP_PAYMENT, .PaymentPayload [] []⟩] ++
          ⟨APP_SIGNATURE, .SignaturePayload [⟨some [1], some [4]⟩]⟩ :: []⟩)
        (some ⟨1, [⟨APP_PAYMENT, .PaymentPayload [] []⟩] ++
          ⟨APP_SIGNATURE, .SignaturePayload (⟨some [2], some [5]⟩ :: [])⟩ :: []⟩)
      = some (true, none,
          some ⟨1, [⟨APP_PAYMENT, .PaymentPayload [] []⟩] ++
            ⟨APP_SIGNATURE, .SignaturePayload
              ([⟨some [1], some [4]⟩] ++ [⟨some [2], some [5]⟩])⟩ :: []⟩) ∧
    checkAndAddTxData
        (some ⟨1, [⟨APP_PAYMENT, .PaymentPayload [] []⟩] ++
          ⟨APP_SIGNATURE, .SignaturePayload
            ([⟨some [1], some [4]⟩] ++ [⟨some [2], some [5]⟩])⟩ :: []⟩)
        (some ⟨1, [⟨APP_PAYMENT, .PaymentPayload [] []⟩] ++
          ⟨APP_SIGNATURE, .SignaturePayload (⟨some [2], some [5]⟩ :: [])⟩ :: []⟩)
      = some (false, none,
          some ⟨1, [⟨APP_PAYMENT, .PaymentPayload [] []⟩] ++
            ⟨APP_SIGNATURE, .SignaturePayload
              ([⟨some [1], some [4]⟩] ++ [⟨some [2], some [5]⟩])⟩ :: []⟩) :=
  (checkAndAddTxData_spec 1 1 [⟨APP_PAYMENT, .PaymentPayload [] []⟩] []
    [⟨APP_PAYMENT, .PaymentPayload [] []⟩] [] [⟨some [1], some [4]⟩] []
    ⟨some [2], some [5]⟩ (by decide) (by decide)
    (List.Forall₂.cons (fun _ => rfl) (List.Forall₂.cons (fun h => absurd rfl h)
      List.Forall₂.nil))).2 (by decide)

/-! ## validateTx -/

/-- C7 (the code at the failing input): a transaction whose message 0 is a
payment, whose message 1 is a well-formed CONTRACT_INVOKE_REQUEST and whose
message 2 carries the tag APP_DATA over a payment payload is validated as VALID
by a validator whose queries accept everything, although `validateMessageType`
rejects message 2: the request case returns VALID from inside the loop and the
later messages are never looked at. -/
theorem validateTx_skips_after_request :
    validateTx acceptingValidate
        ⟨1, [⟨APP_PAYMENT, .PaymentPayload [] []⟩,
          ⟨APP_CONTRACT_INVOKE_REQUEST, .ContractInvokeRequestPayload (some [7]) []⟩,
          ⟨APP_DATA, .PaymentPayload [] []⟩]⟩ false = some VALID ∧
    validateMessageType APP_DATA (.PaymentPayload [] []) = false := by
  decide

/-! ## TxPool.add -/

/-- C3 (the code at the failing input): adding a payment transaction that spends
the outpoint `(77, 0, 0)` to an empty pool succeeds: `add` returns `(true, nil)`
and the transaction is in `all` under its hash; but the outpoint it spends is
not a key of `outpoints`, which is still empty. -/
theorem add_leaves_outpoints_empty :
    (TxPool.add examplePoolEnv 1 examplePool exampleSpend false).map
        (fun r => (r.1, (r.2.all.get 5).map (fun t => t.Tx),
          (r.2.outpoints.get ⟨77, 0, 0⟩).isSome, r.2.outpoints.length))
      = some ((true, none), some exampleSpend.Tx, false, 0) := by
  decide

theorem GoMap.get_delete_some {κ ν : Type} [DecidableEq κ] (m : GoMap κ ν) (k o : κ) (t : ν)
    (h : (GoMap.delete m k).get o = some t) : m.get o = some t := by
  induction m with
  | nil => simp [GoMap.delete, GoMap.get] at h
  | cons e rest ih =>
    obtain ⟨k1, v⟩ := e
    unfold GoMap.delete at h ih
    by_cases hk : k1 = k
    · have hf : List.filter (fun e : κ × ν => decide (e.1 ≠ k)) ((k1, v) :: rest)
          = List.filter (fun e : κ × ν => decide (e.1 ≠ k)) rest := by
        simp [List.filter_cons, hk]
      rw [hf] at h
      have hrest := ih h
      by_cases ho : k1 = o
      · exfalso
        subst hk; subst ho
        clear ih hf hrest
        induction rest with
        | nil => simp [GoMap.get] at h
        | cons e2 rest2 ih2 =>
          obtain ⟨k2, v2⟩ := e2
          by_cases h2 : k2 = k1
          · simp only [List.filter_cons, h2, ne_eq, not_true_eq_false, decide_False,
              Bool.false_eq_true, if_false] at h
            exact ih2 h
          · simp only [List.filter_cons, h2, ne_eq, not_false_eq_true, decide_True,
              if_true, GoMap.get, if_false] at h
            exact ih2 h
      · simp only [GoMap.get, ho, if_false]
        exact hrest
    · have hf : List.filter (fun e : κ × ν => decide (e.1 ≠ k)) ((k1, v) :: rest)
          = (k1, v) :: List.filter (fun e : κ × ν => decide (e.1 ≠ k)) rest := by
        simp [List.filter_cons, hk]
      rw [hf] at h
      by_cases ho : k1 = o
      · simp only [GoMap.get, ho, if_true] at h ⊢
        exact h
      · simp only [GoMap.get, ho, if_false] at h ⊢
        exact ih h

theorem foldl_delete_get_some (ins : List Input) :
    ∀ (m : GoMap OutPoint TxPoolTransaction) (o : OutPoint) (t : TxPoolTransaction),
      (ins.foldl (fun m input => m.delete input.PreviousOutPoint) m).get o = some t →
      m.get o = some t := by
  induction ins with
  | nil => intro m o t h; exact h
  | cons i rest ih =>
    intro m o t h
    exact GoMap.get_delete_some m _ o t (ih _ o t h)

theorem OutpointsWithin.refl (p : TxPool) : OutpointsWithin p p := fun _ _ h => h

theorem OutpointsWithin.trans {p1 p2 p3 : TxPool} (h12 : OutpointsWithin p1 p2)
    (h23 : OutpointsWithin p2 p3) : OutpointsWithin p1 p3 :=
  fun o t h => h23 o t (h12 o t h)

theorem foldl_option_within {α : Type} (step : TxPool → α → Option TxPool)
    (hstep : ∀ pl a pl1, step pl a = some pl1 → OutpointsWithin pl1 pl) :
    ∀ (xs : List α) (pool pool1 : TxPool),
      xs.foldl (fun acc a => match acc with
        | none => none
        | some pl => step pl a) (some pool) = some pool1 →
      OutpointsWithin pool1 pool := by
  have hnone : ∀ (xs : List α), xs.foldl (fun acc a => match acc with
        | none => none
        | some pl => step pl a) (none : Option TxPool) = none := by
    intro xs
    induction xs with
    | nil => rfl
    | cons a rest ih => exact ih
  intro xs
  induction xs with
  | nil =>
    intro pool pool1 h
    simp only [List.foldl_nil, Option.some.injEq] at h
    subst h
    exact OutpointsWithin.refl _
  | cons a rest ih =>
    intro pool pool1 h
    simp only [List.foldl_cons] at h
    cases hs : step pool a with
    | none => rw [hs, hnone] at h; cases h
    | some pl =>
      rw [hs] at h
      exact (ih pl pool1 h).trans (hstep pool a pl hs)

theorem removeTransaction_within (env : PoolEnv) :
    ∀ (fuel : Nat) (pool : TxPool) (tx : Transaction) (b : Bool) (pool1 : TxPool),
      TxPool.removeTransaction env fuel pool tx b = some pool1 →
      OutpointsWithin pool1 pool := by
  intro fuel
  induction fuel with
  | zero => intro pool tx b pool1 h; simp [TxPool.removeTransaction] at h
  | succ fuel ih =>
    intro pool tx b pool1 h
    unfold TxPool.removeTransaction at h
    simp only at h
    split at h
    · cases h
    · rename_i poolA hA
      have hwA : OutpointsWithin poolA pool := by
        cases b with
        | true =>
          simp only [if_true] at hA
          refine foldl_option_within
            (fun pl preout => match pl.outpoints.get preout with
              | some pooltxRedeemer =>
                TxPool.removeTransaction env fuel pl pooltxRedeemer.Tx true
              | none => some pl) ?_ _ pool poolA hA
          intro pl a pl1 hstep
          simp only at hstep
          split at hstep
          · exact ih _ _ _ _ hstep
          · simp only [Option.some.injEq] at hstep
            subst hstep
            exact OutpointsWithin.refl _
        | false =>
          simp only [Bool.false_eq_true, if_false, Option.some.injEq] at hA
          subst hA
          exact OutpointsWithin.refl _
      have hwB : ∀ poolB : TxPool, poolB.outpoints = poolA.outpoints →
          OutpointsWithin poolB pool := fun poolB e o t ho => hwA o t (e ▸ ho)
      split at h
      · rename_i pooltx hall
        simp only [Option.some.injEq] at h
        subst h
        intro o t ho
        simp only at ho
        have h1 := foldl_delete_get_some _ _ o t ho
        split at h1
        · exact hwA o t h1
        · exact hwA o t h1
      · simp only [Option.some.injEq] at h
        subst h
        split
        · exact hwB _ rfl
        · exact hwA

theorem journalTx_outpoints (env : PoolEnv) (pool pool1 : TxPool) (tx : TxPoolTransaction)
    (h : TxPool.journalTx env pool tx = some pool1) : pool1.outpoints = pool.outpoints := by
  unfold TxPool.journalTx at h
  simp only at h
  split at h
  · cases h
  · split at h
    · simp only [Option.some.injEq] at h; subst h; rfl
    · simp only [Option.some.injEq] at h; subst h; rfl

theorem enqueueTx_outpoints (pool : TxPool) (hash : Hash) (tx : TxPoolTransaction) :
    (TxPool.enqueueTx pool hash tx).2.outpoints = pool.outpoints := by
  unfold TxPool.enqueueTx
  split
  · split <;> rfl
  · rfl

/-- No call of `add` puts an entry into the outpoints index: whatever the
outcome, every entry of `outpoints` after the call was there before. -/
theorem add_outpoints_within (env : PoolEnv) (fuel : Nat) (pool : TxPool)
    (tx : TxPoolTransaction) (isLocal : Bool) (r : Bool × Option TxPoolError) (pool1 : TxPool)
    (h : TxPool.add env fuel pool tx isLocal = some (r, pool1)) :
    OutpointsWithin pool1 pool := by
  unfold TxPool.add at h
  simp only at h
  split at h
  · simp only [Option.some.injEq, Prod.mk.injEq] at h
    rw [← h.2]; exact OutpointsWithin.refl _
  · split at h
    · simp only [Option.some.injEq, Prod.mk.injEq] at h
      rw [← h.2]; exact OutpointsWithin.refl _
    · split at h
      · simp only [Option.some.injEq, Prod.mk.injEq] at h
        rw [← h.2]; exact OutpointsWithin.refl _
      · split at h
        · cases h
        · simp only [Option.some.injEq, Prod.mk.injEq] at h
          rw [← h.2]; exact OutpointsWithin.refl _
        · rename_i poolA hA
          have hwA : OutpointsWithin poolA pool := by
            split at hA
            · split at hA
              · cases hA
              · split at hA
                · cases hA
                · rename_i pl hfold
                  simp only [Option.some.injEq] at hA
                  subst hA
                  exact foldl_option_within
                    (fun pl (d : TxPoolTransaction) =>
                      TxPool.removeTransaction env fuel pl d.Tx true)
                    (fun pl a pl1 hs => removeTransaction_within env fuel pl a.Tx true pl1 hs)
                    _ pool _ hfold
            · simp only [Option.some.injEq] at hA
              subst hA
              exact OutpointsWithin.refl _
          split at h
          · simp only [Option.some.injEq, Prod.mk.injEq] at h
            rw [← h.2]
            exact fun o t ho => hwA o t ho
          · split at h
            · cases h
            · rename_i pool3 hj1
              have e3 := journalTx_outpoints env _ _ _ hj1
              split at h
              · rename_i b5 err pool5 henq
                simp only [Option.some.injEq, Prod.mk.injEq] at h
                have e5 := enqueueTx_outpoints
                  { pool3 with txFeed := pool3.txFeed ++
                    [({ tx with Tx := { tx.Tx with TxHash := env.Hash tx.Tx } } :
                      TxPoolTransaction).Tx] }
                  (env.Hash tx.Tx) { tx with Tx := { tx.Tx with TxHash := env.Hash tx.Tx } }
                rw [henq] at e5
                simp only at e5
                rw [← h.2]
                intro o t ho
                rw [e5, e3] at ho
                exact hwA o t ho
              · rename_i b5 pool5 henq
                have e5 := enqueueTx_outpoints
                  { pool3 with txFeed := pool3.txFeed ++
                    [({ tx with Tx := { tx.Tx with TxHash := env.Hash tx.Tx } } :
                      TxPoolTransaction).Tx] }
                  (env.Hash tx.Tx) { tx with Tx := { tx.Tx with TxHash := env.Hash tx.Tx } }
                rw [henq] at e5
                simp only at e5
                split at h
                · cases h
                · rename_i pool7 hj2
                  have e7 := journalTx_outpoints env _ _ _ hj2
                  simp only [Option.some.injEq, Prod.mk.injEq] at h
                  rw [← h.2]
                  intro o t ho
                  rw [e7] at ho
                  have e6 : ∀ (c : Bool) (x : List Address),
                      (if c = true then { pool5 with locals := x } else pool5).outpoints
                        = pool5.outpoints := by
                    intro c x
                    split <;> rfl
                  rw [e6, e5, e3] at ho
                  exact hwA o t ho

/-- After every admission by `add` that returns no error, no outpoint spent by
an input of a payment message of the transaction is a key of the outpoints
index: the double-spend check has found none of them there, and `add` puts
nothing into the index. -/
theorem add_success_inputs_not_indexed (env : PoolEnv) (fuel : Nat) (pool : TxPool)
    (tx : TxPoolTransaction) (isLocal b : Bool) (pool1 : TxPool)
    (h : TxPool.add env fuel pool tx isLocal = some ((b, none), pool1)) :
    ∀ msg ∈ tx.Tx.TxMessages, ∀ input ∈ paymentInputs msg,
      pool1.outpoints.get input.PreviousOutPoint = none := by
  have hw := add_outpoints_within env fuel pool tx isLocal _ pool1 h
  have hc : checkPoolDoubleSpend env pool
      { tx with Tx := { tx.Tx with TxHash := env.Hash tx.Tx } } = none := by
    cases hcp : checkPoolDoubleSpend env pool
        { tx with Tx := { tx.Tx with TxHash := env.Hash tx.Tx } } with
    | none => rfl
    | some err =>
      exfalso
      unfold TxPool.add at h
      simp only [hcp] at h
      split at h <;> simp at h
  intro msg hmsg input hin
  unfold checkPoolDoubleSpend at hc
  simp only at hc
  split at hc
  · cases hc
  · rename_i hany
    have hnone : pool.outpoints.get input.PreviousOutPoint = none := by
      cases hg : pool.outpoints.get input.PreviousOutPoint with
      | none => rfl
      | some t =>
        exfalso
        apply hany
        rw [List.any_eq_true]
        refine ⟨input, ?_, by simp [hg]⟩
        rw [List.mem_flatMap]
        refine ⟨msg, hmsg, ?_⟩
        unfold paymentInputs at hin
        split at hin
        · rename_i happ
          simp only [happ, if_true]
          split at hin
          · exact hin
          · simp at hin
        · simp at hin
    cases hg1 : pool1.outpoints.get input.PreviousOutPoint with
    | none => rfl
    | some t =>
      have := hw _ _ hg1
      rw [hnone] at this
      cases this

/-! ## contractExecEvent -/

theorem contractExecEvent_ignored (env : TxEnv) (isSys : Transaction → Bool) (now : Int)
    (p : Processor) (tx : Transaction) (ele : List ElectionInf) (ctx : contractTx)
    (hm : p.mtx (env.RequestHash tx) = some ctx) (hl : ctx.reqRcvEd = true) :
    contractExecEvent env isSys now p tx ele = (false, none, none, p) := by
  unfold contractExecEvent
  simp only [hm, hl, if_true]

theorem contractExecEvent_latches (env : TxEnv) (isSys : Transaction → Bool) (now : Int)
    (p : Processor) (tx : Transaction) (ele : List ElectionInf) :
    ∃ ctx, (contractExecEvent env isSys now p tx ele).2.2.2.mtx (env.RequestHash tx) = some ctx ∧
      ctx.reqRcvEd = true := by
  have hmel : ∀ (p1 : Processor) (k : Hash),
      (match p1.mel k with
        | some e => p1.setMel k { e with invalid := true }
        | none => p1).mtx = p1.mtx := by
    intro p1 k
    split <;> rfl
  cases hm : p.mtx (env.RequestHash tx) with
  | none =>
    refine ⟨⟨some (env.GetRequestTx tx), none, none, [], ele, true, now, true, false⟩, ?_, rfl⟩
    unfold contractExecEvent
    simp only [hm, hmel]
    exact setMtx_self _ _ _
  | some ctx =>
    by_cases hl : ctx.reqRcvEd = true
    · rw [contractExecEvent_ignored env isSys now p tx ele ctx hm hl]
      exact ⟨ctx, hm, hl⟩
    · refine ⟨{ ctx with reqTx := some (env.GetRequestTx tx), eleInf := ele, reqRcvEd := true },
        ?_, rfl⟩
      have hl2 : ctx.reqRcvEd = false := by simpa using hl
      unfold contractExecEvent
      simp only [hm, hl2, Bool.false_eq_true, if_false, hmel]
      exact setMtx_self _ _ _

theorem contractExecEvents_ignored (env : TxEnv) (isSys : Transaction → Bool) (p : Processor)
    (reqId : Hash) (ctx : contractTx) (hm : p.mtx reqId = some ctx) (hl : ctx.reqRcvEd = true) :
    ∀ (evs : List (Int × Transaction × List ElectionInf)),
      (∀ e ∈ evs, env.RequestHash e.2.1 = reqId) →
      contractExecEvents env isSys p evs = (evs.map (fun _ => (false, none, none)), p) := by
  intro evs
  induction evs with
  | nil => intro _; rfl
  | cons e rest ih =>
    intro hall
    obtain ⟨now, tx, ele⟩ := e
    have he : env.RequestHash tx = reqId := hall (now, tx, ele) (List.mem_cons_self _ _)
    have h1 := contractExecEvent_ignored env isSys now p tx ele ctx (he ▸ hm) hl
    have h2 := ih (fun x hx => hall x (List.mem_cons_of_mem _ hx))
    simp only [contractExecEvents, h1, h2, List.map_cons]

/-- C11: once `contractExecEvent` has been processed for a request id, the
record of that request has `reqRcvEd` latched true, and every later
`contractExecEvent` for the same request id returns `(false, nil)`, starts no
contract run and leaves the whole processor (hence the record: `reqTx`,
`eleInf`, `reqRcvEd`) unchanged. -/
theorem contractExecEvent_first_arrival_wins (env : TxEnv) (isSys : Transaction → Bool)
    (p : Processor) (now : Int) (tx : Transaction) (ele : List ElectionInf)
    (later : List (Int × Transaction × List ElectionInf)) :
    (∃ ctx, (contractExecEvent env isSys now p tx ele).2.2.2.mtx (env.RequestHash tx) = some ctx ∧
      ctx.reqRcvEd = true) ∧
    ((∀ e ∈ later, env.RequestHash e.2.1 = env.RequestHash tx) →
      contractExecEvents env isSys (contractExecEvent env isSys now p tx ele).2.2.2 later
        = (later.map (fun _ => (false, none, none)),
            (contractExecEvent env isSys now p tx ele).2.2.2)) := by
  refine ⟨contractExecEvent_latches env isSys now p tx ele, ?_⟩
  intro hall
  obtain ⟨ctx, hm, hl⟩ := contractExecEvent_latches env isSys now p tx ele
  exact contractExecEvents_ignored env isSys _ _ ctx hm hl later hall

theorem contractExecEvent_first_arrival_wins_witness :
    (contractExecEvent exampleEnv (fun _ => false) 0 emptyProcessor ⟨7, []⟩ [1, 2]).1 = true ∧
    (contractExecEvent exampleEnv (fun _ => false) 0 emptyProcessor ⟨7, []⟩ [1, 2]).2.2.1
      = some (7, [1, 2]) ∧
    contractExecEvents exampleEnv (fun _ => false)
        (contractExecEvent exampleEnv (fun _ => false) 0 emptyProcessor ⟨7, []⟩ [1, 2]).2.2.2
        [(1, ⟨7, []⟩, [3]), (2, ⟨7, [⟨APP_DATA, .DataPayload none⟩]⟩, [])]
      = ([(false, none, none), (false, none, none)],
          (contractExecEvent exampleEnv (fun _ => false) 0 emptyProcessor ⟨7, []⟩ [1, 2]).2.2.2) :=
  ⟨rfl, rfl, (contractExecEvent_first_arrival_wins exampleEnv (fun _ => false) emptyProcessor 0
    ⟨7, []⟩ [1, 2] [(1, ⟨7, []⟩, [3]), (2, ⟨7, [⟨APP_DATA, .DataPayload none⟩]⟩, [])]).2
    (by decide)⟩

/-! ## The shuffle is the specified Fisher-Yates -/

theorem shuffleKey_eq_spec (nowHi i : Nat) : shuffleKey nowHi i = specShuffleKey nowHi i := by
  have h0 : wrapU64 (nowHi + wrapU64 (i * shuffleMultiplier))
      = (nowHi + i * 2685821657736338717) % 2 ^ 64 := by
    unfold wrapU64 shuffleMultiplier
    omega
  unfold shuffleKey specShuffleKey
  simp only [h0, Nat.shiftRight_eq_div_pow, Nat.shiftLeft_eq]
  rfl

theorem nowHi_eq_spec (ts : Int) :
    u64OfI64 (wrapI64 (ts * 2 ^ 32)) = (ts * 2 ^ 32 % 2 ^ 64).toNat := by
  unfold u64OfI64 wrapI64
  congr 1
  norm_num
  omega

theorem swapAt_eq_spec (s : List Address) {i j : Nat} (hi : i < s.length) (hj : j < s.length) :
    swapAt s i j = some (specSwap s i j) := by
  unfold swapAt specSwap
  rw [List.getElem?_eq_getElem hi, List.getElem?_eq_getElem hj]
  simp [List.getD_eq_getElem?_getD, List.getElem?_eq_getElem hi, List.getElem?_eq_getElem hj]

theorem specSwap_length (s : List Address) (i j : Nat) : (specSwap s i j).length = s.length := by
  simp [specSwap]

theorem shuffleLoop_eq_spec (aSize nowHi : Nat) :
    ∀ (todo i : Nat) (s : List Address), i + todo = aSize → s.length = aSize →
      shuffleLoop aSize nowHi todo i s = some ((List.range' i todo).foldl
        (fun shuffled i => specSwap shuffled i (i + specShuffleKey nowHi i % (aSize - i))) s) := by
  intro todo
  induction todo with
  | zero => intro i s _ _; rfl
  | succ todo ih =>
    intro i s hi hs
    have hjmax : aSize - i ≠ 0 := by omega
    have hmod : shuffleKey nowHi i % (aSize - i) < aSize - i :=
      Nat.mod_lt _ (Nat.pos_of_ne_zero hjmax)
    have hsw := swapAt_eq_spec s (i := i) (j := i + shuffleKey nowHi i % (aSize - i))
      (by omega) (by omega)
    have hrec := ih (i + 1) (specSwap s i (i + shuffleKey nowHi i % (aSize - i)))
      (by omega) (by rw [specSwap_length, hs])
    rw [shuffleKey_eq_spec] at hsw hrec
    simp only [shuffleLoop, if_neg hjmax, shuffleKey_eq_spec, hsw, hrec, List.range'_succ,
      List.foldl_cons]

/-- C12: when it shuffles (a head unit is found, the active list is non-empty
and the head index is a multiple of its length), `UpdateMediatorSchedule`
returns true and leaves in `CurrentShuffledMediators` exactly the specified
Fisher-Yates shuffle of a copy of the active list, with the xorshift-multiply
generator in 64-bit unsigned arithmetic seeded by `head_timestamp << 32`; a
true result arises in no other way, so the schedule then depends on the active
list and the head timestamp only and not on its previous contents. -/
theorem UpdateMediatorSchedule_eq_specShuffle (head : NewestUnit) (ms : MediatorSchedule)
    (gp : GlobalProperty) :
    (gp.ActiveMediators ≠ [] → head.Index % gp.ActiveMediators.length = 0 →
      UpdateMediatorSchedule (some head) ms gp
        = some (true, ⟨specShuffle gp.ActiveMediators head.Timestamp⟩)) ∧
    (∀ (newest : Option NewestUnit) (ms1 ms2 ms3 ms4 : MediatorSchedule),
      UpdateMediatorSchedule newest ms1 gp = some (true, ms2) →
      UpdateMediatorSchedule newest ms3 gp = some (true, ms4) →
      ms2.CurrentShuffledMediators = ms4.CurrentShuffledMediators ∧
      ∃ h, newest = some h ∧
        ms2.CurrentShuffledMediators = specShuffle gp.ActiveMediators h.Timestamp) := by
  have key : ∀ (h : NewestUnit) (m : MediatorSchedule), gp.ActiveMediators.length ≠ 0 →
      h.Index % gp.ActiveMediators.length = 0 →
      UpdateMediatorSchedule (some h) m gp
        = some (true, ⟨specShuffle gp.ActiveMediators h.Timestamp⟩) := by
    intro h m h0 h1
    have hloop := shuffleLoop_eq_spec gp.ActiveMediators.length
      (u64OfI64 (wrapI64 (h.Timestamp * 2 ^ 32))) gp.ActiveMediators.length 0
      gp.ActiveMediators (by simp) rfl
    unfold UpdateMediatorSchedule
    simp only [h0, h1, if_false, ne_eq, not_true_eq_false, copyMediators_replicate, hloop]
    unfold specShuffle
    simp only [nowHi_eq_spec, List.range_eq_range']
  have conv : ∀ (newest : Option NewestUnit) (m m1 : MediatorSchedule),
      UpdateMediatorSchedule newest m gp = some (true, m1) →
      ∃ h, newest = some h ∧
        m1.CurrentShuffledMediators = specShuffle gp.ActiveMediators h.Timestamp := by
    intro newest m m1 hu
    cases newest with
    | none => simp [UpdateMediatorSchedule] at hu
    | some h =>
      by_cases h0 : gp.ActiveMediators.length = 0
      · simp [UpdateMediatorSchedule, h0] at hu
      · by_cases h1 : h.Index % gp.ActiveMediators.length = 0
        · rw [key h m h0 h1] at hu
          simp only [Option.some.injEq, Prod.mk.injEq, true_and] at hu
          exact ⟨h, rfl, by rw [← hu]⟩
        · simp [UpdateMediatorSchedule, h0, h1] at hu
  constructor
  · intro hne h1
    exact key head ms (by simpa [List.length_eq_zero] using hne) h1
  · intro newest ms1 ms2 ms3 ms4 hu1 hu2
    obtain ⟨h, hn, e1⟩ := conv newest ms1 ms2 hu1
    obtain ⟨h', hn', e2⟩ := conv newest ms3 ms4 hu2
    rw [hn] at hn'
    cases hn'
    exact ⟨e1.trans e2.symm, h, hn, e1⟩

theorem UpdateMediatorSchedule_eq_specShuffle_witness :
    UpdateMediatorSchedule (some ⟨5, 1000⟩) ⟨[1, 2]⟩ ⟨[11, 12, 13, 14, 15], 5⟩
      = some (true, ⟨specShuffle [11, 12, 13, 14, 15] 1000⟩) :=
  (UpdateMediatorSchedule_eq_specShuffle ⟨5, 1000⟩ ⟨[1, 2]⟩ ⟨[11, 12, 13, 14, 15], 5⟩).1
    (by decide) (by decide)

/-! ## GetSlotTime -/

/-- C13, the claim as stated, is false: with interval 5 and a head unit of
index 1 and timestamp 0, `GetSlotTime(4294967295)` is 3028092401.290448384 s
after the epoch and not `(0 / 5)·5 + 4294967295·5 = 21474836475` s, because the
`int64` nanosecond product `10^9 · 4294967295 · 5` wraps around. -/
theorem GetSlotTime_formula_counterexample :
    ¬ (∀ (gp : GlobalProperty) (head : NewestUnit) (n : Nat),
        0 < gp.MediatorInterval → n < 2 ^ 32 →
        GetSlotTime gp head n = some (timeUnix
          (if n = 0 then 0
            else if head.Index = 0 then head.Timestamp + (n : Int) * (gp.MediatorInterval : Int)
            else head.Timestamp.tdiv (gp.MediatorInterval : Int) * (gp.MediatorInterval : Int)
              + (n : Int) * (gp.MediatorInterval : Int)))) := by
  intro hall
  have h := hall ⟨[], 5⟩ ⟨1, 0⟩ 4294967295 (by decide) (by decide)
  revert h
  decide

/-- C13 (amended): for every mediator interval > 0 and head unit with timestamp
H, `GetSlotTime(0)` is Unix time 0; for n ≥ 1 whose computation does not
overflow `int64` (H is an `int64`, `10^9 · n · interval < 2^63` and
`H + n · interval < 2^63`), if the head unit index is 0 then
`GetSlotTime(n) = H + n·interval`, otherwise
`GetSlotTime(n) = (H / interval)·interval + n·interval` with the integer
division rounding towards zero. -/
theorem GetSlotTime_spec (gp : GlobalProperty) (head : NewestUnit) (n : Nat)
    (hi : 0 < gp.MediatorInterval) :
    GetSlotTime gp head 0 = some (timeUnix 0) ∧
    (1 ≤ n → NoSlotOverflow gp head n →
      (head.Index = 0 → GetSlotTime gp head n = some (timeUnix
        (head.Timestamp + (n : Int) * (gp.MediatorInterval : Int)))) ∧
      (head.Index ≠ 0 → GetSlotTime gp head n = some (timeUnix
        (head.Timestamp.tdiv (gp.MediatorInterval : Int) * (gp.MediatorInterval : Int)
          + (n : Int) * (gp.MediatorInterval : Int))))) := by
  refine ⟨by simp [GetSlotTime], ?_⟩
  intro hn hov
  have hex := GetSlotTime_exact gp head n hi hn hov
  have hn0 : n ≠ 0 := by omega
  constructor
  · intro hg
    rw [hex]
    simp [specSlotTime, hn0, hg]
  · intro hg
    rw [hex]
    simp [specSlotTime, hn0, hg]

theorem GetSlotTime_spec_witness :
    GetSlotTime ⟨[], 5⟩ ⟨3, 12⟩ 0 = some (timeUnix 0) ∧
    GetSlotTime ⟨[], 5⟩ ⟨3, 12⟩ 4 = some (timeUnix
      ((12 : Int).tdiv ((5 : Nat) : Int) * ((5 : Nat) : Int) + ((4 : Nat) : Int) * ((5 : Nat) : Int))) :=
  have h := GetSlotTime_spec ⟨[], 5⟩ ⟨3, 12⟩ 4 (by decide)
  ⟨h.1, (h.2 (by decide) (by decide)).2 (by decide)⟩

/-! ## updateMediatorMissedUnits -/

theorem missedUnitsLoop_spec :
    ∀ (todo i : Nat) (dag : DagState), i + todo < 2 ^ 32 →
      (∀ a m, dag.mediators a = some m → m.Address = a) →
      (∀ j, i ≤ j → j < i + todo →
        ∃ m, dag.mediators (GetScheduledMediator dag.ms dag.dgp (j + 1)) = some m) →
      ∃ dag1, missedUnitsLoop todo i dag = some dag1 ∧
        dag1.gp = dag.gp ∧ dag1.dgp = dag.dgp ∧ dag1.ms = dag.ms ∧
        dag1.curThreshold = dag.curThreshold ∧
        ∀ a, dag1.mediators a = (dag.mediators a).map
          (fun m => { m with TotalMissed := m.TotalMissed + missedCount dag a i todo }) := by
  intro todo
  induction todo with
  | zero =>
    intro i dag _ _ _
    refine ⟨dag, rfl, rfl, rfl, rfl, rfl, ?_⟩
    intro a
    cases dag.mediators a <;> simp [missedCount]
  | succ todo ih =>
    intro i dag hlt hwf hrec
    obtain ⟨m, hm⟩ := hrec i (le_refl _) (by omega)
    have hmod : (i + 1) % 2 ^ 32 = i + 1 := Nat.mod_eq_of_lt (by omega)
    have hadd : m.Address = GetScheduledMediator dag.ms dag.dgp (i + 1) := hwf _ _ hm
    obtain ⟨dag1, h1, hgp, hdgp, hms, hthr, hmed⟩ :=
      ih (i + 1) (dag.SaveMediator { m with TotalMissed := m.TotalMissed + 1 }) (by omega)
        (by
          intro a m1 ha
          simp only [DagState.SaveMediator] at ha
          split at ha
          · rename_i hae
            simp only [Option.some.injEq] at ha
            rw [← ha]; exact hae.symm
          · exact hwf a m1 ha)
        (by
          intro j hj1 hj2
          obtain ⟨m2, hm2⟩ := hrec j (by omega) (by omega)
          simp only [DagState.SaveMediator]
          split
          · exact ⟨_, rfl⟩
          · exact ⟨m2, hm2⟩)
    refine ⟨dag1, ?_, hgp, hdgp, hms, hthr, ?_⟩
    · simp only [missedUnitsLoop, hmod, DagState.GetMediator, hm]
      exact h1
    · intro a
      rw [hmed a]
      have hcnt : missedCount dag a i (todo + 1)
          = (if GetScheduledMediator dag.ms dag.dgp (i + 1) = a then 1 else 0)
            + missedCount dag a (i + 1) todo := by
        unfold missedCount
        rw [List.range'_succ, List.countP_cons]
        by_cases hg : GetScheduledMediator dag.ms dag.dgp (i + 1) = a
        · simp [hg]; omega
        · simp [hg]
      have hcnt1 : missedCount (dag.SaveMediator { m with TotalMissed := m.TotalMissed + 1 })
          a (i + 1) todo = missedCount dag a (i + 1) todo := rfl
      rw [hcnt1, hcnt]
      simp only [DagState.SaveMediator]
      by_cases hg : GetScheduledMediator dag.ms dag.dgp (i + 1) = a
      · have ha : a = m.Address := by rw [hadd, hg]
        have hda : dag.mediators a = some m := by rw [← hg]; exact hm
        simp only [ha, if_true, Option.map_some', hadd, hm]
        congr 1
        simp only [Mediator.mk.injEq, true_and, and_true]
        omega
      · have ha : ¬ a = m.Address := by
          intro e; apply hg; rw [e, hadd]
        simp only [ha, if_false, hg, Nat.zero_add]

/-- C14: for a new unit with `s = GetSlotAtTime(U.timestamp)` (fewer than `2^32`
active mediators, every stored record filed under its own address, a record
present for every mediator scheduled in the missed slots): if `s = 0`,
`updateMediatorMissedUnits` returns 0 and changes nothing; otherwise it returns
`missed = s - 1`, and when `missed < |active|` the `TotalMissed` of every
mediator grows by one for each slot `i` in `[1, missed]` for which it is
`GetScheduledMediator(i)`, every other field, every other mediator and the
rest of the state staying as they were; when `missed ≥ |active|` nothing is
changed, so there are never more than `|active|` increments. -/
theorem updateMediatorMissedUnits_spec (dag : DagState) (head : NewestUnit) (ts : Int)
    (s : Nat) (hs : GetSlotAtTime dag.gp head (timeUnix ts) = some s)
    (hsize : dag.gp.ActiveMediators.length < 2 ^ 32)
    (hwf : ∀ a m, dag.mediators a = some m → m.Address = a)
    (hrec : s - 1 < dag.gp.ActiveMediators.length → ∀ i, 1 ≤ i → i ≤ s - 1 →
      ∃ m, dag.mediators (GetScheduledMediator dag.ms dag.dgp i) = some m) :
    (s = 0 → updateMediatorMissedUnits dag head ts = some (0, dag)) ∧
    (s ≠ 0 → ∃ dag1, updateMediatorMissedUnits dag head ts = some (s - 1, dag1) ∧
      dag1.gp = dag.gp ∧ dag1.dgp = dag.dgp ∧ dag1.ms = dag.ms ∧
      dag1.curThreshold = dag.curThreshold ∧
      (s - 1 < dag.gp.ActiveMediators.length →
        ∀ a, dag1.mediators a = (dag.mediators a).map
          (fun m => { m with TotalMissed := m.TotalMissed + missedCount dag a 0 (s - 1) })) ∧
      (¬ s - 1 < dag.gp.ActiveMediators.length → dag1 = dag)) := by
  have hmodsize : dag.GetActiveMediatorCount % 2 ^ 32 = dag.gp.ActiveMediators.length := by
    unfold DagState.GetActiveMediatorCount
    exact Nat.mod_eq_of_lt hsize
  constructor
  · intro h0
    simp [updateMediatorMissedUnits, hs, h0]
  · intro h0
    by_cases hlt : s - 1 < dag.gp.ActiveMediators.length
    · obtain ⟨dag1, h1, hgp, hdgp, hms, hthr, hmed⟩ :=
        missedUnitsLoop_spec (s - 1) 0 dag (by omega) hwf
          (by
            intro j _ hj
            exact hrec hlt (j + 1) (by omega) (by omega))
      refine ⟨dag1, ?_, hgp, hdgp, hms, hthr, fun _ => hmed, fun h => absurd hlt h⟩
      simp only [updateMediatorMissedUnits, hs, h0, if_false, hmodsize, hlt, if_true, h1]
    · refine ⟨dag, ?_, rfl, rfl, rfl, rfl, fun h => absurd h hlt, fun _ => rfl⟩
      simp only [updateMediatorMissedUnits, hs, h0, if_false, hmodsize, hlt]

theorem updateMediatorMissedUnits_spec_witness :
    ∃ dag1, updateMediatorMissedUnits
        { gp := ⟨[1, 2, 3, 4], 5⟩, dgp := ⟨0, 6, 0⟩, ms := ⟨[3, 1, 4, 2]⟩,
          mediators := fun a => some ⟨a, 10, 0⟩, curThreshold := 3 } ⟨2, 100⟩ 117
        = some (3 - 1, dag1) ∧
      dag1.mediators 1 = some ⟨1, 10 + 0, 0⟩ ∧ dag1.mediators 4 = some ⟨4, 10 + 1, 0⟩ ∧
      dag1.mediators 2 = some ⟨2, 10 + 1, 0⟩ :=
  have h := (updateMediatorMissedUnits_spec
    { gp := ⟨[1, 2, 3, 4], 5⟩, dgp := ⟨0, 6, 0⟩, ms := ⟨[3, 1, 4, 2]⟩,
      mediators := fun a => some ⟨a, 10, 0⟩, curThreshold := 3 } ⟨2, 100⟩ 117 3 (by decide)
    (by decide) (fun a m hm => by cases hm; rfl) (fun _ i _ _ => ⟨_, rfl⟩)).2 (by decide)
  h.elim (fun dag1 hd =>
    ⟨dag1, hd.1, hd.2.2.2.2.2.1 (by decide) 1, hd.2.2.2.2.2.1 (by decide) 4,
      hd.2.2.2.2.2.1 (by decide) 2⟩)

/-! ## The candidate for the last irreversible unit -/

theorem sorted_countP_split (L A B : List Nat) (c : Nat) (hsplit : L = A ++ c :: B)
    (hs : L.Sorted (· ≤ ·)) :
    B.length + 1 ≤ L.countP (fun x => decide (c ≤ x)) ∧
    ∀ v, c < v → L.countP (fun x => decide (v ≤ x)) ≤ B.length := by
  subst hsplit
  unfold List.Sorted at hs
  rw [List.pairwise_append] at hs
  obtain ⟨_, hB, hA⟩ := hs
  rw [List.pairwise_cons] at hB
  constructor
  · have h1 : B.countP (fun x => decide (c ≤ x)) = B.length := by
      rw [List.countP_eq_length]
      intro b hb
      simpa using hB.1 b hb
    rw [List.countP_append, List.countP_cons, h1]
    simp
  · intro v hv
    have h0 : A.countP (fun x => decide (v ≤ x)) = 0 := by
      rw [List.countP_eq_zero]
      intro a ha
      have := hA a ha c (List.mem_cons_self _ _)
      simp only [decide_eq_true_eq]
      omega
    have h3 := List.countP_le_length (p := fun x => decide (v ≤ x)) (l := B)
    have hc : ¬ v ≤ c := by omega
    rw [List.countP_append, List.countP_cons, h0]
    simp [hc]
    exact h3

theorem sorted_countP_at (L : List Nat) (hs : L.Sorted (· ≤ ·)) (k : Nat) (hk : k < L.length) :
    L.length - k ≤ L.countP (fun x => decide (L[k] ≤ x)) ∧
    ∀ v, L[k] < v → L.countP (fun x => decide (v ≤ x)) ≤ L.length - k - 1 := by
  have hsplit : L = L.take k ++ L[k] :: L.drop (k + 1) := by
    rw [← List.drop_eq_getElem_cons hk, List.take_append_drop]
  have hlen : (L.drop (k + 1)).length = L.length - k - 1 := by
    rw [List.length_drop]; omega
  have h := sorted_countP_split L (L.take k) (L.drop (k + 1)) L[k] hsplit hs
  rw [hlen] at h
  exact ⟨by have := h.1; omega, h.2⟩

theorem collectLastConfirmed_eq_map (dag : DagState) :
    ∀ (adds : List Address), (∀ a ∈ adds, ∃ m, dag.mediators a = some m) →
      collectLastConfirmed dag adds = some (adds.map dag.lastConfirmed) := by
  intro adds
  induction adds with
  | nil => intro _; rfl
  | cons a rest ih =>
    intro h
    obtain ⟨m, hm⟩ := h a (List.mem_cons_self _ _)
    have hr := ih (fun b hb => h b (List.mem_cons_of_mem _ hb))
    simp [collectLastConfirmed, hm, hr, DagState.lastConfirmed]

theorem confirmedBy_eq_sorted (dag : DagState) (v : Nat) :
    dag.confirmedBy v
      = ((dag.gp.ActiveMediators.map dag.lastConfirmed).insertionSort (· ≤ ·)).countP
          (fun x => decide (v ≤ x)) := by
  unfold DagState.confirmedBy
  rw [(List.perm_insertionSort (· ≤ ·) _).countP_eq, List.countP_map]
  rfl

/-- C15: for every active set whose mediators all have a record and every
threshold with `1 ≤ threshold ≤ |active|`, `updateLastIrreversibleUnit`
completes; its candidate is the element at index `|active| - threshold` of the
ascending-sorted `LastConfirmedUnitNum` values; at least `threshold` active
mediators have `LastConfirmedUnitNum` ≥ the candidate, fewer than `threshold`
have confirmed any larger unit number, and the stored
`LastIrreversibleUnitNum` becomes `max(old value, candidate)`. -/
theorem updateLastIrreversibleUnit_candidate (dag : DagState)
    (hrec : ∀ a ∈ dag.gp.ActiveMediators, ∃ m, dag.mediators a = some m)
    (h1 : 1 ≤ dag.curThreshold)
    (h2 : dag.curThreshold ≤ (dag.gp.ActiveMediators.length : Int)) :
    ∃ candidate dag1,
      ((dag.gp.ActiveMediators.map dag.lastConfirmed).insertionSort (· ≤ ·))[
        dag.gp.ActiveMediators.length - dag.curThreshold.toNat]? = some candidate ∧
      updateLastIrreversibleUnit dag = some dag1 ∧
      dag1.dgp.LastIrreversibleUnitNum = max dag.dgp.LastIrreversibleUnitNum candidate ∧
      dag.curThreshold ≤ (dag.confirmedBy candidate : Int) ∧
      ∀ v, candidate < v → (dag.confirmedBy v : Int) < dag.curThreshold := by
  have hlenL : ((dag.gp.ActiveMediators.map dag.lastConfirmed).insertionSort (· ≤ ·)).length
      = dag.gp.ActiveMediators.length := by
    rw [List.length_insertionSort, List.length_map]
  have hk : dag.gp.ActiveMediators.length - dag.curThreshold.toNat
      < ((dag.gp.ActiveMediators.map dag.lastConfirmed).insertionSort (· ≤ ·)).length := by
    rw [hlenL]; omega
  have hoff : ((dag.GetActiveMediatorCount : Int) - dag.curThreshold).toNat
      = dag.gp.ActiveMediators.length - dag.curThreshold.toNat := by
    unfold DagState.GetActiveMediatorCount; omega
  have hneg : ¬ ((dag.GetActiveMediatorCount : Int) - dag.curThreshold < 0) := by
    unfold DagState.GetActiveMediatorCount; omega
  have hsorted := List.sorted_insertionSort (· ≤ ·) (dag.gp.ActiveMediators.map dag.lastConfirmed)
  obtain ⟨hge, hlt⟩ := sorted_countP_at _ hsorted _ hk
  rw [hlenL] at hge hlt
  have hget := List.getElem?_eq_getElem hk
  generalize hc : ((dag.gp.ActiveMediators.map dag.lastConfirmed).insertionSort (· ≤ ·))[
    dag.gp.ActiveMediators.length - dag.curThreshold.toNat] = c at hge hlt hget
  refine ⟨c, if c > dag.dgp.LastIrreversibleUnitNum then
      { dag with dgp := { dag.dgp with LastIrreversibleUnitNum := c } } else dag,
    hget, ?_, ?_, ?_, ?_⟩
  · unfold updateLastIrreversibleUnit
    simp only [collectLastConfirmed_eq_map dag _ hrec, hneg, if_false, hoff, hget]
    split <;> rfl
  · split
    · rename_i hgt
      simp only
      omega
    · rename_i hgt
      omega
  · rw [confirmedBy_eq_sorted]
    omega
  · intro v hv
    rw [confirmedBy_eq_sorted]
    have := hlt v hv
    omega

theorem updateLastIrreversibleUnit_candidate_witness :
    ∃ candidate dag1,
      (([1, 2, 3].map (fun a => 6 + a)).insertionSort (· ≤ ·))[3 - (3 : Int).toNat]?
        = some candidate ∧
      updateLastIrreversibleUnit
        { gp := ⟨[1, 2, 3], 5⟩, dgp := ⟨4, 0, 0⟩, ms := ⟨[1, 2, 3]⟩,
          mediators := fun a => some ⟨a, 0, 6 + a⟩, curThreshold := 3 } = some dag1 ∧
      dag1.dgp.LastIrreversibleUnitNum = max 4 candidate :=
  (updateLastIrreversibleUnit_candidate
    { gp := ⟨[1, 2, 3], 5⟩, dgp := ⟨4, 0, 0⟩, ms := ⟨[1, 2, 3]⟩,
      mediators := fun a => some ⟨a, 0, 6 + a⟩, curThreshold := 3 }
    (fun a _ => ⟨_, rfl⟩) (by decide) (by decide)).elim
    (fun c hc => hc.elim (fun d hd => ⟨c, d, hd.1, hd.2.1, hd.2.2.1⟩))

/-! ## performChainMaintenance -/

/-- C16 (the code at the failing input): with `NextMaintenanceTime = 100`, a unit
of timestamp 100 and number 2, maintenance interval 10 and `HeadUnitTime = 95`,
`performChainMaintenance` sets `NextMaintenanceTime` to 110: the quotient
`(95 - 100) / 10` is 0 because the `int64` division rounds towards zero, so
`k = 1`, although `k = 0` already gives `100 + 0·10 > 95`; and
`110 - 10 ≤ 95` does not hold. -/
theorem performChainMaintenance_head_before_due :
    (performChainMaintenance maintenanceDag 10 95 100 2).map
        (fun r => (r.1, r.2.dgp.NextMaintenanceTime)) = some (true, 110) ∧
    (95 : Int) < 100 + 0 * 10 ∧ ¬ ((110 : Int) - 10 ≤ 95) := by
  decide

/-- With `HeadUnitTime` before `NextMaintenanceTime` the bounds `new > HeadUnitTime`
and `new - interval ≤ HeadUnitTime` do not hold together for every due
maintenance. -/
theorem performChainMaintenance_stated_counterexample :
    ¬ (∀ (dag : DagState) (interval : Nat) (headUnitTime unitTimestamp : Int)
        (unitNumber : Nat),
        dag.dgp.NextMaintenanceTime ≤ unitTimestamp → 0 < interval → unitNumber ≠ 1 →
        ∃ dag1, performChainMaintenance dag interval headUnitTime unitTimestamp unitNumber
            = some (true, dag1) ∧
          headUnitTime < dag1.dgp.NextMaintenanceTime ∧
          dag1.dgp.NextMaintenanceTime - (interval : Int) ≤ headUnitTime) := by
  intro hall
  obtain ⟨dag1, h1, _, h3⟩ := hall maintenanceDag 10 95 100 2 (by decide) (by decide)
    (by decide)
  have hcode : (performChainMaintenance maintenanceDag 10 95 100 2).map
      (fun r => r.2.dgp.NextMaintenanceTime) = some 110 := by
    decide
  rw [h1] at hcode
  simp only [Option.map_some', Option.some.injEq] at hcode
  rw [hcode] at h3
  revert h3
  decide

/-- Where `HeadUnitTime` is not before `NextMaintenanceTime`: when maintenance is
due (`NextMaintenanceTime` ≤ unit timestamp), the maintenance interval is > 0,
the unit number is not 1 and `NextMaintenanceTime ≤ HeadUnitTime` (all values
within `±2^61`, so that the `int64` arithmetic is exact),
`performChainMaintenance` sends the event and
sets `NextMaintenanceTime` to `old + k·interval` where `k` is the smallest
integer with `old + k·interval > HeadUnitTime`; the new value is strictly
greater than `HeadUnitTime` and `new - interval ≤ HeadUnitTime`; nothing else
of the state changes. -/
theorem performChainMaintenance_spec (dag : DagState) (interval : Nat)
    (headUnitTime unitTimestamp : Int) (unitNumber : Nat)
    (hdue : dag.dgp.NextMaintenanceTime ≤ unitTimestamp) (hint : 0 < interval)
    (hnum : unitNumber ≠ 1) (hhead : dag.dgp.NextMaintenanceTime ≤ headUnitTime)
    (hlo : -(2 : Int) ^ 61 ≤ dag.dgp.NextMaintenanceTime) (hhi : headUnitTime < 2 ^ 61)
    (hsmall : (interval : Int) < 2 ^ 61) :
    ∃ (k : Int) (dag1 : DagState),
      performChainMaintenance dag interval headUnitTime unitTimestamp unitNumber
        = some (true, dag1) ∧
      dag1.dgp.NextMaintenanceTime = dag.dgp.NextMaintenanceTime + k * (interval : Int) ∧
      (∀ j : Int, headUnitTime < dag.dgp.NextMaintenanceTime + j * (interval : Int) → k ≤ j) ∧
      headUnitTime < dag1.dgp.NextMaintenanceTime ∧
      dag1.dgp.NextMaintenanceTime - (interval : Int) ≤ headUnitTime ∧
      dag1.gp = dag.gp ∧ dag1.ms = dag.ms ∧ dag1.mediators = dag.mediators ∧
      dag1.dgp.LastIrreversibleUnitNum = dag.dgp.LastIrreversibleUnitNum ∧
      dag1.dgp.CurrentASlot = dag.dgp.CurrentASlot := by
  have hipos : (0 : Int) < (interval : Int) := by exact_mod_cast hint
  have hi0 : ¬ (interval : Int) = 0 := hipos.ne'
  have hd0 : 0 ≤ headUnitTime - dag.dgp.NextMaintenanceTime := by omega
  have hq0 : 0 ≤ (headUnitTime - dag.dgp.NextMaintenanceTime) / (interval : Int) :=
    Int.ediv_nonneg hd0 hipos.le
  have hmul_le := Int.ediv_mul_le (headUnitTime - dag.dgp.NextMaintenanceTime) hi0
  have hlt_mul := Int.lt_ediv_add_one_mul_self (headUnitTime - dag.dgp.NextMaintenanceTime) hipos
  have hexp : ((headUnitTime - dag.dgp.NextMaintenanceTime) / (interval : Int) + 1) * (interval : Int)
      = (headUnitTime - dag.dgp.NextMaintenanceTime) / (interval : Int) * (interval : Int)
        + (interval : Int) := by ring
  have hqle : (headUnitTime - dag.dgp.NextMaintenanceTime) / (interval : Int)
      ≤ headUnitTime - dag.dgp.NextMaintenanceTime :=
    Int.ediv_le_self _ hd0
  have hw1 : wrapI64 (headUnitTime - dag.dgp.NextMaintenanceTime)
      = headUnitTime - dag.dgp.NextMaintenanceTime :=
    wrapI64_of_range (by norm_num; omega) (by norm_num at hlo hhi ⊢; omega)
  have hw2 : wrapI64 ((headUnitTime - dag.dgp.NextMaintenanceTime) / (interval : Int) + 1)
      = (headUnitTime - dag.dgp.NextMaintenanceTime) / (interval : Int) + 1 :=
    wrapI64_of_range (by norm_num; omega) (by norm_num at hlo hhi ⊢; omega)
  have hw3 : wrapI64 (((headUnitTime - dag.dgp.NextMaintenanceTime) / (interval : Int) + 1)
        * (interval : Int))
      = ((headUnitTime - dag.dgp.NextMaintenanceTime) / (interval : Int) + 1) * (interval : Int) :=
    wrapI64_of_range (by norm_num; rw [hexp]; omega)
      (by norm_num at hlo hhi hsmall ⊢; rw [hexp]; omega)
  have hw4 : wrapI64 (dag.dgp.NextMaintenanceTime
        + ((headUnitTime - dag.dgp.NextMaintenanceTime) / (interval : Int) + 1) * (interval : Int))
      = dag.dgp.NextMaintenanceTime
        + ((headUnitTime - dag.dgp.NextMaintenanceTime) / (interval : Int) + 1) * (interval : Int) :=
    wrapI64_of_range (by norm_num at hlo ⊢; rw [hexp]; omega)
      (by norm_num at hlo hhi hsmall ⊢; rw [hexp]; omega)
  have hnd : ¬ dag.dgp.NextMaintenanceTime > unitTimestamp := by omega
  refine ⟨(headUnitTime - dag.dgp.NextMaintenanceTime) / (interval : Int) + 1,
    { dag with dgp := { dag.dgp with NextMaintenanceTime := dag.dgp.NextMaintenanceTime
      + ((headUnitTime - dag.dgp.NextMaintenanceTime) / (interval : Int) + 1) * (interval : Int) } },
    ?_, rfl, ?_, ?_, ?_, rfl, rfl, rfl, rfl, rfl⟩
  · unfold performChainMaintenance
    simp only [hnd, if_false, hi0, hnum, hw1, Int.tdiv_eq_ediv hd0 hipos.le, hw2, hw3, hw4]
  · intro j hj
    have h1 : headUnitTime - dag.dgp.NextMaintenanceTime < j * (interval : Int) := by omega
    have := Int.ediv_lt_of_lt_mul hipos h1
    omega
  · simp only
    rw [hexp]; omega
  · simp only
    rw [hexp]; omega

theorem performChainMaintenance_spec_witness :
    ∃ (k : Int) (dag1 : DagState),
      performChainMaintenance maintenanceDag 10 127 127 2 = some (true, dag1) ∧
      dag1.dgp.NextMaintenanceTime = 100 + k * ((10 : Nat) : Int) ∧
      (127 : Int) < dag1.dgp.NextMaintenanceTime ∧
      dag1.dgp.NextMaintenanceTime - ((10 : Nat) : Int) ≤ 127 :=
  (performChainMaintenance_spec maintenanceDag 10 127 127 2 (by decide) (by decide)
    (by decide) (by decide) (by decide) (by decide) (by decide)).elim
    (fun k hk => hk.elim (fun d hd => ⟨k, d, hd.1, hd.2.1, hd.2.2.2.1, hd.2.2.2.2.1⟩))

/-! ## The order of the checks of validateTx -/

/-- C17: `validateTx` reports the first failing check: an empty message list or
a message 0 that is not APP_PAYMENT gives INVALID_MSG whatever the queries
answer; otherwise an already-known transaction gives DUPLICATE_TXID; otherwise
a failed fee check gives INVALID_FEE; none of the later checks (type, size,
signature, payload) has a say in these three results. -/
theorem validateTx_first_failure (v : Validate) (tx : Transaction) (isCoinbase : Bool) :
    (tx.TxMessages = [] → validateTx v tx isCoinbase = some INVALID_MSG) ∧
    (∀ m0 rest, tx.TxMessages = m0 :: rest → m0.App ≠ APP_PAYMENT →
      validateTx v tx isCoinbase = some INVALID_MSG) ∧
    (∀ m0 rest, tx.TxMessages = m0 :: rest → m0.App = APP_PAYMENT →
      v.checkTxIsExist tx = true → validateTx v tx isCoinbase = some DUPLICATE_TXID) ∧
    (∀ m0 rest, tx.TxMessages = m0 :: rest → m0.App = APP_PAYMENT →
      v.checkTxIsExist tx = false → validateTxFee v tx = some false →
      validateTx v tx isCoinbase = some INVALID_FEE) := by
  refine ⟨?_, ?_, ?_, ?_⟩
  · intro h
    simp [validateTx, h]
  · intro m0 rest h hne
    simp [validateTx, h, hne]
  · intro m0 rest h hp hex
    simp [validateTx, h, hp, hex]
  · intro m0 rest h hp hex hfee
    simp [validateTx, h, hp, hex, hfee]

theorem validateTx_first_failure_witness :
    validateTx { acceptingValidate with checkTxIsExist := fun _ => true }
      ⟨1, [⟨APP_PAYMENT, .OtherPayload []⟩, ⟨APP_UNKNOWN 77, .OtherPayload []⟩]⟩ false
        = some DUPLICATE_TXID :=
  (validateTx_first_failure { acceptingValidate with checkTxIsExist := fun _ => true }
    ⟨1, [⟨APP_PAYMENT, .OtherPayload []⟩, ⟨APP_UNKNOWN 77, .OtherPayload []⟩]⟩ false).2.2.1
    _ _ rfl rfl rfl

/-- C18: every VALID result of `validateTx` implies `tx.Size() ≤ TX_MAXSIZE`
(256 KiB): no transaction whose serialized size exceeds `TX_MAXSIZE` is
validated as VALID. -/
theorem validateTx_valid_size (v : Validate) (tx : Transaction) (isCoinbase : Bool)
    (h : validateTx v tx isCoinbase = some VALID) : v.Size tx ≤ TX_MAXSIZE := by
  unfold validateTx at h
  split at h
  · simp at h
  · rename_i m0 rest hmsgs
    split at h
    · simp at h
    · split at h
      · simp at h
      · split at h
        · simp at h
        · simp at h
        · rw [hmsgs] at h
          unfold validateTxLoop at h
          split at h
          · simp at h
          · split at h
            · simp at h
            · rename_i hsize
              omega

theorem validateTx_valid_size_witness :
    acceptingValidate.Size ⟨1, [⟨APP_PAYMENT, .PaymentPayload [] []⟩]⟩ ≤ TX_MAXSIZE :=
  validateTx_valid_size acceptingValidate ⟨1, [⟨APP_PAYMENT, .PaymentPayload [] []⟩]⟩ false
    (by decide)

/-! ## validateMessageType -/

/-- C19 (the code at the failing inputs): `validateMessageType` has no case for
the stop payloads: it returns false for the tag APP_CONTRACT_STOP_REQUEST with
a `ContractStopRequestPayload` and for the tag APP_CONTRACT_STOP with a
`ContractStopPayload`, the payload types that belong to these two tags. -/
theorem validateMessageType_misses_stop :
    validateMessageType APP_CONTRACT_STOP_REQUEST (.ContractStopRequestPayload []) = false ∧
    specPayloadTag (.ContractStopRequestPayload []) = some APP_CONTRACT_STOP_REQUEST ∧
    validateMessageType APP_CONTRACT_STOP (.ContractStopPayload []) = false ∧
    specPayloadTag (.ContractStopPayload []) = some APP_CONTRACT_STOP := by
  decide

/-- For every app tag other than the two stop tags and every payload,
`validateMessageType(app, payload)` is true iff the payload's type is the
payload type belonging to that tag; for the two stop tags it is false for
every payload. -/
theorem validateMessageType_except_stop (app : MessageType) (payload : Payload) :
    (app ≠ APP_CONTRACT_STOP → app ≠ APP_CONTRACT_STOP_REQUEST →
      (validateMessageType app payload = true ↔ specPayloadTag payload = some app)) ∧
    (app = APP_CONTRACT_STOP ∨ app = APP_CONTRACT_STOP_REQUEST →
      validateMessageType app payload = false) := by
  constructor
  · intro h1 h2
    cases payload <;> simp [validateMessageType, specPayloadTag, eq_comm] <;>
      first
        | exact fun h => h1 h.symm
        | exact fun h => h2 h.symm
        | exact fun h => h1 h
        | exact fun h => h2 h
  · intro h
    rcases h with h | h <;> subst h <;> cases payload <;> simp [validateMessageType]

/-! ## The request checks of validateTx -/

theorem validateTxLoop_pass (v : Validate) (tx : Transaction) (isCoinbase : Bool)
    (hsize : v.Size tx ≤ TX_MAXSIZE) (hsig : v.validateTxSignature tx = true) :
    ∀ (pre rest : List Message) (i : Nat),
      (∀ j m, pre[j]? = some m → validateMessageType m.App m.Payload = true ∧
        validatePayload v tx isCoinbase (i + j) m = some none) →
      validateTxLoop v tx isCoinbase i (pre ++ rest)
        = validateTxLoop v tx isCoinbase (i + pre.length) rest := by
  intro pre
  induction pre with
  | nil => intro rest i _; rfl
  | cons m pre ih =>
    intro rest i hpre
    obtain ⟨ht, hp⟩ := hpre 0 m (by simp)
    have hnsize : ¬ v.Size tx > TX_MAXSIZE := by omega
    have hrec := ih rest (i + 1) (by
      intro j m1 hj
      have := hpre (j + 1) m1 (by simpa using hj)
      rw [show i + (j + 1) = i + 1 + j by omega] at this
      exact this)
    rw [show i + 1 + pre.length = i + (m :: pre).length by simp; omega] at hrec
    rw [Nat.add_zero] at hp
    simp only [List.cons_append, validateTxLoop, ht, Bool.true_eq_false, if_false, hnsize, hsig,
      hp]
    exact hrec

theorem validateTx_at_request (v : Validate) (tx : Transaction) (isCoinbase : Bool)
    (pre post : List Message) (req : Message) (code : ValidationCode)
    (hmsgs : tx.TxMessages = pre ++ req :: post)
    (hm0 : ∃ m0 rest, pre = m0 :: rest ∧ m0.App = APP_PAYMENT)
    (hex : v.checkTxIsExist tx = false) (hfee : validateTxFee v tx = some true)
    (hsize : v.Size tx ≤ TX_MAXSIZE) (hsig : v.validateTxSignature tx = true)
    (hpre : ∀ i m, pre[i]? = some m → validateMessageType m.App m.Payload = true ∧
      validatePayload v tx isCoinbase i m = some none)
    (htype : validateMessageType req.App req.Payload = true)
    (hreq : validatePayload v tx isCoinbase pre.length req = some (some code)) :
    validateTx v tx isCoinbase = some code := by
  obtain ⟨m0, rest, hpre0, hpay⟩ := hm0
  have hnsize : ¬ v.Size tx > TX_MAXSIZE := by omega
  have hloop := validateTxLoop_pass v tx isCoinbase hsize hsig pre (req :: post) 0
    (by intro j m hj; rw [Nat.zero_add]; exact hpre j m hj)
  have hmsgs2 : tx.TxMessages = m0 :: (rest ++ req :: post) := by
    rw [hmsgs, hpre0]; rfl
  unfold validateTx
  rw [hmsgs2]
  simp only [hpay, ne_eq, not_true_eq_false, if_false, hex, Bool.false_eq_true, hfee]
  rw [← List.cons_append, ← hpre0, hloop, Nat.zero_add]
  simp only [validateTxLoop, htype, Bool.true_eq_false, if_false, hnsize, hsig, hreq]

/-- C20: for a transaction that passes all earlier checks up to its first
contract-request message (message 0 is a payment, the transaction is not
known, fee, size and signature checks pass, every earlier message has a
matching type and a valid payload): a CONTRACT_TPL_REQUEST yields
INVALID_CONTRACT iff `tpl_name`, `path` or `version` is empty and VALID
otherwise; a CONTRACT_DEPLOY_REQUEST with empty `tpl_id`, empty `tx_id` or
negative `timeout` yields INVALID_CONTRACT (and otherwise the result of
`validateContractdeploy`); a CONTRACT_INVOKE_REQUEST yields INVALID_CONTRACT
iff `contract_id` is empty and VALID otherwise. -/
theorem validateTx_request_checks (v : Validate) (tx : Transaction) (isCoinbase : Bool)
    (pre post : List Message) (req : Message)
    (hmsgs : tx.TxMessages = pre ++ req :: post)
    (hm0 : ∃ m0 rest, pre = m0 :: rest ∧ m0.App = APP_PAYMENT)
    (hex : v.checkTxIsExist tx = false) (hfee : validateTxFee v tx = some true)
    (hsize : v.Size tx ≤ TX_MAXSIZE) (hsig : v.validateTxSignature tx = true)
    (hpre : ∀ i m, pre[i]? = some m → validateMessageType m.App m.Payload = true ∧
      validatePayload v tx isCoinbase i m = some none) :
    (∀ tplName path version,
      req = ⟨APP_CONTRACT_TPL_REQUEST, .ContractInstallRequestPayload tplName path version⟩ →
      validateTx v tx isCoinbase
        = some (if tplName = "" ∨ path = "" ∨ version = "" then INVALID_CONTRACT else VALID)) ∧
    (∀ tplId txId timeout,
      req = ⟨APP_CONTRACT_DEPLOY_REQUEST, .ContractDeployRequestPayload tplId txId timeout⟩ →
      validateTx v tx isCoinbase
        = some (if tplId.toList = [] ∨ txId = "" ∨ timeout < 0 then INVALID_CONTRACT
            else v.validateContractdeploy tplId)) ∧
    (∀ contractId content,
      req = ⟨APP_CONTRACT_INVOKE_REQUEST, .ContractInvokeRequestPayload contractId content⟩ →
      validateTx v tx isCoinbase
        = some (if contractId.toList = [] then INVALID_CONTRACT else VALID)) := by
  refine ⟨?_, ?_, ?_⟩
  · intro tplName path version hreq
    apply validateTx_at_request v tx isCoinbase pre post req _ hmsgs hm0 hex hfee hsize hsig hpre
    · rw [hreq]; rfl
    · rw [hreq]
      simp only [validatePayload]
      split <;> rfl
  · intro tplId txId timeout hreq
    apply validateTx_at_request v tx isCoinbase pre post req _ hmsgs hm0 hex hfee hsize hsig hpre
    · rw [hreq]; rfl
    · rw [hreq]
      simp only [validatePayload, List.length_eq_zero]
      split <;> rfl
  · intro contractId content hreq
    apply validateTx_at_request v tx isCoinbase pre post req _ hmsgs hm0 hex hfee hsize hsig hpre
    · rw [hreq]; rfl
    · rw [hreq]
      simp only [validatePayload, List.length_eq_zero]
      split <;> rfl

theorem validateTx_request_checks_witness :
    validateTx acceptingValidate
      ⟨1, [⟨APP_PAYMENT, .PaymentPayload [] []⟩] ++
        ⟨APP_CONTRACT_INVOKE_REQUEST, .ContractInvokeRequestPayload none [3]⟩ :: []⟩ false
      = some (if (none : Bytes).toList = [] then INVALID_CONTRACT else VALID) :=
  (validateTx_request_checks acceptingValidate
    ⟨1, [⟨APP_PAYMENT, .PaymentPayload [] []⟩] ++
      ⟨APP_CONTRACT_INVOKE_REQUEST, .ContractInvokeRequestPayload none [3]⟩ :: []⟩ false
    [⟨APP_PAYMENT, .PaymentPayload [] []⟩] []
    ⟨APP_CONTRACT_INVOKE_REQUEST, .ContractInvokeRequestPayload none [3]⟩ rfl
    ⟨_, _, rfl, rfl⟩ rfl rfl (by decide) rfl
    (by
      intro i m hi
      cases i with
      | zero =>
        simp only [List.getElem?_cons_zero, Option.some.injEq] at hi
        subst hi
        exact ⟨rfl, rfl⟩
      | succ j => simp at hi)).2.2 none [3] rfl

/-! ## Rejections by TxPool.add -/

theorem GoMap.get_isSome_iff {κ ν : Type} [DecidableEq κ] (m : GoMap κ ν) (k : κ) :
    (m.get k).isSome = true ↔ k ∈ m.keys := by
  induction m with
  | nil => simp [GoMap.get, GoMap.keys]
  | cons e rest ih =>
    obtain ⟨k1, v⟩ := e
    by_cases hk : k1 = k
    · simp [GoMap.get, GoMap.keys, hk]
    · have hk2 : ¬ k = k1 := fun h => hk h.symm
      simp only [GoMap.get, hk, if_false, ih, GoMap.keys, List.map_cons, List.mem_cons, hk2,
        false_or]

/-- C23: `add` rejects every transaction whose hash is already a key of `all`:
for every pool, transaction, locality flag and fuel it returns `(false, error)`
(the error "known transaction") and the pool is returned as it was, with `all`,
`pending`, `queue`, `outpoints` and `locals` unchanged; so once a transaction
is in `all`, adding it again admits nothing. -/
theorem add_rejects_known (env : PoolEnv) (fuel : Nat) (pool : TxPool)
    (tx : TxPoolTransaction) (isLocal : Bool) (hknown : env.Hash tx.Tx ∈ pool.all.keys) :
    TxPool.add env fuel pool tx isLocal = some ((false, some .knownTransaction), pool) := by
  have h := (GoMap.get_isSome_iff pool.all (env.Hash tx.Tx)).2 hknown
  unfold TxPool.add
  simp only [h, if_true]

theorem add_rejects_known_witness :
    examplePoolEnv.Hash exampleSpend.Tx ∈ exampleKnownPool.all.keys ∧
      TxPool.add examplePoolEnv 1 exampleKnownPool exampleSpend false
        = some ((false, some .knownTransaction), exampleKnownPool) :=
  ⟨by decide, add_rejects_known examplePoolEnv 1 exampleKnownPool exampleSpend false (by decide)⟩

theorem paymentInputs_subset_spendInputs (env : PoolEnv) (msg : Message) (input : Input)
    (h : input ∈ paymentInputs msg) : input ∈ spendInputs env msg := by
  unfold paymentInputs at h
  unfold spendInputs
  split at h
  · rename_i happ
    simp only [happ, if_true]
    split at h
    · exact h
    · simp at h
  · simp at h

theorem checkPoolDoubleSpend_eq (env : PoolEnv) (pool : TxPool) (tx : TxPoolTransaction) :
    checkPoolDoubleSpend env pool tx =
      if (tx.Tx.TxMessages.flatMap (spendInputs env)).any
          (fun input => (pool.outpoints.get input.PreviousOutPoint).isSome)
      then some .alreadySpent else none := rfl

/-- C22: `checkPoolDoubleSpend` returns an error iff some message of the
transaction has, among the payment inputs the check reads, one whose previous
outpoint is a key of the pool's outpoints index; and `add` rejects every
transaction with such a payment input: it returns `(false, error)` and the pool
as it was, so `all`, `pending` and `outpoints` are unchanged. -/
theorem add_rejects_double_spend (env : PoolEnv) (fuel : Nat) (pool : TxPool)
    (tx : TxPoolTransaction) (isLocal : Bool) :
    (checkPoolDoubleSpend env pool tx ≠ none ↔
      ∃ msg ∈ tx.Tx.TxMessages, ∃ input ∈ spendInputs env msg,
        input.PreviousOutPoint ∈ pool.outpoints.keys) ∧
    ((∃ msg ∈ tx.Tx.TxMessages, ∃ input ∈ paymentInputs msg,
        input.PreviousOutPoint ∈ pool.outpoints.keys) →
      ∃ err, TxPool.add env fuel pool tx isLocal = some ((false, some err), pool)) := by
  have hiff : ∀ t : TxPoolTransaction, (checkPoolDoubleSpend env pool t ≠ none ↔
      ∃ msg ∈ t.Tx.TxMessages, ∃ input ∈ spendInputs env msg,
        input.PreviousOutPoint ∈ pool.outpoints.keys) := by
    intro t
    rw [checkPoolDoubleSpend_eq]
    constructor
    · intro h
      split at h
      · rename_i hany
        rw [List.any_eq_true] at hany
        obtain ⟨input, hin, hsome⟩ := hany
        rw [List.mem_flatMap] at hin
        obtain ⟨msg, hmsg, hin2⟩ := hin
        exact ⟨msg, hmsg, input, hin2, (GoMap.get_isSome_iff _ _).1 hsome⟩
      · exact absurd rfl h
    · rintro ⟨msg, hmsg, input, hin, hkey⟩
      have hany : (t.Tx.TxMessages.flatMap (spendInputs env)).any
          (fun input => (pool.outpoints.get input.PreviousOutPoint).isSome) = true := by
        rw [List.any_eq_true]
        exact ⟨input, List.mem_flatMap.2 ⟨msg, hmsg, hin⟩, (GoMap.get_isSome_iff _ _).2 hkey⟩
      simp [hany]
  refine ⟨hiff tx, ?_⟩
  rintro ⟨msg, hmsg, input, hin, hkey⟩
  unfold TxPool.add
  simp only
  split
  · exact ⟨_, rfl⟩
  · have hne := (hiff { tx with Tx := { tx.Tx with TxHash := env.Hash tx.Tx } }).2
      ⟨msg, hmsg, input, paymentInputs_subset_spendInputs env msg input hin, hkey⟩
    split
    · exact ⟨_, rfl⟩
    · rename_i hnone
      exact absurd hnone hne

theorem add_rejects_double_spend_witness :
    (∃ msg ∈ exampleSpend.Tx.TxMessages, ∃ input ∈ paymentInputs msg,
        input.PreviousOutPoint ∈ exampleIndexedPool.outpoints.keys) ∧
      ∃ err, TxPool.add examplePoolEnv 1 exampleIndexedPool exampleSpend false
        = some ((false, some err), exampleIndexedPool) :=
  ⟨by decide,
    (add_rejects_double_spend examplePoolEnv 1 exampleIndexedPool exampleSpend false).2
      (by decide)⟩

/-! ## GetSortedTxs -/

theorem sortInsert_mem {α : Type} (less : α → α → Bool) (x a : α) (r : List α) :
    a ∈ sortInsert less x r ↔ a = x ∨ a ∈ r := by
  induction r with
  | nil => simp [sortInsert]
  | cons y r ih =>
    unfold sortInsert
    split
    · simp only [List.mem_cons, ih]
      constructor
      · rintro (h | h | h)
        · exact Or.inr (Or.inl h)
        · exact Or.inl h
        · exact Or.inr (Or.inr h)
      · rintro (h | h | h)
        · exact Or.inr (Or.inl h)
        · exact Or.inl h
        · exact Or.inr (Or.inr h)
    · simp only [List.mem_cons]

theorem sortInsert_ascending (x : TxPoolTransaction) (r : List TxPoolTransaction)
    (h : r.Pairwise (fun a b => a.Priority_lvl ≤ b.Priority_lvl)) :
    (sortInsert TxByPriority.Less x r).Pairwise
      (fun a b => a.Priority_lvl ≤ b.Priority_lvl) := by
  induction r with
  | nil => simp [sortInsert]
  | cons y r ih =>
    rw [List.pairwise_cons] at h
    unfold sortInsert
    split
    · rename_i hless
      have hlt : y.Priority_lvl < x.Priority_lvl := by
        simpa [TxByPriority.Less] using hless
      rw [List.pairwise_cons]
      refine ⟨?_, ih h.2⟩
      intro a ha
      rcases (sortInsert_mem _ _ _ _).1 ha with hax | har
      · subst hax; exact Nat.le_of_lt hlt
      · exact h.1 a har
    · rename_i hless
      have hle : x.Priority_lvl ≤ y.Priority_lvl := by
        simpa [TxByPriority.Less] using hless
      rw [List.pairwise_cons]
      refine ⟨?_, List.pairwise_cons.2 h⟩
      intro a ha
      rcases List.mem_cons.1 ha with hay | har
      · subst hay; exact hle
      · exact Nat.le_trans hle (h.1 a har)

theorem sortSort_foldl_ascending (l : List TxPoolTransaction) :
    ∀ r : List TxPoolTransaction, r.Pairwise (fun a b => a.Priority_lvl ≤ b.Priority_lvl) →
      (l.foldl (fun r x => sortInsert TxByPriority.Less x r) r).Pairwise
        (fun a b => a.Priority_lvl ≤ b.Priority_lvl) := by
  induction l with
  | nil => intro r h; exact h
  | cons x l ih => intro r h; exact ih _ (sortInsert_ascending x r h)

theorem sortSort_descending (l : List TxPoolTransaction) :
    (sortSort TxByPriority.Less l).Pairwise (fun a b => a.Priority_lvl ≥ b.Priority_lvl) := by
  unfold sortSort
  rw [List.pairwise_reverse]
  exact sortSort_foldl_ascending l [] List.Pairwise.nil

theorem sortSort_foldl_perm {α : Type} (less : α → α → Bool) (l : List α) :
    ∀ r : List α, (l.foldl (fun r x => sortInsert less x r) r).Perm (l ++ r) := by
  have hins : ∀ (x : α) (r : List α), (sortInsert less x r).Perm (x :: r) := by
    intro x r
    induction r with
    | nil => exact List.Perm.refl _
    | cons y r ih =>
      unfold sortInsert
      split
      · exact ((List.Perm.cons y ih).trans (List.Perm.swap x y r))
      · exact List.Perm.refl _
  induction l with
  | nil => intro r; exact List.Perm.refl _
  | cons x l ih =>
    intro r
    refine (ih _).trans ?_
    refine (List.Perm.append_left l (hins x r)).trans ?_
    exact List.perm_middle

/-- The sorted list holds exactly the entries given to `sort.Sort`. -/
theorem sortSort_perm {α : Type} (less : α → α → Bool) (l : List α) :
    (sortSort less l).Perm l := by
  unfold sortSort
  refine (List.reverse_perm _).trans ?_
  simpa using sortSort_foldl_perm less l []

/-- C24: for every pool state (and every clock reading and unit size limit),
the list returned by `GetSortedTxs` is ordered by priority descending: every
entry has a priority at least that of each later entry, so for consecutive
entries `a`, `b` of the result `a.Priority_lvl >= b.Priority_lvl`; and the
pool with priorities 10, 50, 30 at equal size returns them as `[50, 30, 10]`. -/
theorem GetSortedTxs_descending (env : PoolEnv) (now : Int) (unitTxSize : Nat) (pool : TxPool) :
    (TxPool.GetSortedTxs env now unitTxSize pool).1.1.Chain'
        (fun a b => a.Priority_lvl ≥ b.Priority_lvl) ∧
      (TxPool.GetSortedTxs env now unitTxSize pool).1.1.Pairwise
        (fun a b => a.Priority_lvl ≥ b.Priority_lvl) ∧
      (TxPool.GetSortedTxs examplePoolEnv 0 100 exampleThreePool).1.1.map
        (fun t => t.Priority_lvl) = [50, 30, 10] := by
  have h : (TxPool.GetSortedTxs env now unitTxSize pool).1.1.Pairwise
      (fun a b => a.Priority_lvl ≥ b.Priority_lvl) := by
    unfold TxPool.GetSortedTxs
    exact sortSort_descending _
  exact ⟨List.Pairwise.chain' h, h, by decide⟩

/-! ## Promotion and reset -/

theorem GoMap.keys_delete {κ ν : Type} [DecidableEq κ] (m : GoMap κ ν) (k h : κ) :
    h ∈ (GoMap.delete m k).keys ↔ h ∈ m.keys ∧ h ≠ k := by
  unfold GoMap.delete GoMap.keys
  simp only [List.mem_map, List.mem_filter, decide_eq_true_eq]
  constructor
  · rintro ⟨e, ⟨he, hne⟩, rfl⟩
    exact ⟨⟨e, he, rfl⟩, hne⟩
  · rintro ⟨⟨e, he, rfl⟩, hne⟩
    exact ⟨e, ⟨he, hne⟩, rfl⟩

theorem GoMap.keys_update {κ ν : Type} [DecidableEq κ] (m : GoMap κ ν) (k : κ) (v : ν) :
    (GoMap.update m k v).keys = m.keys := by
  unfold GoMap.update GoMap.keys
  rw [List.map_map]
  apply List.map_congr_left
  intro e _
  simp only [Function.comp]
  split <;> rfl

theorem GoMap.keys_set {κ ν : Type} [DecidableEq κ] (m : GoMap κ ν) (k h : κ) (v : ν) :
    h ∈ (GoMap.set m k v).keys ↔ h = k ∨ h ∈ m.keys := by
  have hk : GoMap.keys (GoMap.set m k v) = k :: GoMap.keys (GoMap.delete m k) := rfl
  rw [hk, List.mem_cons, GoMap.keys_delete]
  by_cases hh : h = k
  · simp [hh]
  · simp [hh]

theorem allWithin_refl (p : TxPool) : AllWithin p p := fun _ h => h

theorem allWithin_trans {p1 p2 p3 : TxPool} (h12 : AllWithin p1 p2) (h23 : AllWithin p2 p3) :
    AllWithin p1 p3 := fun h hh => h23 h (h12 h hh)

theorem dropOffenders_spec (env : PoolEnv) (offs : List Hash) :
    ∀ (pool : TxPool) (n : Nat) (pool1 : TxPool) (n1 : Nat),
      dropOffenders env offs pool n = some (pool1, n1) →
      AllWithin pool1 pool ∧ pool1.pending.keys = pool.pending.keys := by
  induction offs with
  | nil =>
    intro pool n pool1 n1 h
    simp only [dropOffenders, Option.some.injEq, Prod.mk.injEq] at h
    rw [← h.1]
    exact ⟨allWithin_refl _, rfl⟩
  | cons o rest ih =>
    intro pool n pool1 n1 h
    unfold dropOffenders at h
    split at h
    · cases h
    · rename_i tx htx
      have := ih _ _ _ _ h
      refine ⟨fun k hk => ?_, ?_⟩
      · have h1 := this.1 k hk
        simp only at h1
        exact ((GoMap.keys_delete _ _ _).1 h1).1
      · rw [this.2]
        simp only
        exact GoMap.keys_update _ _ _

theorem dropUntil_spec (env : PoolEnv) (g : Nat) (offs : List Hash) :
    ∀ (fuel : Nat) (pool : TxPool) (n : Nat) (pool1 : TxPool) (n1 : Nat),
      dropUntil env g offs fuel pool n = some (pool1, n1) →
      AllWithin pool1 pool ∧ pool1.pending.keys = pool.pending.keys := by
  intro fuel
  induction fuel with
  | zero => intro pool n pool1 n1 h; simp [dropUntil] at h
  | succ fuel ih =>
    intro pool n pool1 n1 h
    unfold dropUntil at h
    split at h
    · split at h
      · cases h
      · rename_i p2 n2 hd
        have h1 := dropOffenders_spec env offs _ _ _ _ hd
        have h2 := ih _ _ _ _ h
        exact ⟨allWithin_trans h2.1 h1.1, h2.2.trans h1.2⟩
    · simp only [Option.some.injEq, Prod.mk.injEq] at h
      rw [← h.1]
      exact ⟨allWithin_refl _, rfl⟩

theorem promoteLoop_spec (env : PoolEnv) (g fuel : Nat) (spammers : List Hash) :
    ∀ (offs : List Hash) (pool : TxPool) (n : Nat) (offs1 : List Hash) (pool1 : TxPool)
      (n1 : Nat), promoteLoop env g fuel spammers offs pool n = some (offs1, pool1, n1) →
      AllWithin pool1 pool ∧ pool1.pending.keys = pool.pending.keys := by
  induction spammers with
  | nil =>
    intro offs pool n offs1 pool1 n1 h
    simp only [promoteLoop, Option.some.injEq, Prod.mk.injEq] at h
    rw [← h.2.1]
    exact ⟨allWithin_refl _, rfl⟩
  | cons o rest ih =>
    intro offs pool n offs1 pool1 n1 h
    unfold promoteLoop at h
    split at h
    · simp only at h
      split at h
      · split at h
        · cases h
        · rename_i p2 n2 hd
          have h1 := dropUntil_spec env g _ fuel _ _ _ _ hd
          have h2 := ih _ _ _ _ _ _ h
          exact ⟨allWithin_trans h2.1 h1.1, h2.2.trans h1.2⟩
      · exact ih _ _ _ _ _ _ h
    · simp only [Option.some.injEq, Prod.mk.injEq] at h
      rw [← h.2.1]
      exact ⟨allWithin_refl _, rfl⟩

/-- `promoteExecutables` only deletes from `all`, and leaves the keys of
`pending` as they are. -/
theorem promoteExecutables_spec (env : PoolEnv) (popOrder : List Hash → List Hash)
    (fuel : Nat) (pool pool1 : TxPool)
    (h : TxPool.promoteExecutables env popOrder fuel pool = some pool1) :
    AllWithin pool1 pool ∧ pool1.pending.keys = pool.pending.keys := by
  unfold TxPool.promoteExecutables at h
  simp only at h
  split at h
  · split at h
    · cases h
    · rename_i offs p2 n2 hl
      have h1 := promoteLoop_spec env _ fuel _ _ _ _ _ _ _ hl
      split at h
      · cases hd : dropUntil env pool.config.GlobalSlots offs fuel p2 n2 with
        | none => rw [hd] at h; simp at h
        | some r =>
          obtain ⟨p3, n3⟩ := r
          rw [hd] at h
          simp only [Option.map_some', Option.some.injEq] at h
          subst h
          have h2 := dropUntil_spec env _ _ fuel _ _ _ _ hd
          exact ⟨allWithin_trans h2.1 h1.1, h2.2.trans h1.2⟩
      · simp only [Option.some.injEq] at h
        subst h
        exact h1
  · simp only [Option.some.injEq] at h
    subst h
    exact ⟨allWithin_refl _, rfl⟩

/-- C21 (the code at the failing input): the pool that holds three transactions
in `all` and none in `pending` satisfies "every hash in pending is also in
all", and so does the pool after one call of `GetSortedTxs`, which promotes the
three; a second call of `GetSortedTxs` finds each of them pending, so
`promoteTx` deletes it from `all` and returns: afterwards `pending` holds the
hashes 3, 2, 1 and `all` is empty, and the invariant is broken. -/
theorem GetSortedTxs_breaks_pending_within_all :
    PendingWithinAll exampleThreePool ∧
      PendingWithinAll (TxPool.GetSortedTxs examplePoolEnv 0 100 exampleThreePool).2 ∧
      (TxPool.GetSortedTxs examplePoolEnv 0 100
        (TxPool.GetSortedTxs examplePoolEnv 0 100 exampleThreePool).2).2.pending.keys
          = [3, 2, 1] ∧
      (TxPool.GetSortedTxs examplePoolEnv 0 100
        (TxPool.GetSortedTxs examplePoolEnv 0 100 exampleThreePool).2).2.all.keys = [] ∧
      ¬ PendingWithinAll (TxPool.GetSortedTxs examplePoolEnv 0 100
        (TxPool.GetSortedTxs examplePoolEnv 0 100 exampleThreePool).2).2 := by
  decide

/-- The broken state is reached from the empty pool by the operations of the
pool alone: after three calls of `add` the invariant holds, after one call of
`GetSortedTxs` it holds, and after a second call `all` is empty while
`pending` holds the three hashes. -/
theorem pending_within_all_broken_from_empty :
    exampleThreeAdds.map (fun p =>
        (decide (PendingWithinAll p),
          decide (PendingWithinAll (TxPool.GetSortedTxs examplePoolEnv 0 100 p).2),
          (TxPool.GetSortedTxs examplePoolEnv 0 100
            (TxPool.GetSortedTxs examplePoolEnv 0 100 p).2).2.all.keys,
          (TxPool.GetSortedTxs examplePoolEnv 0 100
            (TxPool.GetSortedTxs examplePoolEnv 0 100 p).2).2.pending.keys,
          decide (PendingWithinAll (TxPool.GetSortedTxs examplePoolEnv 0 100
            (TxPool.GetSortedTxs examplePoolEnv 0 100 p).2).2)))
      = some (true, true, [], [1, 2, 3], false) := by
  decide

/-- A call of `promoteTx` for a hash whose pending entry is marked `Pending`
deletes the hash from `all` and leaves it in `pending`. -/
theorem promoteTx_discards_from_all (env : PoolEnv) (now : Int) (pool : TxPool) (hash : Hash)
    (tx old : TxPoolTransaction) (hold : pool.pending.get hash = some old)
    (hp : old.Pending = true) :
    (TxPool.promoteTx env now pool hash tx).1.pending = pool.pending ∧
      hash ∈ (TxPool.promoteTx env now pool hash tx).1.pending.keys ∧
      hash ∉ (TxPool.promoteTx env now pool hash tx).1.all.keys := by
  have hkey : hash ∈ pool.pending.keys :=
    (GoMap.get_isSome_iff _ _).1 (by rw [hold]; rfl)
  unfold TxPool.promoteTx
  simp only [hold, hp, Bool.true_or, if_true]
  refine ⟨trivial, hkey, ?_⟩
  intro h
  exact ((GoMap.keys_delete _ _ _).1 h).2 rfl

/-- The fairness pass of `promoteExecutables` on a pool with three pending
transactions and `GlobalSlots` 1: the hash 1 is deleted from `all` and stays in
`pending`, so "every hash in pending is also in all" no longer holds. -/
theorem promoteExecutables_breaks_pending_within_all :
    PendingWithinAll exampleCrowdedPool ∧
      (TxPool.promoteExecutables examplePoolEnv id 3 exampleCrowdedPool).map
        (fun p => (p.all.keys, p.pending.keys, decide (PendingWithinAll p)))
        = some ([2, 3], [1, 2, 3], false) := by
  decide

/-- The pool without transactions satisfies the invariant, and `enqueueTx`
preserves it. -/
theorem enqueueTx_pending_within_all (pool : TxPool) (hash : Hash) (tx : TxPoolTransaction)
    (h : PendingWithinAll pool) :
    PendingWithinAll examplePool ∧ PendingWithinAll (TxPool.enqueueTx pool hash tx).2 := by
  refine ⟨by decide, ?_⟩
  unfold TxPool.enqueueTx
  split
  · split
    · exact h
    · intro k hk
      exact (GoMap.keys_set _ _ _ _).2 (by
        by_cases hkh : k = hash
        · exact Or.inl hkh
        · exact Or.inr ((GoMap.keys_delete _ _ _).2 ⟨h k hk, hkh⟩))
  · intro k hk
    exact (GoMap.keys_set _ _ _ _).2 (Or.inr (h k hk))

theorem resetWalkOld_discarded (chain : ChainEnv) :
    ∀ (fuel : Nat) (rem add rem1 : Unit) (d d1 : List Transaction),
      resetWalkOld chain fuel rem add d = some (some (rem1, d1)) → d1 = d := by
  intro fuel
  induction fuel with
  | zero => intro rem add rem1 d d1 h; simp [resetWalkOld] at h
  | succ fuel ih =>
    intro rem add rem1 d d1 h
    unfold resetWalkOld at h
    split at h
    · simp only [Unit.Transactions, List.append_nil] at h
      split at h
      · cases h
      · split at h
        · cases h
        · exact ih _ _ _ _ _ h
    · simp only [Option.some.injEq, Prod.mk.injEq] at h
      exact h.2.symm

theorem resetWalkBoth_discarded (chain : ChainEnv) :
    ∀ (fuel : Nat) (rem add : Unit) (d i d1 i1 : List Transaction),
      resetWalkBoth chain fuel rem add d i = some (some (d1, i1)) → d1 = d := by
  intro fuel
  induction fuel with
  | zero => intro rem add d i d1 i1 h; simp [resetWalkBoth] at h
  | succ fuel ih =>
    intro rem add d i d1 i1 h
    unfold resetWalkBoth at h
    split at h
    · simp only [Unit.Transactions, List.append_nil] at h
      split at h
      · cases h
      · split at h
        · cases h
        · split at h
          · cases h
          · split at h
            · cases h
            · exact ih _ _ _ _ _ _ h
    · simp only [Option.some.injEq, Prod.mk.injEq] at h
      exact h.1.symm

/-- Whatever the chain, the reorg block of `reset` finds nothing to reinject:
the discarded list is built from `Unit.Transactions`, which is always empty. -/
theorem resetReinject_nil (env : PoolEnv) (chain : ChainEnv) (fuel : Nat)
    (oldHead newHead : Option Header) (txs : List Transaction)
    (h : resetReinject env chain fuel oldHead newHead = some (some txs)) : txs = [] := by
  unfold resetReinject at h
  split at h
  · simp only [Option.some.injEq] at h; exact h.symm
  · split at h
    · split at h
      · cases h
      · simp only at h
        split at h
        · simp only [Option.some.injEq] at h; exact h.symm
        · split at h
          · rename_i rem add _ _
            split at h
            · cases h
            · cases h
            · rename_i rem1 discarded hw1
              have e1 := resetWalkOld_discarded chain _ _ _ _ _ _ hw1
              split at h
              · cases h
              · cases h
              · rename_i add1 included hw2
                split at h
                · cases h
                · cases h
                · rename_i d i hw3
                  have e3 := resetWalkBoth_discarded chain _ _ _ _ _ _ _ hw3
                  simp only [Option.some.injEq] at h
                  rw [← h, e3, e1]
                  rfl
          · cases h
    · simp only [Option.some.injEq] at h; exact h.symm

/-- No call of `reset` puts a transaction into the pool: every key of `all`
after the call was one before it. -/
theorem reset_all_within (env : PoolEnv) (chain : ChainEnv) (popOrder : List Hash → List Hash)
    (computePriority : Transaction → Nat) (fuel : Nat) (pool pool1 : TxPool)
    (oldHead newHead : Option Header)
    (h : TxPool.reset env chain popOrder computePriority fuel pool oldHead newHead
      = some pool1) : AllWithin pool1 pool := by
  unfold TxPool.reset at h
  split at h
  · cases h
  · simp only [Option.some.injEq] at h
    subst h
    exact allWithin_refl _
  · rename_i reinject hr
    have hnil := resetReinject_nil env chain fuel oldHead newHead reinject hr
    subst hnil
    split at h
    · cases h
    · simp only [List.map_nil, TxPool.addTxsLocked, addTxsLoop, List.length_nil,
        gt_iff_lt, Nat.lt_irrefl, if_false] at h
      exact (promoteExecutables_spec env popOrder fuel _ _ h).1

/-- C25 (the code at the failing input): the chain reorgs from the head H1
(number 2, parent 100), whose unit contains T1 (hash 11), to the head H2
(number 2, parent 100), whose unit does not; the pool holds T2 (hash 12).
After `reset(H1, H2)`, whether `HeaderEqual` compares the headers for equality
or lets the reorg block run, `all` holds the key 12 only: T1 is not in the
pool. -/
theorem reset_drops_discarded_transaction :
    exampleT1 ∈ exampleUnits.flatMap (fun u => if u.UnitHeader.Root = 101 then u.Txs else []) ∧
      exampleT1 ∉ exampleUnits.flatMap (fun u => if u.UnitHeader.Root = 102 then u.Txs else []) ∧
      examplePoolEnv.Hash exampleT1 = 11 ∧
      (TxPool.reset examplePoolEnv (exampleChain (fun a b => decide (some a = b))) id
          (fun _ => 1) 5 exampleReorgPool (some ⟨[100], 2, 101⟩) (some ⟨[100], 2, 102⟩)).map
        (fun p => p.all.keys) = some [12] ∧
      (TxPool.reset examplePoolEnv (exampleChain (fun _ _ => true)) id
          (fun _ => 1) 5 exampleReorgPool (some ⟨[100], 2, 101⟩) (some ⟨[100], 2, 102⟩)).map
        (fun p => p.all.keys) = some [12] := by
  decide

/-! ## nodeContractExecutable -/

/-- C29: `nodeContractExecutable(accounts, tx)` returns false for a nil `tx`;
for a transaction that is not nil, with `sys` the answer of `isSystemContract`,
it returns true iff either `sys` holds and some address in `accounts` is a local
active mediator, or `sys` does not hold (a user contract) and some address in
`accounts` is a local account that is an active jury. -/
theorem nodeContractExecutable_spec (jenv : JuryEnv) (accounts : List Address) :
    nodeContractExecutable jenv accounts none = some false ∧
      ∀ (tx : Transaction) (sys : Bool), isSystemContract jenv tx = some sys →
        ∃ b, nodeContractExecutable jenv accounts (some tx) = some b ∧
          (b = true ↔
            (sys = true ∧ ∃ a ∈ accounts, jenv.IsLocalActiveMediator a = true) ∨
            (sys = false ∧
              ∃ a ∈ accounts, a ∈ jenv.localAccounts ∧ jenv.IsActiveJury a = true)) := by
  refine ⟨rfl, ?_⟩
  intro tx sys hsys
  unfold nodeContractExecutable
  simp only [hsys]
  cases sys with
  | true =>
    refine ⟨_, rfl, ?_⟩
    simp only [List.any_eq_true, true_and, Bool.true_eq_false, false_and, or_false]
  | false =>
    refine ⟨_, rfl, ?_⟩
    simp only [List.any_eq_true, Bool.false_eq_true, false_and, true_and, false_or]
    constructor
    · rintro ⟨a, ha, hj⟩
      unfold isLocalActiveJury at hj
      split at hj
      · rename_i hloc
        exact ⟨a, ha, hloc, hj⟩
      · cases hj
    · rintro ⟨a, ha, hloc, hj⟩
      refine ⟨a, ha, ?_⟩
      unfold isLocalActiveJury
      simp only [hloc, if_true, hj]

theorem nodeContractExecutable_spec_witness :
    isSystemContract exampleJuryEnv exampleUserInvoke = some false ∧
      ∃ b, nodeContractExecutable exampleJuryEnv [2, 5] (some exampleUserInvoke) = some b ∧
        (b = true ↔
          (false = true ∧ ∃ a ∈ [2, 5], exampleJuryEnv.IsLocalActiveMediator a = true) ∨
          (false = false ∧
            ∃ a ∈ [2, 5], a ∈ exampleJuryEnv.localAccounts ∧
              exampleJuryEnv.IsActiveJury a = true)) :=
  ⟨by decide,
    (nodeContractExecutable_spec exampleJuryEnv [2, 5]).2 exampleUserInvoke false (by decide)⟩

/-! ## ContractTxDeleteLoop -/

theorem timeSince_gt_iff (now t : Int) :
    timeSince now t > 1000000000 * 100 ↔ now - t > 100000000000 := by
  unfold timeSince
  constructor
  · intro h
    by_contra hn
    have h1 : min ((2 : Int) ^ 63 - 1) (now - t) ≤ 100000000000 :=
      le_trans (min_le_right _ _) (by omega)
    have h2 : max (-(2 : Int) ^ 63) (min ((2 : Int) ^ 63 - 1) (now - t)) ≤ 100000000000 :=
      max_le (by norm_num) h1
    omega
  · intro h
    have h1 : (100000000000 : Int) < min ((2 : Int) ^ 63 - 1) (now - t) :=
      lt_min (by norm_num) h
    have h2 := le_max_right (-(2 : Int) ^ 63) (min ((2 : Int) ^ 63 - 1) (now - t))
    omega

/-- C27: one sweep of `ContractTxDeleteLoop` removes from `mtx` exactly the
records whose age (the clock reading at the sweep minus the creation time `tm`)
is more than 100 seconds and whose `valid` is false: a key is absent after the
sweep iff it was absent before or its record was such a one; every record with
`valid` true, of any age, and every record of age at most 100 seconds is
retained with its contents unchanged; `mel` is not touched. -/
theorem ContractTxDeleteSweep_spec (now : Hash → Int) (p : Processor) (k : Hash) :
    ((ContractTxDeleteSweep now p).mtx k = none ↔
      p.mtx k = none ∨
        ∃ v, p.mtx k = some v ∧ now k - v.tm > 100 * 1000000000 ∧ v.valid = false) ∧
    (∀ v, p.mtx k = some v → v.valid = true → (ContractTxDeleteSweep now p).mtx k = some v) ∧
    (∀ v, p.mtx k = some v → now k - v.tm ≤ 100 * 1000000000 →
      (ContractTxDeleteSweep now p).mtx k = some v) ∧
    (∀ v, (ContractTxDeleteSweep now p).mtx k = some v → p.mtx k = some v) ∧
    (ContractTxDeleteSweep now p).mel = p.mel := by
  have hgen : (ContractTxDeleteSweep now p).mtx k =
      match p.mtx k with
      | none => none
      | some v => if now k - v.tm > 100000000000 ∧ v.valid = false then none else some v := by
    unfold ContractTxDeleteSweep
    simp only
    cases hm : p.mtx k with
    | none => rfl
    | some v =>
      simp only
      by_cases hage : now k - v.tm > 100000000000
      · have := (timeSince_gt_iff (now k) v.tm).2 hage
        simp only [this, if_true, hage, true_and]
      · have : ¬ timeSince (now k) v.tm > 1000000000 * 100 :=
          fun h => hage ((timeSince_gt_iff (now k) v.tm).1 h)
        simp only [this, if_false, hage, false_and]
  rw [hgen]
  refine ⟨?_, ?_, ?_, ?_, rfl⟩
  · cases hm : p.mtx k with
    | none => simp
    | some v =>
      constructor
      · intro h
        simp only at h
        split at h
        · rename_i hc
          exact Or.inr ⟨v, rfl, by omega, hc.2⟩
        · cases h
      · rintro (h | ⟨w, hw, h1, h2⟩)
        · cases h
        · simp only [Option.some.injEq] at hw
          subst hw
          have : now k - v.tm > 100000000000 ∧ v.valid = false := ⟨by omega, h2⟩
          simp only [this, and_self, if_true]
  · intro v hv hvalid
    rw [hv]
    simp only [hvalid, Bool.true_eq_false, and_false, if_false]
  · intro v hv hage
    rw [hv]
    have : ¬ (now k - v.tm > 100000000000 ∧ v.valid = false) := fun h => by omega
    simp only [this, if_false]
  · intro v hv
    cases hm : p.mtx k with
    | none => rw [hm] at hv; cases hv
    | some w =>
      rw [hm] at hv
      simp only at hv
      split at hv
      · cases hv
      · exact hv

theorem ContractTxDeleteSweep_spec_witness :
    (exampleSweepProcessor.mtx 8).map (fun v => v.valid) = some true ∧
      ((ContractTxDeleteSweep (fun _ => 200000000000) exampleSweepProcessor).mtx 8
        = exampleSweepProcessor.mtx 8) ∧
      (ContractTxDeleteSweep (fun _ => 200000000000) exampleSweepProcessor).mtx 7 = none :=
  ⟨by decide,
    (ContractTxDeleteSweep_spec (fun _ => 200000000000) exampleSweepProcessor 8).2.1 _ rfl rfl,
    (ContractTxDeleteSweep_spec (fun _ => 200000000000) exampleSweepProcessor 7).1.2
      (Or.inr ⟨_, rfl, by decide, rfl⟩)⟩

/-! ## ProcessContractSigEvent -/

/-- `getLocalNodesInfo` never returns nodes together with an error: either it
returns the error and no nodes, or one node for each local account and no
error. -/
theorem getLocalNodesInfo_cases (jenv : JuryEnv) :
    ((getLocalNodesInfo jenv).2 ≠ none ∧ (getLocalNodesInfo jenv).1 = [] ∧
        jenv.localAccounts = []) ∨
      ((getLocalNodesInfo jenv).2 = none ∧
        (getLocalNodesInfo jenv).1.length = jenv.localAccounts.length ∧
        jenv.localAccounts ≠ []) := by
  unfold getLocalNodesInfo
  cases hl : jenv.localAccounts with
  | nil => left; simp
  | cons a rest => right; simp

/-- For every valid signature event whose request id is tracked in `mtx`,
`ProcessContractSigEvent` returns the error "getLocalNodesInfo fail" and
leaves the processor as it is, whatever the local accounts are: with accounts
the error of `getLocalNodesInfo` is nil, and the test `err == nil` succeeds. -/
theorem ProcessContractSigEvent_tracked (env : TxEnv) (jenv : JuryEnv) (now : Int)
    (p : Processor) (tx : Transaction) (ctx : contractTx)
    (hlen : 1 ≤ tx.TxMessages.length) (hvalid : jenv.checkTxValid tx = true)
    (hm : p.mtx (env.RequestHash tx) = some ctx) :
    ProcessContractSigEvent env jenv now p (some (some tx))
      = some (some "ProcessContractSigEvent getLocalNodesInfo fail", none, none, p) := by
  unfold ProcessContractSigEvent
  have h1 : ¬ tx.TxMessages.length < 1 := by omega
  simp only [h1, if_false, hvalid, Bool.true_eq_false, hm]
  rcases getLocalNodesInfo_cases jenv with ⟨_, hn, _⟩ | ⟨he, _, _⟩
  · simp [hn]
  · simp [he]

/-- C28 (the code at the failing input): the local accounts are 1 (an active
mediator) and 2, so `getLocalNodesInfo` returns two nodes and no error; the
request 21 is tracked; the event carries a valid transaction with three
signatures.  `ProcessContractSigEvent` returns the error "getLocalNodesInfo
fail", and the record of the request is as before, without `rstTx`: the
mediator handling is not reached. -/
theorem ProcessContractSigEvent_errs_with_nodes :
    (getLocalNodesInfo exampleJuryEnv).1.map (fun n => n.ntype) = [TMediator, TJury] ∧
      (getLocalNodesInfo exampleJuryEnv).2 = none ∧
      exampleJuryEnv.checkTxValid exampleSigTx = true ∧
      (exampleTrackingProcessor.mtx (exampleEnv.RequestHash exampleSigTx)).isSome = true ∧
      getTxSigNum (some exampleSigTx) = some 3 ∧
      (ProcessContractSigEvent exampleEnv exampleJuryEnv 5 exampleTrackingProcessor
          (some (some exampleSigTx))).map (fun r => (r.1, r.2.1, r.2.2.1, r.2.2.2.mtx 21))
        = some (some "ProcessContractSigEvent getLocalNodesInfo fail", none, none,
            exampleTrackingProcessor.mtx 21) ∧
      (exampleTrackingProcessor.mtx 21).map (fun c => c.rstTx) = some none ∧
      (sigEventHandle exampleTrackingProcessor 21
          { reqTx := some exampleUserInvoke, rstTx := none, sigTx := none, rcvTx := [],
            eleInf := [], reqRcvEd := true, tm := 0, valid := true }
          exampleSigTx (getLocalNodesInfo exampleJuryEnv).1).map
        (fun r => (r.2.2.2.mtx 21).map (fun c => c.rstTx))
        = some (some (some exampleSigTx)) := by
  refine ⟨by decide, by decide, by decide, by decide, by decide, by decide, by decide, ?_⟩
  decide

/-! ## Alignment of slot times -/

theorem NoSlotOverflow_mono (gp : GlobalProperty) (head : NewestUnit) (n m : Nat) (hnm : n ≤ m)
    (h : NoSlotOverflow gp head m) : NoSlotOverflow gp head n := by
  obtain ⟨h1, h2, h3⟩ := h
  have hi : (0 : Int) ≤ (gp.MediatorInterval : Int) := Int.ofNat_nonneg _
  have hle : (n : Int) * (gp.MediatorInterval : Int) ≤ (m : Int) * (gp.MediatorInterval : Int) :=
    Int.mul_le_mul_of_nonneg_right (by exact_mod_cast hnm) hi
  refine ⟨h1, ?_, ?_⟩
  · have : 1000000000 * (n : Int) * (gp.MediatorInterval : Int)
        ≤ 1000000000 * (m : Int) * (gp.MediatorInterval : Int) := by
      rw [mul_assoc, mul_assoc]
      exact Int.mul_le_mul_of_nonneg_left hle (by norm_num)
    omega
  · omega

theorem aligned_next (ts i : Int) (hi : 0 < i) (hts : 0 ≤ ts) :
    (ts.tdiv i * i) % i = 0 ∧ ts < ts.tdiv i * i + i ∧
      ∀ m : Int, m % i = 0 → ts < m → ts.tdiv i * i + i ≤ m := by
  rw [Int.tdiv_eq_ediv hts hi.le]
  refine ⟨Int.mul_emod_left _ _, ?_, ?_⟩
  · have h1 := Int.emod_add_ediv ts i
    have h2 := Int.emod_lt_of_pos ts hi
    have : ts / i * i = i * (ts / i) := mul_comm _ _
    omega
  · intro m hm hlt
    have hm2 : i * (m / i) = m := by
      have := Int.emod_add_ediv m i
      omega
    have h1 := Int.emod_add_ediv ts i
    have h0 := Int.emod_nonneg ts hi.ne'
    have hq : ts / i < m / i := by
      by_contra hcon
      have hle : m / i ≤ ts / i := by omega
      have : i * (m / i) ≤ i * (ts / i) := Int.mul_le_mul_of_nonneg_left hle hi.le
      omega
    have : i * (ts / i + 1) ≤ i * (m / i) := Int.mul_le_mul_of_nonneg_left (by omega) hi.le
    have e : ts / i * i = i * (ts / i) := mul_comm _ _
    have e2 : i * (ts / i + 1) = i * (ts / i) + i := by ring
    omega

/-- C30 (as stated, refuted): it is not the case that for every slot number
N > 0 and interval > 0 `GetSlotTime(N)` is a multiple of the interval.  On a
head unit with index 0 and timestamp 7, with interval 5, `GetSlotTime(1)` is 12
seconds.  Further: on a head with the timestamp -7 (index 3) `GetSlotTime(1)`
is 0, although -5 is an aligned time greater than -7; and with timestamp 7
(index 3) the slots 1844674407 and 1844674408 lie a negative number of
nanoseconds apart, the `int64` product of nanoseconds having wrapped. -/
theorem GetSlotTime_aligned_counterexample :
    (¬ ∀ (gp : GlobalProperty) (head : NewestUnit) (N : Nat), 0 < gp.MediatorInterval → 1 ≤ N →
        ∃ s : Int, GetSlotTime gp head N = some (timeUnix s) ∧
          s % (gp.MediatorInterval : Int) = 0) ∧
      GetSlotTime ⟨[], 5⟩ ⟨0, 7⟩ 1 = some (timeUnix 12) ∧
      GetSlotTime ⟨[], 5⟩ ⟨3, -7⟩ 1 = some (timeUnix 0) ∧
      GetSlotTime ⟨[], 5⟩ ⟨3, 7⟩ 1844674407 = some 9223372040000000000 ∧
      GetSlotTime ⟨[], 5⟩ ⟨3, 7⟩ 1844674408 = some (-9223372028709551616) := by
  refine ⟨?_, by decide, by decide, by decide, by decide⟩
  intro hall
  obtain ⟨s, hs, hmod⟩ := hall ⟨[], 5⟩ ⟨0, 7⟩ 1 (by decide) (by decide)
  have e : GetSlotTime ⟨[], 5⟩ ⟨0, 7⟩ 1 = some 12000000000 := by decide
  rw [e] at hs
  have hs2 : (12000000000 : Int) = s * 1000000000 := Option.some.inj hs
  have hmod2 : s % 5 = 0 := hmod
  omega

/-- C30 (amended): for every slot number N > 0, interval > 0 and head unit with
timestamp H such that the computation of `GetSlotTime(N+1)` does not overflow
`int64`, `GetSlotTime(N+1) - GetSlotTime(N)` is the interval; when the head
unit has index 0, `GetSlotTime(N) = H + N·interval`; when it has another index
and `H >= 0`, `GetSlotTime(N)` is a multiple of the interval, `GetSlotTime(1)`
is the smallest multiple of the interval strictly greater than H, and
`GetSlotTime(N)` is N - 1 intervals after it. -/
theorem GetSlotTime_aligned (gp : GlobalProperty) (head : NewestUnit) (N : Nat)
    (hi : 0 < gp.MediatorInterval) (hN : 1 ≤ N) (hov : NoSlotOverflow gp head (N + 1)) :
    ∃ s s1 sNext : Int,
      GetSlotTime gp head N = some (timeUnix s) ∧
      GetSlotTime gp head 1 = some (timeUnix s1) ∧
      GetSlotTime gp head (N + 1) = some (timeUnix sNext) ∧
      sNext - s = (gp.MediatorInterval : Int) ∧
      (head.Index = 0 → s = head.Timestamp + (N : Int) * (gp.MediatorInterval : Int)) ∧
      (head.Index ≠ 0 → 0 ≤ head.Timestamp →
        s % (gp.MediatorInterval : Int) = 0 ∧
        s1 % (gp.MediatorInterval : Int) = 0 ∧
        head.Timestamp < s1 ∧
        (∀ m : Int, m % (gp.MediatorInterval : Int) = 0 → head.Timestamp < m → s1 ≤ m) ∧
        s = s1 + ((N : Int) - 1) * (gp.MediatorInterval : Int)) := by
  have hovN := NoSlotOverflow_mono gp head N (N + 1) (by omega) hov
  have hov1 := NoSlotOverflow_mono gp head 1 (N + 1) (by omega) hov
  have hipos : (0 : Int) < (gp.MediatorInterval : Int) := by exact_mod_cast hi
  refine ⟨specSlotTime gp head N, specSlotTime gp head 1, specSlotTime gp head (N + 1),
    GetSlotTime_exact gp head N hi hN hovN, GetSlotTime_exact gp head 1 hi (by omega) hov1,
    GetSlotTime_exact gp head (N + 1) hi (by omega) hov, ?_, ?_, ?_⟩
  · unfold specSlotTime
    have hN0 : N ≠ 0 := by omega
    simp only [hN0, if_false, Nat.succ_ne_zero, Nat.cast_add, Nat.cast_one]
    split <;> ring
  · intro hg
    unfold specSlotTime
    have hN0 : N ≠ 0 := by omega
    simp only [hN0, if_false, hg, if_true]
  · intro hg hts
    have hal := aligned_next head.Timestamp (gp.MediatorInterval : Int) hipos hts
    unfold specSlotTime
    have hN0 : N ≠ 0 := by omega
    simp only [hN0, if_false, hg, one_ne_zero, Nat.cast_one, one_mul]
    refine ⟨?_, ?_, hal.2.1, hal.2.2, by ring⟩
    · rw [Int.add_mul_emod_self]
      exact hal.1
    · rw [Int.add_emod_self]
      exact hal.1

theorem GetSlotTime_aligned_witness :
    ∃ s s1 sNext : Int,
      GetSlotTime ⟨[], 5⟩ ⟨3, 12⟩ 4 = some (timeUnix s) ∧
      GetSlotTime ⟨[], 5⟩ ⟨3, 12⟩ 1 = some (timeUnix s1) ∧
      GetSlotTime ⟨[], 5⟩ ⟨3, 12⟩ (4 + 1) = some (timeUnix sNext) ∧
      sNext - s = (((⟨[], 5⟩ : GlobalProperty).MediatorInterval : Nat) : Int) ∧
      ((⟨3, 12⟩ : NewestUnit).Index = 0 →
        s = (⟨3, 12⟩ : NewestUnit).Timestamp
          + ((4 : Nat) : Int) * (((⟨[], 5⟩ : GlobalProperty).MediatorInterval : Nat) : Int)) ∧
      ((⟨3, 12⟩ : NewestUnit).Index ≠ 0 → 0 ≤ (⟨3, 12⟩ : NewestUnit).Timestamp →
        s % (((⟨[], 5⟩ : GlobalProperty).MediatorInterval : Nat) : Int) = 0 ∧
        s1 % (((⟨[], 5⟩ : GlobalProperty).MediatorInterval : Nat) : Int) = 0 ∧
        (⟨3, 12⟩ : NewestUnit).Timestamp < s1 ∧
        (∀ m : Int, m % (((⟨[], 5⟩ : GlobalProperty).MediatorInterval : Nat) : Int) = 0 →
          (⟨3, 12⟩ : NewestUnit).Timestamp < m → s1 ≤ m) ∧
        s = s1 + (((4 : Nat) : Int) - 1)
          * (((⟨[], 5⟩ : GlobalProperty).MediatorInterval : Nat) : Int)) :=
  GetSlotTime_aligned ⟨[], 5⟩ ⟨3, 12⟩ 4 (by decide) (by decide) (by decide)

/-! ## Records with a result -/

/-- C26 (as stated, refuted): the record of the request 21 has `rstTx` set,
`reqRcvEd` false, `valid` true and no received transactions.  An EXEC event
for the request sets `reqRcvEd` and `eleInf`; a SIG event appends to `rcvTx`;
`AddContractLoop` clears `valid`; and `runContractReq`, the request being a
system contract, writes a new `rstTx`. -/
theorem frozen_after_rstTx_counterexample :
    (exampleResultProcessor.mtx 21).map
        (fun c => (c.rstTx, c.reqRcvEd, c.eleInf, c.rcvTx, c.valid))
      = some (some exampleSigTx, false, [], [], true) ∧
    ((contractExecEvent exampleEnv (fun _ => true) 5 exampleResultProcessor exampleSysInvoke
        [4]).2.2.2.mtx 21).map (fun c => (c.rstTx, c.reqRcvEd, c.eleInf))
      = some (some exampleSigTx, true, [4]) ∧
    (contractSigEvent exampleEnv exampleContractEnv 5 exampleResultProcessor exampleSigTx
        []).map (fun r => (r.2.2.2.mtx 21).map (fun c => (c.rstTx, c.rcvTx)))
      = some (some (some exampleSigTx, [exampleSigTx])) ∧
    ((AddContractLoop exampleJuryEnv exampleContractEnv 1 [21] exampleResultProcessor).2.mtx
        21).map (fun c => (c.rstTx, c.valid))
      = some (some exampleSigTx, false) ∧
    (runContractReq exampleJuryEnv exampleContractEnv exampleResultProcessor 21).map
        (fun r => (r.2.2.mtx 21).map (fun c => decide (c.rstTx = some exampleSigTx)))
      = some (some false) := by
  refine ⟨by decide, by decide, by decide, by decide, by decide⟩

theorem contractCommitEvent_keeps_result (env : TxEnv) (now : Int) (p : Processor)
    (tx : Transaction) (reqId : Hash) (ctx : contractTx) (hm : p.mtx reqId = some ctx)
    (hr : ctx.rstTx ≠ none) : (contractCommitEvent env now p tx).2.2.mtx reqId = some ctx := by
  by_cases hk : env.RequestHash tx = reqId
  · subst hk
    rw [contractCommitEvent_ignored env now p tx ctx hm hr]
    exact hm
  · have hk2 : reqId ≠ env.RequestHash tx := fun h => hk h.symm
    cases hm2 : p.mtx (env.RequestHash tx) with
    | none =>
      rw [contractCommitEvent_new env now p tx hm2, setMtx_other _ _ _ _ hk2]
      exact hm
    | some c2 =>
      by_cases hr2 : c2.rstTx = none
      · rw [contractCommitEvent_unset env now p tx c2 hm2 hr2, setMtx_other _ _ _ _ hk2]
        exact hm
      · rw [contractCommitEvent_ignored env now p tx c2 hm2 hr2]
        exact hm

theorem melMatch_mtx (p1 : Processor) (k : Hash) :
    (match p1.mel k with
      | some e => p1.setMel k { e with invalid := true }
      | none => p1).mtx = p1.mtx := by
  split <;> rfl

theorem contractExecEvent_mtx (env : TxEnv) (isSys : Transaction → Bool) (now : Int)
    (p : Processor) (tx : Transaction) (ele : List ElectionInf) :
    (contractExecEvent env isSys now p tx ele).2.2.2.mtx =
      match p.mtx (env.RequestHash tx) with
      | none =>
        (p.setMtx (env.RequestHash tx)
          { reqTx := some (env.GetRequestTx tx), rstTx := none, sigTx := none, rcvTx := [],
            eleInf := ele, reqRcvEd := true, tm := now, valid := true }).mtx
      | some c =>
        if c.reqRcvEd = true then p.mtx
        else (p.setMtx (env.RequestHash tx)
          { c with reqTx := some (env.GetRequestTx tx), eleInf := ele, reqRcvEd := true }).mtx := by
  cases hm : p.mtx (env.RequestHash tx) with
  | none =>
    unfold contractExecEvent
    simp only [hm]
    exact melMatch_mtx _ _
  | some c =>
    unfold contractExecEvent
    simp only [hm]
    by_cases hl : c.reqRcvEd = true
    · simp only [hl, if_true]
    · simp only [hl, if_false]
      exact melMatch_mtx _ _

theorem contractExecEvent_frame (env : TxEnv) (isSys : Transaction → Bool) (now : Int)
    (p : Processor) (tx : Transaction) (ele : List ElectionInf) (reqId : Hash) (ctx : contractTx)
    (hm : p.mtx reqId = some ctx) :
    ∃ c, (contractExecEvent env isSys now p tx ele).2.2.2.mtx reqId = some c ∧
      c.rstTx = ctx.rstTx ∧ c.sigTx = ctx.sigTx ∧ c.rcvTx = ctx.rcvTx ∧ c.valid = ctx.valid ∧
      (ctx.reqRcvEd = true → c = ctx) := by
  rw [contractExecEvent_mtx]
  by_cases hk : env.RequestHash tx = reqId
  · subst hk
    simp only [hm]
    by_cases hl : ctx.reqRcvEd = true
    · simp only [hl, if_true]
      exact ⟨ctx, hm, rfl, rfl, rfl, rfl, fun _ => rfl⟩
    · simp only [hl, if_false]
      exact ⟨_, setMtx_self _ _ _, rfl, rfl, rfl, rfl, fun h => absurd h (by decide)⟩
  · have hk2 : reqId ≠ env.RequestHash tx := fun h => hk h.symm
    have hother : ∀ c : contractTx, (p.setMtx (env.RequestHash tx) c).mtx reqId = some ctx :=
      fun c => (setMtx_other _ _ _ _ hk2).trans hm
    refine ⟨ctx, ?_, rfl, rfl, rfl, rfl, fun _ => rfl⟩
    split
    · exact hother _
    · split
      · exact hm
      · exact hother _

theorem contractSigEvent_frame (env : TxEnv) (cenv : ContractEnv) (now : Int)
    (p : Processor) (tx : Transaction) (ele : List ElectionInf) (reqId : Hash) (ctx : contractTx)
    (hm : p.mtx reqId = some ctx)
    (r : Bool × Option String × Option (Option Transaction) × Processor)
    (h : contractSigEvent env cenv now p tx ele = some r) :
    ∃ c, r.2.2.2.mtx reqId = some c ∧ c.reqTx = ctx.reqTx ∧ c.rstTx = ctx.rstTx ∧
      c.eleInf = ctx.eleInf ∧ c.reqRcvEd = ctx.reqRcvEd ∧ c.valid = ctx.valid := by
  by_cases hk : env.RequestHash tx = reqId
  · subst hk
    unfold contractSigEvent at h
    simp only [hm] at h
    split at h
    · simp only [Option.some.injEq] at h
      subst h
      exact ⟨ctx, hm, rfl, rfl, rfl, rfl, rfl⟩
    · split at h
      · split at h
        · cases h
        · split at h
          · simp only [Option.some.injEq] at h
            subst h
            exact ⟨_, setMtx_self _ _ _, rfl, rfl, rfl, rfl, rfl⟩
          · simp only [Option.some.injEq] at h
            subst h
            exact ⟨_, setMtx_self _ _ _, rfl, rfl, rfl, rfl, rfl⟩
      · split at h
        · simp only [Option.some.injEq] at h
          subst h
          exact ⟨_, setMtx_self _ _ _, rfl, rfl, rfl, rfl, rfl⟩
        · simp only [Option.some.injEq] at h
          subst h
          exact ⟨_, setMtx_self _ _ _, rfl, rfl, rfl, rfl, rfl⟩
  · have hk2 : reqId ≠ env.RequestHash tx := fun h => hk h.symm
    refine ⟨ctx, ?_, rfl, rfl, rfl, rfl, rfl⟩
    unfold contractSigEvent at h
    simp only at h
    split at h
    · simp only [Option.some.injEq] at h
      subst h
      simp only [setMtx_other _ _ _ _ hk2]
      exact hm
    · split at h
      · simp only [Option.some.injEq] at h
        subst h
        exact hm
      · split at h
        · split at h
          · cases h
          · split at h
            · simp only [Option.some.injEq] at h
              subst h
              simp only [setMtx_other _ _ _ _ hk2]
              exact hm
            · simp only [Option.some.injEq] at h
              subst h
              simp only [setMtx_other _ _ _ _ hk2]
              exact hm
        · split at h
          · simp only [Option.some.injEq] at h
            subst h
            simp only [setMtx_other _ _ _ _ hk2]
            exact hm
          · simp only [Option.some.injEq] at h
            subst h
            simp only [setMtx_other _ _ _ _ hk2]
            exact hm

theorem addContractLoopKeys_frame (jenv : JuryEnv) (cenv : ContractEnv) (addr : Address)
    (reqId : Hash) (ctx : contractTx) (hr : ctx.rstTx ≠ none) :
    ∀ (keys : List Hash) (submitted : List Transaction) (p : Processor) (c0 : contractTx),
      p.mtx reqId = some c0 → c0.rstTx = ctx.rstTx →
      ∃ c, (addContractLoopKeys jenv cenv addr keys submitted p).2.mtx reqId = some c ∧
        c.reqTx = c0.reqTx ∧ c.rstTx = c0.rstTx ∧ c.sigTx = c0.sigTx ∧ c.rcvTx = c0.rcvTx ∧
        c.eleInf = c0.eleInf ∧ c.reqRcvEd = c0.reqRcvEd ∧
        (c.valid = c0.valid ∨ c.valid = false) ∧ (c0.valid = false → c.valid = false) ∧
        (reqId ∈ keys → c.valid = false) := by
  intro keys
  induction keys with
  | nil =>
    intro submitted p c0 hm _
    exact ⟨c0, hm, rfl, rfl, rfl, rfl, rfl, rfl, Or.inl rfl, fun h => h,
      fun h => absurd h (List.not_mem_nil _)⟩
  | cons k rest ih =>
    intro submitted p c0 hm hr0
    by_cases hk : k = reqId
    · subst hk
      have hsome : c0.rstTx ≠ none := by rw [hr0]; exact hr
      obtain ⟨rstTx, hrst⟩ : ∃ r, c0.rstTx = some r := Option.ne_none_iff_exists'.1 hsome
      by_cases hv : c0.valid = false
      · have hstep : ∀ sub, addContractLoopKeys jenv cenv addr (k :: rest) sub p
            = addContractLoopKeys jenv cenv addr rest sub p := by
          intro sub
          rw [addContractLoopKeys]
          simp only [hm, hrst, hv, if_true]
        rw [hstep]
        obtain ⟨c, h1, h2, h3, h4, h5, h6, h7, h8, h9, _⟩ := ih submitted p c0 hm hr0
        exact ⟨c, h1, h2, h3, h4, h5, h6, h7, h8, h9, fun _ => h9 hv⟩
      · have hv2 : c0.valid = true := by simpa using hv
        have hstep : ∃ sub1, addContractLoopKeys jenv cenv addr (k :: rest) submitted p
            = addContractLoopKeys jenv cenv addr rest sub1
                (p.setMtx k { c0 with valid := false }) := by
          rw [addContractLoopKeys]
          simp only [hm, hrst, hv2, Bool.true_eq_false, if_false]
          split
          · exact ⟨_, rfl⟩
          · split
            · exact ⟨_, rfl⟩
            · exact ⟨_, rfl⟩
        obtain ⟨sub1, hs⟩ := hstep
        rw [hs]
        obtain ⟨c, h1, h2, h3, h4, h5, h6, h7, h8, h9, _⟩ :=
          ih sub1 (p.setMtx k { c0 with valid := false }) { c0 with valid := false }
            (setMtx_self _ _ _) hr0
        have hcv : c.valid = false := h9 rfl
        exact ⟨c, h1, h2, h3, h4, h5, h6, h7, Or.inr hcv, fun _ => hcv, fun _ => hcv⟩
    · have hk2 : reqId ≠ k := fun h => hk h.symm
      have hstep : ∃ sub1 p1, addContractLoopKeys jenv cenv addr (k :: rest) submitted p
            = addContractLoopKeys jenv cenv addr rest sub1 p1 ∧ p1.mtx reqId = some c0 := by
        rw [addContractLoopKeys]
        split
        · exact ⟨_, _, rfl, hm⟩
        · split
          · exact ⟨_, _, rfl, hm⟩
          · split
            · exact ⟨_, _, rfl, hm⟩
            · split
              · exact ⟨_, _, rfl, (setMtx_other _ _ _ _ hk2).trans hm⟩
              · split
                · exact ⟨_, _, rfl, (setMtx_other _ _ _ _ hk2).trans hm⟩
                · exact ⟨_, _, rfl, (setMtx_other _ _ _ _ hk2).trans hm⟩
      obtain ⟨sub1, p1, hs, hm1⟩ := hstep
      rw [hs]
      obtain ⟨c, h1, h2, h3, h4, h5, h6, h7, h8, h9, h10⟩ := ih sub1 p1 c0 hm1 hr0
      refine ⟨c, h1, h2, h3, h4, h5, h6, h7, h8, h9, ?_⟩
      intro hmem
      rcases List.mem_cons.1 hmem with h | h
      · exact absurd h hk2
      · exact h10 h

theorem CheckContractTxValid_frame (env : TxEnv) (jenv : JuryEnv) (cenv : ContractEnv)
    (p : Processor) (tx : Option Transaction) (reqId : Hash) (ctx : contractTx)
    (hm : p.mtx reqId = some ctx) (hr : ctx.rstTx ≠ none) (r : Bool × Processor)
    (h : CheckContractTxValid env jenv cenv p tx = some r) : r.2.mtx reqId = some ctx := by
  unfold CheckContractTxValid at h
  split at h
  · simp only [Option.some.injEq] at h; subst h; exact hm
  · rename_i t
    simp only at h
    split at h
    · simp only [Option.some.injEq] at h; subst h; exact hm
    · split at h
      · cases h
      · simp only [Option.some.injEq] at h; subst h; exact hm
      · by_cases hk : env.RequestHash t = reqId
        · subst hk
          simp only [hm] at h
          split at h
          · simp only [Option.some.injEq] at h; subst h; exact hm
          · split at h
            · simp only [Option.some.injEq] at h; subst h; exact hm
            · rename_i hnone
              exact absurd hnone hr
        · have hk2 : reqId ≠ env.RequestHash t := fun h => hk h.symm
          split at h
          · split at h
            · cases h
            · simp only [Option.some.injEq] at h; subst h; exact hm
            · cases h
          · split at h
            · simp only [Option.some.injEq] at h; subst h; exact hm
            · split at h
              · simp only [Option.some.injEq] at h; subst h; exact hm
              · split at h
                · cases h
                · simp only [Option.some.injEq] at h; subst h; exact hm
                · simp only [Option.some.injEq] at h
                  subst h
                  exact (setMtx_other _ _ _ _ hk2).trans hm

theorem runContractReq_frame (jenv : JuryEnv) (cenv : ContractEnv) (p : Processor)
    (k reqId : Hash) (ctx : contractTx) (hm : p.mtx reqId = some ctx)
    (r : Option String × Option Transaction × Processor)
    (h : runContractReq jenv cenv p k = some r) :
    ∃ c, r.2.2.mtx reqId = some c ∧ c.reqTx = ctx.reqTx ∧ c.eleInf = ctx.eleInf ∧
      c.reqRcvEd = ctx.reqRcvEd ∧ c.valid = ctx.valid := by
  have hset : ∀ c1 : contractTx, p.mtx k = some c1 → ∀ c2 : contractTx,
      c2.reqTx = c1.reqTx → c2.eleInf = c1.eleInf → c2.reqRcvEd = c1.reqRcvEd →
      c2.valid = c1.valid →
      ∃ c, (p.setMtx k c2).mtx reqId = some c ∧ c.reqTx = ctx.reqTx ∧ c.eleInf = ctx.eleInf ∧
        c.reqRcvEd = ctx.reqRcvEd ∧ c.valid = ctx.valid := by
    intro c1 hc1 c2 e1 e2 e3 e4
    by_cases hk : reqId = k
    · subst hk
      rw [hm] at hc1
      simp only [Option.some.injEq] at hc1
      subst hc1
      exact ⟨c2, setMtx_self _ _ _, e1, e2, e3, e4⟩
    · exact ⟨ctx, (setMtx_other _ _ _ _ hk).trans hm, rfl, rfl, rfl, rfl⟩
  have hsame : ∃ c, p.mtx reqId = some c ∧ c.reqTx = ctx.reqTx ∧ c.eleInf = ctx.eleInf ∧
      c.reqRcvEd = ctx.reqRcvEd ∧ c.valid = ctx.valid := ⟨ctx, hm, rfl, rfl, rfl, rfl⟩
  unfold runContractReq at h
  split at h
  · simp only [Option.some.injEq] at h; subst h; exact hsame
  · rename_i req hreq
    split at h
    · cases h
    · split at h
      · cases h
      · simp only [Option.some.injEq] at h; subst h; exact hsame
    · split at h
      · simp only [Option.some.injEq] at h; subst h; exact hsame
      · split at h
        · cases h
        · simp only [Option.some.injEq] at h; subst h
          exact hset req hreq _ rfl rfl rfl rfl
        · simp only at h
          split at h
          · simp only [Option.some.injEq] at h; subst h; exact hsame
          · split at h
            · split at h
              · cases h
              · simp only [Option.some.injEq] at h; subst h
                exact hset req hreq _ rfl rfl rfl rfl
            · simp only [Option.some.injEq] at h; subst h
              exact hset req hreq _ rfl rfl rfl rfl

/-- C26 (amended): a record with `rstTx` set is not frozen, but each operation
writes only some of its fields.  For the record `ctx` of the request `reqId`,
with `rstTx` set: `contractCommitEvent` leaves the record unchanged;
`contractExecEvent` leaves `rstTx`, `sigTx`, `rcvTx` and `valid` unchanged, and
the whole record when `reqRcvEd` is set; `contractSigEvent` leaves `reqTx`,
`rstTx`, `eleInf`, `reqRcvEd` and `valid` unchanged; `AddContractLoop` leaves
`reqTx`, `rstTx`, `sigTx`, `rcvTx`, `eleInf` and `reqRcvEd` unchanged and
clears `valid` when it visits the record; `CheckContractTxValid` leaves the
record unchanged; `runContractReq` leaves `reqTx`, `eleInf`, `reqRcvEd` and
`valid` unchanged.  This holds for the events and runs of every request. -/
theorem record_with_rstTx_frame (env : TxEnv) (p : Processor) (reqId : Hash) (ctx : contractTx)
    (hm : p.mtx reqId = some ctx) (hr : ctx.rstTx ≠ none) :
    (∀ (now : Int) (tx : Transaction),
      (contractCommitEvent env now p tx).2.2.mtx reqId = some ctx) ∧
    (∀ (isSys : Transaction → Bool) (now : Int) (tx : Transaction) (ele : List ElectionInf),
      ∃ c, (contractExecEvent env isSys now p tx ele).2.2.2.mtx reqId = some c ∧
        c.rstTx = ctx.rstTx ∧ c.sigTx = ctx.sigTx ∧ c.rcvTx = ctx.rcvTx ∧
        c.valid = ctx.valid ∧ (ctx.reqRcvEd = true → c = ctx)) ∧
    (∀ (cenv : ContractEnv) (now : Int) (tx : Transaction) (ele : List ElectionInf)
        (r : Bool × Option String × Option (Option Transaction) × Processor),
      contractSigEvent env cenv now p tx ele = some r →
      ∃ c, r.2.2.2.mtx reqId = some c ∧ c.reqTx = ctx.reqTx ∧ c.rstTx = ctx.rstTx ∧
        c.eleInf = ctx.eleInf ∧ c.reqRcvEd = ctx.reqRcvEd ∧ c.valid = ctx.valid) ∧
    (∀ (jenv : JuryEnv) (cenv : ContractEnv) (addr : Address) (keys : List Hash),
      ∃ c, (AddContractLoop jenv cenv addr keys p).2.mtx reqId = some c ∧
        c.reqTx = ctx.reqTx ∧ c.rstTx = ctx.rstTx ∧ c.sigTx = ctx.sigTx ∧
        c.rcvTx = ctx.rcvTx ∧ c.eleInf = ctx.eleInf ∧ c.reqRcvEd = ctx.reqRcvEd ∧
        (c.valid = ctx.valid ∨ c.valid = false) ∧ (reqId ∈ keys → c.valid = false)) ∧
    (∀ (jenv : JuryEnv) (cenv : ContractEnv) (tx : Option Transaction) (r : Bool × Processor),
      CheckContractTxValid env jenv cenv p tx = some r → r.2.mtx reqId = some ctx) ∧
    (∀ (jenv : JuryEnv) (cenv : ContractEnv) (k : Hash)
        (r : Option String × Option Transaction × Processor),
      runContractReq jenv cenv p k = some r →
      ∃ c, r.2.2.mtx reqId = some c ∧ c.reqTx = ctx.reqTx ∧ c.eleInf = ctx.eleInf ∧
        c.reqRcvEd = ctx.reqRcvEd ∧ c.valid = ctx.valid) := by
  refine ⟨?_, ?_, ?_, ?_, ?_, ?_⟩
  · intro now tx
    exact contractCommitEvent_keeps_result env now p tx reqId ctx hm hr
  · intro isSys now tx ele
    exact contractExecEvent_frame env isSys now p tx ele reqId ctx hm
  · intro cenv now tx ele r h
    exact contractSigEvent_frame env cenv now p tx ele reqId ctx hm r h
  · intro jenv cenv addr keys
    obtain ⟨c, h1, h2, h3, h4, h5, h6, h7, h8, _, h10⟩ :=
      addContractLoopKeys_frame jenv cenv addr reqId ctx hr keys [] p ctx hm rfl
    exact ⟨c, h1, h2, h3, h4, h5, h6, h7, h8, h10⟩
  · intro jenv cenv tx r h
    exact CheckContractTxValid_frame env jenv cenv p tx reqId ctx hm hr r h
  · intro jenv cenv k r h
    exact runContractReq_frame jenv cenv p k reqId ctx hm r h

theorem record_with_rstTx_frame_witness :
    exampleResultProcessor.mtx 21 = some exampleResultRecord ∧
      exampleResultRecord.rstTx ≠ none ∧
      (∀ (now : Int) (tx : Transaction),
        (contractCommitEvent exampleEnv now exampleResultProcessor tx).2.2.mtx 21
          = some exampleResultRecord) ∧
      ∃ c, (AddContractLoop exampleJuryEnv exampleContractEnv 1 [21]
          exampleResultProcessor).2.mtx 21 = some c ∧
        c.reqTx = exampleResultRecord.reqTx ∧ c.rstTx = exampleResultRecord.rstTx ∧
        c.sigTx = exampleResultRecord.sigTx ∧ c.rcvTx = exampleResultRecord.rcvTx ∧
        c.eleInf = exampleResultRecord.eleInf ∧ c.reqRcvEd = exampleResultRecord.reqRcvEd ∧
        (c.valid = exampleResultRecord.valid ∨ c.valid = false) ∧
        (21 ∈ [21] → c.valid = false) :=
  ⟨setMtx_self _ _ _, by decide,
    (record_with_rstTx_frame exampleEnv exampleResultProcessor 21 exampleResultRecord
      (setMtx_self _ _ _) (by decide)).1,
    (record_with_rstTx_frame exampleEnv exampleResultProcessor 21 exampleResultRecord
      (setMtx_self _ _ _) (by decide)).2.2.2.1 exampleJuryEnv exampleContractEnv 1 [21]⟩

/-! ## TxPool.add without a journal -/

/-- With the journal nil, `journalTx` faults whatever the transaction. -/
theorem journalTx_faults_without_journal (env : PoolEnv) (pool : TxPool)
    (tx : TxPoolTransaction) (hj : pool.journal = none) : TxPool.journalTx env pool tx = none := by
  unfold TxPool.journalTx
  simp only [hj]

/-- With the journal nil, `add` of a transaction that is new to the pool (its
hash is neither in `all` nor in `pending`), passes the double-spend check and
the validation, and finds room in the pool, faults: the transaction is put
into `all` and the call of `journalTx` that follows dereferences the nil
journal. -/
theorem add_faults_without_journal (env : PoolEnv) (fuel : Nat) (pool : TxPool)
    (tx : TxPoolTransaction) (isLocal : Bool) (hj : pool.journal = none)
    (hnew : pool.all.get (env.Hash tx.Tx) = none)
    (hpending : pool.pending.get (env.Hash tx.Tx) = none)
    (hspend : checkPoolDoubleSpend env pool
      { tx with Tx := { tx.Tx with TxHash := env.Hash tx.Tx } } = none)
    (hvalid : TxPool.validateTx env pool
      { tx with Tx := { tx.Tx with TxHash := env.Hash tx.Tx } } isLocal = none)
    (hroom : pool.all.length < wrapU64 (pool.config.GlobalSlots + pool.config.GlobalQueue)) :
    TxPool.add env fuel pool tx isLocal = none := by
  have hroom2 : ¬ pool.all.length ≥ wrapU64 (pool.config.GlobalSlots + pool.config.GlobalQueue) := by
    omega
  unfold TxPool.add
  simp only [hnew, Option.isSome_none, Bool.false_eq_true, if_false, hspend, hvalid, hroom2,
    hpending, TxPool.journalTx, hj]

/-- C31 (the code at the failing input): the pool has no journal (the `Journal`
path is empty) and is otherwise empty with the default limits; the payment
transaction with hash 5 is new and passes the double-spend check and the
validation.  `add` does not complete: the result is the fault of `journalTx`,
for a remote and for a local transaction. -/
theorem add_without_journal_faults :
    exampleNoJournalPool.journal = none ∧
      exampleNoJournalPool.all.get (examplePoolEnv.Hash exampleSpend.Tx) = none ∧
      checkPoolDoubleSpend examplePoolEnv exampleNoJournalPool exampleSpend = none ∧
      TxPool.validateTx examplePoolEnv exampleNoJournalPool exampleSpend false = none ∧
      TxPool.add examplePoolEnv 1 exampleNoJournalPool exampleSpend false = none ∧
      TxPool.add examplePoolEnv 1 exampleNoJournalPool exampleSpend true = none ∧
      (TxPool.add examplePoolEnv 1 examplePool exampleSpend false).isSome = true := by
  refine ⟨by decide, by decide, by decide, by decide, by decide, by decide, by decide⟩

/-! ## TxDifference -/

theorem hash_cacheHash (env : PoolEnv) (tx : Transaction) :
    env.Hash (cacheHash env tx) = env.Hash tx := by
  unfold cacheHash PoolEnv.Hash
  by_cases h : tx.TxHash = 0
  · simp only [h, ne_eq, not_true_eq_false, if_false]
    by_cases h2 : env.RlpHash tx = 0
    · simp only [h2, not_true_eq_false, if_false]
      have : ({ tx with TxHash := 0 } : Transaction) = tx := by
        cases tx; simp only at h; subst h; rfl
      rw [this, h2]
    · simp only [h2, not_false_eq_true, if_true]
  · simp only [ne_eq, h, not_false_eq_true, if_true]

theorem cacheHash_of_cached (env : PoolEnv) (tx : Transaction) (h : tx.TxHash = env.Hash tx) :
    cacheHash env tx = tx := by
  unfold cacheHash
  rw [← h]

/-- C32: for all transaction lists `a` and `b`, `TxDifference(a, b)` is the
list of the transactions of `a`, each with its hash cached as the calls of
`Hash()` leave it, whose hash is not the hash of any transaction in `b`, in
their order in `a`: caching changes neither the hash nor the messages; the
result is a sublist of `a`; no element of the result has a hash occurring in
`b`; a transaction of `a` is in the result iff its hash does not occur in `b`;
and `TxDifference(a, [])` is `a` (equal to the list given when the hashes of
`a` are cached already). -/
theorem TxDifference_spec (env : PoolEnv) (a b : List Transaction) :
    TxDifference env a b =
        (a.map (cacheHash env)).filter (fun tx => decide (env.Hash tx ∉ b.map env.Hash)) ∧
      (∀ tx, env.Hash (cacheHash env tx) = env.Hash tx ∧
        (cacheHash env tx).TxMessages = tx.TxMessages) ∧
      (TxDifference env a b).Sublist (a.map (cacheHash env)) ∧
      (∀ t ∈ TxDifference env a b, env.Hash t ∉ b.map env.Hash) ∧
      (∀ tx ∈ a, (cacheHash env tx ∈ TxDifference env a b ↔ env.Hash tx ∉ b.map env.Hash)) ∧
      TxDifference env a [] = a.map (cacheHash env) ∧
      ((∀ tx ∈ a, tx.TxHash = env.Hash tx) → TxDifference env a [] = a) := by
  have hmain : ∀ b : List Transaction, TxDifference env a b =
      (a.map (cacheHash env)).filter (fun tx => decide (env.Hash tx ∉ b.map env.Hash)) := by
    intro b
    unfold TxDifference
    simp only
    rw [List.filter_map]
    congr 1
    apply List.filter_congr
    intro tx _
    simp only [Function.comp, hash_cacheHash]
  have hnil : TxDifference env a [] = a.map (cacheHash env) := by
    rw [hmain]
    simp
  refine ⟨hmain b, fun tx => ⟨hash_cacheHash env tx, rfl⟩, ?_, ?_, ?_, hnil, ?_⟩
  · rw [hmain]
    exact List.filter_sublist _
  · intro t ht
    rw [hmain, List.mem_filter] at ht
    simpa using ht.2
  · intro tx htx
    rw [hmain, List.mem_filter]
    constructor
    · intro h
      have := h.2
      simp only [hash_cacheHash, decide_eq_true_eq] at this
      exact this
    · intro h
      refine ⟨List.mem_map_of_mem _ htx, ?_⟩
      simp only [hash_cacheHash, decide_eq_true_eq]
      exact h
  · intro hc
    rw [hnil]
    conv_rhs => rw [← List.map_id a]
    apply List.map_congr_left
    intro tx htx
    exact cacheHash_of_cached env tx (hc tx htx)

theorem TxDifference_spec_witness :
    (∀ tx ∈ [exampleT1, exampleSpend.Tx],
        tx.TxHash = examplePoolEnv.Hash tx) ∧
      TxDifference examplePoolEnv [exampleT1, exampleSpend.Tx] []
        = [exampleT1, exampleSpend.Tx] ∧
      TxDifference examplePoolEnv [exampleT1, exampleSpend.Tx] [exampleSpend.Tx]
        = [exampleT1] :=
  ⟨by decide,
    (TxDifference_spec examplePoolEnv [exampleT1, exampleSpend.Tx] []).2.2.2.2.2.2 (by decide),
    by decide⟩

/-! ## The pending limit -/

/-- Whenever `promoteExecutables` returns, `pending` has as many entries as on
entry: the call decrements its counter `pending` and deletes from `all`, and
never deletes from the map `pending`. -/
theorem promoteExecutables_keeps_pending_count (env : PoolEnv)
    (popOrder : List Hash → List Hash) (fuel : Nat) (pool pool1 : TxPool)
    (h : TxPool.promoteExecutables env popOrder fuel pool = some pool1) :
    pool1.pending.length = pool.pending.length := by
  have hk := (promoteExecutables_spec env popOrder fuel pool pool1 h).2
  have h1 : pool1.pending.keys.length = pool.pending.keys.length := by rw [hk]
  simpa [GoMap.keys] using h1

/-- C35 (the code at the failing input): `GlobalSlots` is 1 and the pool holds
three transactions, all pending.  `promoteExecutables` returns, for the pop
orders 1, 2, 3 and 3, 2, 1 alike, with three entries in `pending`, more than
the limit; one transaction has been deleted from `all`. -/
theorem promoteExecutables_leaves_pending_over_limit :
    exampleCrowdedPool.config.GlobalSlots = 1 ∧
      exampleCrowdedPool.pending.length = 3 ∧
      (TxPool.promoteExecutables examplePoolEnv id 3 exampleCrowdedPool).map
        (fun p => (p.pending.length, p.pending.keys, p.all.keys)) = some (3, [1, 2, 3], [2, 3]) ∧
      (TxPool.promoteExecutables examplePoolEnv List.reverse 3 exampleCrowdedPool).map
        (fun p => (p.pending.length, p.pending.keys, p.all.keys))
          = some (3, [1, 2, 3], [1, 2]) := by
  refine ⟨by decide, by decide, by decide, by decide⟩

/-! ## GetSortedTxs and the keys of all -/

/-- C37 (the code at the failing input): on the pool holding hashes 1, 2, 3 a
first call of `GetSortedTxs` returns the three transactions and keeps the keys
of `all`; on the pool it leaves, a second call returns the three again and
leaves `all` without any key; a third call, on the pool the second leaves,
returns no transaction. -/
theorem GetSortedTxs_removes_from_all :
    exampleThreePool.all.keys = [1, 2, 3] ∧
      (TxPool.GetSortedTxs examplePoolEnv 0 100 exampleThreePool).1.1.map
        (fun t => t.Tx.TxHash) = [2, 3, 1] ∧
      (TxPool.GetSortedTxs examplePoolEnv 0 100 exampleThreePool).2.all.keys = [1, 2, 3] ∧
      (TxPool.GetSortedTxs examplePoolEnv 0 100
        (TxPool.GetSortedTxs examplePoolEnv 0 100 exampleThreePool).2).1.1.map
          (fun t => t.Tx.TxHash) = [2, 3, 1] ∧
      (TxPool.GetSortedTxs examplePoolEnv 0 100
        (TxPool.GetSortedTxs examplePoolEnv 0 100 exampleThreePool).2).2.all.keys = [] ∧
      (TxPool.GetSortedTxs examplePoolEnv 0 100
        (TxPool.GetSortedTxs examplePoolEnv 0 100
          (TxPool.GetSortedTxs examplePoolEnv 0 100 exampleThreePool).2).2).1 = ([], 0) := by
  refine ⟨by decide, by decide, by decide, by decide, by decide, by decide⟩

/-! ## AddRemotes -/

/-- The batch of `AddRemotes` has twice the length of its argument, and its
first half is nil entries. -/
theorem addRemotesBatch_shape (computePriority : Transaction → Nat) (pool : TxPool)
    (txs : List Transaction) :
    (addRemotesBatch computePriority pool txs).length = 2 * txs.length ∧
      (addRemotesBatch computePriority pool txs).take txs.length
        = List.replicate txs.length none ∧
      (addRemotesBatch computePriority pool txs).drop txs.length
        = txs.map (fun tx => some (TxtoTxpoolTx computePriority pool tx)) := by
  refine ⟨?_, ?_, ?_⟩
  · simp [addRemotesBatch]; omega
  · simp [addRemotesBatch]
  · simp [addRemotesBatch]

/-- A batch that starts with a nil entry makes `addTxsLocked` fault:
`pool.add(tx, local)` reads `tx.Tx` first. -/
theorem addTxsLocked_faults_on_nil (env : PoolEnv) (popOrder : List Hash → List Hash)
    (fuel : Nat) (pool : TxPool) (rest : List (Option TxPoolTransaction)) (isLocal : Bool) :
    TxPool.addTxsLocked env popOrder fuel pool (none :: rest) isLocal = none := by
  simp [TxPool.addTxsLocked, addTxsLoop]

/-- For every non-empty list `AddRemotes` faults, whatever the pool and the
transactions. -/
theorem AddRemotes_faults (env : PoolEnv) (popOrder : List Hash → List Hash)
    (computePriority : Transaction → Nat) (fuel : Nat) (pool : TxPool)
    (txs : List Transaction) (h : txs ≠ []) :
    TxPool.AddRemotes env popOrder computePriority fuel pool txs = none := by
  cases txs with
  | nil => exact absurd rfl h
  | cons tx rest =>
    simp only [TxPool.AddRemotes, addRemotesBatch, List.length_cons, List.replicate_succ,
      List.cons_append]
    exact addTxsLocked_faults_on_nil _ _ _ _ _ _

/-- On the empty list `AddRemotes` returns no error and leaves the pool. -/
theorem AddRemotes_nil (env : PoolEnv) (popOrder : List Hash → List Hash)
    (computePriority : Transaction → Nat) (fuel : Nat) (pool : TxPool) :
    TxPool.AddRemotes env popOrder computePriority fuel pool [] = some ([], pool) := by
  simp [TxPool.AddRemotes, addRemotesBatch, TxPool.addTxsLocked, addTxsLoop]

/-- C39 (the code at the failing input): for the one valid payment transaction
of the examples, the batch that `AddRemotes` submits to the empty pool has two
entries, the first of them nil, and the call faults; the batch of the one
converted transaction, which `reset` builds for the same list, is admitted by
`addTxsLocked` with one result, no error, and the transaction stored. -/
theorem AddRemotes_submits_nil_entries :
    (addRemotesBatch (fun _ => 1) examplePool [exampleSpend.Tx]).length = 2 ∧
      (addRemotesBatch (fun _ => 1) examplePool [exampleSpend.Tx]).head? = some none ∧
      TxPool.AddRemotes examplePoolEnv id (fun _ => 1) 3 examplePool [exampleSpend.Tx]
        = none ∧
      (TxPool.addTxsLocked examplePoolEnv id 3 examplePool
          [some (TxtoTxpoolTx (fun _ => 1) examplePool exampleSpend.Tx)] false).map
        (fun r => (r.1, r.2.all.keys))
          = some ([none], [examplePoolEnv.Hash exampleSpend.Tx]) := by
  refine ⟨by decide, by decide, by decide, by decide⟩

/-! ## GetSlotAtTime with interval 0 -/

/-- With interval 0 and a head unit of index 0, `GetSlotAtTime` returns 0: the
genesis branch of `GetSlotTime` does not divide, and the guard
`if interval == 0` is reached. -/
theorem GetSlotAtTime_zero_interval_genesis (gp : GlobalProperty) (head : NewestUnit)
    (when : Time) (hi : gp.MediatorInterval = 0) (hh : head.Index = 0) :
    GetSlotAtTime gp head when = some 0 := by
  simp only [GetSlotAtTime, GetSlotTime, hi, hh]
  simp

/-- With interval 0 and a head unit of another index, `GetSlotTime` faults for
every slot number but 0, on `ts / int64(interval)`. -/
theorem GetSlotTime_zero_interval_faults (gp : GlobalProperty) (head : NewestUnit)
    (slotNum : Nat) (hi : gp.MediatorInterval = 0) (hh : head.Index ≠ 0)
    (hs : slotNum ≠ 0) : GetSlotTime gp head slotNum = none := by
  simp [GetSlotTime, hi, hh, hs]

/-- With interval 0 and a head unit of another index, `GetSlotAtTime` faults
for every time: it calls `GetSlotTime(1)` before its own test of the
interval. -/
theorem GetSlotAtTime_zero_interval_faults (gp : GlobalProperty) (head : NewestUnit)
    (when : Time) (hi : gp.MediatorInterval = 0) (hh : head.Index ≠ 0) :
    GetSlotAtTime gp head when = none := by
  simp [GetSlotAtTime, GetSlotTime_zero_interval_faults gp head 1 hi hh (by decide)]

/-- C40 (the code at the failing input): with `MediatorInterval` 0 and the head
unit of index 1 and timestamp 7, `GetSlotAtTime` divides by zero for every
time `when`; with the head unit of index 0 it returns 0. -/
theorem GetSlotAtTime_divides_by_zero (when : Time) :
    GetSlotAtTime ⟨[], 0⟩ ⟨1, 7⟩ when = none ∧
      GetSlotTime ⟨[], 0⟩ ⟨1, 7⟩ 1 = none ∧
      GetSlotAtTime ⟨[], 0⟩ ⟨0, 7⟩ when = some 0 :=
  ⟨GetSlotAtTime_zero_interval_faults _ _ when rfl (by decide),
    GetSlotTime_zero_interval_faults _ _ 1 rfl (by decide) (by decide),
    GetSlotAtTime_zero_interval_genesis _ _ when rfl rfl⟩

/-! ## The results of runContractCmd -/

/-- The successful returns of the loop of `runContractCmd` (no error): the
install result with its one message, the deploy result with a nil message
list, the invoke result with a list headed by the invoke message, or the stop
result with an empty list. -/
theorem runContractCmdMsgs_success (cenv : ContractEnv) (trs : Transaction)
    (l : List Message) (ty : Option MessageType) (m : Option (List Message))
    (h : runContractCmdMsgs cenv trs l = some (ty, m, none)) :
    (ty = some APP_CONTRACT_TPL ∧
        ∃ c, m = some [⟨APP_CONTRACT_TPL, .ContractTplPayload c⟩]) ∨
      (ty = some APP_CONTRACT_DEPLOY ∧ m = none) ∨
      (ty = some APP_CONTRACT_INVOKE ∧
        ∃ cid c rest, m = some (⟨APP_CONTRACT_INVOKE, .ContractInvokePayload cid c⟩ :: rest)) ∨
      (ty = some APP_CONTRACT_STOP ∧ m = some []) := by
  induction l with
  | nil => simp [runContractCmdMsgs] at h
  | cons msg rest ih =>
    unfold runContractCmdMsgs at h
    split at h
    · split at h
      · split at h
        · simp at h
        · simp only [Option.some.injEq, Prod.mk.injEq, and_true] at h
          obtain ⟨h1, h2⟩ := h
          subst h1; subst h2
          exact Or.inl ⟨rfl, _, rfl⟩
        · simp at h
      · simp at h
    · split at h
      · split at h
        · simp at h
        · simp only [Option.some.injEq, Prod.mk.injEq, and_true] at h
          obtain ⟨h1, h2⟩ := h
          subst h1; subst h2
          exact Or.inr (Or.inl ⟨rfl, rfl⟩)
        · simp at h
      · simp at h
    · split at h
      · split at h
        · simp at h
        · simp at h
        · split at h
          · simp at h
          · split at h
            · simp at h
            · split at h
              · simp at h
              · simp only [Option.some.injEq, Prod.mk.injEq, and_true] at h
                obtain ⟨h1, h2⟩ := h
                subst h1; subst h2
                exact Or.inr (Or.inr (Or.inl ⟨rfl, _, _, _, rfl⟩))
          · simp at h
      · simp at h
    · split at h
      · split at h
        · simp at h
        · simp only [Option.some.injEq, Prod.mk.injEq, and_true] at h
          obtain ⟨h1, h2⟩ := h
          subst h1; subst h2
          exact Or.inr (Or.inr (Or.inr ⟨rfl, rfl⟩))
      · simp at h
    · exact ih h

/-- The successful returns of `runContractCmd`, for every environment and
transaction. -/
theorem runContractCmd_success (cenv : ContractEnv) (trs : Option Transaction)
    (ty : Option MessageType) (m : Option (List Message))
    (h : runContractCmd cenv trs = some (ty, m, none)) :
    (ty = some APP_CONTRACT_TPL ∧
        ∃ c, m = some [⟨APP_CONTRACT_TPL, .ContractTplPayload c⟩]) ∨
      (ty = some APP_CONTRACT_DEPLOY ∧ m = none) ∨
      (ty = some APP_CONTRACT_INVOKE ∧
        ∃ cid c rest, m = some (⟨APP_CONTRACT_INVOKE, .ContractInvokePayload cid c⟩ :: rest)) ∨
      (ty = some APP_CONTRACT_STOP ∧ m = some []) := by
  unfold runContractCmd at h
  split at h
  · simp at h
  · split at h
    · simp at h
    · exact runContractCmdMsgs_success cenv _ _ ty m h

/-- C36 (the code at the failing inputs): a successful run of a deploy request
returns the type CONTRACT_DEPLOY with a nil message list, and a successful run
of a stop request returns the type CONTRACT_STOP with an empty message list;
the runs of an install and of an invoke request return a list that holds the
message of the result type. -/
theorem runContractCmd_deploy_stop_without_message :
    runContractCmd exampleContractEnv (some exampleDeployReq)
        = some (some APP_CONTRACT_DEPLOY, none, none) ∧
      runContractCmd exampleContractEnv (some exampleStopReq)
        = some (some APP_CONTRACT_STOP, some [], none) ∧
      runContractCmd exampleContractEnv (some exampleInstallReq)
        = some (some APP_CONTRACT_TPL,
            some [⟨APP_CONTRACT_TPL, .ContractTplPayload []⟩], none) ∧
      runContractCmd exampleContractEnv (some exampleSysInvoke)
        = some (some APP_CONTRACT_INVOKE,
            some [⟨APP_CONTRACT_INVOKE, .ContractInvokePayload (some [0]) []⟩], none) := by
  refine ⟨by decide, by decide, by decide, by decide⟩

/-! ## A round of the schedule -/

/-- The `uint64` expression `currentASlot - 1` for a sum that has not wrapped
past zero. -/
theorem wrapU64_pred {x : Nat} (h1 : 1 ≤ x) (h2 : x ≤ 2 ^ 64) :
    wrapU64 (wrapU64 x + 2 ^ 64 - 1) = x - 1 := by
  unfold wrapU64
  by_cases hc : x = 2 ^ 64
  · rw [hc]; norm_num
  · have hlt : x < 2 ^ 64 := by omega
    rw [Nat.mod_eq_of_lt hlt]
    have : x + 2 ^ 64 - 1 = (x - 1) + 2 ^ 64 := by omega
    rw [this, Nat.add_mod_right, Nat.mod_eq_of_lt (by omega)]

/-- The mediator of slot `s + i`, as an entry of the shuffled list. -/
theorem GetScheduledMediator_offset (ms : MediatorSchedule) (dgp : DynamicGlobalProperty)
    (s i : Nat) (hne : ms.CurrentShuffledMediators ≠ []) (h1 : 1 ≤ dgp.CurrentASlot + s)
    (h2 : dgp.CurrentASlot + s + i ≤ 2 ^ 64) :
    some (GetScheduledMediator ms dgp (s + i)) =
      ms.CurrentShuffledMediators[(dgp.CurrentASlot + s - 1 + i)
        % ms.CurrentShuffledMediators.length]? := by
  rw [GetScheduledMediator_eq ms dgp (s + i) hne,
    wrapU64_pred (by omega : 1 ≤ dgp.CurrentASlot + (s + i)) (by omega)]
  have : dgp.CurrentASlot + (s + i) - 1 = dgp.CurrentASlot + s - 1 + i := by omega
  rw [this]

/-- C38: for a non-empty shuffled list of n pairwise-distinct mediators and a
slot number s with `1 ≤ CurrentASlot + s` and `CurrentASlot + s + n ≤ 2^64`
(the `uint64` sum does not wrap up to slot s + n), the mediators that
`GetScheduledMediator` returns for the slots s, s+1, ..., s+n-1 are, in this
order, the shuffled list rotated by `CurrentASlot + s - 1`: a permutation of
the list without repetition, in which every mediator of the list occurs
exactly once; and the mediator of slot s + n is the mediator of slot s. -/
theorem GetScheduledMediator_round (ms : MediatorSchedule) (dgp : DynamicGlobalProperty)
    (s : Nat) (hne : ms.CurrentShuffledMediators ≠ [])
    (hnd : ms.CurrentShuffledMediators.Nodup) (h1 : 1 ≤ dgp.CurrentASlot + s)
    (h2 : dgp.CurrentASlot + s + ms.CurrentShuffledMediators.length ≤ 2 ^ 64) :
    (List.range ms.CurrentShuffledMediators.length).map
        (fun i => GetScheduledMediator ms dgp (s + i))
        = ms.CurrentShuffledMediators.rotate (dgp.CurrentASlot + s - 1) ∧
      ((List.range ms.CurrentShuffledMediators.length).map
        (fun i => GetScheduledMediator ms dgp (s + i))).Perm ms.CurrentShuffledMediators ∧
      ((List.range ms.CurrentShuffledMediators.length).map
        (fun i => GetScheduledMediator ms dgp (s + i))).Nodup ∧
      (∀ a ∈ ms.CurrentShuffledMediators,
        ((List.range ms.CurrentShuffledMediators.length).map
          (fun i => GetScheduledMediator ms dgp (s + i))).count a = 1) ∧
      (∀ a, a ∈ (List.range ms.CurrentShuffledMediators.length).map
          (fun i => GetScheduledMediator ms dgp (s + i)) → a ∈ ms.CurrentShuffledMediators) ∧
      GetScheduledMediator ms dgp (s + ms.CurrentShuffledMediators.length)
        = GetScheduledMediator ms dgp s := by
  have hrot : (List.range ms.CurrentShuffledMediators.length).map
      (fun i => GetScheduledMediator ms dgp (s + i))
      = ms.CurrentShuffledMediators.rotate (dgp.CurrentASlot + s - 1) := by
    apply List.ext_getElem?
    intro i
    by_cases hi : i < ms.CurrentShuffledMediators.length
    · rw [List.getElem?_rotate hi, List.getElem?_map, List.getElem?_range hi]
      simp only [Option.map_some']
      rw [GetScheduledMediator_offset ms dgp s i hne h1 (by omega), Nat.add_comm i]
    · rw [List.getElem?_eq_none (by simpa using hi),
        List.getElem?_eq_none (by simpa using hi)]
  have hperm := List.rotate_perm ms.CurrentShuffledMediators (dgp.CurrentASlot + s - 1)
  rw [hrot]
  refine ⟨rfl, hperm, hperm.nodup_iff.2 hnd, ?_, ?_, ?_⟩
  · intro a ha
    rw [hperm.count_eq]
    exact List.count_eq_one_of_mem hnd ha
  · intro a ha
    exact hperm.mem_iff.1 ha
  · apply Option.some.inj
    have h0 := GetScheduledMediator_offset ms dgp s 0 hne h1 (by omega)
    rw [GetScheduledMediator_offset ms dgp s _ hne h1 h2, Nat.add_mod_right]
    simpa using h0.symm

theorem GetScheduledMediator_round_witness :
    (List.range 3).map (fun i => GetScheduledMediator ⟨[10, 20, 30]⟩ ⟨0, 7, 0⟩ (2 + i))
        = [30, 10, 20] ∧
      GetScheduledMediator ⟨[10, 20, 30]⟩ ⟨0, 7, 0⟩ (2 + 3)
        = GetScheduledMediator ⟨[10, 20, 30]⟩ ⟨0, 7, 0⟩ 2 :=
  ⟨(GetScheduledMediator_round ⟨[10, 20, 30]⟩ ⟨0, 7, 0⟩ 2 (by decide) (by decide) (by decide)
      (by decide)).1.trans (by decide),
    (GetScheduledMediator_round ⟨[10, 20, 30]⟩ ⟨0, 7, 0⟩ 2 (by decide) (by decide) (by decide)
      (by decide)).2.2.2.2.2⟩

/-! ## Modular powers -/

theorem powModAux_cast (m : Nat) (fuel b e acc : Nat) (h : e < 2 ^ fuel) :
    ((powModAux m fuel b e acc : Nat) : ZMod m) = (acc : ZMod m) * (b : ZMod m) ^ e := by
  induction fuel generalizing b e acc with
  | zero =>
    have he : e = 0 := by simpa using h
    subst he
    simp [powModAux]
  | succ fuel ih =>
    unfold powModAux
    by_cases he : e = 0
    · subst he; simp
    · rw [if_neg he, ih _ _ _ (by rw [pow_succ] at h; omega)]
      have hsplit : e = 16 * (e / 16) + e % 16 := (Nat.div_add_mod e 16).symm
      conv_rhs => rw [hsplit, pow_add, pow_mul]
      simp only [Nat.cast_mul, Nat.cast_pow, ZMod.natCast_mod]
      ring

theorem powMod_cast (m b e : Nat) :
    ((powMod m b e : Nat) : ZMod m) = (b : ZMod m) ^ e := by
  unfold powMod
  rw [powModAux_cast m e _ e _ (Nat.lt_two_pow e)]
  simp [ZMod.natCast_mod]

theorem invMod_cast (m x : Nat) [Fact m.Prime] (hm : m ≠ 2) :
    ((invMod m x : Nat) : ZMod m) = ((x : ZMod m))⁻¹ := by
  unfold invMod
  rw [powMod_cast]
  have hp : m.Prime := Fact.out
  have h2 : 2 ≤ m := hp.two_le
  by_cases hx : (x : ZMod m) = 0
  · rw [hx, inv_zero, zero_pow (by omega)]
  · have h1 : (x : ZMod m) ^ (m - 1) = 1 := ZMod.pow_card_sub_one_eq_one hx
    have h3 : (x : ZMod m) ^ (m - 2) * (x : ZMod m) = 1 := by
      rw [← pow_succ]
      have : m - 2 + 1 = m - 1 := by omega
      rw [this, h1]
    exact eq_inv_of_mul_eq_one_left h3

open WeierstrassCurve

/-! ## Points in coordinates and points of the Weierstrass curve -/

theorem natCast_inj_of_lt {p x y : Nat} (hx : x < p) (hy : y < p)
    (h : (x : ZMod p) = (y : ZMod p)) : x = y := by
  have := (ZMod.natCast_eq_natCast_iff' x y p).1 h
  rwa [Nat.mod_eq_of_lt hx, Nat.mod_eq_of_lt hy] at this

theorem natCast_sub_of_le {p x : Nat} (hx : x ≤ p) :
    ((p - x : Nat) : ZMod p) = -(x : ZMod p) := by
  rw [Nat.cast_sub hx, ZMod.natCast_self, zero_sub]

theorem represents_none_iff (c : CurveParams) (Q : (curveW c).toAffine.Point) :
    Represents c none Q ↔ Q = 0 := by
  cases Q with
  | zero => simp [Represents, Affine.Point.zero_def]
  | some h => simp [Represents, Affine.Point.some_ne_zero]

theorem represents_some_iff (c : CurveParams) (x y : Nat) (Q : (curveW c).toAffine.Point) :
    Represents c (some (x, y)) Q ↔
      x < c.p ∧ y < c.p ∧
        ∃ h : (curveW c).toAffine.Nonsingular (x : ZMod c.p) (y : ZMod c.p),
          Q = Affine.Point.some h := by
  cases Q with
  | zero =>
    simp only [Represents, false_iff, not_and, not_exists]
    intro _ _ h hq
    exact absurd hq.symm (Affine.Point.some_ne_zero h)
  | @some x1 y1 h1 =>
    simp only [Represents]
    constructor
    · rintro ⟨hx, hy, rfl, rfl⟩
      exact ⟨hx, hy, h1, rfl⟩
    · rintro ⟨hx, hy, h, hq⟩
      cases hq
      exact ⟨hx, hy, rfl, rfl⟩

theorem represents_left_unique (c : CurveParams) {P1 P2 : CurvePoint}
    {Q : (curveW c).toAffine.Point} (h1 : Represents c P1 Q) (h2 : Represents c P2 Q) :
    P1 = P2 := by
  cases Q with
  | zero =>
    cases P1 with
    | none =>
      cases P2 with
      | none => rfl
      | some v => simp [Represents] at h2
    | some v => simp [Represents] at h1
  | @some x1 y1 hq =>
    cases P1 with
    | none => simp [Represents] at h1
    | some v =>
      cases P2 with
      | none => simp [Represents] at h2
      | some w =>
        obtain ⟨vx, vy⟩ := v
        obtain ⟨wx, wy⟩ := w
        simp only [Represents] at h1 h2
        obtain ⟨a1, a2, a3, a4⟩ := h1
        obtain ⟨b1, b2, b3, b4⟩ := h2
        rw [natCast_inj_of_lt a1 b1 (a3.trans b3.symm),
          natCast_inj_of_lt a2 b2 (a4.trans b4.symm)]

theorem represents_right_unique (c : CurveParams) {P : CurvePoint}
    {Q1 Q2 : (curveW c).toAffine.Point} (h1 : Represents c P Q1) (h2 : Represents c P Q2) :
    Q1 = Q2 := by
  cases P with
  | none => rw [(represents_none_iff c Q1).1 h1, (represents_none_iff c Q2).1 h2]
  | some v =>
    obtain ⟨x, y⟩ := v
    obtain ⟨_, _, _, e1⟩ := (represents_some_iff c x y Q1).1 h1
    obtain ⟨_, _, _, e2⟩ := (represents_some_iff c x y Q2).1 h2
    rw [e1, e2]

theorem curveW_equation_iff (c : CurveParams) (x y : ZMod c.p) :
    (curveW c).toAffine.Equation x y ↔ y ^ 2 = x ^ 3 + (c.a : ZMod c.p) * x + (c.b : ZMod c.p) := by
  rw [Affine.equation_iff]
  simp [curveW]

theorem onCurve_iff (c : CurveParams) (x y : Nat) :
    onCurve c x y = true ↔
      x < c.p ∧ y < c.p ∧ (curveW c).toAffine.Equation (x : ZMod c.p) (y : ZMod c.p) := by
  rw [curveW_equation_iff]
  simp only [onCurve, Bool.and_eq_true, decide_eq_true_eq, and_assoc]
  refine and_congr_right (fun _ => and_congr_right (fun _ => ?_))
  rw [← ZMod.natCast_eq_natCast_iff']
  push_cast
  constructor
  · intro h; rw [pow_two, h]; ring
  · intro h; rw [← pow_two, h]; ring

theorem curveW_disc (c : CurveParams) [Fact c.p.Prime] (hp : c.p ≠ 2)
    (hd : (4 * c.a ^ 3 + 27 * c.b ^ 2) % c.p ≠ 0) : (curveW c).Δ ≠ 0 := by
  have h1 : (curveW c).Δ = -16 * ((4 * c.a ^ 3 + 27 * c.b ^ 2 : Nat) : ZMod c.p) := by
    simp only [WeierstrassCurve.Δ, WeierstrassCurve.b₂, WeierstrassCurve.b₄,
      WeierstrassCurve.b₆, WeierstrassCurve.b₈, curveW]
    push_cast
    ring
  rw [h1]
  have h2 : ((2 : Nat) : ZMod c.p) ≠ 0 := by
    intro h
    rw [ZMod.natCast_zmod_eq_zero_iff_dvd] at h
    have hp2 : c.p.Prime := Fact.out
    exact hp ((Nat.prime_dvd_prime_iff_eq hp2 Nat.prime_two).1 h)
  have h16 : (-16 : ZMod c.p) ≠ 0 := by
    have : (-16 : ZMod c.p) = -(((2 : Nat) : ZMod c.p) ^ 4) := by push_cast; norm_num
    rw [this]
    exact neg_ne_zero.2 (pow_ne_zero 4 h2)
  refine mul_ne_zero h16 ?_
  intro h
  rw [ZMod.natCast_zmod_eq_zero_iff_dvd] at h
  exact hd (Nat.mod_eq_zero_of_dvd h)


theorem point_some_congr {F : Type} [CommRing F] {W : Affine F} {x y x1 y1 : F}
    (h : W.Nonsingular x y) (hx : x = x1) (hy : y = y1) :
    ∃ h1 : W.Nonsingular x1 y1, Affine.Point.some h = Affine.Point.some h1 := by
  subst hx; subst hy; exact ⟨h, rfl⟩

theorem curveW_negY (c : CurveParams) (x y : ZMod c.p) :
    (curveW c).toAffine.negY x y = -y := by
  simp [Affine.negY, curveW]

theorem curveW_addX (c : CurveParams) (x1 x2 l : ZMod c.p) :
    (curveW c).toAffine.addX x1 x2 l = l ^ 2 - x1 - x2 := by
  simp [Affine.addX, curveW]

theorem curveW_addY (c : CurveParams) (x1 x2 y1 l : ZMod c.p) :
    (curveW c).toAffine.addY x1 x2 y1 l = l * (x1 - (l ^ 2 - x1 - x2)) - y1 := by
  simp only [Affine.addY, Affine.negAddY, curveW_negY, curveW_addX]
  ring

theorem represents_add (c : CurveParams) [Fact c.p.Prime] (hp : c.p ≠ 2)
    {P Q : CurvePoint} {P1 Q1 : (curveW c).toAffine.Point}
    (hP : Represents c P P1) (hQ : Represents c Q Q1) :
    Represents c (ptAdd c P Q) (P1 + Q1) := by
  have hp0 : 0 < c.p := (Fact.out : c.p.Prime).pos
  cases P with
  | none =>
    rw [(represents_none_iff c P1).1 hP, zero_add]
    simpa [ptAdd] using hQ
  | some v =>
    cases Q with
    | none =>
      rw [(represents_none_iff c Q1).1 hQ, add_zero]
      simpa [ptAdd] using hP
    | some w =>
      obtain ⟨x1, y1⟩ := v
      obtain ⟨x2, y2⟩ := w
      obtain ⟨hx1, hy1, h1, rfl⟩ := (represents_some_iff c x1 y1 P1).1 hP
      obtain ⟨hx2, hy2, h2, rfl⟩ := (represents_some_iff c x2 y2 Q1).1 hQ
      by_cases hx : x1 = x2
      · subst hx
        by_cases hy : (y1 + y2) % c.p = 0
        · have hyF : (y1 : ZMod c.p) = (curveW c).toAffine.negY (x1 : ZMod c.p) (y2 : ZMod c.p) := by
            rw [curveW_negY]
            have : ((y1 + y2 : Nat) : ZMod c.p) = 0 := by
              rw [ZMod.natCast_zmod_eq_zero_iff_dvd]; exact Nat.dvd_of_mod_eq_zero hy
            push_cast at this
            exact eq_neg_of_add_eq_zero_left this
          rw [Affine.Point.add_of_Y_eq rfl hyF]
          simp only [ptAdd, hy, if_true]
          exact (represents_none_iff c 0).2 rfl
        · have hyF : (y1 : ZMod c.p) ≠ (curveW c).toAffine.negY (x1 : ZMod c.p) (y2 : ZMod c.p) := by
            rw [curveW_negY]
            intro h
            apply hy
            have : ((y1 + y2 : Nat) : ZMod c.p) = 0 := by
              push_cast; rw [h]; ring
            rw [ZMod.natCast_zmod_eq_zero_iff_dvd] at this
            exact Nat.mod_eq_zero_of_dvd this
          rw [Affine.Point.add_of_Y_ne hyF]
          simp only [ptAdd, hy, if_true, if_false]
          rw [represents_some_iff]
          refine ⟨Nat.mod_lt _ hp0, Nat.mod_lt _ hp0, ?_⟩
          apply point_some_congr
          · rw [curveW_addX, Affine.slope_of_Y_ne rfl hyF, curveW_negY]
            simp only [Nat.cast_add, Nat.cast_mul, ZMod.natCast_mod, natCast_sub_of_le hx1.le,
              invMod_cast c.p _ hp, curveW, Nat.cast_ofNat]
            ring
          · rw [curveW_addY, Affine.slope_of_Y_ne rfl hyF, curveW_negY]
            simp only [Nat.cast_add, Nat.cast_mul, ZMod.natCast_mod, natCast_sub_of_le hx1.le,
              natCast_sub_of_le hy1.le, natCast_sub_of_le (Nat.mod_lt _ hp0).le,
              invMod_cast c.p _ hp, curveW, Nat.cast_ofNat]
            ring
      · have hxF : (x1 : ZMod c.p) ≠ (x2 : ZMod c.p) := fun h => hx (natCast_inj_of_lt hx1 hx2 h)
        rw [Affine.Point.add_of_X_ne hxF]
        simp only [ptAdd, hx, if_false]
        rw [represents_some_iff]
        refine ⟨Nat.mod_lt _ hp0, Nat.mod_lt _ hp0, ?_⟩
        apply point_some_congr
        · rw [curveW_addX, Affine.slope_of_X_ne hxF]
          simp only [Nat.cast_add, Nat.cast_mul, ZMod.natCast_mod, natCast_sub_of_le hx1.le,
            natCast_sub_of_le hx2.le, natCast_sub_of_le hy2.le,
            invMod_cast c.p _ hp]
          ring
        · rw [curveW_addY, Affine.slope_of_X_ne hxF]
          simp only [Nat.cast_add, Nat.cast_mul, ZMod.natCast_mod, natCast_sub_of_le hx1.le,
            natCast_sub_of_le hx2.le, natCast_sub_of_le hy2.le, natCast_sub_of_le hy1.le,
            natCast_sub_of_le (Nat.mod_lt _ hp0).le, invMod_cast c.p _ hp]
          ring


theorem represents_neg (c : CurveParams) [Fact c.p.Prime] {P : CurvePoint}
    {P1 : (curveW c).toAffine.Point} (hP : Represents c P P1) :
    Represents c (ptNeg c P) (-P1) := by
  have hp0 : 0 < c.p := (Fact.out : c.p.Prime).pos
  cases P with
  | none =>
    rw [(represents_none_iff c P1).1 hP]
    exact (represents_none_iff c _).2 (by simp)
  | some v =>
    obtain ⟨x, y⟩ := v
    obtain ⟨hx, hy, h, rfl⟩ := (represents_some_iff c x y P1).1 hP
    rw [Affine.Point.neg_some]
    simp only [ptNeg]
    rw [represents_some_iff]
    refine ⟨hx, Nat.mod_lt _ hp0, ?_⟩
    apply point_some_congr
    · rfl
    · rw [curveW_negY]
      simp only [ZMod.natCast_mod, natCast_sub_of_le hy.le]

theorem represents_mulAux (c : CurveParams) [Fact c.p.Prime] (hp : c.p ≠ 2) (fuel : Nat) :
    ∀ (k : Nat) (P acc : CurvePoint) (P1 A : (curveW c).toAffine.Point), k < 2 ^ fuel →
      Represents c P P1 → Represents c acc A →
      Represents c (ptMulAux c fuel k P acc) (A + k • P1) := by
  induction fuel with
  | zero =>
    intro k P acc P1 A hk _ hA
    have hk0 : k = 0 := by simpa using hk
    subst hk0
    rw [zero_nsmul, add_zero]
    simpa [ptMulAux] using hA
  | succ fuel ih =>
    intro k P acc P1 A hk hP hA
    unfold ptMulAux
    by_cases hk0 : k = 0
    · subst hk0
      rw [zero_nsmul, add_zero, if_pos rfl]
      exact hA
    · rw [if_neg hk0]
      have e2 : (k / 2) • (P1 + P1) = (2 * (k / 2)) • P1 := by
        rw [← two_nsmul, ← mul_nsmul]
      have hsplit : k = 2 * (k / 2) + k % 2 := (Nat.div_add_mod k 2).symm
      have hlt : k / 2 < 2 ^ fuel := by rw [pow_succ] at hk; omega
      rcases Nat.mod_two_eq_zero_or_one k with h0 | h1
      · rw [if_neg (by omega)]
        have := ih (k / 2) _ _ _ _ hlt (represents_add c hp hP hP) hA
        have e : A + k • P1 = A + (k / 2) • (P1 + P1) := by
          rw [e2]
          conv_lhs => rw [hsplit, h0, add_zero]
        rw [e]; exact this
      · rw [if_pos h1]
        have := ih (k / 2) _ _ _ _ hlt (represents_add c hp hP hP) (represents_add c hp hA hP)
        have e : A + k • P1 = A + P1 + (k / 2) • (P1 + P1) := by
          rw [e2]
          conv_lhs => rw [hsplit, h1, add_nsmul, one_nsmul]
          abel
        rw [e]; exact this

theorem represents_mul (c : CurveParams) [Fact c.p.Prime] (hp : c.p ≠ 2) (k : Nat)
    {P : CurvePoint} {P1 : (curveW c).toAffine.Point} (hP : Represents c P P1) :
    Represents c (ptMul c k P) (k • P1) := by
  have := represents_mulAux c hp k k P none P1 0 (Nat.lt_two_pow k) hP
    ((represents_none_iff c 0).2 rfl)
  simpa [ptMul] using this

theorem represents_of_onCurve (c : CurveParams) [Fact c.p.Prime] (hp : c.p ≠ 2)
    (hd : (4 * c.a ^ 3 + 27 * c.b ^ 2) % c.p ≠ 0) {x y : Nat} (h : onCurve c x y = true) :
    ∃ Q : (curveW c).toAffine.Point, Represents c (some (x, y)) Q := by
  obtain ⟨hx, hy, he⟩ := (onCurve_iff c x y).1 h
  have hns := Affine.nonsingular_of_Δ_ne_zero _ he (curveW_disc c hp hd)
  exact ⟨Affine.Point.some hns, (represents_some_iff c x y _).2 ⟨hx, hy, hns, rfl⟩⟩

theorem onCurve_of_represents (c : CurveParams) {x y : Nat}
    {Q : (curveW c).toAffine.Point} (h : Represents c (some (x, y)) Q) :
    onCurve c x y = true := by
  obtain ⟨hx, hy, hns, _⟩ := (represents_some_iff c x y Q).1 h
  exact (onCurve_iff c x y).2 ⟨hx, hy, hns.1⟩


/-! ## The signature equation -/

theorem nsmul_mod_of_order {A : Type} [AddCommGroup A] {g : A} {n : Nat} (h : n • g = 0)
    (m : Nat) : (m % n) • g = m • g := by
  conv_rhs => rw [← Nat.div_add_mod m n, add_nsmul, mul_nsmul, h, nsmul_zero, zero_add]

theorem nsmul_congr_of_order {A : Type} [AddCommGroup A] {g : A} {n : Nat} (h : n • g = 0)
    {a b : Nat} (hab : (a : ZMod n) = (b : ZMod n)) : a • g = b • g := by
  rw [← nsmul_mod_of_order h a, ← nsmul_mod_of_order h b,
    (ZMod.natCast_eq_natCast_iff' a b n).1 hab]

theorem natCast_ne_zero_of_lt {n x : Nat} (h0 : 0 < x) (hlt : x < n) : (x : ZMod n) ≠ 0 := by
  intro h
  rw [ZMod.natCast_zmod_eq_zero_iff_dvd] at h
  exact absurd (Nat.le_of_dvd h0 h) (by omega)

theorem CurveParams.Valid.p_ne_two {c : CurveParams} (hv : c.Valid) : c.p ≠ 2 := by
  intro h; have := hv.p_mod; rw [h] at this; omega

theorem CurveParams.Valid.N_ne_two {c : CurveParams} (hv : c.Valid) : c.N ≠ 2 := by
  intro h; have := hv.N_odd; rw [h] at this; omega

/-- The base point of valid parameters stands for a point of the Weierstrass
curve that `N` annihilates. -/
theorem CurveParams.Valid.base {c : CurveParams} [Fact c.p.Prime] (hv : c.Valid) :
    ∃ G1 : (curveW c).toAffine.Point, Represents c (some c.G) G1 ∧ c.N • G1 = 0 := by
  obtain ⟨G1, hG⟩ := represents_of_onCurve c hv.p_ne_two hv.disc hv.G_on
  refine ⟨G1, hG, ?_⟩
  have h := represents_mul c hv.p_ne_two c.N hG
  rw [hv.G_order] at h
  exact (represents_none_iff c _).1 h

/-- A multiple `d·G` with `0 < d < N` is a finite point. -/
theorem ptMul_base_isSome {c : CurveParams} (hv : c.Valid) {d : Nat} (h0 : 0 < d)
    (hlt : d < c.N) : ∃ Q : Nat × Nat, ptMul c d (some c.G) = some Q := by
  haveI : Fact c.p.Prime := ⟨hv.prime_p⟩
  obtain ⟨G1, hG, hN⟩ := hv.base
  have h := represents_mul c hv.p_ne_two d hG
  cases hq : ptMul c d (some c.G) with
  | some Q => exact ⟨Q, rfl⟩
  | none =>
    exfalso
    rw [hq] at h
    have hd0 : d • G1 = 0 := (represents_none_iff c _).1 h
    have h1 : addOrderOf G1 ∣ c.N := addOrderOf_dvd_of_nsmul_eq_zero hN
    have h2 : addOrderOf G1 ∣ d := addOrderOf_dvd_of_nsmul_eq_zero hd0
    rcases (Nat.dvd_prime hv.prime_N).1 h1 with h3 | h3
    · have hG0 : G1 = 0 := AddMonoid.addOrderOf_eq_one_iff.1 h3
      rw [hG0] at hG
      have := (represents_some_iff c c.G.1 c.G.2 0).1 hG
      obtain ⟨_, _, hns, he⟩ := this
      exact Affine.Point.some_ne_zero hns he.symm
    · rw [h3] at h2
      exact absurd (Nat.le_of_dvd h0 h2) (by omega)

theorem ecdsaEquation_of_scalar {c : CurveParams} [Fact c.p.Prime] (hv : c.Valid)
    {G1 : (curveW c).toAffine.Point} (hG : Represents c (some c.G) G1)
    {d z r s x y : Nat} {Q : Nat × Nat} (hQ : Represents c (some Q) (d • G1))
    (hr : 0 < r ∧ r < c.N) (hs : 0 < s ∧ s < c.N) (hx : x % c.N = r)
    (hT : Represents c (some (x, y))
      ((z * invMod c.N s % c.N + r * invMod c.N s % c.N * d) • G1)) :
    ecdsaEquation c Q r s z = true := by
  have h1 := represents_mul c hv.p_ne_two (z * invMod c.N s % c.N) hG
  have h2 := represents_mul c hv.p_ne_two (r * invMod c.N s % c.N) hQ
  have h3 := represents_add c hv.p_ne_two h1 h2
  have e : (z * invMod c.N s % c.N) • G1 + (r * invMod c.N s % c.N) • d • G1
      = (z * invMod c.N s % c.N + r * invMod c.N s % c.N * d) • G1 := by
    rw [add_nsmul, mul_comm (r * invMod c.N s % c.N) d, mul_nsmul]
  rw [e] at h3
  have h4 := represents_left_unique c h3 hT
  unfold ecdsaEquation
  rw [if_pos ⟨hr.1, hr.2, hs.1, hs.2⟩]
  simp only [h4, hx, decide_True]


theorem ecdsaEquation_of_nonce {c : CurveParams} [Fact c.p.Prime] (hv : c.Valid)
    {G1 : (curveW c).toAffine.Point} (hG : Represents c (some c.G) G1) (hN : c.N • G1 = 0)
    {d z k x y t : Nat} {Q : Nat × Nat} (hQ : Represents c (some Q) (d • G1))
    (hR : Represents c (some (x, y)) (k • G1)) (hk0 : 0 < k) (hk : k < c.N)
    (hr : x % c.N ≠ 0) (hs0 : 0 < t) (hs : t < c.N)
    (heq : (t : ZMod c.N) = ((k : ZMod c.N))⁻¹ * ((z : ZMod c.N) + ((x % c.N : Nat) : ZMod c.N) * d)
      ∨ (t : ZMod c.N)
        = -(((k : ZMod c.N))⁻¹ * ((z : ZMod c.N) + ((x % c.N : Nat) : ZMod c.N) * d))) :
    ecdsaEquation c Q (x % c.N) t z = true := by
  haveI : Fact c.N.Prime := ⟨hv.prime_N⟩
  have hNpos : 0 < c.N := hv.prime_N.pos
  have hkF : (k : ZMod c.N) ≠ 0 := natCast_ne_zero_of_lt hk0 hk
  have hsF : (t : ZMod c.N) ≠ 0 := natCast_ne_zero_of_lt hs0 hs
  have hu : ((z * invMod c.N t % c.N + (x % c.N) * invMod c.N t % c.N * d : Nat) : ZMod c.N)
      = ((t : ZMod c.N))⁻¹ * ((z : ZMod c.N) + ((x % c.N : Nat) : ZMod c.N) * d) := by
    simp only [Nat.cast_add, Nat.cast_mul, ZMod.natCast_mod, invMod_cast c.N _ hv.N_ne_two]
    ring
  have hrr : 0 < x % c.N ∧ x % c.N < c.N := ⟨Nat.pos_of_ne_zero hr, Nat.mod_lt _ hNpos⟩
  rcases heq with heq | heq
  · have hu2 : ((z * invMod c.N t % c.N + (x % c.N) * invMod c.N t % c.N * d : Nat) : ZMod c.N)
        = (k : ZMod c.N) := by
      rw [hu]
      have hzz : (z : ZMod c.N) + ((x % c.N : Nat) : ZMod c.N) * d = k * t := by
        rw [heq]; field_simp
      rw [hzz]; field_simp
    have hT : Represents c (some (x, y))
        ((z * invMod c.N t % c.N + (x % c.N) * invMod c.N t % c.N * d) • G1) := by
      rw [nsmul_congr_of_order hN hu2]; exact hR
    exact ecdsaEquation_of_scalar hv hG hQ hrr ⟨hs0, hs⟩ rfl hT
  · have hu2 : ((z * invMod c.N t % c.N + (x % c.N) * invMod c.N t % c.N * d : Nat) : ZMod c.N)
        = ((c.N - k : Nat) : ZMod c.N) := by
      rw [hu, natCast_sub_of_le hk.le]
      have hzz : (z : ZMod c.N) + ((x % c.N : Nat) : ZMod c.N) * d = -(k * t) := by
        rw [heq]; field_simp
      rw [hzz]; field_simp
    have hneg : (c.N - k) • G1 = -(k • G1) := by
      apply eq_neg_of_add_eq_zero_left
      rw [← add_nsmul, Nat.sub_add_cancel hk.le, hN]
    have hT : Represents c (some (x, (c.p - y) % c.p))
        ((z * invMod c.N t % c.N + (x % c.N) * invMod c.N t % c.N * d) • G1) := by
      rw [nsmul_congr_of_order hN hu2, hneg]
      exact represents_neg c hR
    exact ecdsaEquation_of_scalar hv hG hQ hrr ⟨hs0, hs⟩ rfl hT

/-- The numbers that `ecdsaSign` returns for a key and a nonce in `[1, N - 1]`:
`r` and the low `s` satisfy the signature equation for the public point `d·G`,
and so does the high counterpart `N - s`. -/
theorem ecdsaSign_sound {c : CurveParams} (hv : c.Valid) {d z k r s v : Nat}
    (hd0 : 0 < d) (hd : d < c.N) (hk0 : 0 < k) (hk : k < c.N)
    (h : ecdsaSign c d z k = some (r, s, v)) :
    ∃ Q : Nat × Nat, ptMul c d (some c.G) = some Q ∧ onCurve c Q.1 Q.2 = true ∧
      0 < r ∧ r < c.N ∧ 0 < s ∧ s ≤ c.N / 2 ∧ c.N / 2 < c.N - s ∧ c.N - s < c.N ∧
      ecdsaEquation c Q r s z = true ∧ ecdsaEquation c Q r (c.N - s) z = true := by
  haveI : Fact c.p.Prime := ⟨hv.prime_p⟩
  haveI : Fact c.N.Prime := ⟨hv.prime_N⟩
  have hNpos : 0 < c.N := hv.prime_N.pos
  have hodd := hv.N_odd
  obtain ⟨G1, hG, hN⟩ := hv.base
  obtain ⟨Q, hQe⟩ := ptMul_base_isSome hv hd0 hd
  have hQ : Represents c (some Q) (d • G1) := by
    rw [← hQe]; exact represents_mul c hv.p_ne_two d hG
  have hRrep := represents_mul c hv.p_ne_two k hG
  unfold ecdsaSign at h
  cases hR : ptMul c k (some c.G) with
  | none => rw [hR] at h; simp at h
  | some xy =>
    obtain ⟨x, y⟩ := xy
    rw [hR] at h hRrep
    simp only at h
    split at h
    · simp at h
    · rename_i hrs
      rw [not_or] at hrs
      obtain ⟨hr, hs0⟩ := hrs
      have hs0lt : invMod c.N k * ((z + x % c.N * d) % c.N) % c.N < c.N := Nat.mod_lt _ hNpos
      have hs0F : ((invMod c.N k * ((z + x % c.N * d) % c.N) % c.N : Nat) : ZMod c.N)
          = ((k : ZMod c.N))⁻¹ * ((z : ZMod c.N) + ((x % c.N : Nat) : ZMod c.N) * d) := by
        simp only [Nat.cast_add, Nat.cast_mul, ZMod.natCast_mod, invMod_cast c.N _ hv.N_ne_two]
      have hlow := ecdsaEquation_of_nonce hv hG hN (z := z) hQ hRrep hk0 hk hr
        (Nat.pos_of_ne_zero hs0) hs0lt (Or.inl hs0F)
      have hhighF : ((c.N - invMod c.N k * ((z + x % c.N * d) % c.N) % c.N : Nat) : ZMod c.N)
          = -(((k : ZMod c.N))⁻¹ * ((z : ZMod c.N) + ((x % c.N : Nat) : ZMod c.N) * d)) := by
        rw [natCast_sub_of_le hs0lt.le, hs0F]
      have hhigh := ecdsaEquation_of_nonce hv hG hN (z := z) hQ hRrep hk0 hk hr
        (t := c.N - invMod c.N k * ((z + x % c.N * d) % c.N) % c.N)
        (by omega) (by omega) (Or.inr hhighF)
      refine ⟨Q, hQe, onCurve_of_represents c hQ, ?_⟩
      split at h
      · rename_i hgt
        simp only [Option.some.injEq, Prod.mk.injEq] at h
        obtain ⟨rfl, rfl, _⟩ := h
        refine ⟨Nat.pos_of_ne_zero hr, Nat.mod_lt _ hNpos, by omega, by omega, by omega,
          by omega, hhigh, ?_⟩
        rw [Nat.sub_sub_self hs0lt.le]; exact hlow
      · rename_i hle
        simp only [Option.some.injEq, Prod.mk.injEq] at h
        obtain ⟨rfl, rfl, _⟩ := h
        exact ⟨Nat.pos_of_ne_zero hr, Nat.mod_lt _ hNpos, Nat.pos_of_ne_zero hs0, by omega,
          by omega, by omega, hlow, hhigh⟩


/-! ## Byte strings -/

theorem beDecode_append_singleton (l : List Nat) (b : Nat) :
    beDecode (l ++ [b]) = beDecode l * 256 + b := by
  simp [beDecode, List.foldl_append]

theorem beEncode_length (len x : Nat) : (beEncode len x).length = len := by
  induction len generalizing x with
  | zero => rfl
  | succ len ih => simp [beEncode, ih]

theorem beDecode_beEncode_mod (len x : Nat) : beDecode (beEncode len x) = x % 256 ^ len := by
  induction len generalizing x with
  | zero => simp [beEncode, beDecode, Nat.mod_one]
  | succ len ih =>
    rw [beEncode, beDecode_append_singleton, ih, pow_succ, mul_comm (256 ^ len) 256,
      Nat.mod_mul]
    ring

theorem beDecode_beEncode {x : Nat} (h : x < 2 ^ 256) : beDecode (beEncode 32 x) = x := by
  rw [beDecode_beEncode_mod, Nat.mod_eq_of_lt]
  calc x < 2 ^ 256 := h
    _ = 256 ^ 32 := by norm_num

theorem powModAux_lt (m : Nat) (hm : 0 < m) (fuel b e acc : Nat) (h : acc < m) :
    powModAux m fuel b e acc < m := by
  induction fuel generalizing b e acc with
  | zero => simpa [powModAux] using h
  | succ fuel ih =>
    unfold powModAux
    split
    · exact h
    · exact ih _ _ _ (Nat.mod_lt _ hm)

theorem powMod_lt (m b e : Nat) (hm : 0 < m) : powMod m b e < m :=
  powModAux_lt m hm _ _ _ _ (Nat.mod_lt _ hm)

/-- The square root that decompression takes: for a point `(x, y)` of the
curve it is `y` or `p - y`. -/
theorem sqrtMod_of_onCurve {c : CurveParams} (hv : c.Valid) {x y : Nat}
    (h : onCurve c x y = true) :
    sqrtMod c.p ((x * x * x + c.a * x + c.b) % c.p) = y ∨
      (0 < y ∧ sqrtMod c.p ((x * x * x + c.a * x + c.b) % c.p) = c.p - y) := by
  haveI : Fact c.p.Prime := ⟨hv.prime_p⟩
  have hp0 : 0 < c.p := hv.prime_p.pos
  have hmod := hv.p_mod
  obtain ⟨hx, hy, he⟩ := (onCurve_iff c x y).1 h
  rw [curveW_equation_iff] at he
  have hlt : sqrtMod c.p ((x * x * x + c.a * x + c.b) % c.p) < c.p := powMod_lt _ _ _ hp0
  have hv2 : (((x * x * x + c.a * x + c.b) % c.p : Nat) : ZMod c.p) = (y : ZMod c.p) ^ 2 := by
    rw [he, ZMod.natCast_mod]; push_cast; ring
  have hsq : ((sqrtMod c.p ((x * x * x + c.a * x + c.b) % c.p) : Nat) : ZMod c.p) ^ 2
      = (y : ZMod c.p) ^ 2 := by
    unfold sqrtMod
    rw [powMod_cast, hv2]
    by_cases hy0 : (y : ZMod c.p) = 0
    · rw [hy0]
      have : (c.p + 1) / 4 ≠ 0 := by omega
      simp [this]
    · have h1 : (y : ZMod c.p) ^ (c.p - 1) = 1 := ZMod.pow_card_sub_one_eq_one hy0
      have e : 2 * ((c.p + 1) / 4 * 2) = (c.p - 1) + 2 := by omega
      rw [← pow_mul, ← pow_mul, e, pow_add, h1, one_mul]
  rcases sq_eq_sq_iff_eq_or_eq_neg.1 hsq with h1 | h1
  · exact Or.inl (natCast_inj_of_lt hlt hy h1)
  · by_cases hy0 : y = 0
    · subst hy0
      left
      apply natCast_inj_of_lt hlt hy
      rw [h1]; simp
    · right
      refine ⟨Nat.pos_of_ne_zero hy0, ?_⟩
      apply natCast_inj_of_lt hlt (by omega)
      rw [h1, natCast_sub_of_le hy.le]

theorem parsePubKey_uncompressed {c : CurveParams} (hv : c.Valid) {Q : Nat × Nat}
    (h : onCurve c Q.1 Q.2 = true) : parsePubKey c (serializeUncompressed Q) = some Q := by
  obtain ⟨hx, hy, _⟩ := (onCurve_iff c Q.1 Q.2).1 h
  have hb := hv.p_bits
  have e1 : beDecode (List.take 32 (beEncode 32 Q.1 ++ beEncode 32 Q.2)) = Q.1 := by
    rw [List.take_left' (beEncode_length 32 _)]
    exact beDecode_beEncode (by omega)
  have e2 : beDecode (List.drop 32 (beEncode 32 Q.1 ++ beEncode 32 Q.2)) = Q.2 := by
    rw [List.drop_left' (beEncode_length 32 _)]
    exact beDecode_beEncode (by omega)
  simp only [parsePubKey, serializeUncompressed, List.length_append, beEncode_length, e1, e2, h,
    true_and, if_true]

theorem parsePubKey_compressed {c : CurveParams} (hv : c.Valid) {Q : Nat × Nat}
    (h : onCurve c Q.1 Q.2 = true) : parsePubKey c (serializeCompressed Q) = some Q := by
  obtain ⟨x, y⟩ := Q
  obtain ⟨hx, hy, _⟩ := (onCurve_iff c x y).1 h
  have hb := hv.p_bits
  have hmod := hv.p_mod
  have e1 : beDecode (beEncode 32 x) = x := beDecode_beEncode (by omega)
  have htag : ¬ (2 + y % 2 = 4 ∧ (beEncode 32 x).length = 64) := by
    rw [beEncode_length]; omega
  have htag2 : (2 + y % 2 = 2 ∨ 2 + y % 2 = 3) ∧ (beEncode 32 x).length = 32 := by
    rw [beEncode_length]; omega
  simp only [parsePubKey, serializeCompressed, if_neg htag, if_pos htag2, e1]
  have hy2 : (if sqrtMod c.p ((x * x * x + c.a * x + c.b) % c.p) % 2 = (2 + y % 2) % 2 then
      sqrtMod c.p ((x * x * x + c.a * x + c.b) % c.p)
      else (c.p - sqrtMod c.p ((x * x * x + c.a * x + c.b) % c.p)) % c.p) = y := by
    rcases sqrtMod_of_onCurve hv h with h1 | ⟨hy0, h1⟩
    · rw [h1, if_pos (by omega)]
    · rw [h1]
      have hne : ¬ (c.p - y) % 2 = (2 + y % 2) % 2 := by omega
      rw [if_neg hne, Nat.sub_sub_self hy.le, Nat.mod_eq_of_lt hy]
  rw [hy2, h]
  rfl


/-! ## Sign and Verify -/

theorem sig_parts {A B T : List Nat} (hA : A.length = 32) (hB : B.length = 32) :
    (A ++ B ++ T).take 32 = A ∧ ((A ++ B ++ T).drop 32).take 32 = B ∧
      (A ++ B ++ T).drop 64 = T ∧ (A ++ B ++ T).take 64 = A ++ B := by
  have hAB : (A ++ B).length = 64 := by simp [hA, hB]
  refine ⟨?_, ?_, ?_, ?_⟩
  · rw [List.append_assoc, List.take_left' hA]
  · rw [List.append_assoc, List.drop_left' hA, List.take_left' hB]
  · rw [List.drop_left' hAB]
  · rw [List.take_left' hAB]

/-- The result of `Verify` on a well-formed call: the low-S test and the
signature equation. -/
theorem Verify_eq {c : CurveParams} {pk hm T : List Nat} {Q : Nat × Nat} {r s : Nat}
    (hpk : parsePubKey c pk = some Q) (hlen : hm.length = 32) (htail : T.length ≤ 1)
    (hr : r < 2 ^ 256) (hs : s < 2 ^ 256) :
    Verify c (some pk) (some (beEncode 32 r ++ beEncode 32 s ++ T)) (some hm)
      = (decide (s ≤ c.N / 2) && ecdsaEquation c Q r s (beDecode hm)) := by
  obtain ⟨e1, e2, _, _⟩ := sig_parts (T := T) (beEncode_length 32 r) (beEncode_length 32 s)
  have hl : (beEncode 32 r ++ beEncode 32 s ++ T).length = 64 ∨
      (beEncode 32 r ++ beEncode 32 s ++ T).length = 65 := by
    simp only [List.length_append, beEncode_length]; omega
  simp only [Verify, hlen, hl, and_self, if_true, hpk, e1, e2, beDecode_beEncode hr,
    beDecode_beEncode hs]
  by_cases h : s ≤ c.N / 2
  · simp [h, Nat.not_lt.2 h]
  · simp [h, Nat.lt_of_not_le h]

/-- What a signature returned by `Sign` is made of, under valid parameters. -/
theorem Sign_sound {c : CurveParams} (hv : c.Valid) {k : Nat} {priv msg : Bytes}
    {sig : List Nat} (h : Sign c k priv msg = some sig) :
    ∃ (bs hm : List Nat) (Q : Nat × Nat) (r s v : Nat),
      priv = some bs ∧ msg = some hm ∧ bs.length = 32 ∧ hm.length = 32 ∧
      0 < beDecode bs ∧ beDecode bs < c.N ∧
      ptMul c (beDecode bs) (some c.G) = some Q ∧ onCurve c Q.1 Q.2 = true ∧
      sig = beEncode 32 r ++ beEncode 32 s ++ [v] ∧
      0 < r ∧ r < c.N ∧ 0 < s ∧ s ≤ c.N / 2 ∧ c.N / 2 < c.N - s ∧ c.N - s < c.N ∧
      ecdsaEquation c Q r s (beDecode hm) = true ∧
      ecdsaEquation c Q r (c.N - s) (beDecode hm) = true := by
  unfold Sign at h
  split at h
  · rename_i bs hm
    split at h
    · rename_i hc
      obtain ⟨h1, h2, h3, h4, h5, h6⟩ := hc
      cases hsg : ecdsaSign c (beDecode bs) (beDecode hm) k with
      | none => rw [hsg] at h; simp at h
      | some rsv =>
        obtain ⟨r, s, v⟩ := rsv
        rw [hsg] at h
        simp only [Option.map_some', Option.some.injEq] at h
        obtain ⟨Q, hQ, hon, a1, a2, a3, a4, a5, a6, a7, a8⟩ :=
          ecdsaSign_sound hv h2 h3 h5 h6 hsg
        exact ⟨bs, hm, Q, r, s, v, rfl, rfl, h1, h4, h2, h3, hQ, hon, h.symm, a1, a2, a3, a4,
          a5, a6, a7, a8⟩
    · simp at h
  · simp at h

/-- Under valid parameters every signature that `Sign` returns is accepted by
`Verify`, with the recovery byte and without it, under the uncompressed and
the compressed form of the public key. -/
theorem Verify_Sign_of_valid {c : CurveParams} (hv : c.Valid) {k : Nat} {priv msg : Bytes}
    {sig : List Nat} (h : Sign c k priv msg = some sig) :
    ∃ pub pubc : List Nat, PrivateKeyToPubKey c priv = some pub ∧
      CompressPubkey c pub = some pubc ∧ DecompressPubkey c pubc = some pub ∧
      pub.length = 65 ∧ pubc.length = 33 ∧ sig.length = 65 ∧
      Verify c (some pub) (some sig) msg = true ∧
      Verify c (some pubc) (some sig) msg = true ∧
      Verify c (some pub) (some (sig.take 64)) msg = true ∧
      Verify c (some pubc) (some (sig.take 64)) msg = true := by
  obtain ⟨bs, hm, Q, r, s, v, hpriv, hmsg, h1, h2, h3, h4, hQ, hon, hsig, a1, a2, a3, a4, a5,
    a6, a7, a8⟩ := Sign_sound hv h
  clear h
  subst hpriv hmsg
  rw [hsig]
  have hNb := hv.N_bits
  have hpu := parsePubKey_uncompressed hv hon
  have hpc := parsePubKey_compressed hv hon
  have hlu : (serializeUncompressed Q).length = 65 := by
    simp [serializeUncompressed, beEncode_length]
  have hlc : (serializeCompressed Q).length = 33 := by
    simp [serializeCompressed, beEncode_length]
  obtain ⟨_, _, _, e4⟩ := sig_parts (T := [v]) (beEncode_length 32 r) (beEncode_length 32 s)
  have hv1 : ∀ pk, parsePubKey c pk = some Q →
      Verify c (some pk) (some (beEncode 32 r ++ beEncode 32 s ++ [v])) (some hm) = true := by
    intro pk hpk
    rw [Verify_eq hpk h2 (by simp) (by omega) (by omega), a7]
    simp [a4]
  have hv2 : ∀ pk, parsePubKey c pk = some Q →
      Verify c (some pk) (some (beEncode 32 r ++ beEncode 32 s)) (some hm) = true := by
    intro pk hpk
    have := Verify_eq (T := []) hpk h2 (by simp) (by omega : r < 2 ^ 256)
      (by omega : s < 2 ^ 256)
    rw [List.append_nil] at this
    rw [this, a7]
    simp [a4]
  refine ⟨serializeUncompressed Q, serializeCompressed Q, ?_, ?_, ?_, hlu, hlc, ?_,
    hv1 _ hpu, hv1 _ hpc, ?_, ?_⟩
  · simp [PrivateKeyToPubKey, h1, h3, h4, hQ]
  · simp [CompressPubkey, hlu, hpu]
  · simp [DecompressPubkey, hlc, hpc]
  · simp [beEncode_length]
  · rw [e4]; exact hv2 _ hpu
  · rw [e4]; exact hv2 _ hpc

/-- A signature whose `s` is above half of the order is refused, whatever the
key, the message and the rest of the signature. -/
theorem Verify_high_s (c : CurveParams) (pub msg : Bytes) (sig : List Nat)
    (h : c.N / 2 < beDecode ((sig.drop 32).take 32)) :
    Verify c pub (some sig) msg = false := by
  unfold Verify
  split
  · rename_i pk sg hm heq
    cases heq
    split
    · split
      · rfl
      · simp [h]
    · rfl
  · rfl

/-- Under valid parameters the counterpart of a signature returned by `Sign`,
with `s` replaced by `N - s`, satisfies the signature equation for the public
key and is refused by `Verify`. -/
theorem malleate_Sign_of_valid {c : CurveParams} (hv : c.Valid) {k : Nat} {priv msg : Bytes}
    {sig : List Nat} (h : Sign c k priv msg = some sig) :
    ∃ (pub hm : List Nat) (Q : Nat × Nat), PrivateKeyToPubKey c priv = some pub ∧
      msg = some hm ∧ parsePubKey c pub = some Q ∧
      (malleate c sig).length = 65 ∧ (malleate c sig).take 32 = sig.take 32 ∧
      beDecode (((malleate c sig).drop 32).take 32)
        = c.N - beDecode ((sig.drop 32).take 32) ∧
      c.N / 2 < beDecode (((malleate c sig).drop 32).take 32) ∧
      ecdsaEquation c Q (beDecode ((malleate c sig).take 32))
        (beDecode (((malleate c sig).drop 32).take 32)) (beDecode hm) = true ∧
      Verify c (some pub) (some sig) msg = true ∧
      Verify c (some pub) (some (malleate c sig)) msg = false := by
  obtain ⟨pub, pubc, hpub, _, _, _, _, _, hver, _⟩ := Verify_Sign_of_valid hv h
  obtain ⟨bs, hm, Q, r, s, v, hpriv, hmsg, h1, h2, h3, h4, hQ, hon, hsig, a1, a2, a3, a4, a5,
    a6, a7, a8⟩ := Sign_sound hv h
  clear h
  subst hpriv hmsg
  rw [hsig] at hver ⊢
  have hNb := hv.N_bits
  obtain ⟨e1, e2, e3, _⟩ := sig_parts (T := [v]) (beEncode_length 32 r) (beEncode_length 32 s)
  have hm1 : malleate c (beEncode 32 r ++ beEncode 32 s ++ [v])
      = beEncode 32 r ++ beEncode 32 (c.N - s) ++ [v] := by
    simp only [malleate, e1, e2, e3, beDecode_beEncode (by omega : s < 2 ^ 256)]
  obtain ⟨f1, f2, _, _⟩ := sig_parts (T := [v]) (beEncode_length 32 r)
    (beEncode_length 32 (c.N - s))
  have hpubeq : pub = serializeUncompressed Q := by
    simp [PrivateKeyToPubKey, h1, h3, h4, hQ] at hpub
    exact hpub.symm
  have hs2 : beDecode (beEncode 32 (c.N - s)) = c.N - s := beDecode_beEncode (by omega)
  refine ⟨pub, hm, Q, hpub, rfl, ?_, ?_, ?_, ?_, ?_, ?_, hver, ?_⟩
  · rw [hpubeq]; exact parsePubKey_uncompressed hv hon
  · rw [hm1]; simp [beEncode_length]
  · rw [hm1, f1, e1]
  · rw [hm1, f2, e2, hs2, beDecode_beEncode (by omega : s < 2 ^ 256)]
  · rw [hm1, f2, hs2]; exact a5
  · rw [hm1, f1, f2, hs2, beDecode_beEncode (by omega : r < 2 ^ 256)]; exact a8
  · apply Verify_high_s
    rw [hm1, f2, hs2]; exact a5


/-! ## Primality certificates -/

theorem all_prime_nil : ∀ r ∈ ([] : List Nat), r.Prime := by simp

theorem all_prime_cons {q : Nat} {l : List Nat} (hq : q.Prime) (hl : ∀ r ∈ l, r.Prime) :
    ∀ r ∈ q :: l, r.Prime :=
  List.forall_mem_cons.2 ⟨hq, hl⟩

/-- Lucas's test with the factorisation of `n - 1` given as a list of primes:
`a` has order `n - 1` modulo `n`. -/
theorem prime_of_certificate (n a : Nat) (fs : List Nat) (hn : 1 < n)
    (hprod : fs.prod = n - 1) (hfs : ∀ q ∈ fs, q.Prime) (h1 : powMod n a (n - 1) = 1)
    (hd : ∀ q ∈ fs, powMod n a ((n - 1) / q) ≠ 1) : n.Prime := by
  have hone : ((1 : Nat) : ZMod n) = 1 := Nat.cast_one
  apply lucas_primality n (a : ZMod n)
  · rw [← powMod_cast, h1, hone]
  · intro q hq hdvd
    rw [← hprod] at hdvd
    obtain ⟨r, hr, hqr⟩ := (Prime.dvd_prod_iff hq.prime).1 hdvd
    have hrq : q = r := (Nat.prime_dvd_prime_iff_eq hq (hfs r hr)).1 hqr
    subst hrq
    rw [← powMod_cast, ← hone]
    intro h
    have h2 := (ZMod.natCast_eq_natCast_iff' _ _ _).1 h
    rw [Nat.mod_eq_of_lt (powMod_lt _ _ _ (by omega)), Nat.mod_eq_of_lt hn] at h2
    exact hd q hr h2

theorem prime_4681609 :
    Nat.Prime 4681609 :=
  prime_of_certificate 4681609 23
    [2, 2, 2, 3, 97, 2011]
    (by decide) (by decide)
    (all_prime_cons Nat.prime_two (all_prime_cons Nat.prime_two (all_prime_cons Nat.prime_two
      (all_prime_cons Nat.prime_three (all_prime_cons (by norm_num : Nat.Prime 97)
      (all_prime_cons (by norm_num : Nat.Prime 2011) all_prime_nil))))))
    (by decide!) (by decide!)

theorem prime_107361793816595537 :
    Nat.Prime 107361793816595537 :=
  prime_of_certificate 107361793816595537 3
    [2, 2, 2, 2, 16699, 85831, 4681609]
    (by decide) (by decide)
    (all_prime_cons Nat.prime_two (all_prime_cons Nat.prime_two (all_prime_cons Nat.prime_two
      (all_prime_cons Nat.prime_two (all_prime_cons (by norm_num : Nat.Prime 16699)
      (all_prime_cons (by norm_num : Nat.Prime 85831) (all_prime_cons prime_4681609
      all_prime_nil)))))))
    (by decide!) (by decide!)

theorem prime_120233 :
    Nat.Prime 120233 :=
  prime_of_certificate 120233 3
    [2, 2, 2, 7, 19, 113]
    (by decide) (by decide)
    (all_prime_cons Nat.prime_two (all_prime_cons Nat.prime_two (all_prime_cons Nat.prime_two
      (all_prime_cons (by norm_num : Nat.Prime 7) (all_prime_cons (by norm_num : Nat.Prime 19)
      (all_prime_cons (by norm_num : Nat.Prime 113) all_prime_nil))))))
    (by decide!) (by decide!)

theorem prime_44706919 :
    Nat.Prime 44706919 :=
  prime_of_certificate 44706919 6
    [2, 3, 797, 9349]
    (by decide) (by decide)
    (all_prime_cons Nat.prime_two (all_prime_cons Nat.prime_three (all_prime_cons (by norm_num
      : Nat.Prime 797) (all_prime_cons (by norm_num : Nat.Prime 9349) all_prime_nil))))
    (by decide!) (by decide!)

theorem prime_174723607534414371449 :
    Nat.Prime 174723607534414371449 :=
  prime_of_certificate 174723607534414371449 3
    [2, 2, 2, 17, 59, 4051, 120233, 44706919]
    (by decide) (by decide)
    (all_prime_cons Nat.prime_two (all_prime_cons Nat.prime_two (all_prime_cons Nat.prime_two
      (all_prime_cons (by norm_num : Nat.Prime 17) (all_prime_cons (by norm_num : Nat.Prime 59)
      (all_prime_cons (by norm_num : Nat.Prime 4051) (all_prime_cons prime_120233
      (all_prime_cons prime_44706919 all_prime_nil))))))))
    (by decide!) (by decide!)

theorem prime_305873 :
    Nat.Prime 305873 :=
  prime_of_certificate 305873 3
    [2, 2, 2, 2, 7, 2731]
    (by decide) (by decide)
    (all_prime_cons Nat.prime_two (all_prime_cons Nat.prime_two (all_prime_cons Nat.prime_two
      (all_prime_cons Nat.prime_two (all_prime_cons (by norm_num : Nat.Prime 7) (all_prime_cons
      (by norm_num : Nat.Prime 2731) all_prime_nil))))))
    (by decide!) (by decide!)

theorem prime_545358713 :
    Nat.Prime 545358713 :=
  prime_of_certificate 545358713 5
    [2, 2, 2, 41, 59, 28181]
    (by decide) (by decide)
    (all_prime_cons Nat.prime_two (all_prime_cons Nat.prime_two (all_prime_cons Nat.prime_two
      (all_prime_cons (by norm_num : Nat.Prime 41) (all_prime_cons (by norm_num : Nat.Prime 59)
      (all_prime_cons (by norm_num : Nat.Prime 28181) all_prime_nil))))))
    (by decide!) (by decide!)

theorem prime_1627771 :
    Nat.Prime 1627771 :=
  prime_of_certificate 1627771 3
    [2, 3, 5, 29, 1871]
    (by decide) (by decide)
    (all_prime_cons Nat.prime_two (all_prime_cons Nat.prime_three (all_prime_cons (by norm_num
      : Nat.Prime 5) (all_prime_cons (by norm_num : Nat.Prime 29) (all_prime_cons (by norm_num :
      Nat.Prime 1871) all_prime_nil)))))
    (by decide!) (by decide!)

theorem prime_297159362677 :
    Nat.Prime 297159362677 :=
  prime_of_certificate 297159362677 2
    [2, 2, 3, 3, 11, 461, 1627771]
    (by decide) (by decide)
    (all_prime_cons Nat.prime_two (all_prime_cons Nat.prime_two (all_prime_cons Nat.prime_three
      (all_prime_cons Nat.prime_three (all_prime_cons (by norm_num : Nat.Prime 11)
      (all_prime_cons (by norm_num : Nat.Prime 461) (all_prime_cons prime_1627771
      all_prime_nil)))))))
    (by decide!) (by decide!)

theorem prime_29047611873442575647497758179 :
    Nat.Prime 29047611873442575647497758179 :=
  prime_of_certificate 29047611873442575647497758179 2
    [2, 293, 305873, 545358713, 297159362677]
    (by decide) (by decide)
    (all_prime_cons Nat.prime_two (all_prime_cons (by norm_num : Nat.Prime 293) (all_prime_cons
      prime_305873 (all_prime_cons prime_545358713 (all_prime_cons prime_297159362677
      all_prime_nil)))))
    (by decide!) (by decide!)

theorem prime_341948486974166000522343609283189 :
    Nat.Prime 341948486974166000522343609283189 :=
  prime_of_certificate 341948486974166000522343609283189 2
    [2, 2, 3, 3, 3, 109, 29047611873442575647497758179]
    (by decide) (by decide)
    (all_prime_cons Nat.prime_two (all_prime_cons Nat.prime_two (all_prime_cons Nat.prime_three
      (all_prime_cons Nat.prime_three (all_prime_cons Nat.prime_three (all_prime_cons (by
      norm_num : Nat.Prime 109) (all_prime_cons prime_29047611873442575647497758179
      all_prime_nil)))))))
    (by decide!) (by decide!)

theorem prime_115792089237316195423570985008687907852837564279074904382605163141518161494337 :
    Nat.Prime 115792089237316195423570985008687907852837564279074904382605163141518161494337 :=
  prime_of_certificate 115792089237316195423570985008687907852837564279074904382605163141518161494337 7
    [2, 2, 2, 2, 2, 2, 3, 149, 631, 107361793816595537, 174723607534414371449,
      341948486974166000522343609283189]
    (by decide) (by decide)
    (all_prime_cons Nat.prime_two (all_prime_cons Nat.prime_two (all_prime_cons Nat.prime_two
      (all_prime_cons Nat.prime_two (all_prime_cons Nat.prime_two (all_prime_cons Nat.prime_two
      (all_prime_cons Nat.prime_three (all_prime_cons (by norm_num : Nat.Prime 149)
      (all_prime_cons (by norm_num : Nat.Prime 631) (all_prime_cons prime_107361793816595537
      (all_prime_cons prime_174723607534414371449 (all_prime_cons
      prime_341948486974166000522343609283189 all_prime_nil))))))))))))
    (by decide!) (by decide!)

theorem prime_13331831 :
    Nat.Prime 13331831 :=
  prime_of_certificate 13331831 13
    [2, 5, 971, 1373]
    (by decide) (by decide)
    (all_prime_cons Nat.prime_two (all_prime_cons (by norm_num : Nat.Prime 5) (all_prime_cons
      (by norm_num : Nat.Prime 971) (all_prime_cons (by norm_num : Nat.Prime 1373)
      all_prime_nil))))
    (by decide!) (by decide!)

theorem prime_173378833005251801 :
    Nat.Prime 173378833005251801 :=
  prime_of_certificate 173378833005251801 6
    [2, 2, 2, 5, 5, 2621, 24809, 13331831]
    (by decide) (by decide)
    (all_prime_cons Nat.prime_two (all_prime_cons Nat.prime_two (all_prime_cons Nat.prime_two
      (all_prime_cons (by norm_num : Nat.Prime 5) (all_prime_cons (by norm_num : Nat.Prime 5)
      (all_prime_cons (by norm_num : Nat.Prime 2621) (all_prime_cons (by norm_num : Nat.Prime
      24809) (all_prime_cons prime_13331831 all_prime_nil))))))))
    (by decide!) (by decide!)

theorem prime_22149492674086928081353 :
    Nat.Prime 22149492674086928081353 :=
  prime_of_certificate 22149492674086928081353 5
    [2, 2, 2, 3, 5323, 173378833005251801]
    (by decide) (by decide)
    (all_prime_cons Nat.prime_two (all_prime_cons Nat.prime_two (all_prime_cons Nat.prime_two
      (all_prime_cons Nat.prime_three (all_prime_cons (by norm_num : Nat.Prime 5323)
      (all_prime_cons prime_173378833005251801 all_prime_nil))))))
    (by decide!) (by decide!)

theorem prime_132896956044521568488119 :
    Nat.Prime 132896956044521568488119 :=
  prime_of_certificate 132896956044521568488119 6
    [2, 3, 22149492674086928081353]
    (by decide) (by decide)
    (all_prime_cons Nat.prime_two (all_prime_cons Nat.prime_three (all_prime_cons
      prime_22149492674086928081353 all_prime_nil)))
    (by decide!) (by decide!)

theorem prime_1206781 :
    Nat.Prime 1206781 :=
  prime_of_certificate 1206781 10
    [2, 2, 3, 5, 20113]
    (by decide) (by decide)
    (all_prime_cons Nat.prime_two (all_prime_cons Nat.prime_two (all_prime_cons Nat.prime_three
      (all_prime_cons (by norm_num : Nat.Prime 5) (all_prime_cons (by norm_num : Nat.Prime
      20113) all_prime_nil)))))
    (by decide!) (by decide!)

theorem prime_7240687 :
    Nat.Prime 7240687 :=
  prime_of_certificate 7240687 3
    [2, 3, 1206781]
    (by decide) (by decide)
    (all_prime_cons Nat.prime_two (all_prime_cons Nat.prime_three (all_prime_cons prime_1206781
      all_prime_nil)))
    (by decide!) (by decide!)

theorem prime_107590001 :
    Nat.Prime 107590001 :=
  prime_of_certificate 107590001 3
    [2, 2, 2, 2, 5, 5, 5, 5, 7, 29, 53]
    (by decide) (by decide)
    (all_prime_cons Nat.prime_two (all_prime_cons Nat.prime_two (all_prime_cons Nat.prime_two
      (all_prime_cons Nat.prime_two (all_prime_cons (by norm_num : Nat.Prime 5) (all_prime_cons
      (by norm_num : Nat.Prime 5) (all_prime_cons (by norm_num : Nat.Prime 5) (all_prime_cons
      (by norm_num : Nat.Prime 5) (all_prime_cons (by norm_num : Nat.Prime 7) (all_prime_cons
      (by norm_num : Nat.Prime 29) (all_prime_cons (by norm_num : Nat.Prime 53)
      all_prime_nil)))))))))))
    (by decide!) (by decide!)

theorem prime_255515944373312847190720520512484175977 :
    Nat.Prime 255515944373312847190720520512484175977 :=
  prime_of_certificate 255515944373312847190720520512484175977 3
    [2, 2, 2, 7, 7, 11, 1627, 2657, 4423, 41201, 96557, 7240687, 107590001]
    (by decide) (by decide)
    (all_prime_cons Nat.prime_two (all_prime_cons Nat.prime_two (all_prime_cons Nat.prime_two
      (all_prime_cons (by norm_num : Nat.Prime 7) (all_prime_cons (by norm_num : Nat.Prime 7)
      (all_prime_cons (by norm_num : Nat.Prime 11) (all_prime_cons (by norm_num : Nat.Prime
      1627) (all_prime_cons (by norm_num : Nat.Prime 2657) (all_prime_cons (by norm_num :
      Nat.Prime 4423) (all_prime_cons (by norm_num : Nat.Prime 41201) (all_prime_cons (by
      norm_num : Nat.Prime 96557) (all_prime_cons prime_7240687 (all_prime_cons prime_107590001
      all_prime_nil)))))))))))))
    (by decide!) (by decide!)

theorem prime_205115282021455665897114700593932402728804164701536103180137503955397371 :
    Nat.Prime 205115282021455665897114700593932402728804164701536103180137503955397371 :=
  prime_of_certificate 205115282021455665897114700593932402728804164701536103180137503955397371 10
    [2, 3, 5, 29, 29, 31, 7723, 132896956044521568488119,
      255515944373312847190720520512484175977]
    (by decide) (by decide)
    (all_prime_cons Nat.prime_two (all_prime_cons Nat.prime_three (all_prime_cons (by norm_num
      : Nat.Prime 5) (all_prime_cons (by norm_num : Nat.Prime 29) (all_prime_cons (by norm_num :
      Nat.Prime 29) (all_prime_cons (by norm_num : Nat.Prime 31) (all_prime_cons (by norm_num :
      Nat.Prime 7723) (all_prime_cons prime_132896956044521568488119 (all_prime_cons
      prime_255515944373312847190720520512484175977 all_prime_nil)))))))))
    (by decide!) (by decide!)

theorem prime_115792089237316195423570985008687907853269984665640564039457584007908834671663 :
    Nat.Prime 115792089237316195423570985008687907853269984665640564039457584007908834671663 :=
  prime_of_certificate 115792089237316195423570985008687907853269984665640564039457584007908834671663 3
    [2, 3, 7, 13441, 205115282021455665897114700593932402728804164701536103180137503955397371]
    (by decide) (by decide)
    (all_prime_cons Nat.prime_two (all_prime_cons Nat.prime_three (all_prime_cons (by norm_num
      : Nat.Prime 7) (all_prime_cons (by norm_num : Nat.Prime 13441) (all_prime_cons
      prime_205115282021455665897114700593932402728804164701536103180137503955397371
      all_prime_nil)))))
    (by decide!) (by decide!)

/-! ## The curve secp256k1 -/

set_option maxRecDepth 1000000 in
/-- The parameters of secp256k1 are valid: `p` and `N` are primes (by the
certificates above), `G` is on the curve and `N·G` is the point at infinity
(by evaluation). -/
theorem secp256k1_valid : secp256k1.Valid where
  prime_p := prime_115792089237316195423570985008687907853269984665640564039457584007908834671663
  p_mod := by decide
  a_lt := by decide
  b_lt := by decide
  disc := by decide
  prime_N := prime_115792089237316195423570985008687907852837564279074904382605163141518161494337
  N_odd := by decide
  G_on := by decide
  G_order := by decide!
  p_bits := by decide
  N_bits := by decide

/-- The parameters of the example curve are valid. -/
theorem exampleCurve_valid : exampleCurve.Valid where
  prime_p := by norm_num [exampleCurve]
  p_mod := by decide
  a_lt := by decide
  b_lt := by decide
  disc := by decide
  prime_N := by norm_num [exampleCurve]
  N_odd := by decide
  G_on := by decide
  G_order := by decide
  p_bits := by decide
  N_bits := by decide

/-! ## Sign returns -/

theorem ecdsaSign_isSome_iff {c : CurveParams} {d z k x y : Nat}
    (h : ptMul c k (some c.G) = some (x, y)) :
    (ecdsaSign c d z k).isSome = true ↔
      x % c.N ≠ 0 ∧ invMod c.N k * ((z + x % c.N * d) % c.N) % c.N ≠ 0 := by
  unfold ecdsaSign
  rw [h]
  simp only
  split
  · rename_i hc
    simp only [Option.isSome_none, Bool.false_eq_true, false_iff, not_and_or, not_not]
    exact hc
  · rename_i hc
    rw [not_or] at hc
    split <;> simp only [Option.isSome_some, true_iff] <;> exact hc

/-- For a key in `[1, N - 1]` one of the nonces 1 and 2 is accepted, when the
points `G` and `2·G` have different nonzero x-coordinates modulo `N`. -/
theorem ecdsaSign_nonce_exists {c : CurveParams} (hv : c.Valid) {x1 y1 x2 y2 : Nat}
    (h1 : ptMul c 1 (some c.G) = some (x1, y1)) (h2 : ptMul c 2 (some c.G) = some (x2, y2))
    (hr1 : x1 % c.N ≠ 0) (hr2 : x2 % c.N ≠ 0) (hne : x1 % c.N ≠ x2 % c.N)
    {d : Nat} (hd0 : 0 < d) (hd : d < c.N) (z : Nat) :
    (ecdsaSign c d z 1).isSome = true ∨ (ecdsaSign c d z 2).isSome = true := by
  haveI : Fact c.N.Prime := ⟨hv.prime_N⟩
  have hN2 : 2 < c.N := by
    have := hv.prime_N.two_le
    have := hv.N_odd
    omega
  have hNpos : 0 < c.N := by omega
  by_contra hcon
  rw [not_or] at hcon
  obtain ⟨hc1, hc2⟩ := hcon
  rw [ecdsaSign_isSome_iff h1, not_and_or, not_not] at hc1
  rw [ecdsaSign_isSome_iff h2, not_and_or, not_not] at hc2
  have hs1 := not_not.1 (hc1.resolve_left hr1)
  have hs2 := not_not.1 (hc2.resolve_left hr2)
  have e1 : ((invMod c.N 1 * ((z + x1 % c.N * d) % c.N) % c.N : Nat) : ZMod c.N) = 0 := by
    rw [hs1]; exact Nat.cast_zero
  have e2 : ((invMod c.N 2 * ((z + x2 % c.N * d) % c.N) % c.N : Nat) : ZMod c.N) = 0 := by
    rw [hs2]; exact Nat.cast_zero
  simp only [Nat.cast_add, Nat.cast_mul, ZMod.natCast_mod, invMod_cast c.N _ hv.N_ne_two,
    Nat.cast_one, inv_one, one_mul] at e1
  simp only [Nat.cast_add, Nat.cast_mul, ZMod.natCast_mod, invMod_cast c.N _ hv.N_ne_two] at e2
  have h2F : ((2 : Nat) : ZMod c.N) ≠ 0 := natCast_ne_zero_of_lt (by omega) hN2
  have e3 : (z : ZMod c.N) + ((x2 % c.N : Nat) : ZMod c.N) * d = 0 := by
    rcases mul_eq_zero.1 e2 with h | h
    · exact absurd (inv_eq_zero.1 h) h2F
    · simpa using h
  have e1b : (z : ZMod c.N) + ((x1 % c.N : Nat) : ZMod c.N) * d = 0 := by simpa using e1
  have e4 : (((x1 % c.N : Nat) : ZMod c.N) - ((x2 % c.N : Nat) : ZMod c.N)) * (d : ZMod c.N)
      = 0 := by
    linear_combination e1b - e3
  have hdF : (d : ZMod c.N) ≠ 0 := natCast_ne_zero_of_lt hd0 hd
  rcases mul_eq_zero.1 e4 with h | h
  · exact hne (natCast_inj_of_lt (Nat.mod_lt _ hNpos) (Nat.mod_lt _ hNpos) (sub_eq_zero.1 h))
  · exact hdF h

set_option maxRecDepth 1000000 in
/-- On secp256k1, `Sign` returns a signature for every private key in
`[1, N - 1]` and every 32-byte hash, with the nonce 1 or the nonce 2. -/
theorem Sign_nonce_exists (priv msg : List Nat) (hlen : priv.length = 32)
    (hkey : 0 < beDecode priv ∧ beDecode priv < secp256k1.N) (hmsg : msg.length = 32) :
    (Sign secp256k1 1 (some priv) (some msg)).isSome = true ∨
      (Sign secp256k1 2 (some priv) (some msg)).isSome = true := by
  have h1 : ptMul secp256k1 1 (some secp256k1.G) = some secp256k1.G := by decide!
  have h2 : ptMul secp256k1 2 (some secp256k1.G)
      = some (89565891926547004231252920425935692360644145829622209833684329913297188986597,
        12158399299693830322967808612713398636155367887041628176798871954788371653930) := by
    decide!
  have hex := ecdsaSign_nonce_exists secp256k1_valid h1 h2 (by decide) (by decide) (by decide)
    hkey.1 hkey.2 (beDecode msg)
  have hN1 : 0 < 1 ∧ 1 < secp256k1.N := by decide
  have hN2 : 0 < 2 ∧ 2 < secp256k1.N := by decide
  rcases hex with h | h
  · left
    simp only [Sign, hlen, hkey.1, hkey.2, hmsg, hN1.1, hN1.2, and_self, if_true,
      Option.isSome_map', h]
  · right
    simp only [Sign, hlen, hkey.1, hkey.2, hmsg, hN2.1, hN2.2, and_self, if_true,
      Option.isSome_map', h]

/-! ## Sign and Verify on secp256k1 -/

/-- C33: on secp256k1, for every private key `priv` (32 bytes spelling a
number in `[1, N - 1]`) and every 32-byte message hash `msg`, the key has a
public key `pub` (uncompressed) with the compressed form `pubc`, `Sign`
returns a signature for some nonce, and every signature `sig` that `Sign`
returns, whatever the nonce, has 65 bytes and is accepted by `Verify` for
`msg` under `pub` and under `pubc`, with its recovery byte and without it. -/
theorem Verify_accepts_Sign (priv msg : List Nat) (hlen : priv.length = 32)
    (hkey : 0 < beDecode priv ∧ beDecode priv < secp256k1.N) (hmsg : msg.length = 32) :
    ∃ pub pubc : List Nat,
      PrivateKeyToPubKey secp256k1 (some priv) = some pub ∧
      CompressPubkey secp256k1 pub = some pubc ∧
      DecompressPubkey secp256k1 pubc = some pub ∧
      (∃ k sig, Sign secp256k1 k (some priv) (some msg) = some sig) ∧
      ∀ k sig, Sign secp256k1 k (some priv) (some msg) = some sig →
        sig.length = 65 ∧
        Verify secp256k1 (some pub) (some sig) (some msg) = true ∧
        Verify secp256k1 (some pubc) (some sig) (some msg) = true ∧
        Verify secp256k1 (some pub) (some (sig.take 64)) (some msg) = true ∧
        Verify secp256k1 (some pubc) (some (sig.take 64)) (some msg) = true := by
  have hex : ∃ k sig, Sign secp256k1 k (some priv) (some msg) = some sig := by
    rcases Sign_nonce_exists priv msg hlen hkey hmsg with h | h
    · exact ⟨1, _, (Option.eq_some_of_isSome h)⟩
    · exact ⟨2, _, (Option.eq_some_of_isSome h)⟩
  obtain ⟨k0, sig0, h0⟩ := hex
  obtain ⟨pub, pubc, hpub, hc, hdc, _, _, _, _, _, _, _⟩ :=
    Verify_Sign_of_valid secp256k1_valid h0
  refine ⟨pub, pubc, hpub, hc, hdc, ⟨k0, sig0, h0⟩, ?_⟩
  intro k sig h
  obtain ⟨pub1, pubc1, hpub1, hc1, _, _, _, hl, v1, v2, v3, v4⟩ :=
    Verify_Sign_of_valid secp256k1_valid h
  have e1 : pub1 = pub := Option.some.inj (hpub1.symm.trans hpub)
  subst e1
  have e2 : pubc1 = pubc := Option.some.inj (hc1.symm.trans hc)
  subst e2
  exact ⟨hl, v1, v2, v3, v4⟩

theorem Verify_accepts_Sign_witness :
    ∃ pub pubc : List Nat,
      PrivateKeyToPubKey secp256k1 (some signVerifyPrvKey) = some pub ∧
      CompressPubkey secp256k1 pub = some pubc ∧
      DecompressPubkey secp256k1 pubc = some pub ∧
      (∃ k sig, Sign secp256k1 k (some signVerifyPrvKey) (some signVerifyHash) = some sig) ∧
      ∀ k sig, Sign secp256k1 k (some signVerifyPrvKey) (some signVerifyHash) = some sig →
        sig.length = 65 ∧
        Verify secp256k1 (some pub) (some sig) (some signVerifyHash) = true ∧
        Verify secp256k1 (some pubc) (some sig) (some signVerifyHash) = true ∧
        Verify secp256k1 (some pub) (some (sig.take 64)) (some signVerifyHash) = true ∧
        Verify secp256k1 (some pubc) (some (sig.take 64)) (some signVerifyHash) = true :=
  Verify_accepts_Sign signVerifyPrvKey signVerifyHash (by decide) (by decide) (by decide)

/-- On secp256k1, the counterpart of any signature returned by `Sign`, with
`s` replaced by `N - s`, has its `s` above half of the order, satisfies the
signature equation for the public key and the message, and is refused by
`Verify`, which accepts the signature itself. -/
theorem malleate_Sign {k : Nat} {priv msg : Bytes} {sig : List Nat}
    (h : Sign secp256k1 k priv msg = some sig) :
    ∃ (pub hm : List Nat) (Q : Nat × Nat),
      PrivateKeyToPubKey secp256k1 priv = some pub ∧ msg = some hm ∧
      parsePubKey secp256k1 pub = some Q ∧
      secp256k1.N / 2 < beDecode (((malleate secp256k1 sig).drop 32).take 32) ∧
      ecdsaEquation secp256k1 Q (beDecode ((malleate secp256k1 sig).take 32))
        (beDecode (((malleate secp256k1 sig).drop 32).take 32)) (beDecode hm) = true ∧
      Verify secp256k1 (some pub) (some sig) msg = true ∧
      Verify secp256k1 (some pub) (some (malleate secp256k1 sig)) msg = false := by
  obtain ⟨pub, hm, Q, h1, h2, h3, _, _, _, h4, h5, h6, h7⟩ :=
    malleate_Sign_of_valid secp256k1_valid h
  exact ⟨pub, hm, Q, h1, h2, h3, h4, h5, h6, h7⟩

/-- C34: `Verify` on secp256k1 returns false for every public key, message and
signature whose `s` component, the number that the bytes 32 to 63 of the
signature spell, is above half of the curve order. -/
theorem Verify_rejects_high_s (pub msg : Bytes) (sig : List Nat)
    (h : secp256k1.N / 2 < beDecode ((sig.drop 32).take 32)) :
    Verify secp256k1 pub (some sig) msg = false :=
  Verify_high_s secp256k1 pub msg sig h

set_option maxRecDepth 1000000 in
theorem Verify_rejects_high_s_witness :
    secp256k1.N / 2 < beDecode ((malleableSig.drop 32).take 32) ∧
      Verify secp256k1 (some malleableKey) (some malleableSig) (some malleableMsg) = false ∧
      Verify secp256k1 (some malleableKey) (some (malleate secp256k1 malleableSig))
        (some malleableMsg) = true :=
  ⟨by decide, Verify_rejects_high_s (some malleableKey) (some malleableMsg) malleableSig
    (by decide), by decide!⟩

/-! ## The test vectors -/

theorem Verify_congr_pub (c : CurveParams) {pk1 pk2 : List Nat}
    (h : parsePubKey c pk1 = parsePubKey c pk2) (sig msg : Bytes) :
    Verify c (some pk1) sig msg = Verify c (some pk2) sig msg := by
  cases sig with
  | none => rfl
  | some sg =>
    cases msg with
    | none => rfl
    | some hm => simp only [Verify, h]

set_option maxRecDepth 1000000 in
/-- The signature of the tests satisfies the signature equation on secp256k1
for the public key and the message hash of the tests. -/
theorem testsig_verifies :
    Verify secp256k1 (some testpubkey) (some (testsig.take 64)) (some testmsg) = true := by
  decide!

set_option maxRecDepth 1000000 in
/-- The compressed public key of the tests spells the same point as the
uncompressed one. -/
theorem testpubkeyc_parses :
    parsePubKey secp256k1 testpubkeyc = parsePubKey secp256k1 testpubkey ∧
      CompressPubkey secp256k1 testpubkey = some testpubkeyc ∧
      DecompressPubkey secp256k1 testpubkeyc = some testpubkey := by
  refine ⟨by decide!, by decide!, by decide!⟩

set_option maxRecDepth 1000000 in
/-- The assertions of `TestVerifySignature` and `TestVerifySignatureMalleable`
hold of the model: the test
signature without its recovery id verifies under the uncompressed and under
the compressed key (and so does the signature with the recovery id); a nil
key, a nil message, a nil signature, a signature with three more bytes, a
message shortened by two bytes and a key with byte 10 increased give false;
the malleable signature gives false. -/
theorem Verify_test_vectors :
    Verify secp256k1 (some testpubkey) (some (testsig.take 64)) (some testmsg) = true ∧
      Verify secp256k1 (some testpubkeyc) (some (testsig.take 64)) (some testmsg) = true ∧
      Verify secp256k1 (some testpubkey) (some testsig) (some testmsg) = true ∧
      Verify secp256k1 none (some (testsig.take 64)) (some testmsg) = false ∧
      Verify secp256k1 (some testpubkey) (some (testsig.take 64)) none = false ∧
      Verify secp256k1 (some testpubkey) none (some testmsg) = false ∧
      Verify secp256k1 (some testpubkey) (some (testsig.take 64 ++ [1, 2, 3])) (some testmsg)
        = false ∧
      Verify secp256k1 (some testpubkey) (some (testsig.take 64)) (some (testmsg.take 30))
        = false ∧
      Verify secp256k1 (some (testpubkey.set 10 0xfc)) (some (testsig.take 64)) (some testmsg)
        = false ∧
      Verify secp256k1 (some malleableKey) (some malleableSig) (some malleableMsg) = false := by
  refine ⟨testsig_verifies, ?_, ?_, by decide, by decide, by decide, by decide, by decide,
    by decide!, by decide!⟩
  · rw [Verify_congr_pub secp256k1 testpubkeyc_parses.1]
    exact testsig_verifies
  · rw [show Verify secp256k1 (some testpubkey) (some testsig) (some testmsg)
      = Verify secp256k1 (some testpubkey) (some (testsig.take 64)) (some testmsg) from rfl]
    exact testsig_verifies

/-! ## The leader's broadcast -/

/-- No call of `ProcessContractSigEvent` broadcasts a transaction, whatever the
processor, the local accounts and the event: for an untracked request the
record is made and nothing is broadcast, and for a tracked request the test
`err == nil || len(nodes) < 1` returns before the jury handling, the only code
that calls `localIsMinSigure`. -/
theorem ProcessContractSigEvent_never_broadcasts (env : TxEnv) (jenv : JuryEnv) (now : Int)
    (p : Processor) (event : Option (Option Transaction))
    (r : Option String × Option Hash × Option (Option Transaction) × Processor)
    (h : ProcessContractSigEvent env jenv now p event = some r) : r.2.2.1 = none := by
  unfold ProcessContractSigEvent at h
  split at h
  · cases h; rfl
  · cases h
  · rename_i tx
    split at h
    · cases h; rfl
    · split at h
      · cases h; rfl
      · simp only at h
        cases hm : p.mtx (env.RequestHash tx) with
        | none =>
          rw [hm] at h
          simp only at h
          cases he : nodeContractExecutable jenv jenv.localAccounts (some tx) with
          | none => rw [he] at h; cases h
          | some exec => rw [he] at h; cases h; rfl
        | some ctx =>
          rw [hm] at h
          have hg : (getLocalNodesInfo jenv).2 = none ∨
              (getLocalNodesInfo jenv).1.length < 1 := by
            rcases getLocalNodesInfo_cases jenv with ⟨_, hn, _⟩ | ⟨he, _, _⟩
            · right; simp [hn]
            · left; exact he
          simp only [hg, if_true] at h
          cases h; rfl

/-- C8 (the code at the failing input): three jurors hold the pairwise-distinct
signatures 07, 05 and 06 over the same result transaction; each is a node with
one local jury account, tracks the request, has collected one peer signature
and receives the signature event of the other peer.  On the view that the
event completes, `localIsMinSigure` is true for the juror with the signature
05 alone, and the code below the test of the local nodes would broadcast for
that juror alone.  `ProcessContractSigEvent` returns the error
"getLocalNodesInfo fail" to each of the three and broadcasts for none of them:
no COMMIT is emitted. -/
theorem ProcessContractSigEvent_emits_no_commit :
    (getLocalNodesInfo exampleJurorEnv).1.map (fun n => n.ntype) = [TJury] ∧
      (getLocalNodesInfo exampleJurorEnv).2 = none ∧
      localIsMinSigure (some (jurorSigTx ⟨some [2], some [5]⟩
        [⟨some [1], some [7]⟩, ⟨some [3], some [6]⟩])) = some true ∧
      localIsMinSigure (some (jurorSigTx ⟨some [1], some [7]⟩
        [⟨some [2], some [5]⟩, ⟨some [3], some [6]⟩])) = some false ∧
      localIsMinSigure (some (jurorSigTx ⟨some [3], some [6]⟩
        [⟨some [1], some [7]⟩, ⟨some [2], some [5]⟩])) = some false ∧
      jurorSigHandle ⟨some [2], some [5]⟩ ⟨some [1], some [7]⟩ ⟨some [3], some [6]⟩
        = some (some (some (jurorSigTx ⟨some [2], some [5]⟩
            [⟨some [1], some [7]⟩, ⟨some [3], some [6]⟩]))) ∧
      jurorSigHandle ⟨some [1], some [7]⟩ ⟨some [2], some [5]⟩ ⟨some [3], some [6]⟩
        = some none ∧
      jurorSigHandle ⟨some [3], some [6]⟩ ⟨some [1], some [7]⟩ ⟨some [2], some [5]⟩
        = some none ∧
      jurorSigEvent ⟨some [2], some [5]⟩ ⟨some [1], some [7]⟩ ⟨some [3], some [6]⟩
        = some (some "ProcessContractSigEvent getLocalNodesInfo fail", none) ∧
      jurorSigEvent ⟨some [1], some [7]⟩ ⟨some [2], some [5]⟩ ⟨some [3], some [6]⟩
        = some (some "ProcessContractSigEvent getLocalNodesInfo fail", none) ∧
      jurorSigEvent ⟨some [3], some [6]⟩ ⟨some [1], some [7]⟩ ⟨some [2], some [5]⟩
        = some (some "ProcessContractSigEvent getLocalNodesInfo fail", none) := by
  refine ⟨by decide, by decide, by decide, by decide, by decide, by decide, by decide,
    by decide, by decide, by decide, by decide⟩

end PalletOne
